import Mathlib

/-!
# VariantStream: a verification development

Shallow embedding of the variant streaming code of `VariantStream.h` and
`Stream.h` (the array walker `CWalkSafeArrayElements`, the stream wrapper
`CStream`, and the recursive reader and writer of VARIANT values), followed by
theorems about it.

Conventions of the embedding:

* the target is the 32-bit one the code was written for: a `long` is an `Int`
  kept in the range of 32 bits by `wrapLong`, an unsigned field is a `Nat`
  reduced modulo its width, a pointer has 4 bytes; arithmetic of the source
  that can leave the range is wrapped explicitly, as the two's-complement
  target does;
* a routine that can raise (the `ThrowError` macro) returns `Except Exn`;
* a loop whose number of iterations is not bounded by its own text takes a
  fuel argument and raises `Exn.fuel` when it runs out;
* a floating-point member (`fltVal`, `dblVal`, `date`) is the `Nat` of its
  bits; where the source passes it by value, to `Write( Q value )`, the bits
  go through `floatByValue` or `doubleByValue`, which make a signalling NaN
  quiet as the x87 unit of the target does.
-/

namespace VariantStream

/-! ## Machine integers -/

/-- Two's-complement reduction of an integer to the range of a 32-bit `long`. -/
def wrapLong (x : Int) : Int :=
  (x + 2147483648) % 4294967296 - 2147483648

/-- Reduction of a natural number to the range of a 32-bit `ULONG`. -/
def wrapULong (x : Nat) : Nat :=
  x % 4294967296

/-- The values a `long` can hold. -/
def isLong (x : Int) : Prop :=
  -2147483648 ≤ x ∧ x ≤ 2147483647

instance (x : Int) : Decidable (isLong x) := by
  unfold isLong; exact inferInstance

/-! ## Array descriptor bounds -/

/-- One `SAFEARRAYBOUND`: the number of elements of a dimension (`ULONG`) and
its lower bound (`LONG`). -/
structure SAFEARRAYBOUND where
  cElements : Nat
  lLbound : Int
deriving DecidableEq, Repr, Inhabited

/-! ## CWalkSafeArrayElements -/

/-- State of `CWalkSafeArrayElements`.  Of the array it points to the walker
reads only `cDims` and `rgsabound`, so `m_SafeArray` holds the descriptor's
bounds (`cDims` is their number). -/
structure CWalkSafeArrayElements where
  m_SafeArray : List SAFEARRAYBOUND
  m_index : List Int
  m_isInitialized : Bool
deriving DecidableEq, Repr

namespace CWalkSafeArrayElements

/-- The constructor: no index allocated, not initialised. -/
def new (safeArray : List SAFEARRAYBOUND) : CWalkSafeArrayElements :=
  { m_SafeArray := safeArray, m_index := [], m_isInitialized := false }

/-- The `for` loop of `Initialize`, started at `dimension` with `n` iterations
left: `m_index[cDims - dimension - 1] = rgsabound[dimension].lLbound`. -/
def initLoop (rgsabound : List SAFEARRAYBOUND) (cDims : Nat) :
    Nat → Nat → List Int → List Int
  | 0, _, index => index
  | n + 1, dimension, index =>
    initLoop rgsabound cDims n (dimension + 1)
      (index.set (cDims - dimension - 1) (rgsabound.getD dimension default).lLbound)

/-- Models `Initialize`: allocate `cDims` entries and set each to a lower bound. -/
def Initialize (w : CWalkSafeArrayElements) : CWalkSafeArrayElements :=
  let cDims := w.m_SafeArray.length
  { w with
    m_index := initLoop w.m_SafeArray cDims cDims 0 (List.replicate cDims 0)
    m_isInitialized := true }

/-- Models `GetIndex`: initialise on first use and hand out the index. -/
def GetIndex (w : CWalkSafeArrayElements) : CWalkSafeArrayElements × List Int :=
  let w := if w.m_isInitialized then w else w.Initialize
  (w, w.m_index)

/-- The `for` loop of `Next`, started at `dimension` with `n` iterations left.
The entry `cDims - dimension - 1` is incremented; when it reaches
`lLbound + (long)cElements` of `rgsabound[dimension]` it is reset and the loop
goes on, otherwise `more` is set and the loop is left. -/
def nextLoop (rgsabound : List SAFEARRAYBOUND) (cDims : Nat) :
    Nat → Nat → List Int → List Int × Bool
  | 0, _, index => (index, false)
  | n + 1, dimension, index =>
    let i := cDims - dimension - 1
    let b := rgsabound.getD dimension default
    let index := index.set i (wrapLong (index.getD i 0 + 1))
    if index.getD i 0 ≥ wrapLong (b.lLbound + wrapLong b.cElements) then
      nextLoop rgsabound cDims n (dimension + 1) (index.set i b.lLbound)
    else
      (index, true)

/-- Models `Next`: initialise on first use, advance the index, report `more`. -/
def Next (w : CWalkSafeArrayElements) : CWalkSafeArrayElements × Bool :=
  let w := if w.m_isInitialized then w else w.Initialize
  let cDims := w.m_SafeArray.length
  let r := nextLoop w.m_SafeArray cDims cDims 0 w.m_index
  ({ w with m_index := r.1 }, r.2)

end CWalkSafeArrayElements

/-- The loop of the walker's usage comment,
`while (more) { walk.GetIndex(index); ...; walk.Next(more); }`,
collecting the index tuples it sees; `none` when the fuel runs out before
`Next` reports `more = false`. -/
def walkFrom : Nat → CWalkSafeArrayElements → Option (List (List Int))
  | 0, _ => none
  | fuel + 1, walk =>
    let (walk, index) := walk.GetIndex
    let (walk, more) := walk.Next
    if more then (walkFrom fuel walk).map (fun rest => index :: rest)
    else some [index]

/-- The tuples the walker yields over an array with the given bounds. -/
def walkTuples (fuel : Nat) (rgsabound : List SAFEARRAYBOUND) : Option (List (List Int)) :=
  walkFrom fuel (CWalkSafeArrayElements.new rgsabound)

/-- Product of the extents of a shape. -/
def cellCount (rgsabound : List SAFEARRAYBOUND) : Nat :=
  (rgsabound.map (fun b => b.cElements)).prod

/-! ## Results and errors -/

/-- What a routine can end with other than a result.  `raised` is the
structured exception of the `ThrowError` macro, which is
`RaiseException( 0xE0000001, 0, 0, 0 )` whatever its argument; `fault` is an
access through a pointer that is null or of the wrong kind; `fuel` is the
embedding running out of fuel. -/
inductive Exn where
  | raised
  | fault
  | fuel
deriving DecidableEq, Repr

/-- The `ThrowError` macro: its argument is dropped. -/
def ThrowError {α : Type} (_ex : Int) : Except Exn α :=
  Except.error Exn.raised

/-- Models `FAILED(hr)`. -/
def FAILED (hr : Int) : Bool :=
  decide (hr < 0)

/-- The `CheckResult` macro. -/
def CheckResult (hr : Int) : Except Exn Unit :=
  if FAILED hr then ThrowError hr else pure ()

abbrev S_OK : Int := 0
abbrev E_FAIL : Int := -2147467259
abbrev E_NOINTERFACE : Int := -2147467262
abbrev E_INVALIDARG : Int := -2147024809
abbrev E_OUTOFMEMORY : Int := -2147024882
abbrev DISP_E_TYPEMISMATCH : Int := -2147352571
abbrev DISP_E_BADINDEX : Int := -2147352565

/-! ## Type tags and array feature flags (platform constants) -/

abbrev VT_EMPTY : Nat := 0
abbrev VT_NULL : Nat := 1
abbrev VT_I2 : Nat := 2
abbrev VT_I4 : Nat := 3
abbrev VT_R4 : Nat := 4
abbrev VT_R8 : Nat := 5
abbrev VT_CY : Nat := 6
abbrev VT_DATE : Nat := 7
abbrev VT_BSTR : Nat := 8
abbrev VT_DISPATCH : Nat := 9
abbrev VT_ERROR : Nat := 10
abbrev VT_BOOL : Nat := 11
abbrev VT_VARIANT : Nat := 12
abbrev VT_UNKNOWN : Nat := 13
abbrev VT_UI1 : Nat := 17
abbrev VT_ARRAY : Nat := 8192
abbrev VT_BYREF : Nat := 16384
abbrev VT_TYPEMASK : Nat := 4095

abbrev FADF_BSTR : Nat := 256
abbrev FADF_UNKNOWN : Nat := 512
abbrev FADF_DISPATCH : Nat := 1024
abbrev FADF_VARIANT : Nat := 2048

/-- The constant `variantVersion`. -/
abbrev variantVersion : Int := 1

/-! ## Bytes -/

/-- The object representation of an unsigned value in `n` bytes, least
significant byte first. -/
def toBytesLE : Nat → Nat → List Nat
  | 0, _ => []
  | n + 1, v => v % 256 :: toBytesLE n (v / 256)

/-- The unsigned value of a byte sequence, least significant byte first. -/
def fromBytesLE : List Nat → Nat
  | [] => 0
  | b :: bs => b % 256 + 256 * fromBytesLE bs

/-- The 32 bits of a `long`. -/
def longBits (x : Int) : Nat :=
  (x % 4294967296).toNat

/-- The memory of a string of 16-bit code units. -/
def bytesOfUnits (s : List Nat) : List Nat :=
  s.flatMap (fun u => toBytesLE 2 u)

/-- The code units held by a byte buffer, two bytes each; a last odd byte is
not part of any unit. -/
def unitsOfBytes : List Nat → List Nat
  | b0 :: b1 :: rest => fromBytesLE [b0, b1] :: unitsOfBytes rest
  | _ => []

/-! ## IStream over memory -/

/-- A memory stream (`CreateStreamOnHGlobal`): its bytes and its seek pointer. -/
structure IStream where
  data : List Nat
  pos : Nat
deriving DecidableEq, Repr

namespace IStream

/-- Models `CreateMemoryStream`: a new, empty stream. -/
def empty : IStream := { data := [], pos := 0 }

/-- Models `IStream::Write` of a memory stream: the bytes go in at the seek pointer,
over what is there and past the end; all of them are written.  Returns the
result code, the count written and the stream. -/
def Write (s : IStream) (pv : List Nat) : Int × Nat × IStream :=
  let padded := s.data ++ List.replicate (s.pos - s.data.length) 0
  (S_OK, pv.length,
    { data := padded.take s.pos ++ pv ++ padded.drop (s.pos + pv.length)
      pos := s.pos + pv.length })

/-- Models `IStream::Read` of a memory stream: up to `cb` bytes from the seek
pointer; at the end fewer are delivered, with a success code.  Returns the
result code, the bytes read and the stream. -/
def Read (s : IStream) (cb : Nat) : Int × List Nat × IStream :=
  let got := (s.data.drop s.pos).take cb
  (S_OK, got, { s with pos := s.pos + got.length })

end IStream

/-- Models `RewindStream`: seek to the start. -/
def RewindStream (s : IStream) : IStream :=
  { s with pos := 0 }

/-! ## CStream -/

namespace CStream

/-- The template `Write( Q value )` for a value of `size` bytes with the given
bits. -/
def Write (stream : IStream) (size : Nat) (value : Nat) : Except Exn IStream := do
  let (hr, written, stream) := stream.Write (toBytesLE size value)
  CheckResult hr
  if written ≠ size then ThrowError E_FAIL
  pure stream

/-- Models `Write( BSTR value )`: the byte length as a `UINT`, then that many bytes of
the string. -/
def WriteBSTR (stream : IStream) (value : List Nat) : Except Exn IStream := do
  let bufferSize := wrapULong (value.length * 2)
  let stream ← Write stream 4 bufferSize
  let (hr, written, stream) := stream.Write ((bytesOfUnits value).take bufferSize)
  CheckResult hr
  if written ≠ bufferSize then ThrowError E_FAIL
  pure stream

/-- The template `Read( Q& value )` for a value of `size` bytes: its bits. -/
def Read (stream : IStream) (size : Nat) : Except Exn (Nat × IStream) := do
  let (hr, got, stream) := stream.Read size
  CheckResult hr
  if got.length ≠ size then ThrowError E_FAIL
  pure (fromBytesLE got, stream)

/-- Models `Read( BSTR* value )`: the byte length, that many bytes, and the string of
`bufferSize / sizeof( WCHAR )` units made of them. -/
def ReadBSTR (stream : IStream) : Except Exn (List Nat × IStream) := do
  let (bufferSize, stream) ← Read stream 4
  let (hr, buf, stream) := stream.Read bufferSize
  CheckResult hr
  if buf.length ≠ bufferSize then ThrowError E_FAIL
  let len := bufferSize / 2
  pure ((unitsOfBytes buf).take len, stream)

/-- Models `GetSize`: the low 32 bits of the stream's size. -/
def GetSize (stream : IStream) : Nat :=
  wrapULong stream.data.length

end CStream

/-! ## Objects, values and arrays -/

/-- A COM object as this code observes it: an identity and the result codes of
its `QueryInterface` for the three interfaces asked for. -/
structure IUnknown where
  id : Nat
  hrPersistStreamInit : Int
  hrPersistStream : Int
  hrDispatch : Int
deriving DecidableEq, Repr

/-- The members of the VARIANT union this code touches: the bytes of the
scalar members read as one unsigned number (least significant byte first, so
`bVal`, `iVal`, `lVal` are its low 1, 2, 4 bytes and `cyVal.Lo`, `cyVal.Hi` its
low and high halves), a string (`bstrVal`; the null string is the empty one),
or an object pointer (`punkVal`, `pdispVal`). -/
inductive Payload where
  | bits (n : Nat)
  | bstr (s : List Nat)
  | punk (p : Option IUnknown)
deriving DecidableEq, Repr

/-- A VARIANT.  `plain` holds a union member; `array` holds `parray`, the
array descriptor (`fFeatures`, `cbElements`, `rgsabound`, with `cDims` the
number of bounds) and its element buffer as the map from index tuples to
cells; `byref` is an alias (`VT_BYREF`) with the value it points to.

A cell of an array of variants is the variant; a cell of any other array is
written `plain 0 p` with `p` the stored bytes, string or pointer. -/
inductive VARIANT where
  | plain (vt : Nat) (val : Payload)
  | array (vt : Nat) (fFeatures cbElements : Nat) (rgsabound : List SAFEARRAYBOUND)
      (pvData : List Int → VARIANT)
  | byref (vt : Nat) (pvarVal : VARIANT)

instance : Inhabited VARIANT := ⟨VARIANT.plain VT_EMPTY (Payload.bits 0)⟩

/-- A `SAFEARRAY`. -/
structure SAFEARRAY where
  fFeatures : Nat
  cbElements : Nat
  rgsabound : List SAFEARRAYBOUND
  pvData : List Int → VARIANT

namespace SAFEARRAY

/-- The field `cDims`. -/
def cDims (sa : SAFEARRAY) : Nat := sa.rgsabound.length

end SAFEARRAY

namespace VARIANT

/-- The field `vt`. -/
def vt : VARIANT → Nat
  | plain vt _ => vt
  | array vt _ _ _ _ => vt
  | byref vt _ => vt

/-- Models `V_ISARRAY`. -/
def V_ISARRAY (v : VARIANT) : Bool := v.vt &&& VT_ARRAY != 0

/-- Models `V_ISBYREF`. -/
def V_ISBYREF (v : VARIANT) : Bool := v.vt &&& VT_BYREF != 0

/-- The scalar bytes of the union. -/
def scalarBits : VARIANT → Except Exn Nat
  | plain _ (Payload.bits n) => pure n
  | _ => Except.error Exn.fault

/-- The member `bstrVal`. -/
def bstrVal : VARIANT → Except Exn (List Nat)
  | plain _ (Payload.bstr s) => pure s
  | _ => Except.error Exn.fault

/-- The members `punkVal` and `pdispVal`. -/
def punkVal : VARIANT → Except Exn (Option IUnknown)
  | plain _ (Payload.punk p) => pure p
  | _ => Except.error Exn.fault

/-- The member `parray`. -/
def parray : VARIANT → Except Exn SAFEARRAY
  | array _ ff cb rg pv => pure ⟨ff, cb, rg, pv⟩
  | _ => Except.error Exn.fault

/-- The array `*pparray` of an alias. -/
def pparray : VARIANT → Except Exn SAFEARRAY
  | byref _ (array _ ff cb rg pv) => pure ⟨ff, cb, rg, pv⟩
  | _ => Except.error Exn.fault

/-- An array variant of the given tag over a `SAFEARRAY`. -/
def ofArray (vt : Nat) (sa : SAFEARRAY) : VARIANT :=
  array vt sa.fFeatures sa.cbElements sa.rgsabound sa.pvData

end VARIANT

/-- Models `VariantCopyInd` (platform routine): a copy of the value with the alias
followed. -/
def VariantCopyInd (v : VARIANT) : Int × VARIANT :=
  match v with
  | VARIANT.byref _ target => (S_OK, target)
  | v => (S_OK, v)

/-! ## Platform array routines

`SafeArrayGetElement`, `SafeArrayPutElement`, `SafeArrayAllocDescriptor` and
`SafeArrayAllocData` belong to the platform, not to the repository.  They are
modelled by their contract: an index vector holds one index per dimension,
left-most dimension first, while the descriptor's `rgsabound` holds the bounds
right-most dimension first, so index `k` is checked against
`rgsabound[cDims - 1 - k]`; an index outside its bounds is `DISP_E_BADINDEX`.
Allocation is taken to succeed and to deliver zeroed cells. -/

/-- Every index of the vector lies within the bounds of its dimension. -/
def indexInRange (rgsabound : List SAFEARRAYBOUND) (index : List Int) : Bool :=
  index.length == rgsabound.length &&
    (List.zip index rgsabound.reverse).all
      (fun p => decide (p.2.lLbound ≤ p.1) && decide (p.1 < p.2.lLbound + (p.2.cElements : Int)))

/-- Models `SafeArrayGetElement`: the result code and the cell. -/
def SafeArrayGetElement (sa : SAFEARRAY) (index : List Int) : Int × VARIANT :=
  if indexInRange sa.rgsabound index then (S_OK, sa.pvData index)
  else (DISP_E_BADINDEX, default)

/-- Models `SafeArrayPutElement`: the result code and the array. -/
def SafeArrayPutElement (sa : SAFEARRAY) (index : List Int) (cell : VARIANT) :
    Int × SAFEARRAY :=
  if indexInRange sa.rgsabound index then
    (S_OK, { sa with pvData := fun i => if i = index then cell else sa.pvData i })
  else (DISP_E_BADINDEX, sa)

/-- Models `SafeArrayAllocDescriptor`: a descriptor of `cDims` dimensions with all
other fields zero; zero dimensions are refused. -/
def SafeArrayAllocDescriptor (cDims : Nat) : Int × SAFEARRAY :=
  if cDims = 0 then (E_INVALIDARG, ⟨0, 0, [], fun _ => default⟩)
  else (S_OK, ⟨0, 0, List.replicate cDims ⟨0, 0⟩, fun _ => default⟩)

/-- The zeroed cell of an array with the given features. -/
def zeroCell (fFeatures : Nat) : VARIANT :=
  if fFeatures &&& FADF_BSTR = FADF_BSTR then VARIANT.plain 0 (Payload.bstr [])
  else if fFeatures &&& FADF_UNKNOWN = FADF_UNKNOWN then VARIANT.plain 0 (Payload.punk none)
  else if fFeatures &&& FADF_DISPATCH = FADF_DISPATCH then VARIANT.plain 0 (Payload.punk none)
  else VARIANT.plain 0 (Payload.bits 0)

/-- Models `SafeArrayAllocData`: zeroed cells. -/
def SafeArrayAllocData (sa : SAFEARRAY) : Int × SAFEARRAY :=
  (S_OK, { sa with pvData := fun _ => zeroCell sa.fFeatures })

/-! ## Object persistence (host routines as parameters) -/

/-- The two routines of the host's object persistence this code calls.
`OleSaveToStream` is given the `IPersistStream` pointer (or null) and the
stream, `OleLoadFromStream` the stream; each returns its result code and the
stream after the call, the loader also the object. -/
structure Host where
  OleSaveToStream : Option IUnknown → IStream → Int × IStream
  OleLoadFromStream : IStream → Int × Option IUnknown × IStream

/-- Models `GetPersistStreamInterface`: `IPersistStreamInit` if the object answers to
it, else `IPersistStream`, else null; a failure other than `E_NOINTERFACE`
raises. -/
def GetPersistStreamInterface (pUnknown : IUnknown) : Except Exn (Option IUnknown) := do
  let hr := pUnknown.hrPersistStreamInit
  if FAILED hr && E_NOINTERFACE != hr then ThrowError hr
  let persistStreamInit : Option IUnknown := if FAILED hr then none else some pUnknown
  let persistStream : Option IUnknown ←
    if persistStreamInit.isNone then do
      let hr := pUnknown.hrPersistStream
      if FAILED hr && E_NOINTERFACE != hr then ThrowError hr
      pure (if FAILED hr then none else some pUnknown)
    else pure none
  if persistStream.isSome then pure persistStream else pure persistStreamInit

/-- Models `SaveObjectToStream`. -/
def SaveObjectToStream (host : Host) (pUnknown : Option IUnknown) (pStream : IStream) :
    Except Exn IStream := do
  let persistStream : Option IUnknown ←
    match pUnknown with
    | some u => do
      let ps ← GetPersistStreamInterface u
      if ps.isNone then ThrowError E_NOINTERFACE
      pure ps
    | none => pure none
  let (hr, pStream) := host.OleSaveToStream persistStream pStream
  CheckResult hr
  pure pStream

/-! ## Array elements as variants -/

/-- Models `SafeArrayGetElementAsVariant`.  In the `switch` of the simple types the
case `VT_CY` has no `break` and runs into `default`.  The floating-point
elements are kept with their bits: the variant made here is only handed to
the element writer, where `WriteDataToStream` passes the member by value, and
passing by value twice gives the same bits as passing once. -/
def SafeArrayGetElementAsVariant (safeArray : SAFEARRAY) (index : List Int) (vt : Nat) :
    Except Exn VARIANT := do
  let (hr, element) := SafeArrayGetElement safeArray index
  CheckResult hr
  if safeArray.fFeatures &&& FADF_BSTR = FADF_BSTR then
    if VT_BSTR ≠ vt then ThrowError DISP_E_TYPEMISMATCH
    if 4 ≠ safeArray.cbElements then ThrowError E_INVALIDARG
    let entry ← element.bstrVal
    pure (VARIANT.plain VT_BSTR (Payload.bstr entry))
  else if safeArray.fFeatures &&& FADF_UNKNOWN = FADF_UNKNOWN then
    if VT_UNKNOWN ≠ vt then ThrowError DISP_E_TYPEMISMATCH
    if 4 ≠ safeArray.cbElements then ThrowError DISP_E_TYPEMISMATCH
    let entry ← element.punkVal
    pure (VARIANT.plain VT_UNKNOWN (Payload.punk entry))
  else if safeArray.fFeatures &&& FADF_DISPATCH = FADF_DISPATCH then
    if VT_DISPATCH ≠ vt then ThrowError DISP_E_TYPEMISMATCH
    if 4 ≠ safeArray.cbElements then ThrowError DISP_E_TYPEMISMATCH
    let entry ← element.punkVal
    pure (VARIANT.plain VT_DISPATCH (Payload.punk entry))
  else if safeArray.fFeatures &&& FADF_VARIANT = FADF_VARIANT then
    if VT_VARIANT ≠ vt then ThrowError DISP_E_TYPEMISMATCH
    if 16 ≠ safeArray.cbElements then ThrowError DISP_E_TYPEMISMATCH
    pure element
  else do
    let entry ← element.scalarBits
    let value : Nat ←
      if vt = VT_ERROR then pure (entry % 4294967296)
      else if vt = VT_I4 then pure (entry % 4294967296)
      else if vt = VT_UI1 then pure (entry % 256)
      else if vt = VT_I2 then pure (entry % 65536)
      else if vt = VT_BOOL then pure (if entry % 65536 ≠ 0 then 65535 else 0)
      else if vt = VT_R8 then pure (entry % 18446744073709551616)
      else if vt = VT_DATE then pure (entry % 18446744073709551616)
      else if vt = VT_R4 then pure (entry % 4294967296)
      else if vt = VT_CY then ThrowError DISP_E_TYPEMISMATCH
      else ThrowError DISP_E_TYPEMISMATCH
    pure (VARIANT.plain vt (Payload.bits value))

/-- Models `SafeArrayPutElementFromVariant`. -/
def SafeArrayPutElementFromVariant (safeArray : SAFEARRAY) (index : List Int)
    (variant : VARIANT) : Except Exn SAFEARRAY := do
  let element : VARIANT ←
    if safeArray.fFeatures &&& FADF_VARIANT = FADF_VARIANT then pure variant
    else
      let t := VT_TYPEMASK &&& variant.vt
      if t = VT_BSTR ∨ t = VT_UNKNOWN ∨ t = VT_DISPATCH then
        match variant with
        | VARIANT.plain _ (Payload.bstr s) => pure (VARIANT.plain 0 (Payload.bstr s))
        | VARIANT.plain _ (Payload.punk q) => pure (VARIANT.plain 0 (Payload.punk q))
        | _ => Except.error Exn.fault
      else if t = VT_VARIANT then
        match variant with
        | VARIANT.byref _ target => pure target
        | _ => Except.error Exn.fault
      else if t = VT_ERROR ∨ t = VT_I4 ∨ t = VT_UI1 ∨ t = VT_I2 ∨ t = VT_BOOL ∨ t = VT_R8
          ∨ t = VT_DATE ∨ t = VT_R4 ∨ t = VT_CY then do
        let raw ← variant.scalarBits
        pure (VARIANT.plain 0 (Payload.bits (raw % 256 ^ safeArray.cbElements)))
      else ThrowError DISP_E_TYPEMISMATCH
  let (hr, safeArray) := SafeArrayPutElement safeArray index element
  CheckResult hr
  pure safeArray

/-- Models `GetTypeSize` (sizes of the 32-bit target). -/
def GetTypeSize (vt : Nat) : Except Exn Nat :=
  if vt = VT_BOOL then pure 2
  else if vt = VT_I2 then pure 2
  else if vt = VT_ERROR then pure 4
  else if vt = VT_I4 then pure 4
  else if vt = VT_BSTR then pure 4
  else if vt = VT_R4 then pure 4
  else if vt = VT_DATE then pure 8
  else if vt = VT_R8 then pure 8
  else if vt = VT_UI1 then pure 1
  else if vt = VT_CY then pure 8
  else if vt = VT_VARIANT then pure 16
  else if vt = VT_DISPATCH then pure 4
  else if vt = VT_UNKNOWN then pure 4
  else ThrowError DISP_E_TYPEMISMATCH

/-! ## Array header -/

/-- The loop of `WriteSafeArrayHeader` over `rgsabound[0]`, `rgsabound[1]`, ... -/
def writeBounds : List SAFEARRAYBOUND → IStream → Except Exn IStream
  | [], stream => pure stream
  | b :: rest, stream => do
    let stream ← CStream.Write stream 4 (longBits b.lLbound)
    let stream ← CStream.Write stream 4 b.cElements
    writeBounds rest stream

/-- Models `WriteSafeArrayHeader`: the dimension count, then the bounds. -/
def WriteSafeArrayHeader (safeArray : SAFEARRAY) (pStream : IStream) : Except Exn IStream := do
  let stream ← CStream.Write pStream 2 safeArray.cDims
  writeBounds safeArray.rgsabound stream

/-- The loop of `ReadSafeArrayHeader` filling `rgsabound[0]`, `rgsabound[1]`, ...
over `n` dimensions. -/
def readBounds : Nat → IStream → Except Exn (List SAFEARRAYBOUND × IStream)
  | 0, stream => pure ([], stream)
  | n + 1, stream => do
    let (l, stream) ← CStream.Read stream 4
    let (c, stream) ← CStream.Read stream 4
    let (rest, stream) ← readBounds n stream
    pure (⟨c, wrapLong l⟩ :: rest, stream)

/-- Models `ReadSafeArrayHeader`: returns the tag set in the variant, the array
allocated for it, and the stream. -/
def ReadSafeArrayHeader (vt : Nat) (pStream : IStream) :
    Except Exn (Nat × SAFEARRAY × IStream) := do
  let (dimensions, stream) ← CStream.Read pStream 2
  let (hr, parray) := SafeArrayAllocDescriptor dimensions
  CheckResult hr
  let (bounds, stream) ← readBounds dimensions stream
  let parray := { parray with rgsabound := bounds }
  let size ← GetTypeSize vt
  let parray := { parray with cbElements := size }
  let parray :=
    if vt = VT_BSTR then { parray with fFeatures := parray.fFeatures ||| FADF_BSTR }
    else if vt = VT_UNKNOWN then { parray with fFeatures := parray.fFeatures ||| FADF_UNKNOWN }
    else if vt = VT_DISPATCH then { parray with fFeatures := parray.fFeatures ||| FADF_DISPATCH }
    else if vt = VT_VARIANT then { parray with fFeatures := parray.fFeatures ||| FADF_VARIANT }
    else parray
  let (hr, parray) := SafeArrayAllocData parray
  CheckResult hr
  pure (vt ||| VT_ARRAY, parray, stream)

/-! ## Array elements -/

/-- The count `NoOfElements` of both element routines: the extents added up in
a `long`. -/
def NoOfElements (rgsabound : List SAFEARRAYBOUND) : Int :=
  rgsabound.foldl (fun acc b => wrapLong (acc + (b.cElements : Int))) 0

/-- The `while( more )` loop of `WriteSafeArrayElements`; `write` is the
prototype `WriteDataToStream`. -/
def writeLoop (write : VARIANT → IStream → Except Exn IStream) (vt : Nat)
    (safeArray : SAFEARRAY) :
    Nat → CWalkSafeArrayElements → IStream → Except Exn IStream
  | 0, _, _ => Except.error Exn.fuel
  | fuel + 1, walk, stream => do
    let (walk, index) := walk.GetIndex
    let tempVariant ← SafeArrayGetElementAsVariant safeArray index vt
    let stream ← if VT_VARIANT = vt then CStream.Write stream 2 tempVariant.vt else pure stream
    let stream ← write tempVariant stream
    let (walk, more) := walk.Next
    if more then writeLoop write vt safeArray fuel walk stream else pure stream

/-- Models `WriteSafeArrayElements`. -/
def WriteSafeArrayElements (write : VARIANT → IStream → Except Exn IStream) (fuel : Nat)
    (vt : Nat) (safeArray : SAFEARRAY) (pStream : IStream) : Except Exn IStream :=
  if NoOfElements safeArray.rgsabound = 0 then pure pStream
  else
    writeLoop write vt safeArray fuel (CWalkSafeArrayElements.new safeArray.rgsabound) pStream

/-- The `while( more )` loop of `ReadSafeArrayElements`; `read` is the
prototype `ReadDataFromStream`. -/
def readLoop (read : Nat → IStream → Except Exn (VARIANT × IStream)) (vt : Nat) :
    Nat → CWalkSafeArrayElements → SAFEARRAY → IStream → Except Exn (SAFEARRAY × IStream)
  | 0, _, _, _ => Except.error Exn.fuel
  | fuel + 1, walk, safeArray, stream => do
    let (elementType, stream) ←
      if VT_VARIANT = vt then CStream.Read stream 2 else pure (vt, stream)
    let (tempVariant, stream) ← read elementType stream
    let (walk, index) := walk.GetIndex
    let safeArray ← SafeArrayPutElementFromVariant safeArray index tempVariant
    let (walk, more) := walk.Next
    if more then readLoop read vt fuel walk safeArray stream else pure (safeArray, stream)

/-- Models `ReadSafeArrayElements`. -/
def ReadSafeArrayElements (read : Nat → IStream → Except Exn (VARIANT × IStream)) (fuel : Nat)
    (vt : Nat) (safeArray : SAFEARRAY) (pStream : IStream) :
    Except Exn (SAFEARRAY × IStream) :=
  if NoOfElements safeArray.rgsabound = 0 then pure (safeArray, pStream)
  else
    readLoop read vt fuel (CWalkSafeArrayElements.new safeArray.rgsabound) safeArray pStream

/-! ## Floating-point arguments

The template `CStream::Write( Q value )` takes its argument by value.  For a
`float`, a `double` and a `DATE` the copy made on the 32-bit target goes
through a register of the x87 unit, and loading a signalling NaN there makes
it the quiet NaN of the same sign and payload; every other value keeps its
bits.  `Read( Q& value )` takes a reference and stores the bytes as they
come. -/

/-- The bits of a `float` that is a signalling NaN: exponent (bits 23 to 30)
all ones, first fraction bit (bit 22) clear, fraction not zero. -/
def IsSignallingNaN32 (bits : Nat) : Prop :=
  bits / 8388608 % 256 = 255 ∧ bits / 4194304 % 2 = 0 ∧ bits % 4194304 ≠ 0

instance (bits : Nat) : Decidable (IsSignallingNaN32 bits) := by
  unfold IsSignallingNaN32; exact inferInstance

/-- The bits of a `double` that is a signalling NaN: exponent (bits 52 to 62)
all ones, first fraction bit (bit 51) clear, fraction not zero. -/
def IsSignallingNaN64 (bits : Nat) : Prop :=
  bits / 4503599627370496 % 2048 = 2047 ∧ bits / 2251799813685248 % 2 = 0 ∧
    bits % 2251799813685248 ≠ 0

instance (bits : Nat) : Decidable (IsSignallingNaN64 bits) := by
  unfold IsSignallingNaN64; exact inferInstance

/-- The bits with which a `float` passed by value arrives: a signalling NaN
has its first fraction bit set, every other value is unchanged. -/
def floatByValue (bits : Nat) : Nat :=
  if IsSignallingNaN32 bits then bits + 4194304 else bits

/-- The bits with which a `double` (or a `DATE`) passed by value arrives. -/
def doubleByValue (bits : Nat) : Nat :=
  if IsSignallingNaN64 bits then bits + 2251799813685248 else bits

/-! ## Values -/

/-- Models `WriteDataToStream`.  The fuel bounds the nesting of arrays and, one level
down, the iterations of the element loop.  For `VT_DISPATCH` the
`QueryInterface` for `IUnknown` is taken to succeed.  The members `fltVal`,
`dblVal` and `date` reach `Write( Q value )` by value. -/
def WriteDataToStream (host : Host) : Nat → VARIANT → IStream → Except Exn IStream
  | 0, _, _ => Except.error Exn.fuel
  | fuel + 1, variant, stream =>
    if variant.V_ISARRAY then do
      let safeArray ← if variant.V_ISBYREF then variant.pparray else variant.parray
      let stream ← WriteSafeArrayHeader safeArray stream
      WriteSafeArrayElements (WriteDataToStream host fuel) fuel (VT_TYPEMASK &&& variant.vt)
        safeArray stream
    else
      let vt := variant.vt
      if vt = VT_EMPTY ∨ vt = VT_NULL then pure stream
      else if vt = VT_BOOL then do CStream.Write stream 2 (← variant.scalarBits)
      else if vt = VT_UI1 then do CStream.Write stream 1 (← variant.scalarBits)
      else if vt = VT_I2 then do CStream.Write stream 2 (← variant.scalarBits)
      else if vt = VT_I4 then do CStream.Write stream 4 (← variant.scalarBits)
      else if vt = VT_CY then do
        let cyVal ← variant.scalarBits
        let stream ← CStream.Write stream 4 (cyVal % 4294967296)
        CStream.Write stream 4 (cyVal / 4294967296)
      else if vt = VT_R4 then do CStream.Write stream 4 (floatByValue (← variant.scalarBits))
      else if vt = VT_R8 then do CStream.Write stream 8 (doubleByValue (← variant.scalarBits))
      else if vt = VT_DATE then do CStream.Write stream 8 (doubleByValue (← variant.scalarBits))
      else if vt = VT_BSTR then do CStream.WriteBSTR stream (← variant.bstrVal)
      else if vt = VT_ERROR then do CStream.Write stream 4 (← variant.scalarBits)
      else if vt = VT_DISPATCH then do
        let pDispatch ← variant.punkVal
        SaveObjectToStream host pDispatch stream
      else if vt = VT_UNKNOWN then do
        SaveObjectToStream host (← variant.punkVal) stream
      else ThrowError DISP_E_TYPEMISMATCH

/-- Models `WriteToStream`: the tag of the value (of its copy with the alias followed,
for an alias), then its data. -/
def WriteToStream (host : Host) (fuel : Nat) (variantParam : VARIANT) (pStream : IStream) :
    Except Exn IStream := do
  let variant ←
    if variantParam.V_ISBYREF then do
      let (hr, variantCopy) := VariantCopyInd variantParam
      CheckResult hr
      pure variantCopy
    else pure variantParam
  let stream ← CStream.Write pStream 2 variant.vt
  WriteDataToStream host fuel variant stream

/-- Models `ReadDataFromStream`: the variant read for the tag `vt`.  The fuel bounds
the nesting of arrays and, one level down, the iterations of the element
loop. -/
def ReadDataFromStream (host : Host) : Nat → Nat → IStream → Except Exn (VARIANT × IStream)
  | 0, _, _ => Except.error Exn.fuel
  | fuel + 1, vt, stream =>
    if vt &&& VT_ARRAY ≠ 0 then do
      let elementVT := VT_TYPEMASK &&& vt
      let (tag, parray, stream) ← ReadSafeArrayHeader elementVT stream
      let (parray, stream) ←
        ReadSafeArrayElements (ReadDataFromStream host fuel) fuel elementVT parray stream
      pure (VARIANT.ofArray tag parray, stream)
    else do
      let (val, stream) ←
        if vt = VT_EMPTY ∨ vt = VT_NULL then pure (Payload.bits 0, stream)
        else if vt = VT_BOOL then do
          let (x, stream) ← CStream.Read stream 2
          pure (Payload.bits x, stream)
        else if vt = VT_UI1 then do
          let (x, stream) ← CStream.Read stream 1
          pure (Payload.bits x, stream)
        else if vt = VT_I2 then do
          let (x, stream) ← CStream.Read stream 2
          pure (Payload.bits x, stream)
        else if vt = VT_I4 then do
          let (x, stream) ← CStream.Read stream 4
          pure (Payload.bits x, stream)
        else if vt = VT_CY then do
          let (lo, stream) ← CStream.Read stream 4
          let (hi, stream) ← CStream.Read stream 4
          pure (Payload.bits (lo + 4294967296 * hi), stream)
        else if vt = VT_R4 then do
          let (x, stream) ← CStream.Read stream 4
          pure (Payload.bits x, stream)
        else if vt = VT_R8 then do
          let (x, stream) ← CStream.Read stream 8
          pure (Payload.bits x, stream)
        else if vt = VT_DATE then do
          let (x, stream) ← CStream.Read stream 8
          pure (Payload.bits x, stream)
        else if vt = VT_BSTR then do
          let (s, stream) ← CStream.ReadBSTR stream
          pure (Payload.bstr s, stream)
        else if vt = VT_ERROR then do
          let (x, stream) ← CStream.Read stream 4
          pure (Payload.bits x, stream)
        else if vt = VT_DISPATCH then do
          let (hr, unknown, stream) := host.OleLoadFromStream stream
          CheckResult hr
          match unknown with
          | none => Except.error Exn.fault
          | some u =>
            CheckResult u.hrDispatch
            pure (Payload.punk (some u), stream)
        else if vt = VT_UNKNOWN then do
          let (hr, unknown, stream) := host.OleLoadFromStream stream
          CheckResult hr
          pure (Payload.punk unknown, stream)
        else ThrowError DISP_E_TYPEMISMATCH
      pure (VARIANT.plain vt val, stream)

/-- Models `ReadFromStream`: the tag, then the data. -/
def ReadFromStream (host : Host) (fuel : Nat) (pStream : IStream) :
    Except Exn (VARIANT × IStream) := do
  let (vt, stream) ← CStream.Read pStream 2
  ReadDataFromStream host fuel vt stream

/-- Models `WriteVariantToStream`: the version, then the variant. -/
def WriteVariantToStream (host : Host) (fuel : Nat) (variant : VARIANT) (pStream : IStream) :
    Except Exn IStream := do
  let stream ← CStream.Write pStream 4 (longBits variantVersion)
  WriteToStream host fuel variant stream

/-- Models `ReadVariantFromStream`: the version, which is read and not looked at,
then the variant. -/
def ReadVariantFromStream (host : Host) (fuel : Nat) (pStream : IStream) :
    Except Exn (VARIANT × IStream) := do
  let (_version, stream) ← CStream.Read pStream 4
  ReadFromStream host fuel stream

/-! ## Definitions used by the proofs -/

/-- The host without objects. -/
def noHost : Host := ⟨fun _ s => (S_OK, s), fun s => (S_OK, none, s)⟩

/-- At the end of the stream the writer appends the bytes `B`. -/
def Appends (f : IStream → Except Exn IStream) (B : List Nat) : Prop :=
  ∀ data : List Nat, f ⟨data, data.length⟩ = Except.ok ⟨data ++ B, (data ++ B).length⟩

/-- On a stream holding the bytes `B` at the seek pointer the reader delivers
`v` and moves the seek pointer past them. -/
def Consumes {α : Type} (g : IStream → Except Exn (α × IStream)) (B : List Nat) (v : α) : Prop :=
  ∀ (pre post data : List Nat), data = pre ++ (B ++ post) →
    g ⟨data, pre.length⟩ = Except.ok (v, ⟨data, pre.length + B.length⟩)

/-- The tags of the fixed-width scalars. -/
def IsFixedScalar (vt : Nat) : Prop :=
  vt = VT_BOOL ∨ vt = VT_UI1 ∨ vt = VT_I2 ∨ vt = VT_I4 ∨ vt = VT_ERROR ∨ vt = VT_R4 ∨
    vt = VT_R8 ∨ vt = VT_DATE ∨ vt = VT_CY

instance (vt : Nat) : Decidable (IsFixedScalar vt) := by
  unfold IsFixedScalar; exact inferInstance

/-- The width in bytes of the union member a fixed-width tag selects. -/
def fixedSize (vt : Nat) : Nat :=
  if vt = VT_UI1 then 1
  else if vt = VT_BOOL ∨ vt = VT_I2 then 2
  else if vt = VT_I4 ∨ vt = VT_ERROR ∨ vt = VT_R4 then 4
  else 8

/-- The bits with which the union member of a fixed-width tag reaches
`Write( Q value )`: `fltVal`, `dblVal` and `date` as floating-point values
passed by value, the integer members as they are. -/
def byValue (vt n : Nat) : Nat :=
  if vt = VT_R4 then floatByValue n
  else if vt = VT_R8 ∨ vt = VT_DATE then doubleByValue n
  else n

/-- The member keeps its bits when it is passed by value: the tag is not one
of the floating-point tags, or the member is not a signalling NaN. -/
def KeepsBits (vt n : Nat) : Prop :=
  (vt = VT_R4 → ¬ IsSignallingNaN32 n) ∧ (vt = VT_R8 ∨ vt = VT_DATE → ¬ IsSignallingNaN64 n)

instance (vt n : Nat) : Decidable (KeepsBits vt n) := by
  unfold KeepsBits; exact inferInstance

/-- The bytes `Write( BSTR )` produces for a string. -/
def bstrBytes (s : List Nat) : List Nat :=
  toBytesLE 4 (wrapULong (s.length * 2)) ++ (bytesOfUnits s).take (wrapULong (s.length * 2))

/-- A string as a `BSTR` holds it: 16-bit code units, and a byte length that
fits the 32-bit length prefix of the `BSTR`. -/
def IsBSTR (s : List Nat) : Prop :=
  (∀ u, u ∈ s → u < 65536) ∧ s.length * 2 < 4294967296

instance (s : List Nat) : Decidable (IsBSTR s) := by
  unfold IsBSTR; exact inferInstance

/-- Odometer step on the index read in the order of the dimensions of `rgsabound`. -/
def odo : List SAFEARRAYBOUND → List Int → List Int × Bool
  | b :: bs, x :: xs =>
    if wrapLong (x + 1) ≥ wrapLong (b.lLbound + wrapLong b.cElements) then
      (b.lLbound :: (odo bs xs).1, (odo bs xs).2)
    else (wrapLong (x + 1) :: xs, true)
  | _, xs => (xs, false)

/-- The initialised walker whose index, read in the order of `rgsabound`, is `T`. -/
def walkAt (bs : List SAFEARRAYBOUND) (T : List Int) : CWalkSafeArrayElements :=
  { m_SafeArray := bs, m_index := T.reverse, m_isInitialized := true }

/-- The shapes without 32-bit overflow: every extent at least 1, every lower bound a
`long`, every `lower bound + extent` a `long`. -/
def ShapeOK (bs : List SAFEARRAYBOUND) : Prop :=
  ∀ b ∈ bs, 1 ≤ b.cElements ∧ isLong b.lLbound ∧ isLong (b.lLbound + (b.cElements : Int))

/-- The `k`-th index in mixed radix, in the order of `rgsabound` (least
significant dimension first). -/
def tupleOf : List SAFEARRAYBOUND → Nat → List Int
  | [], _ => []
  | b :: bs, k => (b.lLbound + ((k % b.cElements : Nat) : Int)) :: tupleOf bs (k / b.cElements)

/-- The position of an index in the walk (inverse of `tupleOf`). -/
def numOf : List SAFEARRAYBOUND → List Int → Nat
  | b :: bs, x :: xs => (x - b.lLbound).toNat + b.cElements * numOf bs xs
  | _, _ => 0

/-- The dimensions in the order of their declaration (left-most first): the
descriptor holds them right-most first. -/
def declared (rgsabound : List SAFEARRAYBOUND) : List SAFEARRAYBOUND :=
  rgsabound.reverse

/-- Every component of the index lies within the bounds of the dimension of
the same position in declaration order. -/
def tupleInBounds (rgsabound : List SAFEARRAYBOUND) (index : List Int) : Prop :=
  index.length = rgsabound.length ∧
  ∀ i, i < rgsabound.length →
    ((declared rgsabound).getD i default).lLbound ≤ index.getD i 0 ∧
    index.getD i 0 <
      ((declared rgsabound).getD i default).lLbound
        + (((declared rgsabound).getD i default).cElements : Int)

instance (bs : List SAFEARRAYBOUND) : Decidable (ShapeOK bs) := by
  unfold ShapeOK; exact inferInstance

/-- The tuple of the upper ends: every component at its maximum. -/
def maxTuple (rgsabound : List SAFEARRAYBOUND) : List Int :=
  (declared rgsabound).map (fun b => b.lLbound + (b.cElements : Int) - 1)

/-- The bytes of the bounds of a shape, in the order of `rgsabound`. -/
def boundsBytes (rgsabound : List SAFEARRAYBOUND) : List Nat :=
  rgsabound.flatMap (fun b => toBytesLE 4 (longBits b.lLbound) ++ toBytesLE 4 b.cElements)

/-- The bytes of an array header: dimension count, then bounds. -/
def headerBytes (rgsabound : List SAFEARRAYBOUND) : List Nat :=
  toBytesLE 2 rgsabound.length ++ boundsBytes rgsabound

/-- The feature flags `ReadSafeArrayHeader` sets for an element type. -/
def featuresOf (vt : Nat) : Nat :=
  if vt = VT_BSTR then FADF_BSTR
  else if vt = VT_UNKNOWN then FADF_UNKNOWN
  else if vt = VT_DISPATCH then FADF_DISPATCH
  else if vt = VT_VARIANT then FADF_VARIANT
  else 0

/-- The array `ReadSafeArrayHeader` allocates: zeroed cells. -/
def allocated (vt cb : Nat) (rgsabound : List SAFEARRAYBOUND) : SAFEARRAY :=
  ⟨featuresOf vt, cb, rgsabound, fun _ => zeroCell (featuresOf vt)⟩

/-- One element written by the loop of `WriteSafeArrayElements`: the tag for
an array of variants, then the data. -/
def writeElem (write : VARIANT → IStream → Except Exn IStream) (vt : Nat) (temp : VARIANT)
    (s : IStream) : Except Exn IStream :=
  (if VT_VARIANT = vt then CStream.Write s 2 temp.vt else pure s) >>= write temp

/-- One element read by the loop of `ReadSafeArrayElements`: the tag for an
array of variants, then the data. -/
def readElem (read : Nat → IStream → Except Exn (VARIANT × IStream)) (vt : Nat)
    (s : IStream) : Except Exn (VARIANT × IStream) :=
  (if VT_VARIANT = vt then CStream.Read s 2 else pure (vt, s)) >>= fun r => read r.1 r.2

/-- The array with one cell replaced. -/
def putCell (sa : SAFEARRAY) (index : List Int) (cell : VARIANT) : SAFEARRAY :=
  { sa with pvData := fun i => if i = index then cell else sa.pvData i }

/-- The array after the cells `k`, ..., `k + m - 1` of the walk were stored. -/
def putCells (rg : List SAFEARRAYBOUND) (cellOut : Nat → VARIANT) (sa : SAFEARRAY) (k m : Nat) :
    SAFEARRAY :=
  (List.range' k m).foldl (fun a j => putCell a (tupleOf rg j).reverse (cellOut j)) sa

/-- Element types of the arrays of fixed-width numbers that are written as
they are stored. -/
def IsNumericElem (vt : Nat) : Prop :=
  vt = VT_ERROR ∨ vt = VT_I4 ∨ vt = VT_UI1 ∨ vt = VT_I2 ∨ vt = VT_R8 ∨ vt = VT_DATE ∨ vt = VT_R4

instance (vt : Nat) : Decidable (IsNumericElem vt) := by
  unfold IsNumericElem; exact inferInstance

/-- Element types of the arrays of fixed-width data the writer handles: the
numbers and boolean. -/
def IsStoredElem (vt : Nat) : Prop :=
  IsNumericElem vt ∨ vt = VT_BOOL

instance (vt : Nat) : Decidable (IsStoredElem vt) := by
  unfold IsStoredElem; exact inferInstance

/-- The bits of an element as stored: within the width of the element type,
and for boolean one of the two values `VARIANT_FALSE` and `VARIANT_TRUE`. -/
def StoredBits (elem b : Nat) : Prop :=
  b < 256 ^ fixedSize elem ∧ (elem = VT_BOOL → b = 0 ∨ b = 65535)

instance (elem b : Nat) : Decidable (StoredBits elem b) := by
  unfold StoredBits; exact inferInstance

/-- The feature flags of an array of plain data: none of the four pointer
kinds. -/
def PlainFeatures (ff : Nat) : Prop :=
  ff &&& FADF_BSTR ≠ FADF_BSTR ∧ ff &&& FADF_UNKNOWN ≠ FADF_UNKNOWN ∧
    ff &&& FADF_DISPATCH ≠ FADF_DISPATCH ∧ ff &&& FADF_VARIANT ≠ FADF_VARIANT

instance (ff : Nat) : Decidable (PlainFeatures ff) := by
  unfold PlainFeatures; exact inferInstance

/-- The feature flags of an array of variants. -/
def VariantFeatures (ff : Nat) : Prop :=
  ff &&& FADF_BSTR ≠ FADF_BSTR ∧ ff &&& FADF_UNKNOWN ≠ FADF_UNKNOWN ∧
    ff &&& FADF_DISPATCH ≠ FADF_DISPATCH ∧ ff &&& FADF_VARIANT = FADF_VARIANT

instance (ff : Nat) : Decidable (VariantFeatures ff) := by
  unfold VariantFeatures; exact inferInstance

/-- The scalar bytes of a cell. -/
def cellBits : VARIANT → Nat
  | VARIANT.plain _ (Payload.bits b) => b
  | _ => 0

/-- The string of a cell. -/
def cellString : VARIANT → List Nat
  | VARIANT.plain _ (Payload.bstr s) => s
  | _ => []

/-- Value equality of two variants: the same tag and the same payload; for
arrays the same tag, the same shape, and equal values at every index within
the bounds. -/
inductive Same : VARIANT → VARIANT → Prop where
  | plain (vt : Nat) (p : Payload) : Same (VARIANT.plain vt p) (VARIANT.plain vt p)
  | array (vt ff cb ff' cb' : Nat) (rg : List SAFEARRAYBOUND) (pv pv' : List Int → VARIANT) :
      (∀ idx, tupleInBounds rg idx → Same (pv idx) (pv' idx)) →
      Same (VARIANT.array vt ff cb rg pv) (VARIANT.array vt ff' cb' rg pv')

/-- No floating-point number in the value is a signalling NaN: every scalar,
and every element of an array, keeps its bits when it is passed by value. -/
def Quiet : VARIANT → Prop
  | VARIANT.plain vt (Payload.bits b) => KeepsBits vt b
  | VARIANT.plain _ _ => True
  | VARIANT.array vt _ _ rg pv =>
    ∀ idx, tupleInBounds rg idx →
      KeepsBits (VT_TYPEMASK &&& vt) (cellBits (pv idx)) ∧ Quiet (pv idx)
  | VARIANT.byref _ t => Quiet t

/-- The values supported within fuel `n`: a fixed-width scalar with the bits
of its member, empty and null, a string, and an array with at least one
dimension, a shape without 32-bit overflow, at most `n - 1` elements, and
elements that are fixed-width numbers, booleans stored as `VARIANT_TRUE` or
`VARIANT_FALSE`, strings, or (for an array of variants) values supported
within `n - 1`. -/
def Supported : Nat → VARIANT → Prop
  | 0, _ => False
  | _ + 1, VARIANT.plain vt (Payload.bits b) =>
    (IsFixedScalar vt ∧ b < 256 ^ fixedSize vt) ∨ ((vt = VT_EMPTY ∨ vt = VT_NULL) ∧ b = 0)
  | _ + 1, VARIANT.plain vt (Payload.bstr s) => vt = VT_BSTR ∧ IsBSTR s
  | _ + 1, VARIANT.plain _ (Payload.punk _) => False
  | n + 1, VARIANT.array vt ff cb rg pv =>
    1 ≤ rg.length ∧ rg.length < 65536 ∧ ShapeOK rg ∧ NoOfElements rg ≠ 0 ∧ cellCount rg ≤ n ∧
    ((∃ elem, IsStoredElem elem ∧ vt = elem ||| VT_ARRAY ∧ cb = fixedSize elem ∧
        PlainFeatures ff ∧
        ∀ idx, tupleInBounds rg idx →
          ∃ b, pv idx = VARIANT.plain 0 (Payload.bits b) ∧ StoredBits elem b) ∨
     (vt = VT_BSTR ||| VT_ARRAY ∧ cb = 4 ∧ ff &&& FADF_BSTR = FADF_BSTR ∧
        ∀ idx, tupleInBounds rg idx →
          ∃ s, pv idx = VARIANT.plain 0 (Payload.bstr s) ∧ IsBSTR s) ∨
     (vt = VT_VARIANT ||| VT_ARRAY ∧ cb = 16 ∧ VariantFeatures ff ∧
        ∀ idx, tupleInBounds rg idx → Supported n (pv idx)))
  | _ + 1, VARIANT.byref _ _ => False

/-- A two-element array of variants holding a string and a 2 by 3 array of
32-bit integers. -/
def sampleNested : VARIANT :=
  VARIANT.array (VT_VARIANT ||| VT_ARRAY) FADF_VARIANT 16 [⟨2, 1⟩]
    (fun i => if i = [1] then VARIANT.plain VT_BSTR (Payload.bstr [65, 66])
      else VARIANT.array (VT_I4 ||| VT_ARRAY) 0 4 [⟨3, 0⟩, ⟨2, 5⟩]
        (fun _ => VARIANT.plain 0 (Payload.bits 7)))

/-- A host whose `OleSaveToStream` writes at the seek pointer what the object
alone determines: at the end of every stream it returns the same result code
and appends the same bytes. -/
def HostAppends (host : Host) : Prop :=
  ∀ p : Option IUnknown, ∃ (hr : Int) (B : List Nat), ∀ data : List Nat,
    host.OleSaveToStream p ⟨data, data.length⟩ = (hr, ⟨data ++ B, (data ++ B).length⟩)

/-- At the end of every stream the writer does the same: it ends with one
error, or it appends one byte sequence. -/
def Uniform (f : IStream → Except Exn IStream) : Prop :=
  (∃ e, ∀ data : List Nat, f ⟨data, data.length⟩ = Except.error e) ∨ (∃ B, Appends f B)

/-- The encoding of the element at `index` of an array with the element type
`vt`: the element's own tag in 2 bytes when the element type is `VT_VARIANT`,
then the bytes the element writer `write` appends for the element. -/
def ElemEncoding (write : VARIANT → IStream → Except Exn IStream) (vt : Nat) (sa : SAFEARRAY)
    (index : List Int) (E : List Nat) : Prop :=
  ∃ e D, SafeArrayGetElementAsVariant sa index vt = Except.ok e ∧
    Appends (write e) D ∧
    E = (if VT_VARIANT = vt then toBytesLE 2 e.vt else []) ++ D

/-- The value `WriteToStream` goes on with: for an alias the copy with the
alias followed (`VariantCopyInd`), else the value itself. -/
def written (v : VARIANT) : VARIANT :=
  if v.V_ISBYREF then (VariantCopyInd v).2 else v

/-- A two-element array of variants holding a string and a 16-bit integer. -/
def sampleMixed : VARIANT :=
  VARIANT.array (VT_VARIANT ||| VT_ARRAY) FADF_VARIANT 16 [⟨2, 1⟩]
    (fun i => if i = [1] then VARIANT.plain VT_BSTR (Payload.bstr [65, 66])
      else VARIANT.plain VT_I2 (Payload.bits 7))

/-- The bytes written for `sampleMixed`: version, tag, shape, and per element
the tag and the data. -/
def sampleMixedBytes : List Nat :=
  [1, 0, 0, 0, 12, 32, 1, 0, 1, 0, 0, 0, 2, 0, 0, 0, 8, 0, 4, 0, 0, 0, 65, 0, 66, 0, 2, 0, 7, 0]

/-- The tags of the values without the array flag whose data has a size fixed
by the tag: empty, null and the fixed-width scalars. -/
def IsSizedTag (vt : Nat) : Prop :=
  vt = VT_EMPTY ∨ vt = VT_NULL ∨ IsFixedScalar vt

instance (vt : Nat) : Decidable (IsSizedTag vt) := by
  unfold IsSizedTag; exact inferInstance

/-- The table of payload sizes as the specification gives it: 0 for empty and
null, 1 for 8-bit unsigned, 2 for boolean and 16-bit signed, 4 for 32-bit
signed, error code and 32-bit float, 8 for 64-bit float, date and currency. -/
def payloadSize (vt : Nat) : Nat :=
  if vt = VT_EMPTY ∨ vt = VT_NULL then 0
  else if vt = VT_UI1 then 1
  else if vt = VT_BOOL ∨ vt = VT_I2 then 2
  else if vt = VT_I4 ∨ vt = VT_ERROR ∨ vt = VT_R4 then 4
  else if vt = VT_R8 ∨ vt = VT_DATE ∨ vt = VT_CY then 8
  else 0

/-- The 64 bits of a currency value, the member `cyVal.int64`, in two's
complement. -/
def cyBits (c : Int) : Nat :=
  (c % 18446744073709551616).toNat

/-- The currency value, member `cyVal.int64`, that 64 bits hold. -/
def cyInt64 (n : Nat) : Int :=
  ((n : Int) + 9223372036854775808) % 18446744073709551616 - 9223372036854775808

/-- The cells of `sampleMixed`: a string at index 1, a 16-bit integer at
index 2. -/
def sampleMixedCells : List Int → VARIANT :=
  fun i => if i = [1] then VARIANT.plain VT_BSTR (Payload.bstr [65, 66])
    else VARIANT.plain VT_I2 (Payload.bits 7)

/-- The tags the `switch` of `ReadDataFromStream` and of `WriteDataToStream`
handles for a value that is not an array. -/
def IsScalarTag (vt : Nat) : Prop :=
  vt = VT_EMPTY ∨ vt = VT_NULL ∨ vt = VT_BOOL ∨ vt = VT_UI1 ∨ vt = VT_I2 ∨ vt = VT_I4 ∨
    vt = VT_CY ∨ vt = VT_R4 ∨ vt = VT_R8 ∨ vt = VT_DATE ∨ vt = VT_BSTR ∨ vt = VT_ERROR ∨
    vt = VT_DISPATCH ∨ vt = VT_UNKNOWN

instance (vt : Nat) : Decidable (IsScalarTag vt) := by
  unfold IsScalarTag; exact inferInstance

/-- The element types `GetTypeSize` knows. -/
def IsElemTag (vt : Nat) : Prop :=
  vt = VT_BOOL ∨ vt = VT_I2 ∨ vt = VT_ERROR ∨ vt = VT_I4 ∨ vt = VT_BSTR ∨ vt = VT_R4 ∨
    vt = VT_DATE ∨ vt = VT_R8 ∨ vt = VT_UI1 ∨ vt = VT_CY ∨ vt = VT_VARIANT ∨
    vt = VT_DISPATCH ∨ vt = VT_UNKNOWN

instance (vt : Nat) : Decidable (IsElemTag vt) := by
  unfold IsElemTag; exact inferInstance

/-- The tags outside those the reader knows: without the array flag, a tag
that is none of the scalar tags; with the array flag, a tag whose element
type (the 12 bits of the type mask) `GetTypeSize` does not know. -/
def IsUnreadableTag (vt : Nat) : Prop :=
  (vt &&& VT_ARRAY = 0 ∧ ¬ IsScalarTag vt) ∨
    (vt &&& VT_ARRAY ≠ 0 ∧ ¬ IsElemTag (VT_TYPEMASK &&& vt))

instance (vt : Nat) : Decidable (IsUnreadableTag vt) := by
  unfold IsUnreadableTag; exact inferInstance

/-- `VT_I1`, the tag of a signed 8-bit integer, which neither `GetTypeSize`
nor the two data routines list. -/
abbrev VT_I1 : Nat := 16

/-- An array without elements that the reader gives back: an element type
`GetTypeSize` knows, at least one dimension, every extent 0 and every lower
bound a `long`. -/
def IsEmptyArray : VARIANT → Prop
  | VARIANT.array vt _ _ rg _ =>
    (∃ elem, IsElemTag elem ∧ vt = elem ||| VT_ARRAY) ∧ 1 ≤ rg.length ∧ rg.length < 65536 ∧
      ∀ b, b ∈ rg → b.cElements = 0 ∧ isLong b.lLbound
  | _ => False

/-- The values of the amended claim C30, within fuel `n`: a supported value,
an array without elements that the reader gives back, and an array of variants
with at least one dimension, a shape without 32-bit overflow, at most `n - 1`
entries, and entries that are such values within fuel `n - 1`. -/
def Decodable : Nat → VARIANT → Prop
  | 0, _ => False
  | n + 1, VARIANT.array vt ff cb rg pv =>
    IsEmptyArray (VARIANT.array vt ff cb rg pv) ∨
    Supported (n + 1) (VARIANT.array vt ff cb rg pv) ∨
    (vt = VT_VARIANT ||| VT_ARRAY ∧ cb = 16 ∧ VariantFeatures ff ∧
      1 ≤ rg.length ∧ rg.length < 65536 ∧ ShapeOK rg ∧ NoOfElements rg ≠ 0 ∧
      cellCount rg ≤ n ∧ ∀ idx, tupleInBounds rg idx → Decodable n (pv idx))
  | n + 1, VARIANT.plain vt p => Supported (n + 1) (VARIANT.plain vt p)
  | n + 1, VARIANT.byref vt t => Supported (n + 1) (VARIANT.byref vt t)

/-- A variant array holding a 32-bit float (1.0) and an array of 32-bit
integers with one dimension of extent 0. -/
def sampleWithEmpty : VARIANT :=
  VARIANT.array (VT_VARIANT ||| VT_ARRAY) FADF_VARIANT 16 [⟨2, 1⟩]
    (fun i => if i = [1] then VARIANT.plain VT_R4 (Payload.bits 1065353216)
      else VARIANT.array (VT_I4 ||| VT_ARRAY) 0 4 [⟨0, 0⟩]
        (fun _ => VARIANT.plain 0 (Payload.bits 0)))

/-- A `BLOB`: a byte count and a pointer to the bytes, which may be null. -/
structure BLOB where
  cbSize : Nat
  pBlobData : Option (List Nat)
deriving DecidableEq, Repr

/-- Models `StreamToTaskMemory`: the blob's size is `GetSize` of the stream
and its data are that many bytes copied from the start of the stream's memory
block.  `CoTaskMemAlloc` is taken to succeed. -/
def StreamToTaskMemory (stream : IStream) : Except Exn BLOB :=
  let cbSize := CStream.GetSize stream
  pure ⟨cbSize, some (stream.data.take cbSize)⟩

/-- Models `BlobToStream`.  For a size other than zero a block is allocated
(`globalAlloc` gives the contents of the new block, whose size the platform
may round up and whose bytes it does not define), `cbSize` bytes of the blob
are copied to its start when the blob has data, and the stream is created on
the block; for size zero the stream is created on a null handle and is empty.
`GlobalAlloc` and `CreateStreamOnHGlobal` are taken to succeed. -/
def BlobToStream (globalAlloc : Nat → List Nat) (blob : BLOB) : Except Exn IStream :=
  if blob.cbSize ≠ 0 then
    let block := globalAlloc blob.cbSize
    match blob.pBlobData with
    | some bytes => pure ⟨bytes.take blob.cbSize ++ block.drop blob.cbSize, 0⟩
    | none => pure ⟨block, 0⟩
  else
    pure IStream.empty

/-- Models `WriteVariantToBlob`: write to a new memory stream, then convert
the stream to task memory. -/
def WriteVariantToBlob (host : Host) (fuel : Nat) (v : VARIANT) : Except Exn BLOB := do
  let stream ← WriteVariantToStream host fuel v IStream.empty
  StreamToTaskMemory stream

/-- Models `ReadVariantFromBlob`: convert the blob to a stream, then read the
variant from it. -/
def ReadVariantFromBlob (host : Host) (fuel : Nat) (globalAlloc : Nat → List Nat)
    (blob : BLOB) : Except Exn VARIANT := do
  let stream ← BlobToStream globalAlloc blob
  let (v, _) ← ReadVariantFromStream host fuel stream
  pure v

/-- A block allocator for examples: the size rounded up by three bytes, every
byte 205. -/
def sampleAlloc (n : Nat) : List Nat :=
  List.replicate (n + 3) 205

/-- Models `Initialize` with the allocation explicit: `coTaskMemAlloc` tells
whether a request for the given number of bytes yields a block; when it does
not, `VerifyAllocation` raises `E_OUTOFMEMORY`, and when it does, the index is
set as in `Initialize`. -/
def CWalkSafeArrayElements.InitializeAlloc (coTaskMemAlloc : Nat → Bool)
    (w : CWalkSafeArrayElements) : Except Exn CWalkSafeArrayElements :=
  if coTaskMemAlloc (w.m_SafeArray.length * 4) then pure w.Initialize
  else ThrowError E_OUTOFMEMORY

/-- Models `GetIndex` with the allocation explicit. -/
def CWalkSafeArrayElements.GetIndexAlloc (coTaskMemAlloc : Nat → Bool)
    (w : CWalkSafeArrayElements) : Except Exn (CWalkSafeArrayElements × List Int) := do
  let w ← if w.m_isInitialized then pure w else w.InitializeAlloc coTaskMemAlloc
  pure (w, w.m_index)

/-- Models `Next` with the allocation explicit. -/
def CWalkSafeArrayElements.NextAlloc (coTaskMemAlloc : Nat → Bool)
    (w : CWalkSafeArrayElements) : Except Exn (CWalkSafeArrayElements × Bool) := do
  let w ← if w.m_isInitialized then pure w else w.InitializeAlloc coTaskMemAlloc
  let cDims := w.m_SafeArray.length
  let r := CWalkSafeArrayElements.nextLoop w.m_SafeArray cDims cDims 0 w.m_index
  pure ({ w with m_index := r.1 }, r.2)

/-- The results of the `QueryInterface` calls `GetPersistStreamInterface`
makes on an object, in order: the one for `IPersistStreamInit`, and, when that
one left no interface and did not raise, the one for `IPersistStream`. -/
def persistQueries (pUnknown : IUnknown) : List Int :=
  let hr := pUnknown.hrPersistStreamInit
  if FAILED hr && E_NOINTERFACE != hr then [hr]
  else if FAILED hr then [hr, pUnknown.hrPersistStream]
  else [hr]

/-- The last statement of `SaveObjectToStream`:
`CheckResult( OleSaveToStream( persistStream, pStream ) )`. -/
def saveCall (host : Host) (persistStream : Option IUnknown) (pStream : IStream) :
    Except Exn IStream := do
  let (hr, pStream) := host.OleSaveToStream persistStream pStream
  CheckResult hr
  pure pStream

/-- An object that answers `E_NOINTERFACE` to the query for
`IPersistStreamInit` and succeeds on the one for `IPersistStream`. -/
def sampleObject : IUnknown := ⟨1, E_NOINTERFACE, S_OK, E_NOINTERFACE⟩

/-- An object that answers `E_NOINTERFACE` to both queries. -/
def sampleBareObject : IUnknown := ⟨2, E_NOINTERFACE, E_NOINTERFACE, S_OK⟩

/-- A host that persists null objects, as the comment of `SaveObjectToStream`
expects of `OleSaveToStream` ("the object pointer may be NULL"):
`OleSaveToStream` of a null pointer writes the class identifier `CLSID_NULL`
(16 zero bytes) and succeeds, and `OleLoadFromStream` reads 16 bytes and, when
they are `CLSID_NULL`, succeeds with a null object.  Other objects are not
handled by this host. -/
def nullHost : Host :=
  ⟨fun p s =>
      match p with
      | none => let (hr, _, s) := s.Write (List.replicate 16 0); (hr, s)
      | some _ => (E_FAIL, s),
    fun s =>
      let (_, clsid, s) := s.Read 16
      if clsid = List.replicate 16 0 then (S_OK, none, s) else (E_FAIL, none, s)⟩

/-- Two streams with the seek pointer at the same offset and the same bytes
from there on. -/
def SameTail (s1 s2 : IStream) : Prop :=
  s1.pos = s2.pos ∧ s1.data.drop s1.pos = s2.data.drop s2.pos

/-- Two results related by `R`: both values, related, or both the same error. -/
def RelOn {β : Type} (R : β → β → Prop) : Except Exn β → Except Exn β → Prop
  | Except.ok a, Except.ok b => R a b
  | Except.error e1, Except.error e2 => e1 = e2
  | _, _ => False

/-- The same value, with streams that agree from the seek pointer on. -/
def TailEq {α : Type} (p q : α × IStream) : Prop :=
  p.1 = q.1 ∧ SameTail p.2 q.2

/-- The host's loader looks at the stream from the seek pointer on only: on
streams that agree there it gives the same result code and object and leaves
streams that agree from the seek pointer on. -/
def HostLoadsFromTail (host : Host) : Prop :=
  ∀ s1 s2, SameTail s1 s2 →
    (host.OleLoadFromStream s1).1 = (host.OleLoadFromStream s2).1 ∧
    (host.OleLoadFromStream s1).2.1 = (host.OleLoadFromStream s2).2.1 ∧
    SameTail (host.OleLoadFromStream s1).2.2 (host.OleLoadFromStream s2).2.2

/-- What a caller of the reader observes: the value and the offset of the seek
pointer, or the error. -/
def outcome (r : Except Exn (VARIANT × IStream)) : Except Exn (VARIANT × Nat) :=
  match r with
  | Except.ok (v, s) => Except.ok (v, s.pos)
  | Except.error e => Except.error e

/-- The same tag and array, with streams that agree from the seek pointer on. -/
def TailEq3 (p q : Nat × SAFEARRAY × IStream) : Prop :=
  p.1 = q.1 ∧ p.2.1 = q.2.1 ∧ SameTail p.2.2 q.2.2

/-- An implementation of `IStream` as the writer uses it, over any state `σ`.
`Write` gives the result code, the count of bytes the stream reports written,
and the stream after the call; nothing is assumed of them.  `OleSaveToStream`
is the host's save routine on such a stream. -/
structure StreamImpl (σ : Type) where
  Write : σ → List Nat → Int × Nat × σ
  OleSaveToStream : Option IUnknown → σ → Int × σ

/-- The memory stream with a host's save routine as a `StreamImpl`. -/
def memoryImpl (host : Host) : StreamImpl IStream :=
  ⟨IStream.Write, host.OleSaveToStream⟩

/-- A stream implementation with a record kept beside it: the flag is set by
every `Write` that reports fewer bytes written than were requested.  The
record has no part in what the stream does. -/
def recording {σ : Type} (impl : StreamImpl σ) : StreamImpl (σ × Bool) :=
  ⟨fun s pv =>
      let (hr, written, stream) := impl.Write s.1 pv
      (hr, written, (stream, s.2 || decide (written < pv.length))),
    fun p s =>
      let (hr, stream) := impl.OleSaveToStream p s.1
      (hr, (stream, s.2))⟩

/-- A stream of limited capacity: it holds its bytes and the room left, takes
of every write what fits, and reports success. -/
def cappedImpl : StreamImpl (List Nat × Nat) :=
  ⟨fun s pv => (S_OK, min pv.length s.2, (s.1 ++ pv.take s.2, s.2 - pv.length)),
    fun _ s => (S_OK, s)⟩

/-- The template `Write( Q value )` of `CStream` over any stream. -/
def OnStream.Write {σ : Type} (impl : StreamImpl σ) (stream : σ) (size : Nat) (value : Nat) :
    Except Exn σ := do
  let (hr, written, stream) := impl.Write stream (toBytesLE size value)
  CheckResult hr
  if written ≠ size then ThrowError E_FAIL
  pure stream

/-- Models `Write( BSTR value )` of `CStream` over any stream. -/
def OnStream.WriteBSTR {σ : Type} (impl : StreamImpl σ) (stream : σ) (value : List Nat) :
    Except Exn σ := do
  let bufferSize := wrapULong (value.length * 2)
  let stream ← OnStream.Write impl stream 4 bufferSize
  let (hr, written, stream) := impl.Write stream ((bytesOfUnits value).take bufferSize)
  CheckResult hr
  if written ≠ bufferSize then ThrowError E_FAIL
  pure stream

/-- Models `SaveObjectToStream` over any stream. -/
def OnStream.SaveObjectToStream {σ : Type} (impl : StreamImpl σ) (pUnknown : Option IUnknown)
    (pStream : σ) : Except Exn σ := do
  let persistStream : Option IUnknown ←
    match pUnknown with
    | some u => do
      let ps ← GetPersistStreamInterface u
      if ps.isNone then ThrowError E_NOINTERFACE
      pure ps
    | none => pure none
  let (hr, pStream) := impl.OleSaveToStream persistStream pStream
  CheckResult hr
  pure pStream

/-- The loop of `WriteSafeArrayHeader` over any stream. -/
def OnStream.writeBounds {σ : Type} (impl : StreamImpl σ) :
    List SAFEARRAYBOUND → σ → Except Exn σ
  | [], stream => pure stream
  | b :: rest, stream => do
    let stream ← OnStream.Write impl stream 4 (longBits b.lLbound)
    let stream ← OnStream.Write impl stream 4 b.cElements
    OnStream.writeBounds impl rest stream

/-- Models `WriteSafeArrayHeader` over any stream. -/
def OnStream.WriteSafeArrayHeader {σ : Type} (impl : StreamImpl σ) (safeArray : SAFEARRAY)
    (pStream : σ) : Except Exn σ := do
  let stream ← OnStream.Write impl pStream 2 safeArray.cDims
  OnStream.writeBounds impl safeArray.rgsabound stream

/-- The `while( more )` loop of `WriteSafeArrayElements` over any stream. -/
def OnStream.writeLoop {σ : Type} (impl : StreamImpl σ) (write : VARIANT → σ → Except Exn σ)
    (vt : Nat) (safeArray : SAFEARRAY) :
    Nat → CWalkSafeArrayElements → σ → Except Exn σ
  | 0, _, _ => Except.error Exn.fuel
  | fuel + 1, walk, stream => do
    let (walk, index) := walk.GetIndex
    let tempVariant ← SafeArrayGetElementAsVariant safeArray index vt
    let stream ←
      if VT_VARIANT = vt then OnStream.Write impl stream 2 tempVariant.vt else pure stream
    let stream ← write tempVariant stream
    let (walk, more) := walk.Next
    if more then OnStream.writeLoop impl write vt safeArray fuel walk stream else pure stream

/-- Models `WriteSafeArrayElements` over any stream. -/
def OnStream.WriteSafeArrayElements {σ : Type} (impl : StreamImpl σ)
    (write : VARIANT → σ → Except Exn σ) (fuel : Nat) (vt : Nat) (safeArray : SAFEARRAY)
    (pStream : σ) : Except Exn σ :=
  if NoOfElements safeArray.rgsabound = 0 then pure pStream
  else
    OnStream.writeLoop impl write vt safeArray fuel
      (CWalkSafeArrayElements.new safeArray.rgsabound) pStream

/-- Models `WriteDataToStream` over any stream. -/
def OnStream.WriteDataToStream {σ : Type} (impl : StreamImpl σ) :
    Nat → VARIANT → σ → Except Exn σ
  | 0, _, _ => Except.error Exn.fuel
  | fuel + 1, variant, stream =>
    if variant.V_ISARRAY then do
      let safeArray ← if variant.V_ISBYREF then variant.pparray else variant.parray
      let stream ← OnStream.WriteSafeArrayHeader impl safeArray stream
      OnStream.WriteSafeArrayElements impl (OnStream.WriteDataToStream impl fuel) fuel
        (VT_TYPEMASK &&& variant.vt) safeArray stream
    else
      let vt := variant.vt
      if vt = VT_EMPTY ∨ vt = VT_NULL then pure stream
      else if vt = VT_BOOL then do OnStream.Write impl stream 2 (← variant.scalarBits)
      else if vt = VT_UI1 then do OnStream.Write impl stream 1 (← variant.scalarBits)
      else if vt = VT_I2 then do OnStream.Write impl stream 2 (← variant.scalarBits)
      else if vt = VT_I4 then do OnStream.Write impl stream 4 (← variant.scalarBits)
      else if vt = VT_CY then do
        let cyVal ← variant.scalarBits
        let stream ← OnStream.Write impl stream 4 (cyVal % 4294967296)
        OnStream.Write impl stream 4 (cyVal / 4294967296)
      else if vt = VT_R4 then do
        OnStream.Write impl stream 4 (floatByValue (← variant.scalarBits))
      else if vt = VT_R8 then do
        OnStream.Write impl stream 8 (doubleByValue (← variant.scalarBits))
      else if vt = VT_DATE then do
        OnStream.Write impl stream 8 (doubleByValue (← variant.scalarBits))
      else if vt = VT_BSTR then do OnStream.WriteBSTR impl stream (← variant.bstrVal)
      else if vt = VT_ERROR then do OnStream.Write impl stream 4 (← variant.scalarBits)
      else if vt = VT_DISPATCH then do
        let pDispatch ← variant.punkVal
        OnStream.SaveObjectToStream impl pDispatch stream
      else if vt = VT_UNKNOWN then do
        OnStream.SaveObjectToStream impl (← variant.punkVal) stream
      else ThrowError DISP_E_TYPEMISMATCH

/-- Models `WriteToStream` over any stream. -/
def OnStream.WriteToStream {σ : Type} (impl : StreamImpl σ) (fuel : Nat)
    (variantParam : VARIANT) (pStream : σ) : Except Exn σ := do
  let variant ←
    if variantParam.V_ISBYREF then do
      let (hr, variantCopy) := VariantCopyInd variantParam
      CheckResult hr
      pure variantCopy
    else pure variantParam
  let stream ← OnStream.Write impl pStream 2 variant.vt
  OnStream.WriteDataToStream impl fuel variant stream

/-- Models `WriteVariantToStream` over any stream. -/
def OnStream.WriteVariantToStream {σ : Type} (impl : StreamImpl σ) (fuel : Nat)
    (variant : VARIANT) (pStream : σ) : Except Exn σ := do
  let stream ← OnStream.Write impl pStream 4 (longBits variantVersion)
  OnStream.WriteToStream impl fuel variant stream

/-- A run on a recording stream is the run on the stream itself: it ends with
the same error, or with the same stream and the record as it was. -/
def Erases {σ : Type} (f : σ × Bool → Except Exn (σ × Bool)) (g : σ → Except Exn σ) : Prop :=
  ∀ (s : σ) (m : Bool),
    match f (s, m) with
    | Except.ok r => r.2 = m ∧ g s = Except.ok r.1
    | Except.error e => g s = Except.error e

/-- The states a walker over the bounds `bs` can be in: the constructed one
and those `GetIndex` and `Next` lead to. -/
inductive WalkerState (bs : List SAFEARRAYBOUND) : CWalkSafeArrayElements → Prop where
  | constructed : WalkerState bs (CWalkSafeArrayElements.new bs)
  | afterGetIndex (w : CWalkSafeArrayElements) : WalkerState bs w → WalkerState bs w.GetIndex.1
  | afterNext (w : CWalkSafeArrayElements) : WalkerState bs w → WalkerState bs w.Next.1

/-- The value `SafeArrayGetElementAsVariant` gives for a boolean element with
the raw bits `x`: `*(VARIANT_BOOL*) entry ? VARIANT_TRUE : VARIANT_FALSE`, the
16 bits of -1 or of 0. -/
def normalisedBool (x : Nat) : Nat :=
  if x % 65536 ≠ 0 then 65535 else 0

/-- `VT_VECTOR`, a flag bit of a tag. -/
abbrev VT_VECTOR : Nat := 4096

/-- `VT_RESERVED`, a flag bit of a tag. -/
abbrev VT_RESERVED : Nat := 32768

/-- The bytes of a stream from the seek pointer to the end. -/
def remaining (s : IStream) : Nat :=
  s.data.length - s.pos

/-- The host's loader, when it succeeds, has moved the seek pointer towards
the end of the stream (`OleLoadFromStream` reads a class identifier first). -/
def HostConsumes (host : Host) : Prop :=
  ∀ s, FAILED (host.OleLoadFromStream s).1 = false →
    remaining (host.OleLoadFromStream s).2.2 < remaining s

/-- A result that is not the exhaustion of the fuel of the model. -/
def NoFuel {β : Type} (res : Except Exn β) : Prop :=
  res ≠ Except.error Exn.fuel

/-- A reader started on `s` that ended with a value has consumed at least `k`
bytes. -/
def Prog {α : Type} (k : Nat) (s : IStream) (res : Except Exn (α × IStream)) : Prop :=
  ∀ p, res = Except.ok p → remaining p.2 + k ≤ remaining s

/-- A host whose loader accepts nothing. -/
def failHost : Host := ⟨fun _ s => (E_FAIL, s), fun s => (E_FAIL, none, s)⟩

/-- One of the two byte sequences begins with the other. -/
def Comparable (T B : List Nat) : Prop :=
  T <+: B ∨ B <+: T

/-- The reader `r` keeps in step with a writer that appended `B`.  On every
stream that holds at the seek pointer bytes agreeing with `B` as far as they
go (a leading part of `B`, or `B` and more after it) `r` ends as the
reference reader `r0` does, and when it returns a value then all of `B` was
there, the seek pointer stands just past `B`, and the value satisfies `Q`. -/
def Locked {α : Type} (r r0 : IStream → Except Exn (α × IStream)) (B : List Nat)
    (Q : α → Prop) : Prop :=
  ∀ pre T : List Nat, Comparable T B →
    r ⟨pre ++ T, pre.length⟩ = r0 ⟨pre ++ T, pre.length⟩ ∧
    ∀ p, r ⟨pre ++ T, pre.length⟩ = Except.ok p →
      B <+: T ∧ p.2 = ⟨pre ++ T, pre.length + B.length⟩ ∧ Q p.1

/-- The base type of the tag is not one of the two object types. -/
def NoObjectTag (vt : Nat) : Prop :=
  VT_TYPEMASK &&& vt ≠ VT_DISPATCH ∧ VT_TYPEMASK &&& vt ≠ VT_UNKNOWN

/-- A value without object references: no tag in it (its own, that of the
value an alias stands for, those of the cells of its array) has an object
type as its base type. -/
def ObjectFree : VARIANT → Prop
  | VARIANT.plain vt _ => NoObjectTag vt
  | VARIANT.array vt _ _ rg pv =>
    NoObjectTag vt ∧ ∀ idx, indexInRange rg idx = true → ObjectFree (pv idx)
  | VARIANT.byref vt t => NoObjectTag vt ∧ ObjectFree t

/-- The fields of the value hold what their C types can hold: a tag is a
`VARTYPE` of 16 bits, the number of dimensions a `USHORT`, a lower bound a
`LONG`, an extent a `ULONG`. -/
def FieldsFit : VARIANT → Prop
  | VARIANT.plain vt _ => vt < 65536
  | VARIANT.array vt _ _ rg pv =>
    vt < 65536 ∧ rg.length < 65536 ∧
      (∀ b, b ∈ rg → isLong b.lLbound ∧ b.cElements < 4294967296) ∧
      ∀ idx, indexInRange rg idx = true → FieldsFit (pv idx)
  | VARIANT.byref vt t => vt < 65536 ∧ FieldsFit t

/-! ## Theorems -/

/-! ### Bytes and stream transfers -/

theorem toBytesLE_length : ∀ (n v : Nat), (toBytesLE n v).length = n
  | 0, _ => rfl
  | n + 1, v => by simp [toBytesLE, toBytesLE_length n]

theorem fromBytesLE_toBytesLE : ∀ (n v : Nat), fromBytesLE (toBytesLE n v) = v % 256 ^ n
  | 0, v => by simp [toBytesLE, fromBytesLE, Nat.mod_one]
  | n + 1, v => by
    simp only [toBytesLE, fromBytesLE, fromBytesLE_toBytesLE n, Nat.mod_mod]
    rw [Nat.pow_succ, Nat.mul_comm (256 ^ n) 256, Nat.mod_mul]

theorem fromBytesLE_lt : ∀ (bs : List Nat), fromBytesLE bs < 256 ^ bs.length
  | [] => by simp [fromBytesLE]
  | b :: bs => by
    have ih := fromBytesLE_lt bs
    have hb : b % 256 < 256 := Nat.mod_lt _ (by decide)
    simp only [fromBytesLE, List.length_cons, Nat.pow_succ]
    omega

theorem toBytesLE_mod (n v : Nat) : toBytesLE n (v % 256 ^ n) = toBytesLE n v := by
  induction n generalizing v with
  | zero => rfl
  | succ n ih =>
    simp only [toBytesLE]
    have h1 : v % 256 ^ (n + 1) % 256 = v % 256 := by
      rw [Nat.pow_succ, Nat.mul_comm]; exact Nat.mod_mul_right_mod _ _ _
    have h2 : v % 256 ^ (n + 1) / 256 = (v / 256) % 256 ^ n := by
      rw [Nat.pow_succ, Nat.mul_comm, Nat.mod_mul_right_div_self]
    rw [h1, h2, ih]

theorem toBytesLE_add (a b v : Nat) :
    toBytesLE (a + b) v = toBytesLE a v ++ toBytesLE b (v / 256 ^ a) := by
  induction a generalizing v with
  | zero => simp [toBytesLE]
  | succ a ih =>
    rw [show a + 1 + b = (a + b) + 1 by omega]
    simp only [toBytesLE, List.cons_append, ih]
    rw [Nat.div_div_eq_div_mul, Nat.pow_succ, Nat.mul_comm]

theorem fromBytesLE_append (x y : List Nat) :
    fromBytesLE (x ++ y) = fromBytesLE x + 256 ^ x.length * fromBytesLE y := by
  induction x with
  | nil => simp [fromBytesLE]
  | cons b x ih =>
    rw [List.cons_append]
    simp only [fromBytesLE, List.length_cons, Nat.pow_succ]
    rw [ih]
    ring

theorem IStream.Write_end (data pv : List Nat) :
    IStream.Write ⟨data, data.length⟩ pv = (S_OK, pv.length, ⟨data ++ pv, (data ++ pv).length⟩) := by
  simp [IStream.Write]

theorem IStream.Read_at (pre B post : List Nat) :
    IStream.Read ⟨pre ++ (B ++ post), pre.length⟩ B.length
      = (S_OK, B, ⟨pre ++ (B ++ post), pre.length + B.length⟩) := by
  simp [IStream.Read]

theorem CStream.Write_appends (size v : Nat) :
    Appends (fun s => CStream.Write s size v) (toBytesLE size v) := by
  intro data
  simp [CStream.Write, IStream.Write_end, CheckResult, FAILED, toBytesLE_length, bind,
    Except.bind, pure, Except.pure]

theorem CStream.Read_consumes (B : List Nat) :
    Consumes (fun s => CStream.Read s B.length) B (fromBytesLE B) := by
  intro pre post data hd
  subst hd
  simp [CStream.Read, IStream.Read_at, CheckResult, FAILED, bind, Except.bind, pure, Except.pure]

/-! ### Fixed-width scalars: writing -/

@[simp] theorem ok_bind {α β : Type} (a : α) (f : α → Except Exn β) :
    (Except.ok a >>= f) = f a := rfl

@[simp] theorem error_bind {α β : Type} (e : Exn) (f : α → Except Exn β) :
    ((Except.error e : Except Exn α) >>= f) = Except.error e := rfl

theorem appends_bind {f : IStream → Except Exn IStream} {g : IStream → Except Exn IStream}
    {B1 B2 : List Nat} (h1 : Appends f B1) (h2 : Appends g B2) :
    Appends (fun s => f s >>= g) (B1 ++ B2) := by
  intro data
  have := h2 (data ++ B1)
  simp only [h1 data, ok_bind, this, List.append_assoc]

theorem appends_nil : Appends (fun s => pure s) [] := by
  intro data; simp [pure, Except.pure]

theorem consumes_bind {α β : Type} (g1 : IStream → Except Exn (α × IStream))
    (g2 : α → IStream → Except Exn (β × IStream)) {B1 B2 : List Nat} {a : α} {b : β}
    (h1 : Consumes g1 B1 a) (h2 : Consumes (g2 a) B2 b) :
    Consumes (fun s => g1 s >>= fun r => g2 r.1 r.2) (B1 ++ B2) b := by
  intro pre post data hd
  have e1 := h1 pre (B2 ++ post) data (by simp [hd])
  have e2 := h2 (pre ++ B1) post data (by simp [hd])
  simp only [List.length_append] at e2
  simp only [e1, ok_bind, e2, List.length_append, Nat.add_assoc]

theorem byValue_of_keepsBits {vt n : Nat} (h : KeepsBits vt n) : byValue vt n = n := by
  unfold byValue floatByValue doubleByValue
  by_cases h4 : vt = VT_R4
  · rw [if_pos h4, if_neg (h.1 h4)]
  · rw [if_neg h4]
    by_cases h8 : vt = VT_R8 ∨ vt = VT_DATE
    · rw [if_pos h8, if_neg (h.2 h8)]
    · rw [if_neg h8]

theorem keepsBits_of_byValue {vt n : Nat} (h : byValue vt n = n) : KeepsBits vt n := by
  unfold byValue floatByValue doubleByValue at h
  refine ⟨fun h4 hs => ?_, fun h8 hs => ?_⟩
  · rw [if_pos h4, if_pos hs] at h
    omega
  · have h4 : ¬ vt = VT_R4 := by
      rcases h8 with h8 | h8 <;> (subst h8; decide)
    rw [if_neg h4, if_pos h8, if_pos hs] at h
    omega

theorem byValue_of_not_float {vt : Nat} (n : Nat) (h4 : vt ≠ VT_R4) (h8 : vt ≠ VT_R8)
    (hd : vt ≠ VT_DATE) : byValue vt n = n := by
  unfold byValue
  rw [if_neg h4, if_neg (by rintro (h | h) <;> contradiction)]

theorem floatByValue_lt {n : Nat} (h : n < 4294967296) : floatByValue n < 4294967296 := by
  unfold floatByValue IsSignallingNaN32
  split
  · omega
  · exact h

theorem doubleByValue_lt {n : Nat} (h : n < 18446744073709551616) :
    doubleByValue n < 18446744073709551616 := by
  unfold doubleByValue IsSignallingNaN64
  split
  · omega
  · exact h

theorem byValue_lt {vt n : Nat} (h : n < 256 ^ fixedSize vt) :
    byValue vt n < 256 ^ fixedSize vt := by
  unfold byValue
  by_cases h4 : vt = VT_R4
  · rw [if_pos h4]
    subst h4
    exact floatByValue_lt h
  · rw [if_neg h4]
    by_cases h8 : vt = VT_R8 ∨ vt = VT_DATE
    · rw [if_pos h8]
      rcases h8 with h8 | h8 <;> (subst h8; exact doubleByValue_lt h)
    · rw [if_neg h8]
      exact h

theorem floatByValue_keeps (n : Nat) : ¬ IsSignallingNaN32 (floatByValue n) := by
  unfold floatByValue
  split
  · rename_i hs
    unfold IsSignallingNaN32 at hs ⊢
    omega
  · assumption

theorem doubleByValue_keeps (n : Nat) : ¬ IsSignallingNaN64 (doubleByValue n) := by
  unfold doubleByValue
  split
  · rename_i hs
    unfold IsSignallingNaN64 at hs ⊢
    omega
  · assumption

/-- Passing by value once more changes nothing. -/
theorem byValue_keeps (vt n : Nat) : KeepsBits vt (byValue vt n) := by
  unfold byValue
  refine ⟨fun h4 => ?_, fun h8 => ?_⟩
  · rw [if_pos h4]
    exact floatByValue_keeps n
  · have h4 : ¬ vt = VT_R4 := by
      rcases h8 with h8 | h8 <;> (subst h8; decide)
    rw [if_neg h4, if_pos h8]
    exact doubleByValue_keeps n

theorem write_cy_appends (n : Nat) :
    Appends (fun s => CStream.Write s 4 (n % 4294967296) >>= fun s =>
      CStream.Write s 4 (n / 4294967296)) (toBytesLE 8 n) := by
  have hcy : toBytesLE 4 (n % 4294967296) ++ toBytesLE 4 (n / 4294967296) = toBytesLE 8 n := by
    rw [toBytesLE_add 4 4 n, show (4294967296 : Nat) = 256 ^ 4 by norm_num, toBytesLE_mod]
  have := appends_bind (CStream.Write_appends 4 (n % 4294967296))
    (CStream.Write_appends 4 (n / 4294967296))
  rw [hcy] at this
  exact this

theorem writeData_fixed (host : Host) (fuel vt n : Nat) (h : IsFixedScalar vt) :
    Appends (WriteDataToStream host (fuel + 1) (VARIANT.plain vt (Payload.bits n)))
      (toBytesLE (fixedSize vt) (byValue vt n)) := by
  rcases h with h | h | h | h | h | h | h | h | h <;> subst h <;> intro data
  all_goals
    simp +decide only [WriteDataToStream, VARIANT.V_ISARRAY, VARIANT.vt, VARIANT.scalarBits,
      fixedSize, byValue, pure, Except.pure, ok_bind, if_true, if_false, or_self, or_false,
      false_or, or_true, true_or, bne_self_eq_false, Bool.false_eq_true, ↓reduceIte]
  all_goals first
    | exact CStream.Write_appends 1 _ data
    | exact CStream.Write_appends 2 _ data
    | exact CStream.Write_appends 4 _ data
    | exact CStream.Write_appends 8 _ data
    | exact write_cy_appends n data

/-! ### Fixed-width scalars: reading -/

theorem readData_fixed (host : Host) (fuel vt : Nat) (B : List Nat) (h : IsFixedScalar vt)
    (hB : B.length = fixedSize vt) :
    Consumes (ReadDataFromStream host (fuel + 1) vt) B
      (VARIANT.plain vt (Payload.bits (fromBytesLE B))) := by
  intro pre post data hd
  have hr : CStream.Read ⟨data, pre.length⟩ B.length
      = Except.ok (fromBytesLE B, ⟨data, pre.length + B.length⟩) :=
    CStream.Read_consumes B pre post data hd
  have h4a : (B.take 4).length = min 4 B.length := List.length_take _ _
  have h4b : (B.drop 4).length = B.length - 4 := List.length_drop _ _
  have hr1 : CStream.Read ⟨data, pre.length⟩ (B.take 4).length
      = Except.ok (fromBytesLE (B.take 4), ⟨data, pre.length + (B.take 4).length⟩) :=
    CStream.Read_consumes (B.take 4) pre (B.drop 4 ++ post) data
      (by rw [hd, ← List.append_assoc (B.take 4), List.take_append_drop])
  have hr2 : CStream.Read ⟨data, (pre ++ B.take 4).length⟩ (B.drop 4).length
      = Except.ok (fromBytesLE (B.drop 4),
          ⟨data, (pre ++ B.take 4).length + (B.drop 4).length⟩) :=
    CStream.Read_consumes (B.drop 4) (pre ++ B.take 4) post data
      (by rw [hd, List.append_assoc, ← List.append_assoc (B.take 4), List.take_append_drop])
  have hsplit : B.length = 8 →
      fromBytesLE (B.take 4) + 4294967296 * fromBytesLE (B.drop 4) = fromBytesLE B := by
    intro h8
    have := fromBytesLE_append (B.take 4) (B.drop 4)
    rw [List.take_append_drop] at this
    rw [this, h4a, h8]
    norm_num
  rcases h with h | h | h | h | h | h | h | h | h <;> subst h <;>
    simp +decide only [fixedSize, if_true, if_false, or_self, or_false, false_or, ↓reduceIte]
      at hB <;>
    simp only [hB, h4a, h4b, List.length_append] at hr hr1 hr2 hsplit <;>
    norm_num at hr1 hr2 hsplit <;>
    simp +decide [ReadDataFromStream, hr, hr1, hr2, pure, Except.pure, hB, Nat.add_assoc, hsplit]

/-! ### Scalar round trip -/

theorem writeVariant_appends (host : Host) (fuel : Nat) (v : VARIANT) (D : List Nat)
    (hb : v.V_ISBYREF = false) (h : Appends (WriteDataToStream host fuel v) D) :
    Appends (WriteVariantToStream host fuel v) (toBytesLE 4 1 ++ (toBytesLE 2 v.vt ++ D)) := by
  have h1 := appends_bind (CStream.Write_appends 4 1) (appends_bind (CStream.Write_appends 2 v.vt) h)
  intro data
  have := h1 data
  simpa [WriteVariantToStream, WriteToStream, hb, longBits, pure, Except.pure] using this

theorem readVariant_consumes (host : Host) (fuel vt : Nat) (v : VARIANT) (W D : List Nat)
    (hvt : vt < 65536) (hW : W.length = 4)
    (h : Consumes (ReadDataFromStream host fuel vt) D v) :
    Consumes (ReadVariantFromStream host fuel) (W ++ (toBytesLE 2 vt ++ D)) v := by
  have hver := CStream.Read_consumes W
  rw [hW] at hver
  have htag := CStream.Read_consumes (toBytesLE 2 vt)
  rw [toBytesLE_length, fromBytesLE_toBytesLE, Nat.mod_eq_of_lt (by simpa using hvt)] at htag
  have h1 := consumes_bind (fun s => CStream.Read s 4)
    (fun _ s => CStream.Read s 2 >>= fun r => ReadDataFromStream host fuel r.1 r.2) hver
    (consumes_bind (fun s => CStream.Read s 2) (fun t s => ReadDataFromStream host fuel t s)
      htag h)
  intro pre post data hd
  have := h1 pre post data hd
  simpa [ReadVariantFromStream, ReadFromStream] using this

/-- What is written to an empty stream is,  after rewinding, what is read. -/
theorem round_trip_of {α : Type} {w : IStream → Except Exn IStream}
    {r : IStream → Except Exn (α × IStream)} {B : List Nat} {v : α}
    (hw : Appends w B) (hr : Consumes r B v) :
    ∃ s, w IStream.empty = Except.ok s ∧ s.data = B ∧
      r (RewindStream s) = Except.ok (v, ⟨B, B.length⟩) := by
  have h1 := hw []
  have h2 := hr [] [] B (by simp)
  simp only [List.length_nil, List.nil_append, Nat.zero_add] at h1 h2
  exact ⟨⟨B, B.length⟩, h1, rfl, h2⟩

/-- What `WriteVariantToStream` and `ReadVariantFromStream` do with a fixed-width
scalar, whatever its bits: the value read back holds the bits with which the
member was passed to `Write( Q value )`. -/
theorem scalar_transfer (host : Host) (fuel vt n : Nat) (hfuel : 1 ≤ fuel)
    (hvt : IsFixedScalar vt) :
    ∃ s, WriteVariantToStream host fuel (VARIANT.plain vt (Payload.bits n)) IStream.empty
        = Except.ok s ∧
      ∃ s', ReadVariantFromStream host fuel (RewindStream s)
        = Except.ok (VARIANT.plain vt (Payload.bits (byValue vt n % 256 ^ fixedSize vt)), s') := by
  obtain ⟨f, rfl⟩ : ∃ f, fuel = f + 1 := ⟨fuel - 1, by omega⟩
  have hlt : vt < 65536 := by
    rcases hvt with h | h | h | h | h | h | h | h | h <;> subst h <;> decide
  have hby : (VARIANT.plain vt (Payload.bits n)).V_ISBYREF = false := by
    rcases hvt with h | h | h | h | h | h | h | h | h <;> subst h <;>
      simp +decide [VARIANT.V_ISBYREF, VARIANT.vt]
  have hw := writeVariant_appends host (f + 1) _ _ hby (writeData_fixed host f vt n hvt)
  have hr := readVariant_consumes host (f + 1) vt _ (toBytesLE 4 1) _ hlt (toBytesLE_length _ _)
    (readData_fixed host f vt (toBytesLE (fixedSize vt) (byValue vt n)) hvt
      (toBytesLE_length _ _))
  rw [fromBytesLE_toBytesLE] at hr
  obtain ⟨s, h1, _, h2⟩ := round_trip_of hw hr
  exact ⟨s, h1, _, h2⟩

/-- Claim C1 as stated fails. The 32-bit float with the bits `0x7FA00000`, a
signalling NaN, is written as the bytes 0, 0, 224, 127, which are the bits
`0x7FE00000`: `Write( Q value )` takes the float by value.  Reading gives the
float with these bits, not with the bits written from. -/
theorem signalling_nan_is_read_back_quiet :
    WriteVariantToStream noHost 1 (VARIANT.plain VT_R4 (Payload.bits 2141192192)) IStream.empty
      = Except.ok ⟨[1, 0, 0, 0, 4, 0, 0, 0, 224, 127], 10⟩ ∧
    ReadVariantFromStream noHost 1 (RewindStream ⟨[1, 0, 0, 0, 4, 0, 0, 0, 224, 127], 10⟩)
      = Except.ok (VARIANT.plain VT_R4 (Payload.bits 2145386496),
          ⟨[1, 0, 0, 0, 4, 0, 0, 0, 224, 127], 10⟩) ∧
    2141192192 < 256 ^ fixedSize VT_R4 ∧ IsSignallingNaN32 2141192192 ∧
    (2145386496 : Nat) ≠ 2141192192 := by
  refine ⟨?_, ?_, by decide, by decide, by decide⟩
  · rfl
  · rfl

/-- Claim C1, amended. For every non-array value whose tag is boolean, 8-bit
unsigned, 16-bit signed, 32-bit signed, error code, 32-bit float, 64-bit float,
date or currency, and which, when the tag is one of the three floating-point
tags, is not a signalling NaN, `WriteVariantToStream` to an empty stream
succeeds, and after rewinding `ReadVariantFromStream` succeeds and yields the
value with the same tag and the same payload bits (the bits of the union
member of that tag). -/
theorem scalar_round_trip (host : Host) (fuel vt n : Nat) (hfuel : 1 ≤ fuel)
    (hvt : IsFixedScalar vt) (hkeeps : KeepsBits vt n) :
    ∃ s, WriteVariantToStream host fuel (VARIANT.plain vt (Payload.bits n)) IStream.empty
        = Except.ok s ∧
      ∃ s', ReadVariantFromStream host fuel (RewindStream s)
        = Except.ok (VARIANT.plain vt (Payload.bits (n % 256 ^ fixedSize vt)), s') := by
  have h := scalar_transfer host fuel vt n hfuel hvt
  rw [byValue_of_keepsBits hkeeps] at h
  exact h

/-- Witness of C1 (amended): a 64-bit float that is a quiet NaN. -/
theorem scalar_round_trip_witness :
    KeepsBits VT_R8 9221120237041090561 ∧
    ∃ s, WriteVariantToStream noHost 1
        (VARIANT.plain VT_R8 (Payload.bits 9221120237041090561)) IStream.empty = Except.ok s ∧
      ∃ s', ReadVariantFromStream noHost 1 (RewindStream s)
        = Except.ok (VARIANT.plain VT_R8
            (Payload.bits (9221120237041090561 % 256 ^ fixedSize VT_R8)), s') :=
  ⟨by decide,
    scalar_round_trip noHost 1 VT_R8 9221120237041090561 (by decide) (by decide) (by decide)⟩

/-! ### Strings -/

theorem bytesOfUnits_cons (u : Nat) (s : List Nat) :
    bytesOfUnits (u :: s) = u % 256 :: (u / 256 % 256) :: bytesOfUnits s := by
  simp [bytesOfUnits, toBytesLE]

theorem bytesOfUnits_length : ∀ (s : List Nat), (bytesOfUnits s).length = s.length * 2
  | [] => rfl
  | u :: s => by rw [bytesOfUnits_cons]; simp [bytesOfUnits_length s]; omega

theorem unitsOfBytes_bytesOfUnits : ∀ (s : List Nat), (∀ u, u ∈ s → u < 65536) →
    unitsOfBytes (bytesOfUnits s) = s
  | [], _ => rfl
  | u :: s, h => by
    have hu := h u (List.mem_cons_self _ _)
    rw [bytesOfUnits_cons]
    simp only [unitsOfBytes, fromBytesLE,
      unitsOfBytes_bytesOfUnits s (fun v hv => h v (List.mem_cons_of_mem _ hv))]
    congr 1
    omega

theorem CStream.WriteBSTR_appends (s : List Nat) :
    Appends (fun st => CStream.WriteBSTR st s) (bstrBytes s) := by
  intro data
  have h1 := CStream.Write_appends 4 (wrapULong (s.length * 2)) data
  have hle : wrapULong (s.length * 2) ≤ (bytesOfUnits s).length := by
    rw [bytesOfUnits_length]; exact Nat.mod_le _ _
  simp only [CStream.WriteBSTR, h1, ok_bind, IStream.Write_end, CheckResult, FAILED, bstrBytes]
  simp [List.length_take, Nat.min_eq_left hle, pure, Except.pure, Nat.add_assoc]

theorem CStream.ReadBSTR_consumes (P : List Nat) (hP : P.length < 4294967296) :
    Consumes CStream.ReadBSTR (toBytesLE 4 P.length ++ P)
      ((unitsOfBytes P).take (P.length / 2)) := by
  intro pre post data hd
  have hd' : data = pre ++ (toBytesLE 4 P.length ++ (P ++ post)) := by simp [hd]
  have hlen : CStream.Read ⟨data, pre.length⟩ (toBytesLE 4 P.length).length = _ :=
    CStream.Read_consumes (toBytesLE 4 P.length) pre (P ++ post) data hd'
  rw [toBytesLE_length, fromBytesLE_toBytesLE,
    Nat.mod_eq_of_lt (by simpa using hP)] at hlen
  have hdat := IStream.Read_at (pre ++ toBytesLE 4 P.length) P post
  rw [List.append_assoc, ← hd', List.length_append, toBytesLE_length] at hdat
  simp only [CStream.ReadBSTR, hlen, ok_bind, hdat, CheckResult, FAILED]
  simp [pure, Except.pure, Nat.add_assoc, toBytesLE_length]

theorem writeData_bstr (host : Host) (fuel : Nat) (s : List Nat) :
    Appends (WriteDataToStream host (fuel + 1) (VARIANT.plain VT_BSTR (Payload.bstr s)))
      (bstrBytes s) := by
  intro data
  have := CStream.WriteBSTR_appends s data
  simpa +decide [WriteDataToStream, VARIANT.V_ISARRAY, VARIANT.vt, VARIANT.bstrVal, pure,
    Except.pure] using this

theorem readData_bstr (host : Host) (fuel : Nat) (P : List Nat) (hP : P.length < 4294967296) :
    Consumes (ReadDataFromStream host (fuel + 1) VT_BSTR) (toBytesLE 4 P.length ++ P)
      (VARIANT.plain VT_BSTR (Payload.bstr ((unitsOfBytes P).take (P.length / 2)))) := by
  intro pre post data hd
  have := CStream.ReadBSTR_consumes P hP pre post data hd
  simp +decide [ReadDataFromStream, this, pure, Except.pure]

theorem bstrBytes_of_isBSTR (s : List Nat) (h : IsBSTR s) :
    bstrBytes s = toBytesLE 4 (bytesOfUnits s).length ++ bytesOfUnits s := by
  have hw : wrapULong (s.length * 2) = s.length * 2 := Nat.mod_eq_of_lt h.2
  rw [bstrBytes, hw, bytesOfUnits_length, List.take_of_length_le (by rw [bytesOfUnits_length])]

theorem readData_bstr_units (host : Host) (fuel : Nat) (s : List Nat) (h : IsBSTR s) :
    Consumes (ReadDataFromStream host (fuel + 1) VT_BSTR) (bstrBytes s)
      (VARIANT.plain VT_BSTR (Payload.bstr s)) := by
  have := readData_bstr host fuel (bytesOfUnits s) (by rw [bytesOfUnits_length]; exact h.2)
  rw [unitsOfBytes_bytesOfUnits s h.1, bytesOfUnits_length, Nat.mul_div_cancel _ (by decide),
    List.take_length, ← bytesOfUnits_length, ← bstrBytes_of_isBSTR s h] at this
  exact this

/-- Claim C2. For every string `s` of 16-bit code units (the empty string and
strings with embedded null units included), decoding the encoding of the
string-tagged value holding `s` yields the string-tagged value whose content
is exactly `s`. -/
theorem string_round_trip (host : Host) (fuel : Nat) (s : List Nat) (hfuel : 1 ≤ fuel)
    (hs : IsBSTR s) :
    ∃ st, WriteVariantToStream host fuel (VARIANT.plain VT_BSTR (Payload.bstr s)) IStream.empty
        = Except.ok st ∧
      ∃ st', ReadVariantFromStream host fuel (RewindStream st)
        = Except.ok (VARIANT.plain VT_BSTR (Payload.bstr s), st') := by
  obtain ⟨f, rfl⟩ : ∃ f, fuel = f + 1 := ⟨fuel - 1, by omega⟩
  have hw := writeVariant_appends host (f + 1) _ _
    (by simp +decide [VARIANT.V_ISBYREF, VARIANT.vt]) (writeData_bstr host f s)
  have hr := readVariant_consumes host (f + 1) VT_BSTR _ (toBytesLE 4 1) _ (by decide)
    (toBytesLE_length _ _) (readData_bstr_units host f s hs)
  obtain ⟨st, h1, _, h2⟩ := round_trip_of hw hr
  exact ⟨st, h1, _, h2⟩

/-- Witness of C2: a string with an embedded null unit. -/
theorem string_round_trip_witness :
    IsBSTR [72, 0, 105] ∧
    ∃ st, WriteVariantToStream noHost 1
        (VARIANT.plain VT_BSTR (Payload.bstr [72, 0, 105])) IStream.empty = Except.ok st ∧
      ∃ st', ReadVariantFromStream noHost 1 (RewindStream st)
        = Except.ok (VARIANT.plain VT_BSTR (Payload.bstr [72, 0, 105]), st') :=
  ⟨by decide, string_round_trip noHost 1 [72, 0, 105] (by decide) (by decide)⟩

/-! ### The walker as an odometer -/

theorem wrapLong_of_isLong {x : Int} (h : isLong x) : wrapLong x = x := by
  unfold isLong at h; unfold wrapLong; omega

theorem wrapLong_add_wrapLong (a b : Int) : wrapLong (a + wrapLong b) = wrapLong (a + b) := by
  unfold wrapLong; omega

theorem getD_append_cons_self {α : Type} (L : List α) (x : α) (R : List α) (d : α) :
    (L ++ x :: R).getD L.length d = x := by
  rw [List.getD_append_right _ _ _ _ (Nat.le_refl _)]; simp

theorem set_append_cons_self {α : Type} (L : List α) (x v : α) (R : List α) :
    (L ++ x :: R).set L.length v = L ++ v :: R := by
  simp [List.set_append_right]

theorem nextLoop_eq_odo (m : Nat) : ∀ (d : Nat) (B1 B2 : List SAFEARRAYBOUND) (T D : List Int),
    B1.length = d → B2.length = m → T.length = m →
    CWalkSafeArrayElements.nextLoop (B1 ++ B2) (d + m) m d (T.reverse ++ D)
      = ((odo B2 T).1.reverse ++ D, (odo B2 T).2) := by
  induction m with
  | zero =>
    intro d B1 B2 T D _ h2 h3
    have hT : T = [] := List.length_eq_zero.mp h3
    have hB : B2 = [] := List.length_eq_zero.mp h2
    subst hT; subst hB
    simp [CWalkSafeArrayElements.nextLoop, odo]
  | succ m ih =>
    intro d B1 B2 T D h1 h2 h3
    obtain ⟨b, B2', rfl⟩ := List.exists_cons_of_length_eq_add_one h2
    obtain ⟨x, T', rfl⟩ := List.exists_cons_of_length_eq_add_one h3
    have hl : T'.reverse.length = m := by simpa using h3
    have hi : d + (m + 1) - d - 1 = T'.reverse.length := by omega
    have hb : (B1 ++ b :: B2').getD d default = b := by
      subst h1; exact getD_append_cons_self _ _ _ _
    have hidx : (x :: T').reverse ++ D = T'.reverse ++ x :: D := by simp
    simp only [CWalkSafeArrayElements.nextLoop, hi, hb, hidx, set_append_cons_self,
      getD_append_cons_self, odo]
    by_cases hc : wrapLong (x + 1) ≥ wrapLong (b.lLbound + wrapLong ↑b.cElements)
    · simp only [hc, if_true]
      have := ih (d + 1) (B1 ++ [b]) B2' T' (b.lLbound :: D) (by simp [h1]) (by simpa using h2)
        (by simpa using h3)
      have e1 : B1 ++ [b] ++ B2' = B1 ++ b :: B2' := by simp
      have e2 : d + 1 + m = d + (m + 1) := by omega
      rw [e1, e2] at this
      rw [this]; simp
    · simp only [hc, if_false]
      simp

theorem initLoop_eq (m : Nat) : ∀ (d : Nat) (B1 B2 : List SAFEARRAYBOUND) (T D : List Int),
    B1.length = d → B2.length = m → T.length = m →
    CWalkSafeArrayElements.initLoop (B1 ++ B2) (d + m) m d (T.reverse ++ D)
      = (B2.map (fun b => b.lLbound)).reverse ++ D := by
  induction m with
  | zero =>
    intro d B1 B2 T D _ h2 h3
    have hT : T = [] := List.length_eq_zero.mp h3
    have hB : B2 = [] := List.length_eq_zero.mp h2
    subst hT; subst hB
    simp [CWalkSafeArrayElements.initLoop]
  | succ m ih =>
    intro d B1 B2 T D h1 h2 h3
    obtain ⟨b, B2', rfl⟩ := List.exists_cons_of_length_eq_add_one h2
    obtain ⟨x, T', rfl⟩ := List.exists_cons_of_length_eq_add_one h3
    have hl : T'.reverse.length = m := by simpa using h3
    have hi : d + (m + 1) - d - 1 = T'.reverse.length := by omega
    have hb : (B1 ++ b :: B2').getD d default = b := by
      subst h1; exact getD_append_cons_self _ _ _ _
    have hidx : (x :: T').reverse ++ D = T'.reverse ++ x :: D := by simp
    simp only [CWalkSafeArrayElements.initLoop, hi, hb, hidx, set_append_cons_self]
    have := ih (d + 1) (B1 ++ [b]) B2' T' (b.lLbound :: D) (by simp [h1]) (by simpa using h2)
      (by simpa using h3)
    have e1 : B1 ++ [b] ++ B2' = B1 ++ b :: B2' := by simp
    have e2 : d + 1 + m = d + (m + 1) := by omega
    rw [e1, e2] at this
    rw [this]; simp

theorem Initialize_new (bs : List SAFEARRAYBOUND) :
    (CWalkSafeArrayElements.new bs).Initialize = walkAt bs (bs.map (fun b => b.lLbound)) := by
  have h := initLoop_eq bs.length 0 [] bs (List.replicate bs.length 0) [] rfl rfl (by simp)
  simp only [List.nil_append, Nat.zero_add, List.reverse_replicate, List.append_nil] at h
  simp [CWalkSafeArrayElements.Initialize, CWalkSafeArrayElements.new, walkAt, h]

theorem GetIndex_walkAt (bs : List SAFEARRAYBOUND) (T : List Int) :
    (walkAt bs T).GetIndex = (walkAt bs T, T.reverse) := by
  simp [CWalkSafeArrayElements.GetIndex, walkAt]

theorem Next_walkAt (bs : List SAFEARRAYBOUND) (T : List Int) (h : T.length = bs.length) :
    (walkAt bs T).Next = (walkAt bs (odo bs T).1, (odo bs T).2) := by
  have h' := nextLoop_eq_odo bs.length 0 [] bs T [] rfl rfl h
  simp only [List.nil_append, Nat.zero_add, List.append_nil] at h'
  simp [CWalkSafeArrayElements.Next, walkAt, h']

theorem GetIndex_new (bs : List SAFEARRAYBOUND) :
    (CWalkSafeArrayElements.new bs).GetIndex
      = (walkAt bs (bs.map (fun b => b.lLbound)), (bs.map (fun b => b.lLbound)).reverse) := by
  have := Initialize_new bs
  simp only [CWalkSafeArrayElements.GetIndex, CWalkSafeArrayElements.new] at *
  simp [this, walkAt]

theorem Next_new (bs : List SAFEARRAYBOUND) :
    (CWalkSafeArrayElements.new bs).Next = (walkAt bs (bs.map (fun b => b.lLbound))).Next := by
  have := Initialize_new bs
  simp only [CWalkSafeArrayElements.Next, CWalkSafeArrayElements.new] at *
  simp [this, walkAt]

theorem odo_length : ∀ (bs : List SAFEARRAYBOUND) (T : List Int), (odo bs T).1.length = T.length
  | [], T => by simp [odo]
  | _ :: _, [] => by simp [odo]
  | b :: bs, x :: xs => by
    simp only [odo]
    split
    · simp [odo_length bs xs]
    · simp

/-! ### The walk in closed form -/

theorem tupleOf_length : ∀ (bs : List SAFEARRAYBOUND) (k : Nat), (tupleOf bs k).length = bs.length
  | [], _ => rfl
  | _ :: bs, k => by simp [tupleOf, tupleOf_length bs]

theorem tupleOf_zero : ∀ (bs : List SAFEARRAYBOUND), tupleOf bs 0 = bs.map (fun b => b.lLbound)
  | [] => rfl
  | b :: bs => by simp [tupleOf, tupleOf_zero bs]

theorem ShapeOK.tail {b : SAFEARRAYBOUND} {bs : List SAFEARRAYBOUND} (h : ShapeOK (b :: bs)) :
    ShapeOK bs := fun c hc => h c (List.mem_cons_of_mem _ hc)

theorem ShapeOK.head {b : SAFEARRAYBOUND} {bs : List SAFEARRAYBOUND} (h : ShapeOK (b :: bs)) :
    1 ≤ b.cElements ∧ isLong b.lLbound ∧ isLong (b.lLbound + (b.cElements : Int)) :=
  h b (List.mem_cons_self _ _)

theorem cellCount_cons (b : SAFEARRAYBOUND) (bs : List SAFEARRAYBOUND) :
    cellCount (b :: bs) = b.cElements * cellCount bs := by
  simp [cellCount]

theorem cellCount_pos : ∀ {bs : List SAFEARRAYBOUND}, ShapeOK bs → 0 < cellCount bs
  | [], _ => by simp [cellCount]
  | b :: bs, h => by
    rw [cellCount_cons]
    exact Nat.mul_pos h.head.1 (cellCount_pos h.tail)

theorem succ_mod_of_lt {k e : Nat} (h : k % e + 1 < e) :
    (k + 1) % e = k % e + 1 ∧ (k + 1) / e = k / e := by
  have he : 0 < e := by omega
  have h1 : k + 1 = (k % e + 1) + e * (k / e) := by
    have := Nat.mod_add_div k e; omega
  constructor
  · rw [h1, Nat.add_mul_mod_self_left, Nat.mod_eq_of_lt h]
  · rw [h1, Nat.add_mul_div_left _ _ he, Nat.div_eq_of_lt h]; simp

theorem succ_eq_mul_of_eq {k e : Nat} (h : k % e + 1 = e) : k + 1 = e * (k / e + 1) := by
  have := Nat.mod_add_div k e
  rw [Nat.mul_add]; omega

theorem odo_tupleOf : ∀ (bs : List SAFEARRAYBOUND) (k : Nat), ShapeOK bs → k < cellCount bs →
    odo bs (tupleOf bs k)
      = (tupleOf bs ((k + 1) % cellCount bs), decide (k + 1 < cellCount bs))
  | [], k, _, hk => by
    simp [cellCount] at hk
    subst hk
    simp [odo, tupleOf, cellCount]
  | b :: bs, k, hs, hk => by
    obtain ⟨he, hl, hu⟩ := hs.head
    rw [cellCount_cons] at hk ⊢
    have hr : k % b.cElements < b.cElements := Nat.mod_lt _ he
    have hq : k / b.cElements < cellCount bs := Nat.div_lt_of_lt_mul hk
    have hP := cellCount_pos hs.tail
    have ih := odo_tupleOf bs (k / b.cElements) hs.tail hq
    have hw1 : wrapLong (b.lLbound + ((k % b.cElements : Nat) : Int) + 1)
        = b.lLbound + ((k % b.cElements : Nat) : Int) + 1 := by
      apply wrapLong_of_isLong
      unfold isLong at *
      omega
    have hw2 : wrapLong (b.lLbound + wrapLong (b.cElements : Int))
        = b.lLbound + (b.cElements : Int) := by
      rw [wrapLong_add_wrapLong]; exact wrapLong_of_isLong hu
    simp only [tupleOf, odo, hw1, hw2]
    by_cases hc : k % b.cElements + 1 < b.cElements
    · have hno : ¬ (b.lLbound + ((k % b.cElements : Nat) : Int) + 1
          ≥ b.lLbound + (b.cElements : Int)) := by omega
      obtain ⟨m1, m2⟩ := succ_mod_of_lt hc
      have hlt : k + 1 < b.cElements * cellCount bs := by
        have h1 : k + 1 = (k % b.cElements + 1) + b.cElements * (k / b.cElements) := by
          have := Nat.mod_add_div k b.cElements; omega
        have h2 : b.cElements * (k / b.cElements + 1) ≤ b.cElements * cellCount bs :=
          Nat.mul_le_mul_left _ hq
        rw [Nat.mul_add] at h2
        omega
      simp only [hno, if_false, Nat.mod_eq_of_lt hlt, m1, m2, hlt, decide_True]
      simp; omega
    · have heq : k % b.cElements + 1 = b.cElements := by omega
      have hyes : b.lLbound + ((k % b.cElements : Nat) : Int) + 1
          ≥ b.lLbound + (b.cElements : Int) := by omega
      have hk1 := succ_eq_mul_of_eq heq
      simp only [hyes, if_true, ih, hk1, Nat.mul_mod_mul_left]
      have e1 : b.cElements * ((k / b.cElements + 1) % cellCount bs) % b.cElements = 0 :=
        Nat.mul_mod_right _ _
      have e2 : b.cElements * ((k / b.cElements + 1) % cellCount bs) / b.cElements
          = (k / b.cElements + 1) % cellCount bs := Nat.mul_div_cancel_left _ he
      rw [e1, e2]
      have e3 : (b.cElements * (k / b.cElements + 1) < b.cElements * cellCount bs)
          ↔ (k / b.cElements + 1 < cellCount bs) := Nat.mul_lt_mul_left he
      simp [e3]

theorem walkFrom_walkAt (bs : List SAFEARRAYBOUND) (hs : ShapeOK bs) :
    ∀ (n k fuel : Nat), k + n + 1 = cellCount bs → n + 1 ≤ fuel →
      walkFrom fuel (walkAt bs (tupleOf bs k))
        = some ((List.range' k (n + 1)).map (fun j => (tupleOf bs j).reverse)) := by
  intro n
  induction n with
  | zero =>
    intro k fuel hk hf
    obtain ⟨f, rfl⟩ : ∃ f, fuel = f + 1 := ⟨fuel - 1, by omega⟩
    have hlt : k < cellCount bs := by omega
    have hno : ¬ (k + 1 < cellCount bs) := by omega
    simp [walkFrom, GetIndex_walkAt, Next_walkAt _ _ (tupleOf_length bs k),
      odo_tupleOf bs k hs hlt, hno]
  | succ n ih =>
    intro k fuel hk hf
    obtain ⟨f, rfl⟩ : ∃ f, fuel = f + 1 := ⟨fuel - 1, by omega⟩
    have hlt : k < cellCount bs := by omega
    have hyes : k + 1 < cellCount bs := by omega
    have := ih (k + 1) f (by omega) (by omega)
    simp only [walkFrom, GetIndex_walkAt, Next_walkAt _ _ (tupleOf_length bs k),
      odo_tupleOf bs k hs hlt, hyes, decide_True, if_true, Nat.mod_eq_of_lt hyes, this]
    simp [List.range'_succ]

theorem walkFrom_new (fuel : Nat) (bs : List SAFEARRAYBOUND) :
    walkFrom fuel (CWalkSafeArrayElements.new bs) = walkFrom fuel (walkAt bs (tupleOf bs 0)) := by
  cases fuel with
  | zero => rfl
  | succ f =>
    simp only [walkFrom, GetIndex_new, Next_new, tupleOf_zero, GetIndex_walkAt]

/-- The walk as a closed form. -/
theorem walkTuples_eq (bs : List SAFEARRAYBOUND) (hs : ShapeOK bs) (fuel : Nat)
    (hf : cellCount bs ≤ fuel) :
    walkTuples fuel bs
      = some ((List.range (cellCount bs)).map (fun j => (tupleOf bs j).reverse)) := by
  have hP := cellCount_pos hs
  rw [walkTuples, walkFrom_new,
    walkFrom_walkAt bs hs (cellCount bs - 1) 0 fuel (by omega) (by omega)]
  have : cellCount bs - 1 + 1 = cellCount bs := by omega
  rw [this, List.range_eq_range']

/-! ### Tuples of the walk: injectivity and bounds -/

theorem numOf_tupleOf : ∀ (bs : List SAFEARRAYBOUND) (k : Nat), ShapeOK bs → k < cellCount bs →
    numOf bs (tupleOf bs k) = k
  | [], k, _, hk => by
    simp [cellCount] at hk; simp [numOf, tupleOf, hk]
  | b :: bs, k, hs, hk => by
    obtain ⟨he, _, _⟩ := hs.head
    rw [cellCount_cons] at hk
    have hq : k / b.cElements < cellCount bs := Nat.div_lt_of_lt_mul hk
    simp only [tupleOf, numOf, numOf_tupleOf bs _ hs.tail hq]
    rw [show b.lLbound + ((k % b.cElements : Nat) : Int) - b.lLbound
        = ((k % b.cElements : Nat) : Int) by omega, Int.toNat_ofNat]
    exact Nat.mod_add_div k b.cElements

theorem tupleOf_injOn (bs : List SAFEARRAYBOUND) (hs : ShapeOK bs) {i j : Nat}
    (hi : i < cellCount bs) (hj : j < cellCount bs)
    (h : (tupleOf bs i).reverse = (tupleOf bs j).reverse) : i = j := by
  have h' : tupleOf bs i = tupleOf bs j := List.reverse_injective h
  rw [← numOf_tupleOf bs i hs hi, ← numOf_tupleOf bs j hs hj, h']

/-- Bounds of the mixed-radix digits, in the order of `rgsabound`. -/
theorem tupleOf_bounds : ∀ (bs : List SAFEARRAYBOUND) (k : Nat), ShapeOK bs →
    ∀ d, d < bs.length →
      (bs.getD d default).lLbound ≤ (tupleOf bs k).getD d 0 ∧
      (tupleOf bs k).getD d 0 < (bs.getD d default).lLbound + ((bs.getD d default).cElements : Int)
  | [], _, _, d, hd => by simp at hd
  | b :: bs, k, hs, 0, _ => by
    obtain ⟨he, _, _⟩ := hs.head
    have := Nat.mod_lt k he
    simp [tupleOf]; omega
  | b :: bs, k, hs, d + 1, hd => by
    have := tupleOf_bounds bs (k / b.cElements) hs.tail d (by simpa using hd)
    simpa [tupleOf] using this

theorem getD_reverse {α : Type} (l : List α) (i : Nat) (a : α) (h : i < l.length) :
    l.reverse.getD i a = l.getD (l.length - 1 - i) a := by
  simp [List.getD_eq_getElem?_getD, List.getElem?_reverse h]

theorem tupleOf_inBounds (bs : List SAFEARRAYBOUND) (k : Nat) (hs : ShapeOK bs) :
    tupleInBounds bs (tupleOf bs k).reverse := by
  refine ⟨by simp [tupleOf_length], ?_⟩
  intro i hi
  have hb := tupleOf_bounds bs k hs (bs.length - 1 - i) (by omega)
  rw [declared, getD_reverse _ _ _ hi, getD_reverse _ _ _ (by simpa [tupleOf_length] using hi),
    tupleOf_length]
  exact hb

theorem zip_all_iff (p : Int × SAFEARRAYBOUND → Bool) :
    ∀ (t : List Int) (rs : List SAFEARRAYBOUND), t.length = rs.length →
      ((List.zip t rs).all p = true ↔ ∀ i, i < rs.length → p (t.getD i 0, rs.getD i default) = true)
  | [], [], _ => by simp
  | [], _ :: _, h => by simp at h
  | _ :: _, [], h => by simp at h
  | x :: t, r :: rs, h => by
    have ih := zip_all_iff p t rs (by simpa using h)
    simp only [List.zip_cons_cons, List.all_cons, Bool.and_eq_true, ih, List.length_cons]
    constructor
    · rintro ⟨h0, hr⟩ i hi
      cases i with
      | zero => simpa using h0
      | succ i => simpa using hr i (by omega)
    · intro hall
      exact ⟨by simpa using hall 0 (by omega), fun i hi => by simpa using hall (i + 1) (by omega)⟩

theorem indexInRange_iff (bs : List SAFEARRAYBOUND) (t : List Int) :
    indexInRange bs t = true ↔ tupleInBounds bs t := by
  unfold indexInRange tupleInBounds declared
  constructor
  · intro h
    simp only [Bool.and_eq_true, beq_iff_eq] at h
    obtain ⟨hl, ha⟩ := h
    refine ⟨hl, ?_⟩
    intro i hi
    have := (zip_all_iff _ t bs.reverse (by simpa using hl)).mp ha i (by simpa using hi)
    simpa using this
  · rintro ⟨hl, hb⟩
    simp only [Bool.and_eq_true, beq_iff_eq]
    refine ⟨hl, ?_⟩
    apply (zip_all_iff _ t bs.reverse (by simpa using hl)).mpr
    intro i hi
    have := hb i (by simpa using hi)
    simpa using this

/-! ### Coverage and order of the walk -/

theorem tupleOf_numOf : ∀ (bs : List SAFEARRAYBOUND) (T : List Int), T.length = bs.length →
    (∀ d, d < bs.length →
      (bs.getD d default).lLbound ≤ T.getD d 0 ∧
      T.getD d 0 < (bs.getD d default).lLbound + ((bs.getD d default).cElements : Int)) →
    tupleOf bs (numOf bs T) = T ∧ numOf bs T < cellCount bs
  | [], [], _, _ => by simp [tupleOf, numOf, cellCount]
  | [], _ :: _, h, _ => by simp at h
  | _ :: _, [], h, _ => by simp at h
  | b :: bs, x :: T, h, hb => by
    have h0 := hb 0 (by simp)
    simp only [List.getD_cons_zero] at h0
    have ih := tupleOf_numOf bs T (by simpa using h)
      (fun d hd => by simpa using hb (d + 1) (by simpa using hd))
    obtain ⟨r, hr⟩ : ∃ r : Nat, x - b.lLbound = (r : Int) := ⟨(x - b.lLbound).toNat, by omega⟩
    have hre : r < b.cElements := by omega
    have he : 0 < b.cElements := by omega
    simp only [numOf, tupleOf, hr, Int.toNat_ofNat, cellCount_cons]
    rw [Nat.add_mul_mod_self_left, Nat.mod_eq_of_lt hre, Nat.add_mul_div_left _ _ he,
      Nat.div_eq_of_lt hre, Nat.zero_add, ih.1]
    refine ⟨by congr 1; omega, ?_⟩
    calc r + b.cElements * numOf bs T < b.cElements + b.cElements * numOf bs T := by omega
      _ = b.cElements * (numOf bs T + 1) := by rw [Nat.mul_add]; omega
      _ ≤ b.cElements * cellCount bs := Nat.mul_le_mul_left _ ih.2

/-- Every index within the bounds is a tuple of the walk. -/
theorem exists_tupleOf_of_inBounds (bs : List SAFEARRAYBOUND) (t : List Int)
    (h : tupleInBounds bs t) :
    ∃ k, k < cellCount bs ∧ (tupleOf bs k).reverse = t := by
  obtain ⟨hl, hb⟩ := h
  have key := tupleOf_numOf bs t.reverse (by simpa using hl) (by
    intro d hd
    have := hb (bs.length - 1 - d) (by omega)
    rw [declared, getD_reverse _ _ _ (by omega)] at this
    rw [getD_reverse _ _ _ (by omega), hl]
    have e : bs.length - 1 - (bs.length - 1 - d) = d := by omega
    rw [e] at this
    exact this)
  exact ⟨numOf bs t.reverse, key.2, by rw [key.1]; simp⟩

theorem lex_append_of_lex {a b : List Int} (x y : List Int)
    (h : List.Lex (· < ·) a b) (hl : a.length = b.length) :
    List.Lex (· < ·) (a ++ x) (b ++ y) := by
  induction h with
  | nil => simp at hl
  | cons _ ih => exact List.Lex.cons (ih (by simpa using hl))
  | rel hr => exact List.Lex.rel hr

theorem tupleOf_lex : ∀ (bs : List SAFEARRAYBOUND) (i j : Nat), ShapeOK bs → i < j →
    j < cellCount bs → List.Lex (· < ·) (tupleOf bs i).reverse (tupleOf bs j).reverse
  | [], i, j, _, hij, hj => by simp [cellCount] at hj; omega
  | b :: bs, i, j, hs, hij, hj => by
    obtain ⟨he, _, _⟩ := hs.head
    rw [cellCount_cons] at hj
    have hq : j / b.cElements < cellCount bs := Nat.div_lt_of_lt_mul hj
    have hle : i / b.cElements ≤ j / b.cElements := Nat.div_le_div_right (Nat.le_of_lt hij)
    simp only [tupleOf, List.reverse_cons]
    rcases Nat.lt_or_eq_of_le hle with hlt | heq
    · exact lex_append_of_lex _ _ (tupleOf_lex bs _ _ hs.tail hlt hq)
        (by simp [tupleOf_length])
    · rw [heq]
      apply List.Lex.append_left
      apply List.Lex.rel
      have h1 := Nat.mod_add_div i b.cElements
      have h2 := Nat.mod_add_div j b.cElements
      rw [heq] at h1
      omega

theorem tupleOf_last : ∀ (bs : List SAFEARRAYBOUND), ShapeOK bs →
    tupleOf bs (cellCount bs - 1)
      = bs.map (fun b => b.lLbound + (b.cElements : Int) - 1)
  | [], _ => rfl
  | b :: bs, hs => by
    obtain ⟨he, _, _⟩ := hs.head
    have hP := cellCount_pos hs.tail
    have hk : b.cElements * cellCount bs - 1
        = (b.cElements - 1) + b.cElements * (cellCount bs - 1) := by
      have : b.cElements * cellCount bs = b.cElements * (cellCount bs - 1) + b.cElements := by
        rw [← Nat.mul_succ]; congr 1; omega
      omega
    have hlt : b.cElements - 1 < b.cElements := by omega
    simp only [tupleOf, cellCount_cons, List.map_cons]
    rw [hk, Nat.add_mul_mod_self_left, Nat.mod_eq_of_lt hlt, Nat.add_mul_div_left _ _ he,
      Nat.div_eq_of_lt hlt, Nat.zero_add, tupleOf_last bs hs.tail]
    congr 1
    omega

/-! ### Digits of the walk -/

theorem cellCount_append (a b : List SAFEARRAYBOUND) :
    cellCount (a ++ b) = cellCount a * cellCount b := by
  simp [cellCount]

theorem tupleOf_getD : ∀ (bs : List SAFEARRAYBOUND) (k d : Nat), d < bs.length →
    (tupleOf bs k).getD d 0
      = (bs.getD d default).lLbound
        + (((k / cellCount (bs.take d)) % (bs.getD d default).cElements : Nat) : Int)
  | [], _, d, hd => by simp at hd
  | b :: bs, k, 0, _ => by simp [tupleOf, cellCount]
  | b :: bs, k, d + 1, hd => by
    have := tupleOf_getD bs (k / b.cElements) d (by simpa using hd)
    simp only [tupleOf, List.getD_cons_succ, List.take_succ_cons, cellCount_cons, this,
      Nat.div_div_eq_div_mul]

/-! ### The last tuple -/

theorem next_at_tupleOf (bs : List SAFEARRAYBOUND) (hs : ShapeOK bs) (k : Nat)
    (hk : k < cellCount bs) :
    (CWalkSafeArrayElements.Next ⟨bs, (tupleOf bs k).reverse, true⟩).2
      = decide (k + 1 < cellCount bs) := by
  have := Next_walkAt bs (tupleOf bs k) (tupleOf_length bs k)
  rw [walkAt] at this
  rw [this, odo_tupleOf bs k hs hk]

theorem tupleOf_eq_max_iff (bs : List SAFEARRAYBOUND) (hs : ShapeOK bs) (k : Nat)
    (hk : k < cellCount bs) :
    (tupleOf bs k).reverse = maxTuple bs ↔ k + 1 = cellCount bs := by
  have hP := cellCount_pos hs
  have hlast := tupleOf_last bs hs
  have hmax : maxTuple bs = (tupleOf bs (cellCount bs - 1)).reverse := by
    rw [hlast, maxTuple, declared, List.map_reverse]
  rw [hmax]
  constructor
  · intro h
    have := tupleOf_injOn bs hs hk (by omega) h
    omega
  · intro h
    have : k = cellCount bs - 1 := by omega
    rw [this]

/-! ### Array headers -/

theorem boundsBytes_cons (b : SAFEARRAYBOUND) (rg : List SAFEARRAYBOUND) :
    boundsBytes (b :: rg)
      = toBytesLE 4 (longBits b.lLbound) ++ (toBytesLE 4 b.cElements ++ boundsBytes rg) := by
  simp [boundsBytes]

theorem writeBounds_appends : ∀ (rg : List SAFEARRAYBOUND),
    Appends (writeBounds rg) (boundsBytes rg)
  | [] => by intro data; simp [writeBounds, boundsBytes, pure, Except.pure]
  | b :: rg => by
    have h := appends_bind (CStream.Write_appends 4 (longBits b.lLbound))
      (appends_bind (CStream.Write_appends 4 b.cElements) (writeBounds_appends rg))
    rw [← boundsBytes_cons] at h
    intro data
    simpa [writeBounds] using h data

theorem WriteSafeArrayHeader_appends (sa : SAFEARRAY) :
    Appends (WriteSafeArrayHeader sa) (headerBytes sa.rgsabound) := by
  have h := appends_bind (CStream.Write_appends 2 sa.cDims) (writeBounds_appends sa.rgsabound)
  intro data
  simpa [WriteSafeArrayHeader, headerBytes, SAFEARRAY.cDims] using h data

theorem wrapLong_longBits {x : Int} (h : isLong x) : wrapLong ((longBits x : Nat) : Int) = x := by
  unfold isLong at h
  unfold wrapLong longBits
  omega

theorem longBits_lt (x : Int) : longBits x < 4294967296 := by
  unfold longBits; omega

theorem readBounds_consumes : ∀ (rg : List SAFEARRAYBOUND),
    (∀ b, b ∈ rg → isLong b.lLbound ∧ b.cElements < 4294967296) →
    Consumes (readBounds rg.length) (boundsBytes rg) rg
  | [], _ => by
    intro pre post data _
    simp [readBounds, boundsBytes, pure, Except.pure]
  | b :: rg, h => by
    obtain ⟨hl, he⟩ := h b (List.mem_cons_self _ _)
    have ih := readBounds_consumes rg (fun c hc => h c (List.mem_cons_of_mem _ hc))
    have h1 := CStream.Read_consumes (toBytesLE 4 (longBits b.lLbound))
    have h2 := CStream.Read_consumes (toBytesLE 4 b.cElements)
    rw [toBytesLE_length, fromBytesLE_toBytesLE] at h1 h2
    rw [Nat.mod_eq_of_lt (by simpa using longBits_lt b.lLbound)] at h1
    rw [Nat.mod_eq_of_lt (by simpa using he)] at h2
    intro pre post data hd
    rw [boundsBytes_cons] at hd ⊢
    have e1 := h1 pre (toBytesLE 4 b.cElements ++ boundsBytes rg ++ post) data (by simp [hd])
    have e2 := h2 (pre ++ toBytesLE 4 (longBits b.lLbound)) (boundsBytes rg ++ post) data
      (by simp [hd])
    have e3 := ih (pre ++ toBytesLE 4 (longBits b.lLbound) ++ toBytesLE 4 b.cElements) post data
      (by simp [hd])
    simp only [List.length_append, toBytesLE_length] at e1 e2 e3
    simp only [readBounds, List.length_cons, e1, ok_bind, e2, e3, wrapLong_longBits hl]
    simp [pure, Except.pure, toBytesLE_length]
    omega

theorem ReadSafeArrayHeader_eq (vt cb : Nat) (rg : List SAFEARRAYBOUND)
    (hd1 : 1 ≤ rg.length) (hd2 : rg.length < 65536)
    (hb : ∀ b, b ∈ rg → isLong b.lLbound ∧ b.cElements < 4294967296)
    (hsz : GetTypeSize vt = Except.ok cb)
    (pre post data : List Nat) (hd : data = pre ++ (headerBytes rg ++ post)) :
    ReadSafeArrayHeader vt ⟨data, pre.length⟩
      = Except.ok (vt ||| VT_ARRAY, allocated vt cb rg,
          ⟨data, pre.length + (headerBytes rg).length⟩) := by
  have h1 := CStream.Read_consumes (toBytesLE 2 rg.length)
  rw [toBytesLE_length, fromBytesLE_toBytesLE, Nat.mod_eq_of_lt (by simpa using hd2)] at h1
  have e1 : CStream.Read ⟨data, pre.length⟩ 2 = _ :=
    h1 pre (boundsBytes rg ++ post) data (by simp [hd, headerBytes])
  have e2 := readBounds_consumes rg hb (pre ++ toBytesLE 2 rg.length) post data
    (by simp [hd, headerBytes])
  simp only [List.length_append, toBytesLE_length] at e1 e2
  have hne : rg.length ≠ 0 := by omega
  simp only [ReadSafeArrayHeader, e1, ok_bind, SafeArrayAllocDescriptor, hne, if_false,
    CheckResult, FAILED, e2, hsz, SafeArrayAllocData]
  simp only [allocated, featuresOf, headerBytes, List.length_append, toBytesLE_length]
  by_cases c1 : vt = VT_BSTR
  · simp [c1, pure, Except.pure, Nat.add_assoc, e2]
  · by_cases c2 : vt = VT_UNKNOWN
    · simp [c2, pure, Except.pure, Nat.add_assoc, e2]
    · by_cases c3 : vt = VT_DISPATCH
      · simp [c3, pure, Except.pure, Nat.add_assoc, e2]
      · by_cases c4 : vt = VT_VARIANT
        · simp [c4, pure, Except.pure, Nat.add_assoc, e2]
        · simp [c1, c2, c3, c4, pure, Except.pure, Nat.add_assoc, e2]

/-! ### The element loops -/

theorem writeLoop_succ (write : VARIANT → IStream → Except Exn IStream) (vt : Nat)
    (sa : SAFEARRAY) (fuel : Nat) (rg : List SAFEARRAYBOUND) (T : List Int)
    (hT : T.length = rg.length) (s : IStream) :
    writeLoop write vt sa (fuel + 1) (walkAt rg T) s
      = SafeArrayGetElementAsVariant sa T.reverse vt >>= fun temp =>
          writeElem write vt temp s >>= fun s' =>
            if (odo rg T).2 then writeLoop write vt sa fuel (walkAt rg (odo rg T).1) s'
            else pure s' := by
  simp only [writeLoop, GetIndex_walkAt, Next_walkAt rg T hT, writeElem, bind_assoc]
  by_cases hv : VT_VARIANT = vt <;> simp [hv]

theorem readLoop_succ (read : Nat → IStream → Except Exn (VARIANT × IStream)) (vt : Nat)
    (fuel : Nat) (rg : List SAFEARRAYBOUND) (T : List Int) (hT : T.length = rg.length)
    (sa : SAFEARRAY) (s : IStream) :
    readLoop read vt (fuel + 1) (walkAt rg T) sa s
      = readElem read vt s >>= fun r =>
          SafeArrayPutElementFromVariant sa T.reverse r.1 >>= fun sa' =>
            if (odo rg T).2 then readLoop read vt fuel (walkAt rg (odo rg T).1) sa' r.2
            else pure (sa', r.2) := by
  simp only [readLoop, GetIndex_walkAt, Next_walkAt rg T hT, readElem, bind_assoc]
  by_cases hv : VT_VARIANT = vt <;> simp [hv]

theorem writeLoop_new (write : VARIANT → IStream → Except Exn IStream) (vt : Nat)
    (sa : SAFEARRAY) (fuel : Nat) (rg : List SAFEARRAYBOUND) (s : IStream) :
    writeLoop write vt sa fuel (CWalkSafeArrayElements.new rg) s
      = writeLoop write vt sa fuel (walkAt rg (tupleOf rg 0)) s := by
  cases fuel with
  | zero => rfl
  | succ f => simp only [writeLoop, GetIndex_new, Next_new, tupleOf_zero, GetIndex_walkAt]

theorem readLoop_new (read : Nat → IStream → Except Exn (VARIANT × IStream)) (vt : Nat)
    (fuel : Nat) (rg : List SAFEARRAYBOUND) (sa : SAFEARRAY) (s : IStream) :
    readLoop read vt fuel (CWalkSafeArrayElements.new rg) sa s
      = readLoop read vt fuel (walkAt rg (tupleOf rg 0)) sa s := by
  cases fuel with
  | zero => rfl
  | succ f => simp only [readLoop, GetIndex_new, Next_new, tupleOf_zero, GetIndex_walkAt]

theorem writeLoop_appends (write : VARIANT → IStream → Except Exn IStream) (vt : Nat)
    (sa : SAFEARRAY) (rg : List SAFEARRAYBOUND) (hs : ShapeOK rg) (elemBytes : Nat → List Nat)
    (hstep : ∀ k, k < cellCount rg → ∃ temp,
      SafeArrayGetElementAsVariant sa (tupleOf rg k).reverse vt = Except.ok temp ∧
      Appends (writeElem write vt temp) (elemBytes k)) :
    ∀ (n k fuel : Nat), k + n + 1 = cellCount rg → n + 1 ≤ fuel →
      Appends (writeLoop write vt sa fuel (walkAt rg (tupleOf rg k)))
        ((List.range' k (n + 1)).flatMap elemBytes) := by
  intro n
  induction n with
  | zero =>
    intro k fuel hk hf data
    obtain ⟨f, rfl⟩ : ∃ f, fuel = f + 1 := ⟨fuel - 1, by omega⟩
    have hlt : k < cellCount rg := by omega
    have hno : ¬ (k + 1 < cellCount rg) := by omega
    obtain ⟨temp, hget, happ⟩ := hstep k hlt
    rw [writeLoop_succ _ _ _ _ _ _ (tupleOf_length rg k), hget, ok_bind, happ data, ok_bind,
      odo_tupleOf rg k hs hlt]
    simp [hno, pure, Except.pure]
  | succ n ih =>
    intro k fuel hk hf data
    obtain ⟨f, rfl⟩ : ∃ f, fuel = f + 1 := ⟨fuel - 1, by omega⟩
    have hlt : k < cellCount rg := by omega
    have hyes : k + 1 < cellCount rg := by omega
    obtain ⟨temp, hget, happ⟩ := hstep k hlt
    have := ih (k + 1) f (by omega) (by omega) (data ++ elemBytes k)
    rw [writeLoop_succ _ _ _ _ _ _ (tupleOf_length rg k), hget, ok_bind, happ data, ok_bind,
      odo_tupleOf rg k hs hlt]
    simp only [hyes, decide_True, if_true, Nat.mod_eq_of_lt hyes, this]
    simp [List.range'_succ]

theorem readLoop_consumes (read : Nat → IStream → Except Exn (VARIANT × IStream)) (vt : Nat)
    (rg : List SAFEARRAYBOUND) (hs : ShapeOK rg) (ff cb : Nat) (elemBytes : Nat → List Nat)
    (cellOut : Nat → VARIANT)
    (hstep : ∀ k, k < cellCount rg → ∃ temp,
      Consumes (readElem read vt) (elemBytes k) temp ∧
      ∀ sa : SAFEARRAY, sa.rgsabound = rg → sa.fFeatures = ff → sa.cbElements = cb →
        SafeArrayPutElementFromVariant sa (tupleOf rg k).reverse temp
          = Except.ok (putCell sa (tupleOf rg k).reverse (cellOut k))) :
    ∀ (n k fuel : Nat) (sa : SAFEARRAY), sa.rgsabound = rg → sa.fFeatures = ff →
      sa.cbElements = cb → k + n + 1 = cellCount rg → n + 1 ≤ fuel →
      Consumes (readLoop read vt fuel (walkAt rg (tupleOf rg k)) sa)
        ((List.range' k (n + 1)).flatMap elemBytes) (putCells rg cellOut sa k (n + 1)) := by
  intro n
  induction n with
  | zero =>
    intro k fuel sa h1 h2 h3 hk hf pre post data hd
    obtain ⟨f, rfl⟩ : ∃ f, fuel = f + 1 := ⟨fuel - 1, by omega⟩
    have hlt : k < cellCount rg := by omega
    have hno : ¬ (k + 1 < cellCount rg) := by omega
    obtain ⟨temp, hcon, hput⟩ := hstep k hlt
    have e1 := hcon pre post data (by simpa using hd)
    rw [readLoop_succ _ _ _ _ _ (tupleOf_length rg k), e1, ok_bind, hput sa h1 h2 h3, ok_bind,
      odo_tupleOf rg k hs hlt]
    simp [hno, pure, Except.pure, putCells]
  | succ n ih =>
    intro k fuel sa h1 h2 h3 hk hf pre post data hd
    obtain ⟨f, rfl⟩ : ∃ f, fuel = f + 1 := ⟨fuel - 1, by omega⟩
    have hlt : k < cellCount rg := by omega
    have hyes : k + 1 < cellCount rg := by omega
    obtain ⟨temp, hcon, hput⟩ := hstep k hlt
    have hd' : data = pre ++ (elemBytes k
        ++ ((List.range' (k + 1) (n + 1)).flatMap elemBytes ++ post)) := by
      rw [hd, List.range'_succ]; simp
    have e1 := hcon pre _ data hd'
    have e2 := ih (k + 1) f (putCell sa (tupleOf rg k).reverse (cellOut k)) h1 h2 h3
      (by omega) (by omega) (pre ++ elemBytes k) post data (by rw [hd']; simp)
    rw [readLoop_succ _ _ _ _ _ (tupleOf_length rg k), e1, ok_bind, hput sa h1 h2 h3, ok_bind,
      odo_tupleOf rg k hs hlt]
    simp only [hyes, decide_True, if_true, Nat.mod_eq_of_lt hyes]
    simp only [List.length_append] at e2
    rw [e2]
    simp [putCells, List.range'_succ, Nat.add_assoc]

/-! ### Arrays: writing and reading -/

theorem putCells_succ (rg : List SAFEARRAYBOUND) (cellOut : Nat → VARIANT) (sa : SAFEARRAY)
    (k m : Nat) :
    putCells rg cellOut sa k (m + 1)
      = putCells rg cellOut (putCell sa (tupleOf rg k).reverse (cellOut k)) (k + 1) m := by
  simp [putCells, List.range'_succ]

theorem putCells_fields (rg : List SAFEARRAYBOUND) (cellOut : Nat → VARIANT) :
    ∀ (m k : Nat) (sa : SAFEARRAY),
      (putCells rg cellOut sa k m).rgsabound = sa.rgsabound ∧
      (putCells rg cellOut sa k m).fFeatures = sa.fFeatures ∧
      (putCells rg cellOut sa k m).cbElements = sa.cbElements
  | 0, _, _ => by simp [putCells]
  | m + 1, k, sa => by
    rw [putCells_succ]
    have := putCells_fields rg cellOut m (k + 1) (putCell sa (tupleOf rg k).reverse (cellOut k))
    simpa [putCell] using this

theorem putCells_other (rg : List SAFEARRAYBOUND) (cellOut : Nat → VARIANT) (i : List Int) :
    ∀ (m k : Nat) (sa : SAFEARRAY),
      (∀ j, k ≤ j → j < k + m → (tupleOf rg j).reverse ≠ i) →
      (putCells rg cellOut sa k m).pvData i = sa.pvData i
  | 0, _, _, _ => by simp [putCells]
  | m + 1, k, sa, h => by
    rw [putCells_succ,
      putCells_other rg cellOut i m (k + 1) _ (fun j h1 h2 => h j (by omega) (by omega))]
    have := h k (Nat.le_refl _) (by omega)
    simp [putCell, Ne.symm this]

theorem putCells_get (rg : List SAFEARRAYBOUND) (hs : ShapeOK rg) (cellOut : Nat → VARIANT) :
    ∀ (m k : Nat) (sa : SAFEARRAY) (j : Nat), k ≤ j → j < k + m → k + m ≤ cellCount rg →
      (putCells rg cellOut sa k m).pvData (tupleOf rg j).reverse = cellOut j
  | 0, _, _, _, h1, h2, _ => by omega
  | m + 1, k, sa, j, h1, h2, h3 => by
    rw [putCells_succ]
    rcases Nat.eq_or_lt_of_le h1 with heq | hlt
    · subst heq
      rw [putCells_other rg cellOut _ m (k + 1) _ (fun j' h1' h2' hEq => by
        have := tupleOf_injOn rg hs (by omega) (by omega) hEq
        omega)]
      simp [putCell]
    · exact putCells_get rg hs cellOut m (k + 1) _ j (by omega) (by omega) (by omega)

theorem writeArray_appends (host : Host) (f vt ff cb : Nat) (rg : List SAFEARRAYBOUND)
    (pv : List Int → VARIANT) (hA : vt &&& VT_ARRAY ≠ 0) (hB : vt &&& VT_BYREF = 0)
    (hs : ShapeOK rg) (hsum : NoOfElements rg ≠ 0) (hf : cellCount rg ≤ f)
    (elemBytes : Nat → List Nat)
    (hstep : ∀ k, k < cellCount rg → ∃ temp,
      SafeArrayGetElementAsVariant ⟨ff, cb, rg, pv⟩ (tupleOf rg k).reverse (VT_TYPEMASK &&& vt)
        = Except.ok temp ∧
      Appends (writeElem (WriteDataToStream host f) (VT_TYPEMASK &&& vt) temp) (elemBytes k)) :
    Appends (WriteDataToStream host (f + 1) (VARIANT.array vt ff cb rg pv))
      (headerBytes rg ++ (List.range (cellCount rg)).flatMap elemBytes) := by
  have hP := cellCount_pos hs
  have hloop := writeLoop_appends (WriteDataToStream host f) (VT_TYPEMASK &&& vt)
    ⟨ff, cb, rg, pv⟩ rg hs elemBytes hstep (cellCount rg - 1) 0 f (by omega) (by omega)
  rw [show cellCount rg - 1 + 1 = cellCount rg by omega, ← List.range_eq_range'] at hloop
  have hhead := WriteSafeArrayHeader_appends ⟨ff, cb, rg, pv⟩
  intro data
  have e1 := hhead data
  have e2 := hloop (data ++ headerBytes rg)
  simp only [WriteDataToStream, VARIANT.V_ISARRAY, VARIANT.V_ISBYREF, VARIANT.vt, bne_iff_ne,
    ne_eq, hA, not_false_eq_true, if_true, hB, bne_self_eq_false, Bool.false_eq_true, if_false,
    VARIANT.parray, pure, Except.pure, ok_bind, e1, WriteSafeArrayElements, hsum, writeLoop_new,
    e2, List.append_assoc]

theorem readArray_consumes (host : Host) (f tag cb : Nat) (rg : List SAFEARRAYBOUND)
    (hA : tag &&& VT_ARRAY ≠ 0) (hd1 : 1 ≤ rg.length) (hd2 : rg.length < 65536)
    (hs : ShapeOK rg) (hsum : NoOfElements rg ≠ 0) (hf : cellCount rg ≤ f)
    (hsz : GetTypeSize (VT_TYPEMASK &&& tag) = Except.ok cb)
    (elemBytes : Nat → List Nat) (cellOut : Nat → VARIANT)
    (hstep : ∀ k, k < cellCount rg → ∃ temp,
      Consumes (readElem (ReadDataFromStream host f) (VT_TYPEMASK &&& tag)) (elemBytes k) temp ∧
      ∀ sa : SAFEARRAY, sa.rgsabound = rg → sa.fFeatures = featuresOf (VT_TYPEMASK &&& tag) →
        sa.cbElements = cb →
        SafeArrayPutElementFromVariant sa (tupleOf rg k).reverse temp
          = Except.ok (putCell sa (tupleOf rg k).reverse (cellOut k))) :
    Consumes (ReadDataFromStream host (f + 1) tag)
      (headerBytes rg ++ (List.range (cellCount rg)).flatMap elemBytes)
      (VARIANT.ofArray ((VT_TYPEMASK &&& tag) ||| VT_ARRAY)
        (putCells rg cellOut (allocated (VT_TYPEMASK &&& tag) cb rg) 0 (cellCount rg))) := by
  have hP := cellCount_pos hs
  have hb : ∀ b, b ∈ rg → isLong b.lLbound ∧ b.cElements < 4294967296 := by
    intro b hb
    obtain ⟨_, h2, h3⟩ := hs b hb
    unfold isLong at *
    exact ⟨h2, by omega⟩
  have hloop := readLoop_consumes (ReadDataFromStream host f) (VT_TYPEMASK &&& tag) rg hs
    (featuresOf (VT_TYPEMASK &&& tag)) cb elemBytes cellOut hstep (cellCount rg - 1) 0 f
    (allocated (VT_TYPEMASK &&& tag) cb rg) rfl rfl rfl (by omega) (by omega)
  rw [show cellCount rg - 1 + 1 = cellCount rg by omega, ← List.range_eq_range'] at hloop
  intro pre post data hd
  have e1 := ReadSafeArrayHeader_eq (VT_TYPEMASK &&& tag) cb rg hd1 hd2 hb hsz pre
    ((List.range (cellCount rg)).flatMap elemBytes ++ post) data (by simp [hd])
  have e2 := hloop (pre ++ headerBytes rg) post data (by simp [hd])
  simp only [List.length_append] at e2
  have hsum' : NoOfElements (allocated (VT_TYPEMASK &&& tag) cb rg).rgsabound ≠ 0 := hsum
  simp only [ReadDataFromStream, ne_eq, hA, not_false_eq_true, if_true, e1, ok_bind,
    ReadSafeArrayElements, hsum', if_false, readLoop_new]
  rw [show (allocated (VT_TYPEMASK &&& tag) cb rg).rgsabound = rg from rfl, e2]
  simp [pure, Except.pure, Nat.add_assoc]

/-! ### Elements of arrays of numbers -/

theorem IsStoredElem.fixed {vt : Nat} (h : IsStoredElem vt) : IsFixedScalar vt := by
  unfold IsStoredElem IsNumericElem at h; unfold IsFixedScalar; omega

theorem StoredBits.of_numeric {elem b : Nat} (he : IsNumericElem elem)
    (hb : b < 256 ^ fixedSize elem) : StoredBits elem b := by
  refine ⟨hb, fun h => ?_⟩
  subst h
  exact absurd he (by decide)

theorem getElement_inRange (sa : SAFEARRAY) (k : Nat) (hs : ShapeOK sa.rgsabound) :
    SafeArrayGetElement sa (tupleOf sa.rgsabound k).reverse
      = (S_OK, sa.pvData (tupleOf sa.rgsabound k).reverse) := by
  have := (indexInRange_iff sa.rgsabound _).mpr (tupleOf_inBounds sa.rgsabound k hs)
  simp [SafeArrayGetElement, this]

theorem putElement_inRange (sa : SAFEARRAY) (k : Nat) (hs : ShapeOK sa.rgsabound)
    (cell : VARIANT) :
    SafeArrayPutElement sa (tupleOf sa.rgsabound k).reverse cell
      = (S_OK, putCell sa (tupleOf sa.rgsabound k).reverse cell) := by
  have := (indexInRange_iff sa.rgsabound _).mpr (tupleOf_inBounds sa.rgsabound k hs)
  simp [SafeArrayPutElement, this, putCell]

/-- Element facts of an array of fixed-width numbers, write side. -/
theorem numeric_elem_write (host : Host) (f elem ff cb : Nat) (rg : List SAFEARRAYBOUND)
    (pv : List Int → VARIANT) (hs : ShapeOK rg) (he : IsStoredElem elem)
    (hff : PlainFeatures ff) (k b : Nat) (hcell : pv (tupleOf rg k).reverse
      = VARIANT.plain 0 (Payload.bits b)) (hsb : StoredBits elem b) :
    ∃ temp, SafeArrayGetElementAsVariant ⟨ff, cb, rg, pv⟩ (tupleOf rg k).reverse elem
        = Except.ok temp ∧
      Appends (writeElem (WriteDataToStream host (f + 1)) elem temp)
        (toBytesLE (fixedSize elem) (byValue elem b)) := by
  obtain ⟨f1, f2, f3, f4⟩ := hff
  obtain ⟨hb, hbool⟩ := hsb
  have hget := getElement_inRange ⟨ff, cb, rg, pv⟩ k hs
  simp only at hget
  refine ⟨VARIANT.plain elem (Payload.bits b), ?_, ?_⟩
  · simp only [SafeArrayGetElementAsVariant, hget, CheckResult, FAILED, f1, f2, f3, f4, hcell,
      VARIANT.scalarBits]
    rcases he with (h | h | h | h | h | h | h) | h
    all_goals subst h
    all_goals simp +decide [fixedSize] at hb hbool ⊢
    all_goals first
      | (simp +decide [pure, Except.pure, Nat.mod_eq_of_lt hb]; done)
      | (rcases hbool with h0 | h1 <;> subst_vars <;> simp +decide [pure, Except.pure])
  · have hw := writeData_fixed host f elem b he.fixed
    have hne : VT_VARIANT ≠ elem := by
      rcases he with (h | h | h | h | h | h | h) | h <;> subst h <;> decide
    intro data
    simpa [writeElem, hne, pure, Except.pure] using hw data

/-- Element facts of an array of fixed-width numbers, read side. -/
theorem numeric_elem_read (host : Host) (f elem : Nat) (rg : List SAFEARRAYBOUND)
    (hs : ShapeOK rg) (he : IsStoredElem elem) (k b : Nat) (hb : b < 256 ^ fixedSize elem) :
    ∃ temp, Consumes (readElem (ReadDataFromStream host (f + 1)) elem)
        (toBytesLE (fixedSize elem) b) temp ∧
      ∀ sa : SAFEARRAY, sa.rgsabound = rg → sa.fFeatures = featuresOf elem →
        sa.cbElements = fixedSize elem →
        SafeArrayPutElementFromVariant sa (tupleOf rg k).reverse temp
          = Except.ok (putCell sa (tupleOf rg k).reverse (VARIANT.plain 0 (Payload.bits b))) := by
  have hne : VT_VARIANT ≠ elem := by
    rcases he with (h | h | h | h | h | h | h) | h <;> subst h <;> decide
  refine ⟨VARIANT.plain elem (Payload.bits b), ?_, ?_⟩
  · have hr := readData_fixed host f elem (toBytesLE (fixedSize elem) b) he.fixed
      (toBytesLE_length _ _)
    rw [fromBytesLE_toBytesLE, Nat.mod_eq_of_lt hb] at hr
    intro pre post data hd
    simpa [readElem, hne, pure, Except.pure] using hr pre post data hd
  · intro sa h1 h2 h3
    have hput := putElement_inRange sa k (by rw [h1]; exact hs)
      (VARIANT.plain 0 (Payload.bits b))
    rw [h1] at hput
    have hfe : featuresOf elem &&& FADF_VARIANT ≠ FADF_VARIANT := by
      rcases he with (h | h | h | h | h | h | h) | h <;> subst h <;> decide
    simp only [SafeArrayPutElementFromVariant, h2, hfe, if_false, VARIANT.vt, h3]
    rcases he with (h | h | h | h | h | h | h) | h <;> subst h <;>
      simp +decide [VARIANT.scalarBits, pure, Except.pure, Nat.mod_eq_of_lt hb, hput, CheckResult,
        FAILED]

/-! ### Arrays of numbers -/

theorem stored_tag_facts {elem : Nat} (he : IsStoredElem elem) :
    (elem ||| VT_ARRAY) &&& VT_ARRAY ≠ 0 ∧ (elem ||| VT_ARRAY) &&& VT_BYREF = 0 ∧
    VT_TYPEMASK &&& (elem ||| VT_ARRAY) = elem ∧ elem ||| VT_ARRAY < 65536 ∧
    GetTypeSize elem = Except.ok (fixedSize elem) := by
  rcases he with (h | h | h | h | h | h | h) | h <;> subst h <;>
    exact ⟨by decide, by decide, by decide, by decide, rfl⟩

theorem ofArray_putCells (vt : Nat) (rg : List SAFEARRAYBOUND) (cellOut : Nat → VARIANT)
    (sa : SAFEARRAY) (k m : Nat) :
    VARIANT.ofArray vt (putCells rg cellOut sa k m)
      = VARIANT.array vt sa.fFeatures sa.cbElements sa.rgsabound
          (putCells rg cellOut sa k m).pvData := by
  obtain ⟨h1, h2, h3⟩ := putCells_fields rg cellOut m k sa
  rw [VARIANT.ofArray, h1, h2, h3]

/-- Write and read of an array of fixed-width data, as transfers of bytes. -/
theorem stored_array_transfers (host : Host) (fuel elem ff : Nat) (rg : List SAFEARRAYBOUND)
    (pv : List Int → VARIANT) (he : IsStoredElem elem) (hd1 : 1 ≤ rg.length)
    (hd2 : rg.length < 65536) (hs : ShapeOK rg) (hsum : NoOfElements rg ≠ 0)
    (hfuel : cellCount rg < fuel) (hff : PlainFeatures ff)
    (hcells : ∀ idx, tupleInBounds rg idx →
      ∃ b, pv idx = VARIANT.plain 0 (Payload.bits b) ∧ StoredBits elem b) :
    ∃ B ff' pv',
      Appends (WriteDataToStream host fuel
        (VARIANT.array (elem ||| VT_ARRAY) ff (fixedSize elem) rg pv)) B ∧
      Consumes (ReadDataFromStream host fuel (elem ||| VT_ARRAY)) B
        (VARIANT.array (elem ||| VT_ARRAY) ff' (fixedSize elem) rg pv') ∧
      ∀ idx, tupleInBounds rg idx →
        pv' idx = VARIANT.plain 0 (Payload.bits (byValue elem (cellBits (pv idx)))) := by
  obtain ⟨hA, hB, hmask, _, hsz⟩ := stored_tag_facts he
  have hP := cellCount_pos hs
  obtain ⟨f, rfl⟩ : ∃ f, fuel = f + 1 + 1 := ⟨fuel - 2, by omega⟩
  have hcell : ∀ k, pv (tupleOf rg k).reverse
      = VARIANT.plain 0 (Payload.bits (cellBits (pv (tupleOf rg k).reverse))) ∧
      StoredBits elem (cellBits (pv (tupleOf rg k).reverse)) := by
    intro k
    obtain ⟨b, h1, h2⟩ := hcells _ (tupleOf_inBounds rg k hs)
    rw [h1]; exact ⟨rfl, h2⟩
  have hw := writeArray_appends host (f + 1) (elem ||| VT_ARRAY) ff (fixedSize elem) rg pv hA hB
    hs hsum (by omega)
    (fun k => toBytesLE (fixedSize elem) (byValue elem (cellBits (pv (tupleOf rg k).reverse))))
    (fun k _ => by
      rw [hmask]
      exact numeric_elem_write host f elem ff _ rg pv hs he hff k _ (hcell k).1 (hcell k).2)
  have hr := readArray_consumes host (f + 1) (elem ||| VT_ARRAY) (fixedSize elem) rg hA hd1 hd2
    hs hsum (by omega) (by rw [hmask]; exact hsz)
    (fun k => toBytesLE (fixedSize elem) (byValue elem (cellBits (pv (tupleOf rg k).reverse))))
    (fun k => VARIANT.plain 0
      (Payload.bits (byValue elem (cellBits (pv (tupleOf rg k).reverse)))))
    (fun k _ => by
      rw [hmask]
      exact numeric_elem_read host f elem rg hs he k _ (byValue_lt (hcell k).2.1))
  rw [hmask, ofArray_putCells] at hr
  refine ⟨_, _, _, hw, hr, ?_⟩
  intro idx hidx
  obtain ⟨k, hk, rfl⟩ := exists_tupleOf_of_inBounds rg idx hidx
  rw [putCells_get rg hs _ _ 0 _ k (Nat.zero_le _) (by omega) (by omega)]

/-- Claim C3 as stated fails, in two ways. The one-dimensional array of 32-bit
integers with lower bound 2147483646 and the two elements 5 and 7 is written
and read back without error, and the array read back holds 0, not 7, at the
index 2147483647, which is within its bounds.  The array holding the one
32-bit float with the bits `0x7FA00000`, a signalling NaN, is written and read
back without error, and the array read back holds the bits `0x7FE00000`: the
element reaches `Write( Q value )` by value. -/
theorem numeric_array_loses_last_element :
    (∃ st ff pv st',
      WriteVariantToStream noHost 3 (VARIANT.array (VT_I4 ||| VT_ARRAY) 0 4 [⟨2, 2147483646⟩]
        (fun i => VARIANT.plain 0 (Payload.bits (if i = [2147483646] then 5 else 7))))
        IStream.empty = Except.ok st ∧
      ReadVariantFromStream noHost 3 (RewindStream st)
        = Except.ok (VARIANT.array (VT_I4 ||| VT_ARRAY) ff 4 [⟨2, 2147483646⟩] pv, st') ∧
      tupleInBounds [⟨2, 2147483646⟩] [2147483647] ∧
      pv [2147483647] = VARIANT.plain 0 (Payload.bits 0)) ∧
    (∃ st ff pv st',
      WriteVariantToStream noHost 3 (VARIANT.array (VT_R4 ||| VT_ARRAY) 0 4 [⟨1, 0⟩]
        (fun _ => VARIANT.plain 0 (Payload.bits 2141192192))) IStream.empty = Except.ok st ∧
      ReadVariantFromStream noHost 3 (RewindStream st)
        = Except.ok (VARIANT.array (VT_R4 ||| VT_ARRAY) ff 4 [⟨1, 0⟩] pv, st') ∧
      tupleInBounds [⟨1, 0⟩] [0] ∧ IsSignallingNaN32 2141192192 ∧
      pv [0] = VARIANT.plain 0 (Payload.bits 2145386496)) := by
  refine ⟨⟨_, _, _, _, rfl, rfl, ?_, rfl⟩, ⟨_, _, _, _, rfl, rfl, ?_, by decide, rfl⟩⟩
  · rw [← indexInRange_iff]; decide
  · rw [← indexInRange_iff]; decide

/-- Claim C3, amended. For every array value with at least one dimension, every
extent at least 1, every `lower bound + extent` representable as a signed
32-bit integer, a sum of the extents that is not zero in 32 bits, element
type among error code, 32-bit signed, 8-bit unsigned, 16-bit signed, 64-bit
float, date and 32-bit float, and no element of a floating-point type that is
a signalling NaN, decoding the encoding succeeds (given fuel for the number of
elements) and yields an array with the same element type, the same shape and
the same element at every index tuple within the bounds. -/
theorem numeric_array_round_trip (host : Host) (fuel elem ff : Nat) (rg : List SAFEARRAYBOUND)
    (pv : List Int → VARIANT) (he : IsNumericElem elem) (hd1 : 1 ≤ rg.length)
    (hd2 : rg.length < 65536) (hs : ShapeOK rg) (hsum : NoOfElements rg ≠ 0)
    (hfuel : cellCount rg < fuel) (hff : PlainFeatures ff)
    (hcells : ∀ idx, tupleInBounds rg idx →
      ∃ b, pv idx = VARIANT.plain 0 (Payload.bits b) ∧ b < 256 ^ fixedSize elem ∧
        KeepsBits elem b) :
    ∃ st, WriteVariantToStream host fuel
        (VARIANT.array (elem ||| VT_ARRAY) ff (fixedSize elem) rg pv) IStream.empty
          = Except.ok st ∧
      ∃ ff' pv' st', ReadVariantFromStream host fuel (RewindStream st)
          = Except.ok (VARIANT.array (elem ||| VT_ARRAY) ff' (fixedSize elem) rg pv', st') ∧
        ∀ idx, tupleInBounds rg idx → pv' idx = pv idx := by
  obtain ⟨B, ff', pv', hw, hr, hsame⟩ :=
    stored_array_transfers host fuel elem ff rg pv (Or.inl he) hd1 hd2 hs hsum hfuel hff
      (fun idx hidx => by
        obtain ⟨b, h1, h2, _⟩ := hcells idx hidx
        exact ⟨b, h1, StoredBits.of_numeric he h2⟩)
  obtain ⟨_, hB, _, hlt, _⟩ := stored_tag_facts (Or.inl he)
  have hw' := writeVariant_appends host fuel _ _
    (by simp [VARIANT.V_ISBYREF, VARIANT.vt, hB]) hw
  have hr' := readVariant_consumes host fuel (elem ||| VT_ARRAY) _ (toBytesLE 4 1) _ hlt
    (toBytesLE_length _ _) hr
  obtain ⟨st, h1, _, h2⟩ := round_trip_of hw' hr'
  refine ⟨st, h1, ff', pv', _, h2, fun idx hidx => ?_⟩
  obtain ⟨b, hb1, _, hb3⟩ := hcells idx hidx
  rw [hsame idx hidx, hb1]
  show VARIANT.plain 0 (Payload.bits (byValue elem b)) = _
  rw [byValue_of_keepsBits hb3]

/-- Witness of C3 (amended): a 2 by 3 array of 32-bit floats with lower
bounds 5 and 0, each the quiet NaN with the bits `0x7FC00001`. -/
theorem numeric_array_round_trip_witness :
    ShapeOK [⟨3, 0⟩, ⟨2, 5⟩] ∧ KeepsBits VT_R4 2143289345 ∧
    ∃ st, WriteVariantToStream noHost 7
        (VARIANT.array (VT_R4 ||| VT_ARRAY) 0 (fixedSize VT_R4) [⟨3, 0⟩, ⟨2, 5⟩]
          (fun _ => VARIANT.plain 0 (Payload.bits 2143289345))) IStream.empty = Except.ok st ∧
      ∃ ff' pv' st', ReadVariantFromStream noHost 7 (RewindStream st)
          = Except.ok (VARIANT.array (VT_R4 ||| VT_ARRAY) ff' (fixedSize VT_R4)
              [⟨3, 0⟩, ⟨2, 5⟩] pv', st') ∧
        ∀ idx, tupleInBounds [⟨3, 0⟩, ⟨2, 5⟩] idx →
          pv' idx = (fun _ => VARIANT.plain 0 (Payload.bits 2143289345)) idx :=
  ⟨by decide, by decide,
    numeric_array_round_trip noHost 7 VT_R4 0 [⟨3, 0⟩, ⟨2, 5⟩]
      (fun _ => VARIANT.plain 0 (Payload.bits 2143289345)) (by decide) (by decide) (by decide)
      (by decide) (by decide) (by decide) (by decide)
      (fun _ _ => ⟨2143289345, rfl, by decide, by decide⟩)⟩

/-! ### Arrays of strings -/

/-- Element facts of an array of strings, write side. -/
theorem string_elem_write (host : Host) (f ff : Nat) (rg : List SAFEARRAYBOUND)
    (pv : List Int → VARIANT) (hs : ShapeOK rg) (hff : ff &&& FADF_BSTR = FADF_BSTR)
    (k : Nat) (s : List Nat)
    (hcell : pv (tupleOf rg k).reverse = VARIANT.plain 0 (Payload.bstr s)) :
    ∃ temp, SafeArrayGetElementAsVariant ⟨ff, 4, rg, pv⟩ (tupleOf rg k).reverse VT_BSTR
        = Except.ok temp ∧
      Appends (writeElem (WriteDataToStream host (f + 1)) VT_BSTR temp) (bstrBytes s) := by
  have hget := getElement_inRange ⟨ff, 4, rg, pv⟩ k hs
  simp only at hget
  refine ⟨VARIANT.plain VT_BSTR (Payload.bstr s), ?_, ?_⟩
  · simp [SafeArrayGetElementAsVariant, hget, CheckResult, FAILED, hff, hcell,
      VARIANT.bstrVal, pure, Except.pure]
  · have hw := writeData_bstr host f s
    intro data
    simpa +decide [writeElem, pure, Except.pure] using hw data

/-- Element facts of an array of strings, read side. -/
theorem string_elem_read (host : Host) (f : Nat) (rg : List SAFEARRAYBOUND)
    (hs : ShapeOK rg) (k : Nat) (s : List Nat) (hstr : IsBSTR s) :
    ∃ temp, Consumes (readElem (ReadDataFromStream host (f + 1)) VT_BSTR) (bstrBytes s) temp ∧
      ∀ sa : SAFEARRAY, sa.rgsabound = rg → sa.fFeatures = featuresOf VT_BSTR →
        sa.cbElements = 4 →
        SafeArrayPutElementFromVariant sa (tupleOf rg k).reverse temp
          = Except.ok (putCell sa (tupleOf rg k).reverse (VARIANT.plain 0 (Payload.bstr s))) := by
  refine ⟨VARIANT.plain VT_BSTR (Payload.bstr s), ?_, ?_⟩
  · have hr := readData_bstr_units host f s hstr
    intro pre post data hd
    simpa +decide [readElem, pure, Except.pure] using hr pre post data hd
  · intro sa h1 h2 h3
    have hput := putElement_inRange sa k (by rw [h1]; exact hs)
      (VARIANT.plain 0 (Payload.bstr s))
    rw [h1] at hput
    simp +decide [SafeArrayPutElementFromVariant, h2, featuresOf, VARIANT.vt, pure, Except.pure,
      hput, CheckResult, FAILED]

theorem string_tag_facts :
    (VT_BSTR ||| VT_ARRAY) &&& VT_ARRAY ≠ 0 ∧ (VT_BSTR ||| VT_ARRAY) &&& VT_BYREF = 0 ∧
    VT_TYPEMASK &&& (VT_BSTR ||| VT_ARRAY) = VT_BSTR ∧ VT_BSTR ||| VT_ARRAY < 65536 ∧
    GetTypeSize VT_BSTR = Except.ok 4 :=
  ⟨by decide, by decide, by decide, by decide, rfl⟩

/-- Write and read of an array of strings, as transfers of bytes. -/
theorem string_array_transfers (host : Host) (fuel ff : Nat) (rg : List SAFEARRAYBOUND)
    (pv : List Int → VARIANT) (hd1 : 1 ≤ rg.length) (hd2 : rg.length < 65536)
    (hs : ShapeOK rg) (hsum : NoOfElements rg ≠ 0) (hfuel : cellCount rg < fuel)
    (hff : ff &&& FADF_BSTR = FADF_BSTR)
    (hcells : ∀ idx, tupleInBounds rg idx →
      ∃ s, pv idx = VARIANT.plain 0 (Payload.bstr s) ∧ IsBSTR s) :
    ∃ B ff' pv',
      Appends (WriteDataToStream host fuel (VARIANT.array (VT_BSTR ||| VT_ARRAY) ff 4 rg pv)) B ∧
      Consumes (ReadDataFromStream host fuel (VT_BSTR ||| VT_ARRAY)) B
        (VARIANT.array (VT_BSTR ||| VT_ARRAY) ff' 4 rg pv') ∧
      ∀ idx, tupleInBounds rg idx → pv' idx = pv idx := by
  obtain ⟨hA, hB, hmask, _, hsz⟩ := string_tag_facts
  have hP := cellCount_pos hs
  obtain ⟨f, rfl⟩ : ∃ f, fuel = f + 1 + 1 := ⟨fuel - 2, by omega⟩
  have hcell : ∀ k, pv (tupleOf rg k).reverse
      = VARIANT.plain 0 (Payload.bstr (cellString (pv (tupleOf rg k).reverse))) ∧
      IsBSTR (cellString (pv (tupleOf rg k).reverse)) := by
    intro k
    obtain ⟨b, h1, h2⟩ := hcells _ (tupleOf_inBounds rg k hs)
    rw [h1]; exact ⟨rfl, h2⟩
  have hw := writeArray_appends host (f + 1) (VT_BSTR ||| VT_ARRAY) ff 4 rg pv hA hB
    hs hsum (by omega)
    (fun k => bstrBytes (cellString (pv (tupleOf rg k).reverse)))
    (fun k _ => by
      rw [hmask]
      exact string_elem_write host f ff rg pv hs hff k _ (hcell k).1)
  have hr := readArray_consumes host (f + 1) (VT_BSTR ||| VT_ARRAY) 4 rg hA hd1 hd2
    hs hsum (by omega) (by rw [hmask]; exact hsz)
    (fun k => bstrBytes (cellString (pv (tupleOf rg k).reverse)))
    (fun k => VARIANT.plain 0 (Payload.bstr (cellString (pv (tupleOf rg k).reverse))))
    (fun k _ => by
      rw [hmask]
      exact string_elem_read host f rg hs k _ (hcell k).2)
  rw [hmask, ofArray_putCells] at hr
  refine ⟨_, _, _, hw, hr, ?_⟩
  intro idx hidx
  obtain ⟨k, hk, rfl⟩ := exists_tupleOf_of_inBounds rg idx hidx
  rw [putCells_get rg hs _ _ 0 _ k (Nat.zero_le _) (by omega) (by omega)]
  exact (hcell k).1.symm

/-- Claim C5 as stated fails. The one-dimensional array of strings with lower
bound 2147483646 and the two elements "A" and "B" is written and read back
without error, and the array read back holds the empty string, not "B", at
the index 2147483647, which is within its bounds. -/
theorem string_array_loses_last_element :
    ∃ st ff pv st',
      WriteVariantToStream noHost 3
        (VARIANT.array (VT_BSTR ||| VT_ARRAY) FADF_BSTR 4 [⟨2, 2147483646⟩]
          (fun i => VARIANT.plain 0 (Payload.bstr (if i = [2147483646] then [65] else [66]))))
        IStream.empty = Except.ok st ∧
      ReadVariantFromStream noHost 3 (RewindStream st)
        = Except.ok (VARIANT.array (VT_BSTR ||| VT_ARRAY) ff 4 [⟨2, 2147483646⟩] pv, st') ∧
      tupleInBounds [⟨2, 2147483646⟩] [2147483647] ∧
      pv [2147483647] = VARIANT.plain 0 (Payload.bstr []) := by
  refine ⟨_, _, _, _, rfl, rfl, ?_, rfl⟩
  rw [← indexInRange_iff]; decide

/-- Claim C5, amended. For every string array with at least one dimension, all
extents at least 1, every `lower bound + extent` representable as a signed
32-bit integer and a sum of the extents that is not zero in 32 bits, decoding
the encoding succeeds (given fuel for the number of elements) and yields a
string array of the same shape whose element at every index within the bounds
has the same content as the original element. -/
theorem string_array_round_trip (host : Host) (fuel ff : Nat) (rg : List SAFEARRAYBOUND)
    (pv : List Int → VARIANT) (hd1 : 1 ≤ rg.length) (hd2 : rg.length < 65536)
    (hs : ShapeOK rg) (hsum : NoOfElements rg ≠ 0) (hfuel : cellCount rg < fuel)
    (hff : ff &&& FADF_BSTR = FADF_BSTR)
    (hcells : ∀ idx, tupleInBounds rg idx →
      ∃ s, pv idx = VARIANT.plain 0 (Payload.bstr s) ∧ IsBSTR s) :
    ∃ st, WriteVariantToStream host fuel (VARIANT.array (VT_BSTR ||| VT_ARRAY) ff 4 rg pv)
        IStream.empty = Except.ok st ∧
      ∃ ff' pv' st', ReadVariantFromStream host fuel (RewindStream st)
          = Except.ok (VARIANT.array (VT_BSTR ||| VT_ARRAY) ff' 4 rg pv', st') ∧
        ∀ idx, tupleInBounds rg idx → pv' idx = pv idx := by
  obtain ⟨B, ff', pv', hw, hr, hsame⟩ :=
    string_array_transfers host fuel ff rg pv hd1 hd2 hs hsum hfuel hff hcells
  have hw' := writeVariant_appends host fuel _ _
    (by simp +decide [VARIANT.V_ISBYREF, VARIANT.vt]) hw
  have hr' := readVariant_consumes host fuel (VT_BSTR ||| VT_ARRAY) _ (toBytesLE 4 1) _
    (by decide) (toBytesLE_length _ _) hr
  obtain ⟨st, h1, _, h2⟩ := round_trip_of hw' hr'
  exact ⟨st, h1, ff', pv', _, h2, hsame⟩

/-- Witness of C5 (amended): a 2 by 3 array of strings. -/
theorem string_array_round_trip_witness :
    ShapeOK [⟨3, 0⟩, ⟨2, 5⟩] ∧
    ∃ st, WriteVariantToStream noHost 7
        (VARIANT.array (VT_BSTR ||| VT_ARRAY) FADF_BSTR 4 [⟨3, 0⟩, ⟨2, 5⟩]
          (fun _ => VARIANT.plain 0 (Payload.bstr [72, 0, 105]))) IStream.empty = Except.ok st ∧
      ∃ ff' pv' st', ReadVariantFromStream noHost 7 (RewindStream st)
          = Except.ok (VARIANT.array (VT_BSTR ||| VT_ARRAY) ff' 4 [⟨3, 0⟩, ⟨2, 5⟩] pv', st') ∧
        ∀ idx, tupleInBounds [⟨3, 0⟩, ⟨2, 5⟩] idx →
          pv' idx = (fun _ => VARIANT.plain 0 (Payload.bstr [72, 0, 105])) idx :=
  ⟨by decide,
    string_array_round_trip noHost 7 FADF_BSTR [⟨3, 0⟩, ⟨2, 5⟩]
      (fun _ => VARIANT.plain 0 (Payload.bstr [72, 0, 105])) (by decide) (by decide) (by decide)
      (by decide) (by decide) (by decide) (fun _ _ => ⟨[72, 0, 105], rfl, by decide⟩)⟩

/-! ### Arrays of variants and supported values -/

theorem writeData_empty (host : Host) (f vt b : Nat) (h : vt = VT_EMPTY ∨ vt = VT_NULL) :
    Appends (WriteDataToStream host (f + 1) (VARIANT.plain vt (Payload.bits b))) [] := by
  intro data
  rcases h with h | h <;> subst h <;>
    simp +decide [WriteDataToStream, VARIANT.V_ISARRAY, VARIANT.vt, pure, Except.pure]

theorem readData_empty (host : Host) (f vt : Nat) (h : vt = VT_EMPTY ∨ vt = VT_NULL) :
    Consumes (ReadDataFromStream host (f + 1) vt) [] (VARIANT.plain vt (Payload.bits 0)) := by
  intro pre post data _
  rcases h with h | h <;> subst h <;>
    simp +decide [ReadDataFromStream, pure, Except.pure]

/-- Element facts of an array of variants, write side. -/
theorem variant_elem_write (write : VARIANT → IStream → Except Exn IStream) (ff : Nat)
    (rg : List SAFEARRAYBOUND) (pv : List Int → VARIANT) (hs : ShapeOK rg)
    (hff : VariantFeatures ff) (k : Nat) (B : List Nat)
    (hw : Appends (write (pv (tupleOf rg k).reverse)) B) :
    ∃ temp, SafeArrayGetElementAsVariant ⟨ff, 16, rg, pv⟩ (tupleOf rg k).reverse VT_VARIANT
        = Except.ok temp ∧
      Appends (writeElem write VT_VARIANT temp)
        (toBytesLE 2 (pv (tupleOf rg k).reverse).vt ++ B) := by
  obtain ⟨f1, f2, f3, f4⟩ := hff
  have hget := getElement_inRange ⟨ff, 16, rg, pv⟩ k hs
  simp only at hget
  refine ⟨pv (tupleOf rg k).reverse, ?_, ?_⟩
  · simp [SafeArrayGetElementAsVariant, hget, CheckResult, FAILED, f1, f2, f3, f4, pure,
      Except.pure]
  · have := appends_bind (CStream.Write_appends 2 (pv (tupleOf rg k).reverse).vt) hw
    intro data
    simpa [writeElem] using this data

/-- Element facts of an array of variants, read side. -/
theorem variant_elem_read (read : Nat → IStream → Except Exn (VARIANT × IStream))
    (rg : List SAFEARRAYBOUND) (hs : ShapeOK rg) (k vt : Nat) (B : List Nat) (cell : VARIANT)
    (hvt : vt < 65536) (hr : Consumes (read vt) B cell) :
    ∃ temp, Consumes (readElem read VT_VARIANT) (toBytesLE 2 vt ++ B) temp ∧
      ∀ sa : SAFEARRAY, sa.rgsabound = rg → sa.fFeatures = featuresOf VT_VARIANT →
        sa.cbElements = 16 →
        SafeArrayPutElementFromVariant sa (tupleOf rg k).reverse temp
          = Except.ok (putCell sa (tupleOf rg k).reverse cell) := by
  refine ⟨cell, ?_, ?_⟩
  · have htag := CStream.Read_consumes (toBytesLE 2 vt)
    rw [toBytesLE_length, fromBytesLE_toBytesLE, Nat.mod_eq_of_lt (by simpa using hvt)] at htag
    have := consumes_bind (fun s => CStream.Read s 2) (fun t s => read t s) htag hr
    intro pre post data hd
    simpa [readElem] using this pre post data hd
  · intro sa h1 h2 h3
    have hput := putElement_inRange sa k (by rw [h1]; exact hs) cell
    rw [h1] at hput
    simp +decide [SafeArrayPutElementFromVariant, h2, featuresOf, pure, Except.pure, hput,
      CheckResult, FAILED]

theorem variant_tag_facts :
    (VT_VARIANT ||| VT_ARRAY) &&& VT_ARRAY ≠ 0 ∧ (VT_VARIANT ||| VT_ARRAY) &&& VT_BYREF = 0 ∧
    VT_TYPEMASK &&& (VT_VARIANT ||| VT_ARRAY) = VT_VARIANT ∧ VT_VARIANT ||| VT_ARRAY < 65536 ∧
    GetTypeSize VT_VARIANT = Except.ok 16 :=
  ⟨by decide, by decide, by decide, by decide, rfl⟩

/-- Write and read of an array of variants, as transfers of bytes, from the
transfers of its elements. -/
theorem variant_array_transfers (host : Host) (f ff : Nat) (rg : List SAFEARRAYBOUND)
    (pv : List Int → VARIANT) (hd1 : 1 ≤ rg.length) (hd2 : rg.length < 65536)
    (hs : ShapeOK rg) (hsum : NoOfElements rg ≠ 0) (hfuel : cellCount rg ≤ f)
    (hff : VariantFeatures ff) (R : VARIANT → VARIANT → Prop)
    (hcells : ∀ idx, tupleInBounds rg idx →
      (pv idx).vt < 65536 ∧ ∃ B v', Appends (WriteDataToStream host f (pv idx)) B ∧
        Consumes (ReadDataFromStream host f (pv idx).vt) B v' ∧ R (pv idx) v') :
    ∃ B ff' pv',
      Appends (WriteDataToStream host (f + 1)
        (VARIANT.array (VT_VARIANT ||| VT_ARRAY) ff 16 rg pv)) B ∧
      Consumes (ReadDataFromStream host (f + 1) (VT_VARIANT ||| VT_ARRAY)) B
        (VARIANT.array (VT_VARIANT ||| VT_ARRAY) ff' 16 rg pv') ∧
      ∀ idx, tupleInBounds rg idx → R (pv idx) (pv' idx) := by
  obtain ⟨hA, hB, hmask, _, hsz⟩ := variant_tag_facts
  have hall : ∀ k : Nat, ∃ (B : List Nat) (v' : VARIANT),
      Appends (WriteDataToStream host f (pv (tupleOf rg k).reverse)) B ∧
      Consumes (ReadDataFromStream host f (pv (tupleOf rg k).reverse).vt) B v' ∧
      R (pv (tupleOf rg k).reverse) v' :=
    fun k => (hcells _ (tupleOf_inBounds rg k hs)).2
  choose Bk ck hwk hrk hsk using hall
  have hw := writeArray_appends host f (VT_VARIANT ||| VT_ARRAY) ff 16 rg pv hA hB
    hs hsum hfuel (fun k => toBytesLE 2 (pv (tupleOf rg k).reverse).vt ++ Bk k)
    (fun k _ => by
      rw [hmask]
      exact variant_elem_write _ ff rg pv hs hff k _ (hwk k))
  have hr := readArray_consumes host f (VT_VARIANT ||| VT_ARRAY) 16 rg hA hd1 hd2
    hs hsum hfuel (by rw [hmask]; exact hsz)
    (fun k => toBytesLE 2 (pv (tupleOf rg k).reverse).vt ++ Bk k) ck
    (fun k _ => by
      rw [hmask]
      exact variant_elem_read _ rg hs k _ _ _ (hcells _ (tupleOf_inBounds rg k hs)).1 (hrk k))
  rw [hmask, ofArray_putCells] at hr
  refine ⟨_, _, _, hw, hr, ?_⟩
  intro idx hidx
  obtain ⟨k, hk, rfl⟩ := exists_tupleOf_of_inBounds rg idx hidx
  rw [putCells_get rg hs _ _ 0 _ k (Nat.zero_le _) (by omega) (by omega)]
  exact hsk k

theorem keepsBits_zero (b : Nat) : KeepsBits 0 b :=
  ⟨fun h => absurd h (by decide), fun h => absurd h (by decide)⟩

/-- Every supported value is written and read back, as transfers of the same
bytes; the value read is equal to the one written when no floating-point
number in it is a signalling NaN. -/
theorem supported_transfers (host : Host) : ∀ (n : Nat) (v : VARIANT), Supported n v →
    v.vt < 65536 ∧ v.V_ISBYREF = false ∧
    ∃ B v', Appends (WriteDataToStream host n v) B ∧
      Consumes (ReadDataFromStream host n v.vt) B v' ∧ (Quiet v → Same v v')
  | 0, _, h => by simp [Supported] at h
  | n + 1, VARIANT.plain vt (Payload.bits b), h => by
    simp only [Supported] at h
    rcases h with ⟨hfix, hb⟩ | ⟨hemp, hb⟩
    · have hlt : vt < 65536 ∧ vt &&& VT_BYREF = 0 := by
        rcases hfix with h | h | h | h | h | h | h | h | h <;> subst h <;> decide
      refine ⟨hlt.1, by simp [VARIANT.V_ISBYREF, VARIANT.vt, hlt.2], _,
        VARIANT.plain vt (Payload.bits (byValue vt b)),
        writeData_fixed host n vt b hfix, ?_, fun hq => ?_⟩
      · have := readData_fixed host n vt _ hfix (toBytesLE_length (fixedSize vt) (byValue vt b))
        rw [fromBytesLE_toBytesLE, Nat.mod_eq_of_lt (byValue_lt hb)] at this
        exact this
      · have hk : KeepsBits vt b := hq
        rw [byValue_of_keepsBits hk]
        exact Same.plain _ _
    · subst hb
      have hlt : vt < 65536 ∧ vt &&& VT_BYREF = 0 := by
        rcases hemp with h | h <;> subst h <;> decide
      exact ⟨hlt.1, by simp [VARIANT.V_ISBYREF, VARIANT.vt, hlt.2], _, _,
        writeData_empty host n vt 0 hemp, readData_empty host n vt hemp,
        fun _ => Same.plain _ _⟩
  | n + 1, VARIANT.plain vt (Payload.bstr s), h => by
    simp only [Supported] at h
    obtain ⟨rfl, hs⟩ := h
    exact ⟨by simp +decide [VARIANT.vt], by simp +decide [VARIANT.V_ISBYREF, VARIANT.vt], _, _,
      writeData_bstr host n s, readData_bstr_units host n s hs, fun _ => Same.plain _ _⟩
  | n + 1, VARIANT.plain _ (Payload.punk _), h => by simp [Supported] at h
  | n + 1, VARIANT.byref _ _, h => by simp [Supported] at h
  | n + 1, VARIANT.array vt ff cb rg pv, h => by
    simp only [Supported] at h
    obtain ⟨hd1, hd2, hs, hsum, hcount, hkind⟩ := h
    rcases hkind with ⟨elem, he, rfl, rfl, hff, hcells⟩ | ⟨rfl, rfl, hff, hcells⟩ |
      ⟨rfl, rfl, hff, hcells⟩
    · obtain ⟨_, hB, hmask, hlt, _⟩ := stored_tag_facts he
      obtain ⟨B, ff', pv', hw, hr, hsame⟩ := stored_array_transfers host (n + 1) elem ff rg pv
        he hd1 hd2 hs hsum (by omega) hff hcells
      refine ⟨hlt, by simp [VARIANT.V_ISBYREF, VARIANT.vt, hB], B, _, hw, hr, fun hq => ?_⟩
      refine Same.array _ _ _ _ _ _ _ _ (fun idx hidx => ?_)
      obtain ⟨b, hb, _⟩ := hcells idx hidx
      have hk := (hq idx hidx).1
      rw [hmask, hb] at hk
      rw [hsame idx hidx, hb]
      have hk' : KeepsBits elem b := hk
      show Same _ (VARIANT.plain 0 (Payload.bits (byValue elem b)))
      rw [byValue_of_keepsBits hk']
      exact Same.plain _ _
    · obtain ⟨B, ff', pv', hw, hr, hsame⟩ := string_array_transfers host (n + 1) ff rg pv
        hd1 hd2 hs hsum (by omega) hff hcells
      refine ⟨by simp +decide [VARIANT.vt], by simp +decide [VARIANT.V_ISBYREF, VARIANT.vt],
        B, _, hw, hr, fun _ => ?_⟩
      refine Same.array _ _ _ _ _ _ _ _ (fun idx hidx => ?_)
      obtain ⟨b, hb, _⟩ := hcells idx hidx
      rw [hsame idx hidx, hb]
      exact Same.plain _ _
    · obtain ⟨B, ff', pv', hw, hr, hsame⟩ := variant_array_transfers host n ff rg pv
        hd1 hd2 hs hsum hcount hff (fun a b => Quiet a → Same a b) (fun idx hidx => by
          obtain ⟨h1, _, h3⟩ := supported_transfers host n (pv idx) (hcells idx hidx)
          exact ⟨h1, h3⟩)
      exact ⟨by simp +decide [VARIANT.vt], by simp +decide [VARIANT.V_ISBYREF, VARIANT.vt],
        B, _, hw, hr, fun hq => Same.array _ _ _ _ _ _ _ _
          (fun idx hidx => hsame idx hidx (hq idx hidx).2)⟩

/-! ### Nested arrays and the two defects -/

/-- More fuel supports the same values. -/
theorem supported_mono : ∀ (n : Nat) (v : VARIANT), Supported n v → Supported (n + 1) v
  | 0, _, h => by simp [Supported] at h
  | n + 1, VARIANT.plain vt (Payload.bits b), h => by simpa [Supported] using h
  | n + 1, VARIANT.plain vt (Payload.bstr s), h => by simpa [Supported] using h
  | n + 1, VARIANT.plain _ (Payload.punk _), h => by simp [Supported] at h
  | n + 1, VARIANT.byref _ _, h => by simp [Supported] at h
  | n + 1, VARIANT.array vt ff cb rg pv, h => by
    simp only [Supported] at h ⊢
    obtain ⟨hd1, hd2, hs, hsum, hcount, hkind⟩ := h
    refine ⟨hd1, hd2, hs, hsum, by omega, ?_⟩
    rcases hkind with h1 | h2 | ⟨e1, e2, e3, hcells⟩
    · exact Or.inl h1
    · exact Or.inr (Or.inl h2)
    · exact Or.inr (Or.inr ⟨e1, e2, e3, fun idx hidx =>
        supported_mono n (pv idx) (hcells idx hidx)⟩)

theorem supported_of_le {n m : Nat} (v : VARIANT) (h : Supported n v) (hle : n ≤ m) :
    Supported m v := by
  induction hle with
  | refl => exact h
  | step _ ih => exact supported_mono _ v ih

/-- Claim C4 as stated fails, in two ways. The one-dimensional array of
variants with lower bound 2147483646 and the two entries 5 and 7 (32-bit
integers) is written and read back without error, and the array read back
holds an empty value, not the integer 7, at the index 2147483647, which is
within its bounds.  The array of variants holding the one 32-bit float with
the bits `0x7FA00000`, a signalling NaN, is written and read back without
error, and the entry read back holds the bits `0x7FE00000`: the entry reaches
`Write( Q value )` by value. -/
theorem variant_array_loses_last_element :
    (∃ st ff pv st',
      WriteVariantToStream noHost 3
        (VARIANT.array (VT_VARIANT ||| VT_ARRAY) FADF_VARIANT 16 [⟨2, 2147483646⟩]
          (fun i => VARIANT.plain VT_I4 (Payload.bits (if i = [2147483646] then 5 else 7))))
        IStream.empty = Except.ok st ∧
      ReadVariantFromStream noHost 3 (RewindStream st)
        = Except.ok (VARIANT.array (VT_VARIANT ||| VT_ARRAY) ff 16 [⟨2, 2147483646⟩] pv, st') ∧
      tupleInBounds [⟨2, 2147483646⟩] [2147483647] ∧
      ¬ Same (VARIANT.plain VT_I4 (Payload.bits 7)) (pv [2147483647])) ∧
    (∃ st ff pv st',
      WriteVariantToStream noHost 3
        (VARIANT.array (VT_VARIANT ||| VT_ARRAY) FADF_VARIANT 16 [⟨1, 0⟩]
          (fun _ => VARIANT.plain VT_R4 (Payload.bits 2141192192)))
        IStream.empty = Except.ok st ∧
      ReadVariantFromStream noHost 3 (RewindStream st)
        = Except.ok (VARIANT.array (VT_VARIANT ||| VT_ARRAY) ff 16 [⟨1, 0⟩] pv, st') ∧
      tupleInBounds [⟨1, 0⟩] [0] ∧ IsSignallingNaN32 2141192192 ∧
      pv [0] = VARIANT.plain VT_R4 (Payload.bits 2145386496) ∧
      ¬ Same (VARIANT.plain VT_R4 (Payload.bits 2141192192)) (pv [0])) := by
  refine ⟨⟨_, _, _, _, rfl, rfl, ?_, ?_⟩, ⟨_, _, _, _, rfl, rfl, ?_, by decide, rfl, ?_⟩⟩
  · rw [← indexInRange_iff]; decide
  · show ¬ Same _ (VARIANT.plain 0 (Payload.bits 0))
    intro h
    cases h
  · rw [← indexInRange_iff]; decide
  · show ¬ Same _ (VARIANT.plain VT_R4 (Payload.bits 2145386496))
    intro h
    have hb : ∀ a b : Nat, Same (VARIANT.plain VT_R4 (Payload.bits a))
        (VARIANT.plain VT_R4 (Payload.bits b)) → a = b := by
      intro a b hab
      cases hab
      rfl
    exact absurd (hb _ _ h) (by decide)

/-- Every entry of an array of variants that is quiet makes the array quiet. -/
theorem quiet_variant_array (ff cb : Nat) (rg : List SAFEARRAYBOUND) (pv : List Int → VARIANT)
    (hq : ∀ idx, tupleInBounds rg idx → Quiet (pv idx)) :
    Quiet (VARIANT.array (VT_VARIANT ||| VT_ARRAY) ff cb rg pv) := by
  simp only [Quiet]
  intro idx hidx
  exact ⟨⟨fun h => absurd h (by decide), fun h => absurd h (by decide)⟩, hq idx hidx⟩

/-- Claim C4, amended. For every array of variants with at least one dimension,
all extents at least 1, every `lower bound + extent` representable as a
signed 32-bit integer, a sum of the extents that is not zero in 32 bits, and
entries that are each a fixed-width scalar, empty, null, a string, or
(recursively) such an array of variants, of strings, of booleans stored as
true (-1) or false (0), or of fixed-width numbers other than currency, and
in which no floating-point number (a 32-bit float, 64-bit float or date, as an
entry or as an element of a nested array) is a signalling NaN,
decoding the encoding succeeds (given the
fuel the value is supported within) and yields an array of the same shape in
which every entry within the bounds has the same tag and the same value as the
original entry at that index. -/
theorem variant_array_round_trip (host : Host) (n fuel ff : Nat) (rg : List SAFEARRAYBOUND)
    (pv : List Int → VARIANT)
    (hsup : Supported n (VARIANT.array (VT_VARIANT ||| VT_ARRAY) ff 16 rg pv))
    (hquiet : ∀ idx, tupleInBounds rg idx → Quiet (pv idx))
    (hfuel : n ≤ fuel) :
    ∃ st, WriteVariantToStream host fuel (VARIANT.array (VT_VARIANT ||| VT_ARRAY) ff 16 rg pv)
        IStream.empty = Except.ok st ∧
      ∃ ff' cb' pv' st', ReadVariantFromStream host fuel (RewindStream st)
          = Except.ok (VARIANT.array (VT_VARIANT ||| VT_ARRAY) ff' cb' rg pv', st') ∧
        ∀ idx, tupleInBounds rg idx → Same (pv idx) (pv' idx) := by
  obtain ⟨hlt, hby, B, v', hw, hr, hsame⟩ :=
    supported_transfers host fuel _ (supported_of_le _ hsup hfuel)
  have hw' := writeVariant_appends host fuel _ _ hby hw
  have hr' := readVariant_consumes host fuel _ _ (toBytesLE 4 1) _ hlt (toBytesLE_length _ _) hr
  obtain ⟨st, h1, _, h2⟩ := round_trip_of hw' hr'
  cases hsame (quiet_variant_array ff 16 rg pv hquiet) with
  | array _ _ _ ff' cb' _ _ pv' hcells => exact ⟨st, h1, ff', cb', pv', _, h2, hcells⟩

/-- No entry of the sample array holds a floating-point number. -/
theorem sampleNested_entries_quiet (idx : List Int) :
    Quiet ((fun i => if i = [1] then VARIANT.plain VT_BSTR (Payload.bstr [65, 66])
      else VARIANT.array (VT_I4 ||| VT_ARRAY) 0 4 [⟨3, 0⟩, ⟨2, 5⟩]
        (fun _ => VARIANT.plain 0 (Payload.bits 7))) idx) := by
  by_cases h : idx = [1]
  · simp only [h, if_true, Quiet]
  · simp only [h, if_false, Quiet]
    intro _ _
    exact ⟨by decide, by decide⟩

/-- Witness of C4 (amended): the array holding a string and an array of
integers. -/
theorem variant_array_round_trip_witness :
    Supported 8 sampleNested ∧
    (∀ idx, tupleInBounds [⟨2, 1⟩] idx →
      Quiet ((fun i => if i = [1] then VARIANT.plain VT_BSTR (Payload.bstr [65, 66])
        else VARIANT.array (VT_I4 ||| VT_ARRAY) 0 4 [⟨3, 0⟩, ⟨2, 5⟩]
          (fun _ => VARIANT.plain 0 (Payload.bits 7))) idx)) ∧
    ∃ st, WriteVariantToStream noHost 8
        (VARIANT.array (VT_VARIANT ||| VT_ARRAY) FADF_VARIANT 16 [⟨2, 1⟩]
          (fun i => if i = [1] then VARIANT.plain VT_BSTR (Payload.bstr [65, 66])
            else VARIANT.array (VT_I4 ||| VT_ARRAY) 0 4 [⟨3, 0⟩, ⟨2, 5⟩]
              (fun _ => VARIANT.plain 0 (Payload.bits 7)))) IStream.empty = Except.ok st ∧
      ∃ ff' cb' pv' st', ReadVariantFromStream noHost 8 (RewindStream st)
          = Except.ok (VARIANT.array (VT_VARIANT ||| VT_ARRAY) ff' cb' [⟨2, 1⟩] pv', st') ∧
        ∀ idx, tupleInBounds [⟨2, 1⟩] idx →
          Same ((fun i => if i = [1] then VARIANT.plain VT_BSTR (Payload.bstr [65, 66])
            else VARIANT.array (VT_I4 ||| VT_ARRAY) 0 4 [⟨3, 0⟩, ⟨2, 5⟩]
              (fun _ => VARIANT.plain 0 (Payload.bits 7))) idx) (pv' idx) := by
  have hsup : Supported 8 sampleNested := by
    refine ⟨by decide, by decide, by decide, by decide, by decide, Or.inr (Or.inr
      ⟨rfl, rfl, by decide, fun idx _ => ?_⟩)⟩
    by_cases h : idx = [1]
    · simp only [h, if_true]
      exact ⟨rfl, by decide⟩
    · simp only [h, if_false]
      exact ⟨by decide, by decide, by decide, by decide, by decide, Or.inl
        ⟨VT_I4, by decide, rfl, rfl, by decide, fun _ _ => ⟨7, rfl, by decide⟩⟩⟩
  exact ⟨hsup, fun idx _ => sampleNested_entries_quiet idx,
    variant_array_round_trip noHost 8 8 FADF_VARIANT [⟨2, 1⟩] _ hsup
      (fun idx _ => sampleNested_entries_quiet idx) (Nat.le_refl _)⟩

/-- Claim C6: the code breaks it. Writing the one-dimensional currency
array with the single element 7 raises: in `SafeArrayGetElementAsVariant` the
case `VT_CY` runs into `default`.  The reader, given the bytes such an array
would have, delivers the array. -/
theorem currency_array_write_raises :
    WriteVariantToStream noHost 3
        (VARIANT.array (VT_CY ||| VT_ARRAY) 0 8 [⟨1, 0⟩]
          (fun _ => VARIANT.plain 0 (Payload.bits 7))) IStream.empty
      = Except.error Exn.raised ∧
    ∃ ff pv st, ReadVariantFromStream noHost 3
        ⟨[1, 0, 0, 0, 6, 32, 1, 0, 0, 0, 0, 0, 1, 0, 0, 0, 7, 0, 0, 0, 0, 0, 0, 0], 0⟩
      = Except.ok (VARIANT.array (VT_CY ||| VT_ARRAY) ff 8 [⟨1, 0⟩] pv, st) ∧
      pv [0] = VARIANT.plain 0 (Payload.bits 7) :=
  ⟨rfl, _, _, _, rfl, rfl⟩

/-- Claim C7: the code breaks it. Writing the array of 32-bit integers
with the extents 0 and 2 (no elements) raises, because the sum of the extents
is not zero and the walk starts at an index no element has; reading the
version, tag and shape bytes of that array raises too.  With the single
extent 0 the writer writes exactly version, tag and shape, and the reader
delivers the array. -/
theorem zero_extent_array_write_raises :
    (WriteVariantToStream noHost 3
        (VARIANT.array (VT_I4 ||| VT_ARRAY) 0 4 [⟨0, 0⟩, ⟨2, 0⟩]
          (fun _ => VARIANT.plain 0 (Payload.bits 0))) IStream.empty
      = Except.error Exn.raised ∧
     ReadVariantFromStream noHost 3
        ⟨toBytesLE 4 1 ++ toBytesLE 2 (VT_I4 ||| VT_ARRAY) ++ headerBytes [⟨0, 0⟩, ⟨2, 0⟩], 0⟩
      = Except.error Exn.raised) ∧
    (WriteVariantToStream noHost 3
        (VARIANT.array (VT_I4 ||| VT_ARRAY) 0 4 [⟨0, 0⟩]
          (fun _ => VARIANT.plain 0 (Payload.bits 0))) IStream.empty
      = Except.ok ⟨toBytesLE 4 1 ++ toBytesLE 2 (VT_I4 ||| VT_ARRAY) ++ headerBytes [⟨0, 0⟩], 16⟩ ∧
     ∃ ff pv st, ReadVariantFromStream noHost 3
        ⟨toBytesLE 4 1 ++ toBytesLE 2 (VT_I4 ||| VT_ARRAY) ++ headerBytes [⟨0, 0⟩], 0⟩
      = Except.ok (VARIANT.array (VT_I4 ||| VT_ARRAY) ff 4 [⟨0, 0⟩] pv, st)) :=
  ⟨⟨rfl, rfl⟩, rfl, _, _, _, rfl⟩

/-! ### The walker: count, bounds and order -/

/-- Claim C8. For every shape with at least one dimension, all extents at least 1
and every `lower bound + extent` representable as a signed 32-bit integer, the
index tuples of `CWalkSafeArrayElements` (the initial tuple, then each tuple
after a `Next` that reports `more = true`, up to the first `Next` that reports
`more = false`) are, given fuel for that many steps, exactly as many as the
product of the extents, and no tuple occurs twice. -/
theorem walker_visits_each_tuple_once (rgsabound : List SAFEARRAYBOUND) (fuel : Nat)
    (_hdims : 1 ≤ rgsabound.length) (hshape : ShapeOK rgsabound)
    (hfuel : cellCount rgsabound ≤ fuel) :
    ∃ ts, walkTuples fuel rgsabound = some ts ∧ ts.length = cellCount rgsabound ∧ ts.Nodup := by
  refine ⟨_, walkTuples_eq rgsabound hshape fuel hfuel, by simp, ?_⟩
  apply List.Nodup.map_on _ (List.nodup_range _)
  intro i hi j hj h
  exact tupleOf_injOn rgsabound hshape (List.mem_range.mp hi) (List.mem_range.mp hj) h

/-- Witness of C8: the shape `[(0,3),(0,2)]` gives 6 distinct tuples. -/
theorem walker_visits_each_tuple_once_witness :
    ShapeOK [⟨3, 0⟩, ⟨2, 0⟩] ∧
    ∃ ts, walkTuples 6 [⟨3, 0⟩, ⟨2, 0⟩] = some ts ∧ ts.length = 6 ∧ ts.Nodup :=
  ⟨by decide, walker_visits_each_tuple_once [⟨3, 0⟩, ⟨2, 0⟩] 6 (by decide) (by decide) (by decide)⟩

/-- The pairing of index entries with bounds: over the stored bounds with
extents 3 then 2 the last entry of the index runs over the 3 values of
`rgsabound[0]` and the first entry over the 2 values of `rgsabound[1]`, as the
platform's index vectors (left-most dimension first) require of a descriptor
that stores the right-most dimension first. -/
theorem walker_pairs_last_entry_with_first_bound :
    walkTuples 6 [⟨3, 0⟩, ⟨2, 0⟩]
      = some [[0, 0], [0, 1], [0, 2], [1, 0], [1, 1], [1, 2]] := by
  decide

/-- Claim C9 as stated fails. Over the one-dimensional shape with lower bound
2147483647 and extent 2 the walker yields, after a `Next` reporting
`more = true`, the tuple `[-2147483648]`, which is below the lower bound.  The
shape reaches the walker from a stream: the reader, given the header of that
shape and two elements, stores the first and raises at the second. -/
theorem walker_tuple_out_of_bounds :
    (∃ ts, walkTuples 2 [⟨2, 2147483647⟩] = some ts ∧
      ∃ t, t ∈ ts ∧ ¬ tupleInBounds [⟨2, 2147483647⟩] t) ∧
    ReadVariantFromStream noHost 3
        ⟨toBytesLE 4 1 ++ toBytesLE 2 (VT_I4 ||| VT_ARRAY) ++ headerBytes [⟨2, 2147483647⟩]
          ++ toBytesLE 4 5 ++ toBytesLE 4 7, 0⟩
      = Except.error Exn.raised := by
  refine ⟨⟨[[2147483647], [-2147483648]], by decide, [-2147483648], by simp, ?_⟩, rfl⟩
  intro h
  have := h.2 0 (by simp)
  simp [declared] at this

/-- Claim C9, amended. For every shape with at least one dimension, all extents
at least 1 and every `lower bound + extent` representable as a signed 32-bit
integer, the walker's first tuple is each dimension's lower bound and every
tuple it yields has, for every dimension `i` in declaration order, its `i`-th
component within `[lower bound, lower bound + extent)` of dimension `i`. -/
theorem walker_tuples_in_bounds (rgsabound : List SAFEARRAYBOUND) (fuel : Nat)
    (_hdims : 1 ≤ rgsabound.length) (hshape : ShapeOK rgsabound)
    (hfuel : cellCount rgsabound ≤ fuel) :
    ∃ ts, walkTuples fuel rgsabound = some ts ∧
      ts.head? = some ((declared rgsabound).map (fun b => b.lLbound)) ∧
      ∀ t, t ∈ ts → tupleInBounds rgsabound t := by
  refine ⟨_, walkTuples_eq rgsabound hshape fuel hfuel, ?_, ?_⟩
  · have hP := cellCount_pos hshape
    obtain ⟨n, hn⟩ : ∃ n, cellCount rgsabound = n + 1 := ⟨cellCount rgsabound - 1, by omega⟩
    rw [hn, List.range_succ_eq_map]
    simp [tupleOf_zero, declared]
  · intro t ht
    obtain ⟨k, _, rfl⟩ := List.mem_map.mp ht
    exact tupleOf_inBounds rgsabound k hshape

/-- Witness of C9 (amended) on the shape with bounds `(5, 2)` then `(0, 3)` in
declaration order. -/
theorem walker_tuples_in_bounds_witness :
    ShapeOK [⟨3, 0⟩, ⟨2, 5⟩] ∧
    ∃ ts, walkTuples 6 [⟨3, 0⟩, ⟨2, 5⟩] = some ts ∧
      ts.head? = some ((declared [⟨3, 0⟩, ⟨2, 5⟩]).map (fun b => b.lLbound)) ∧
      ∀ t, t ∈ ts → tupleInBounds [⟨3, 0⟩, ⟨2, 5⟩] t :=
  ⟨by decide, walker_tuples_in_bounds [⟨3, 0⟩, ⟨2, 5⟩] 6 (by decide) (by decide) (by decide)⟩

/-- Claim C10 as stated fails. Over the one-dimensional shape with lower
bound 2147483647 and extent 2 the walker yields `[2147483647]` and then
`[-2147483648]`, which is not greater; and over the shape with lower bound
2147483646 and extent 2 `Next` reports `more = false` on the call made at the
component 2147483646, whose maximum is 2147483647. -/
theorem walker_order_broken_at_long_max :
    (walkTuples 2 [⟨2, 2147483647⟩] = some [[2147483647], [-2147483648]] ∧
      ¬ List.Lex (· < ·) ([2147483647] : List Int) [-2147483648]) ∧
    ((CWalkSafeArrayElements.Next ⟨[⟨2, 2147483646⟩], [2147483646], true⟩).2 = false ∧
      ([2147483646] : List Int) ≠ maxTuple [⟨2, 2147483646⟩]) := by
  refine ⟨⟨by decide, ?_⟩, by decide, by decide⟩
  intro h
  cases h with
  | rel h => exact absurd h (by decide)

/-- Claim C10, amended. For every shape with at least one dimension, all extents
at least 1 and every `lower bound + extent` representable as a signed 32-bit
integer, the walker yields its tuples in strictly increasing lexicographic
order with the first component most significant; the last component of the
`k`-th tuple is its lower bound plus `k` modulo its extent (it moves at every
step), the first component is its lower bound plus `k` divided by the number
of tuples of the other dimensions (it moves last); and `Next`, called at a
yielded tuple, reports `more = false` exactly when every component is at its
maximum. -/
theorem walker_lexicographic (rgsabound : List SAFEARRAYBOUND) (fuel : Nat)
    (hdims : 1 ≤ rgsabound.length) (hshape : ShapeOK rgsabound)
    (hfuel : cellCount rgsabound ≤ fuel) :
    ∃ ts, walkTuples fuel rgsabound = some ts ∧
      ts.Pairwise (List.Lex (· < ·)) ∧
      (∀ k, k < ts.length →
        (ts.getD k []).getD (rgsabound.length - 1) 0
          = (rgsabound.getD 0 default).lLbound
            + ((k % (rgsabound.getD 0 default).cElements : Nat) : Int)) ∧
      (∀ k, k < ts.length →
        (ts.getD k []).getD 0 0
          = ((declared rgsabound).getD 0 default).lLbound
            + ((k / cellCount (rgsabound.take (rgsabound.length - 1)) : Nat) : Int)) ∧
      (∀ t, t ∈ ts →
        ((CWalkSafeArrayElements.Next ⟨rgsabound, t, true⟩).2 = false ↔ t = maxTuple rgsabound)) := by
  have hget : ∀ k, k < cellCount rgsabound →
      ((List.range (cellCount rgsabound)).map (fun j => (tupleOf rgsabound j).reverse)).getD k []
        = (tupleOf rgsabound k).reverse := by
    intro k hk
    simp [List.getD_eq_getElem?_getD, List.getElem?_map, List.getElem?_range hk]
  refine ⟨_, walkTuples_eq rgsabound hshape fuel hfuel, ?_, ?_, ?_, ?_⟩
  · rw [List.pairwise_map]
    refine (List.pairwise_lt_range _).imp_of_mem ?_
    intro i j _ hj hij
    exact tupleOf_lex rgsabound i j hshape hij (List.mem_range.mp hj)
  · intro k hk
    have hk' : k < cellCount rgsabound := by simpa using hk
    rw [hget k hk', getD_reverse _ _ _ (by rw [tupleOf_length]; omega), tupleOf_length,
      show rgsabound.length - 1 - (rgsabound.length - 1) = 0 by omega,
      tupleOf_getD rgsabound k 0 (by omega)]
    simp [cellCount]
  · intro k hk
    have hk' : k < cellCount rgsabound := by simpa using hk
    rw [hget k hk', getD_reverse _ _ _ (by rw [tupleOf_length]; omega), tupleOf_length,
      Nat.sub_zero, tupleOf_getD rgsabound k _ (by omega), declared,
      getD_reverse _ _ _ (by omega), Nat.sub_zero]
    congr 2
    apply Nat.mod_eq_of_lt
    apply Nat.div_lt_of_lt_mul
    have hsplit := cellCount_append (rgsabound.take (rgsabound.length - 1))
      (rgsabound.drop (rgsabound.length - 1))
    rw [List.take_append_drop] at hsplit
    have hdrop : rgsabound.drop (rgsabound.length - 1)
        = [rgsabound.getD (rgsabound.length - 1) default] := by
      have hlt : rgsabound.length - 1 < rgsabound.length := by omega
      rw [List.drop_eq_getElem_cons hlt, List.drop_of_length_le (by omega)]
      simp [List.getD_eq_getElem?_getD, List.getElem?_eq_getElem hlt]
    rw [hdrop] at hsplit
    rw [hsplit] at hk'
    simpa [cellCount] using hk'
  · intro t ht
    obtain ⟨k, hk, rfl⟩ := List.mem_map.mp ht
    have hk' := List.mem_range.mp hk
    rw [next_at_tupleOf rgsabound hshape k hk', tupleOf_eq_max_iff rgsabound hshape k hk']
    simp
    omega

/-- Witness of C10 (amended) on the shape `[(0,3),(0,2)]`. -/
theorem walker_lexicographic_witness :
    ShapeOK [⟨3, 0⟩, ⟨2, 0⟩] ∧
    ∃ ts, walkTuples 6 [⟨3, 0⟩, ⟨2, 0⟩] = some ts ∧ ts.Pairwise (List.Lex (· < ·)) :=
  ⟨by decide,
    let ⟨ts, h1, h2, _⟩ :=
      walker_lexicographic [⟨3, 0⟩, ⟨2, 0⟩] 6 (by decide) (by decide) (by decide)
    ⟨ts, h1, h2⟩⟩

/-! ### Writers that append -/

theorem noHost_appends : HostAppends noHost := by
  intro p
  exact ⟨S_OK, [], fun data => by simp [noHost]⟩

theorem uniform_of_appends {f : IStream → Except Exn IStream} {B : List Nat}
    (h : Appends f B) : Uniform f :=
  Or.inr ⟨B, h⟩

theorem uniform_error (e : Exn) : Uniform (fun _ => Except.error e) :=
  Or.inl ⟨e, fun _ => rfl⟩

theorem uniform_pure : Uniform (fun s => pure s) :=
  uniform_of_appends appends_nil

theorem uniform_bind {f g : IStream → Except Exn IStream} (hf : Uniform f) (hg : Uniform g) :
    Uniform (fun s => f s >>= g) := by
  rcases hf with ⟨e, he⟩ | ⟨B1, h1⟩
  · exact Or.inl ⟨e, fun data => by simp [he data]⟩
  · rcases hg with ⟨e, he⟩ | ⟨B2, h2⟩
    · exact Or.inl ⟨e, fun data => by
        have := he (data ++ B1)
        simp only [h1 data, ok_bind]
        exact this⟩
    · exact uniform_of_appends (appends_bind h1 h2)

theorem uniform_of_except {α : Type} (r : Except Exn α) (g : α → IStream → Except Exn IStream)
    (h : ∀ a, Uniform (g a)) : Uniform (fun s => r >>= fun a => g a s) := by
  cases r with
  | error e => exact Or.inl ⟨e, fun _ => rfl⟩
  | ok a => simpa using h a

theorem uniform_write (size v : Nat) : Uniform (fun s => CStream.Write s size v) :=
  uniform_of_appends (CStream.Write_appends size v)

/-- An appending writer that succeeded on one stream appended its bytes there. -/
theorem ok_of_uniform {f : IStream → Except Exn IStream} (hf : Uniform f) {data : List Nat}
    {s : IStream} (h : f ⟨data, data.length⟩ = Except.ok s) :
    ∃ B, Appends f B ∧ s = ⟨data ++ B, (data ++ B).length⟩ := by
  rcases hf with ⟨e, he⟩ | ⟨B, hB⟩
  · rw [he data] at h; cases h
  · refine ⟨B, hB, ?_⟩
    rw [hB data] at h
    cases h; rfl

/-! ### The object writer and the element loop -/

theorem save_tail_uniform (host : Host) (hh : HostAppends host) (ps : Option IUnknown) :
    Uniform (fun s => (do
      let (hr, pStream) := host.OleSaveToStream ps s
      CheckResult hr
      pure pStream : Except Exn IStream)) := by
  obtain ⟨hr, B, h⟩ := hh ps
  by_cases hf : FAILED hr = true
  · exact Or.inl ⟨Exn.raised, fun data => by simp [h data, CheckResult, hf, ThrowError]⟩
  · exact Or.inr ⟨B, fun data => by simp [h data, CheckResult, hf, pure, Except.pure]⟩

theorem uniform_save (host : Host) (hh : HostAppends host) (p : Option IUnknown) :
    Uniform (SaveObjectToStream host p) := by
  cases p with
  | none => exact save_tail_uniform host hh none
  | some u =>
    have h := uniform_of_except
      (GetPersistStreamInterface u >>= fun ps =>
        if ps.isNone then (ThrowError E_NOINTERFACE : Except Exn (Option IUnknown)) else pure ps)
      (fun ps s => (do
        let (hr, pStream) := host.OleSaveToStream ps s
        CheckResult hr
        pure pStream : Except Exn IStream)) (save_tail_uniform host hh)
    have e : SaveObjectToStream host (some u) = fun s =>
        (GetPersistStreamInterface u >>= fun ps =>
          if ps.isNone then (ThrowError E_NOINTERFACE : Except Exn (Option IUnknown))
          else pure ps) >>= fun a => (do
        let (hr, pStream) := host.OleSaveToStream a s
        CheckResult hr
        pure pStream : Except Exn IStream) := by
      funext s
      simp only [SaveObjectToStream, bind_assoc]
      congr 1
      funext ps
      by_cases hn : ps.isNone = true <;> simp [hn, ThrowError, pure, Except.pure]
    rw [e]
    exact h

theorem writeLoop_step (write : VARIANT → IStream → Except Exn IStream) (vt : Nat)
    (sa : SAFEARRAY) (fuel : Nat) (walk : CWalkSafeArrayElements) (s : IStream) :
    writeLoop write vt sa (fuel + 1) walk s
      = SafeArrayGetElementAsVariant sa walk.GetIndex.2 vt >>= fun temp =>
          writeElem write vt temp s >>= fun s' =>
            if walk.GetIndex.1.Next.2 then writeLoop write vt sa fuel walk.GetIndex.1.Next.1 s'
            else pure s' := by
  simp only [writeLoop, writeElem, bind_assoc]
  by_cases hv : VT_VARIANT = vt <;> simp [hv]

theorem walkFrom_step (fuel : Nat) (walk : CWalkSafeArrayElements) :
    walkFrom (fuel + 1) walk
      = if walk.GetIndex.1.Next.2 then
          (walkFrom fuel walk.GetIndex.1.Next.1).map (fun rest => walk.GetIndex.2 :: rest)
        else some [walk.GetIndex.2] := rfl

theorem uniform_writeElem (write : VARIANT → IStream → Except Exn IStream) (vt : Nat)
    (temp : VARIANT) (hw : Uniform (write temp)) : Uniform (writeElem write vt temp) := by
  unfold writeElem
  by_cases hv : VT_VARIANT = vt
  · simp only [hv, if_true]
    exact uniform_bind (uniform_write 2 temp.vt) hw
  · simp only [hv, if_false]
    exact uniform_bind uniform_pure hw

theorem uniform_writeLoop (write : VARIANT → IStream → Except Exn IStream) (vt : Nat)
    (sa : SAFEARRAY) (hw : ∀ e, Uniform (write e)) :
    ∀ (fuel : Nat) (walk : CWalkSafeArrayElements), Uniform (writeLoop write vt sa fuel walk)
  | 0, _ => Or.inl ⟨Exn.fuel, fun _ => rfl⟩
  | fuel + 1, walk => by
    have e : writeLoop write vt sa (fuel + 1) walk = fun s =>
        SafeArrayGetElementAsVariant sa walk.GetIndex.2 vt >>= fun temp =>
          (fun s => writeElem write vt temp s >>= fun s' =>
            if walk.GetIndex.1.Next.2 then writeLoop write vt sa fuel walk.GetIndex.1.Next.1 s'
            else pure s') s := by
      funext s; exact writeLoop_step write vt sa fuel walk s
    rw [e]
    refine uniform_of_except _ _ (fun temp => ?_)
    refine uniform_bind (uniform_writeElem write vt temp (hw temp)) ?_
    by_cases hm : walk.GetIndex.1.Next.2 = true
    · simp only [hm, if_true]
      exact uniform_writeLoop write vt sa hw fuel _
    · simp only [hm]
      exact uniform_pure

/-! ### What a successful write appended -/

theorem uniform_congr {f g : IStream → Except Exn IStream} (h : ∀ s, f s = g s)
    (hg : Uniform g) : Uniform f := by
  have : f = g := funext h
  rw [this]; exact hg

theorem uniform_ite (c : Prop) [Decidable c] {f g : IStream → Except Exn IStream}
    (hf : Uniform f) (hg : Uniform g) : Uniform (fun s => if c then f s else g s) := by
  by_cases h : c
  · simpa [h] using hf
  · simpa [h] using hg

theorem uniform_writeElements (write : VARIANT → IStream → Except Exn IStream) (fuel vt : Nat)
    (sa : SAFEARRAY) (hw : ∀ e, Uniform (write e)) :
    Uniform (WriteSafeArrayElements write fuel vt sa) := by
  unfold WriteSafeArrayElements
  exact uniform_ite _ uniform_pure (uniform_writeLoop write vt sa hw fuel _)

theorem uniform_writeData (host : Host) (hh : HostAppends host) :
    ∀ (fuel : Nat) (v : VARIANT), Uniform (WriteDataToStream host fuel v)
  | 0, _ => Or.inl ⟨Exn.fuel, fun _ => rfl⟩
  | fuel + 1, v => by
    refine uniform_congr (fun s => by rw [WriteDataToStream]) ?_
    have ih : ∀ e, Uniform (WriteDataToStream host fuel e) := uniform_writeData host hh fuel
    refine uniform_ite _ ?_ ?_
    · dsimp only
      refine uniform_ite _ ?_ ?_ <;>
        exact uniform_of_except _ _ (fun sa =>
          uniform_bind (uniform_of_appends (WriteSafeArrayHeader_appends sa))
            (uniform_writeElements _ fuel _ sa ih))
    · dsimp only
      repeat' refine uniform_ite _ ?_ ?_
      all_goals first
        | exact uniform_pure
        | exact uniform_of_except _ _ (fun n => uniform_write _ n)
        | exact uniform_of_except _ _ (fun n => uniform_write _ (floatByValue n))
        | exact uniform_of_except _ _ (fun n => uniform_write _ (doubleByValue n))
        | exact uniform_of_except _ _ (fun n => uniform_of_appends (write_cy_appends n))
        | exact uniform_of_except _ _ (fun s => uniform_of_appends (CStream.WriteBSTR_appends s))
        | exact uniform_of_except _ _ (fun p => uniform_save host hh p)
        | exact uniform_error _

theorem writeElem_ok (write : VARIANT → IStream → Except Exn IStream) (vt : Nat)
    (e : VARIANT) (hw : Uniform (write e)) {data : List Nat} {s : IStream}
    (h : writeElem write vt e ⟨data, data.length⟩ = Except.ok s) :
    ∃ D, Appends (write e) D ∧
      s = ⟨data ++ ((if VT_VARIANT = vt then toBytesLE 2 e.vt else []) ++ D),
        (data ++ ((if VT_VARIANT = vt then toBytesLE 2 e.vt else []) ++ D)).length⟩ := by
  unfold writeElem at h
  by_cases hv : VT_VARIANT = vt
  · simp only [hv, if_true, CStream.Write_appends 2 e.vt data, ok_bind] at h
    obtain ⟨D, hD, hs⟩ := ok_of_uniform hw h
    refine ⟨D, hD, ?_⟩
    simp only [hv, if_true, hs, List.append_assoc]
  · simp only [hv, if_false, pure, Except.pure, ok_bind] at h
    obtain ⟨D, hD, hs⟩ := ok_of_uniform hw h
    refine ⟨D, hD, ?_⟩
    simp only [hv, if_false, hs, List.nil_append]

theorem writeLoop_ok (write : VARIANT → IStream → Except Exn IStream) (vt : Nat)
    (sa : SAFEARRAY) (hw : ∀ e, Uniform (write e)) :
    ∀ (fuel : Nat) (walk : CWalkSafeArrayElements) (data : List Nat) (s : IStream),
      writeLoop write vt sa fuel walk ⟨data, data.length⟩ = Except.ok s →
      ∃ ts Es, walkFrom fuel walk = some ts ∧ List.Forall₂ (ElemEncoding write vt sa) ts Es ∧
        s = ⟨data ++ Es.flatten, (data ++ Es.flatten).length⟩
  | 0, _, _, _, h => by cases h
  | fuel + 1, walk, data, s, h => by
    rw [writeLoop_step] at h
    cases hge : SafeArrayGetElementAsVariant sa walk.GetIndex.2 vt with
    | error x => rw [hge] at h; cases h
    | ok e =>
      rw [hge, ok_bind] at h
      cases hwe : writeElem write vt e ⟨data, data.length⟩ with
      | error x => rw [hwe] at h; cases h
      | ok s1 =>
        rw [hwe, ok_bind] at h
        obtain ⟨D, hD, hs1⟩ := writeElem_ok write vt e (hw e) hwe
        have henc : ElemEncoding write vt sa walk.GetIndex.2
            ((if VT_VARIANT = vt then toBytesLE 2 e.vt else []) ++ D) := ⟨e, D, hge, hD, rfl⟩
        by_cases hm : walk.GetIndex.1.Next.2 = true
        · simp only [hm, if_true] at h
          rw [hs1] at h
          obtain ⟨ts, Es, hts, hall, hs⟩ := writeLoop_ok write vt sa hw fuel _ _ s h
          refine ⟨walk.GetIndex.2 :: ts, _ :: Es, ?_, List.Forall₂.cons henc hall, ?_⟩
          · rw [walkFrom_step]; simp [hm, hts]
          · simp only [hs, List.flatten, List.append_assoc]
        · simp only [hm] at h
          refine ⟨[walk.GetIndex.2], [_], ?_, List.Forall₂.cons henc List.Forall₂.nil, ?_⟩
          · rw [walkFrom_step]; simp [hm]
          · simp only [Bool.false_eq_true, if_false, pure, Except.pure] at h
            cases h
            simp [hs1]

theorem writeArray_ok (host : Host) (hh : HostAppends host) (f vt ff cb : Nat)
    (rg : List SAFEARRAYBOUND) (pv : List Int → VARIANT) (hA : vt &&& VT_ARRAY ≠ 0)
    (hB : vt &&& VT_BYREF = 0) (hsum : NoOfElements rg ≠ 0) (data : List Nat) (s : IStream)
    (h : WriteDataToStream host (f + 1) (VARIANT.array vt ff cb rg pv) ⟨data, data.length⟩
      = Except.ok s) :
    ∃ ts Es, walkTuples f rg = some ts ∧
      List.Forall₂ (ElemEncoding (WriteDataToStream host f) (VT_TYPEMASK &&& vt)
        ⟨ff, cb, rg, pv⟩) ts Es ∧
      s = ⟨data ++ (headerBytes rg ++ Es.flatten),
        (data ++ (headerBytes rg ++ Es.flatten)).length⟩ := by
  have e1 := WriteSafeArrayHeader_appends ⟨ff, cb, rg, pv⟩ data
  simp only [WriteDataToStream, VARIANT.V_ISARRAY, VARIANT.V_ISBYREF, VARIANT.vt, bne_iff_ne,
    ne_eq, hA, not_false_eq_true, if_true, hB, bne_self_eq_false, Bool.false_eq_true, if_false,
    VARIANT.parray, pure, Except.pure, ok_bind, e1, WriteSafeArrayElements, hsum] at h
  obtain ⟨ts, Es, hts, hall, hs⟩ := writeLoop_ok (WriteDataToStream host f) (VT_TYPEMASK &&& vt)
    ⟨ff, cb, rg, pv⟩ (uniform_writeData host hh f) f _ _ s h
  exact ⟨ts, Es, hts, hall, by simp only [hs, List.append_assoc]⟩

/-! ### The version field -/

theorem writeVariant_eq (host : Host) (fuel : Nat) (v : VARIANT) (data : List Nat) :
    WriteVariantToStream host fuel v ⟨data, data.length⟩
      = WriteDataToStream host fuel (written v)
          ⟨data ++ (toBytesLE 4 1 ++ toBytesLE 2 (written v).vt),
            (data ++ (toBytesLE 4 1 ++ toBytesLE 2 (written v).vt)).length⟩ := by
  have h1 : CStream.Write ⟨data, data.length⟩ 4 1 = _ := CStream.Write_appends 4 1 data
  have h2 : CStream.Write ⟨data ++ toBytesLE 4 1, (data ++ toBytesLE 4 1).length⟩ 2
      (written v).vt = _ := CStream.Write_appends 2 (written v).vt (data ++ toBytesLE 4 1)
  have hv : (variantVersion % 4294967296).toNat = 1 := rfl
  have hc : ∀ w : VARIANT, CheckResult (VariantCopyInd w).1 = Except.ok () := by
    intro w; cases w <;> rfl
  unfold written at *
  by_cases hb : v.V_ISBYREF = true
  · simp only [hb, if_true] at h2 ⊢
    simp only [WriteVariantToStream, WriteToStream, longBits, hb, if_true, pure, Except.pure]
    simp only [hv, h1, ok_bind, hc v, h2, List.append_assoc]
  · simp only [hb, Bool.false_eq_true, if_false] at h2 ⊢
    simp only [WriteVariantToStream, WriteToStream, longBits, hb, pure, Except.pure]
    simp only [hv, h1, ok_bind, h2, List.append_assoc, Bool.false_eq_true, if_false]

/-- Claim C11. Whenever `WriteVariantToStream` succeeds at the end of a stream
it has appended the 4 bytes of the version 1, the 2 bytes of the tag of the
value (for an alias, of the value it stands for) and then the bytes `P` that
`WriteDataToStream` appends for that value.  The data of an array that has
elements, at whatever depth, is its shape followed by the encodings of its
elements in the order of the walk, each encoding being the element's tag (in
an array of variants only) and the bytes `WriteDataToStream` appends for the
element: the version is nowhere but in front.  The host's save routine is
taken to append what the object determines. -/
theorem version_written_once (host : Host) (hh : HostAppends host) (fuel : Nat) (v : VARIANT)
    (data : List Nat) (s : IStream)
    (hok : WriteVariantToStream host fuel v ⟨data, data.length⟩ = Except.ok s) :
    (∃ P, Appends (WriteDataToStream host fuel (written v)) P ∧
      s = ⟨data ++ (toBytesLE 4 1 ++ (toBytesLE 2 (written v).vt ++ P)),
        (data ++ (toBytesLE 4 1 ++ (toBytesLE 2 (written v).vt ++ P))).length⟩) ∧
    ∀ (f vt ff cb : Nat) (rg : List SAFEARRAYBOUND) (pv : List Int → VARIANT) (d : List Nat)
      (s' : IStream), vt &&& VT_ARRAY ≠ 0 → vt &&& VT_BYREF = 0 → NoOfElements rg ≠ 0 →
      WriteDataToStream host (f + 1) (VARIANT.array vt ff cb rg pv) ⟨d, d.length⟩
        = Except.ok s' →
      ∃ ts Es, walkTuples f rg = some ts ∧
        List.Forall₂ (ElemEncoding (WriteDataToStream host f) (VT_TYPEMASK &&& vt)
          ⟨ff, cb, rg, pv⟩) ts Es ∧
        s' = ⟨d ++ (headerBytes rg ++ Es.flatten),
          (d ++ (headerBytes rg ++ Es.flatten)).length⟩ := by
  refine ⟨?_, fun f vt ff cb rg pv d s' hA hB hsum h =>
    writeArray_ok host hh f vt ff cb rg pv hA hB hsum d s' h⟩
  rw [writeVariant_eq] at hok
  obtain ⟨P, hP, hs⟩ := ok_of_uniform (uniform_writeData host hh fuel (written v)) hok
  exact ⟨P, hP, by simp only [hs, List.append_assoc]⟩

/-- Witness of C11: the array of variants holding a string and a 16-bit
integer, written to an empty stream. -/
theorem version_written_once_witness :
    HostAppends noHost ∧
    WriteVariantToStream noHost 3 sampleMixed ⟨[], 0⟩ = Except.ok ⟨sampleMixedBytes, 30⟩ ∧
    ∃ P, Appends (WriteDataToStream noHost 3 (written sampleMixed)) P ∧
      (⟨sampleMixedBytes, 30⟩ : IStream)
        = ⟨[] ++ (toBytesLE 4 1 ++ (toBytesLE 2 (written sampleMixed).vt ++ P)),
          ([] ++ (toBytesLE 4 1 ++ (toBytesLE 2 (written sampleMixed).vt ++ P))).length⟩ :=
  ⟨noHost_appends, rfl,
    (version_written_once noHost noHost_appends 3 sampleMixed [] ⟨sampleMixedBytes, 30⟩ rfl).1⟩

/-! ### Payloads of scalars, currency and strings -/

theorem payloadSize_fixed {vt : Nat} (h : IsFixedScalar vt) : payloadSize vt = fixedSize vt := by
  rcases h with h | h | h | h | h | h | h | h | h <;> subst h <;> decide

/-- Claim C12. For the tags empty, null, boolean, 8-bit unsigned, 16-bit
signed, 32-bit signed, error code, 32-bit float, 64-bit float, date and
currency, whatever the bits `n` of the value, `WriteVariantToStream` appends
the version, the tag and then a payload of exactly `payloadSize vt` bytes.
The payload is the first `payloadSize vt` bytes of the union unless the value
is a floating-point number that is a signalling NaN. -/
theorem scalar_payload_size (host : Host) (fuel vt n : Nat) (hfuel : 1 ≤ fuel)
    (hvt : IsSizedTag vt) :
    ∃ payload, Appends (WriteVariantToStream host fuel (VARIANT.plain vt (Payload.bits n)))
        (toBytesLE 4 1 ++ (toBytesLE 2 vt ++ payload)) ∧
      payload.length = payloadSize vt ∧
      (KeepsBits vt n → payload = toBytesLE (payloadSize vt) n) := by
  obtain ⟨f, rfl⟩ : ∃ f, fuel = f + 1 := ⟨fuel - 1, by omega⟩
  refine ⟨toBytesLE (payloadSize vt) (byValue vt n), ?_, toBytesLE_length _ _,
    fun hk => by rw [byValue_of_keepsBits hk]⟩
  have hby : (VARIANT.plain vt (Payload.bits n)).V_ISBYREF = false := by
    rcases hvt with h | h | h | h | h | h | h | h | h | h | h <;> subst h <;>
      simp +decide [VARIANT.V_ISBYREF, VARIANT.vt]
  rcases hvt with h | h | h
  · have hw := writeData_empty host f vt n (Or.inl h)
    have := writeVariant_appends host (f + 1) _ _ hby hw
    subst h
    simpa [payloadSize, toBytesLE, VARIANT.vt] using this
  · have hw := writeData_empty host f vt n (Or.inr h)
    have := writeVariant_appends host (f + 1) _ _ hby hw
    subst h
    simpa [payloadSize, toBytesLE, VARIANT.vt] using this
  · rw [payloadSize_fixed h]
    exact writeVariant_appends host (f + 1) _ _ hby (writeData_fixed host f vt n h)

/-- Witness of C12: a date, 8 bytes of payload. -/
theorem scalar_payload_size_witness :
    IsSizedTag VT_DATE ∧
    ∃ payload,
      Appends (WriteVariantToStream noHost 1 (VARIANT.plain VT_DATE (Payload.bits 4675319919640903680)))
        (toBytesLE 4 1 ++ (toBytesLE 2 VT_DATE ++ payload)) ∧
      payload.length = payloadSize VT_DATE ∧
      (KeepsBits VT_DATE 4675319919640903680 →
        payload = toBytesLE (payloadSize VT_DATE) 4675319919640903680) :=
  ⟨by decide, scalar_payload_size noHost 1 VT_DATE 4675319919640903680 (by decide) (by decide)⟩

theorem cyBits_lt (c : Int) : cyBits c < 18446744073709551616 := by
  unfold cyBits; omega

theorem cyInt64_cyBits (c : Int) (h1 : -9223372036854775808 ≤ c)
    (h2 : c < 9223372036854775808) : cyInt64 (cyBits c) = c := by
  unfold cyInt64 cyBits; omega

theorem cyBits_low (c : Int) : cyBits c % 4294967296 = longBits c := by
  unfold cyBits longBits; omega

theorem cyBits_high (c : Int) : cyBits c / 4294967296 = longBits (c / 4294967296) := by
  unfold cyBits longBits; omega

/-- Claim C13. For every 64-bit currency value `c`, negative ones included,
writing the currency-tagged scalar gives, after version and tag, the 4 bytes
of the low 32 bits of `c` and then the 4 bytes of its high 32 bits, and reading
the stream back gives a currency-tagged value whose 64 bits hold `c`. -/
theorem currency_low_then_high (host : Host) (fuel : Nat) (c : Int) (hfuel : 1 ≤ fuel)
    (hmin : -9223372036854775808 ≤ c) (hmax : c < 9223372036854775808) :
    ∃ st, WriteVariantToStream host fuel (VARIANT.plain VT_CY (Payload.bits (cyBits c)))
        IStream.empty = Except.ok st ∧
      st.data = toBytesLE 4 1 ++ (toBytesLE 2 VT_CY
        ++ (toBytesLE 4 (longBits c) ++ toBytesLE 4 (longBits (c / 4294967296)))) ∧
      ∃ n st', ReadVariantFromStream host fuel (RewindStream st)
          = Except.ok (VARIANT.plain VT_CY (Payload.bits n), st') ∧
        cyInt64 n = c := by
  obtain ⟨f, rfl⟩ : ∃ f, fuel = f + 1 := ⟨fuel - 1, by omega⟩
  have hfix : IsFixedScalar VT_CY := by decide
  have hw := writeVariant_appends host (f + 1) (VARIANT.plain VT_CY (Payload.bits (cyBits c))) _
    (by simp +decide [VARIANT.V_ISBYREF, VARIANT.vt]) (writeData_fixed host f VT_CY (cyBits c) hfix)
  have hr := readVariant_consumes host (f + 1) VT_CY _ (toBytesLE 4 1) _ (by decide)
    (toBytesLE_length _ _)
    (readData_fixed host f VT_CY (toBytesLE (fixedSize VT_CY) (cyBits c)) hfix
      (toBytesLE_length _ _))
  rw [fromBytesLE_toBytesLE] at hr
  obtain ⟨s, h1, h2, h3⟩ := round_trip_of hw hr
  have h8 : toBytesLE (fixedSize VT_CY) (cyBits c)
      = toBytesLE 4 (longBits c) ++ toBytesLE 4 (longBits (c / 4294967296)) := by
    have e := toBytesLE_add 4 4 (cyBits c)
    rw [show fixedSize VT_CY = 4 + 4 by decide, e, ← cyBits_high, ← cyBits_low,
      show (4294967296 : Nat) = 256 ^ 4 by norm_num, toBytesLE_mod]
  refine ⟨s, h1, ?_, _, _, h3, ?_⟩
  · rw [h2, VARIANT.vt, byValue_of_not_float _ (by decide) (by decide) (by decide), h8]
  · rw [show fixedSize VT_CY = 8 by decide, Nat.mod_eq_of_lt (by
      have := cyBits_lt c; norm_num; omega)]
    exact cyInt64_cyBits c hmin hmax

/-- Witness of C13: the currency value -2. -/
theorem currency_low_then_high_witness :
    ∃ st, WriteVariantToStream noHost 1 (VARIANT.plain VT_CY (Payload.bits (cyBits (-2))))
        IStream.empty = Except.ok st ∧
      st.data = toBytesLE 4 1 ++ (toBytesLE 2 VT_CY
        ++ (toBytesLE 4 (longBits (-2)) ++ toBytesLE 4 (longBits (-2 / 4294967296)))) ∧
      ∃ n st', ReadVariantFromStream noHost 1 (RewindStream st)
          = Except.ok (VARIANT.plain VT_CY (Payload.bits n), st') ∧
        cyInt64 n = -2 :=
  currency_low_then_high noHost 1 (-2) (by decide) (by decide) (by decide)

/-- Claim C14. For every string of `n` 16-bit code units `Write( BSTR )` appends
`4 + 2n` bytes: the 4 bytes of the number `2n`, then the two bytes of each
code unit in order, and nothing after them. -/
theorem bstr_write_layout (s : List Nat) (hs : IsBSTR s) :
    Appends (fun st => CStream.WriteBSTR st s) (toBytesLE 4 (2 * s.length) ++ bytesOfUnits s) ∧
      (toBytesLE 4 (2 * s.length) ++ bytesOfUnits s).length = 4 + 2 * s.length ∧
      fromBytesLE (toBytesLE 4 (2 * s.length)) = 2 * s.length ∧
      bytesOfUnits s = s.flatMap (fun u => [u % 256, u / 256 % 256]) ∧
      unitsOfBytes (bytesOfUnits s) = s := by
  have hb := bstrBytes_of_isBSTR s hs
  have hl := bytesOfUnits_length s
  have hw := CStream.WriteBSTR_appends s
  rw [hb, hl, Nat.mul_comm] at hw
  refine ⟨hw, ?_, ?_, ?_, unitsOfBytes_bytesOfUnits s hs.1⟩
  · simp [toBytesLE_length, hl]; omega
  · rw [fromBytesLE_toBytesLE]
    exact Nat.mod_eq_of_lt (by have := hs.2; norm_num; omega)
  · rfl

/-- Witness of C14: a string with an embedded null unit. -/
theorem bstr_write_layout_witness :
    IsBSTR [72, 0, 105] ∧
    (Appends (fun st => CStream.WriteBSTR st [72, 0, 105])
        (toBytesLE 4 (2 * [72, 0, 105].length) ++ bytesOfUnits [72, 0, 105]) ∧
      (toBytesLE 4 (2 * [72, 0, 105].length) ++ bytesOfUnits [72, 0, 105]).length
        = 4 + 2 * [72, 0, 105].length ∧
      fromBytesLE (toBytesLE 4 (2 * [72, 0, 105].length)) = 2 * [72, 0, 105].length ∧
      bytesOfUnits [72, 0, 105] = [72, 0, 105].flatMap (fun u => [u % 256, u / 256 % 256]) ∧
      unitsOfBytes (bytesOfUnits [72, 0, 105]) = [72, 0, 105]) :=
  ⟨by decide, bstr_write_layout [72, 0, 105] (by decide)⟩

/-! ### Array shape and element payload -/

theorem boundsBytes_length : ∀ (rg : List SAFEARRAYBOUND), (boundsBytes rg).length = 8 * rg.length
  | [] => rfl
  | b :: rg => by
    rw [boundsBytes_cons]
    simp only [List.length_append, toBytesLE_length, boundsBytes_length rg, List.length_cons]
    omega

theorem headerBytes_length (rg : List SAFEARRAYBOUND) :
    (headerBytes rg).length = 2 + 8 * rg.length := by
  unfold headerBytes
  rw [List.length_append, toBytesLE_length, boundsBytes_length]

/-- Claim C15. For an array of `d` dimensions (at least one, as many as the
16-bit count holds; lower bounds and extents within 32 bits) `WriteSafeArrayHeader`
appends `2 + 8d` bytes: the 2 bytes of `d`, then for each entry of `rgsabound`
in its order the 4 bytes of the lower bound (two's complement) and the 4 bytes
of the extent.  On a stream holding those bytes at the seek pointer
`ReadSafeArrayHeader`, called for an element type `GetTypeSize` knows, moves
past exactly them and delivers an array with the same dimension count and the
same bounds in the same order. -/
theorem header_layout (vt cb : Nat) (sa : SAFEARRAY) (hd1 : 1 ≤ sa.cDims)
    (hd2 : sa.cDims < 65536)
    (hb : ∀ b, b ∈ sa.rgsabound → isLong b.lLbound ∧ b.cElements < 4294967296)
    (hsz : GetTypeSize vt = Except.ok cb) :
    Appends (WriteSafeArrayHeader sa) (headerBytes sa.rgsabound) ∧
      (headerBytes sa.rgsabound).length = 2 + 8 * sa.cDims ∧
      headerBytes sa.rgsabound = toBytesLE 2 sa.cDims ++ sa.rgsabound.flatMap
        (fun b => toBytesLE 4 (longBits b.lLbound) ++ toBytesLE 4 b.cElements) ∧
      ∀ pre post : List Nat, ∃ tag sa' st,
        ReadSafeArrayHeader vt ⟨pre ++ (headerBytes sa.rgsabound ++ post), pre.length⟩
          = Except.ok (tag, sa', st) ∧
        sa'.cDims = sa.cDims ∧ sa'.rgsabound = sa.rgsabound ∧
        st = ⟨pre ++ (headerBytes sa.rgsabound ++ post), pre.length + (2 + 8 * sa.cDims)⟩ := by
  refine ⟨WriteSafeArrayHeader_appends sa, headerBytes_length _, rfl, fun pre post => ?_⟩
  have h := ReadSafeArrayHeader_eq vt cb sa.rgsabound hd1 hd2 hb hsz pre post _ rfl
  rw [headerBytes_length] at h
  exact ⟨_, _, _, h, rfl, rfl, rfl⟩

/-- Witness of C15: a shape of two dimensions, one lower bound negative. -/
theorem header_layout_witness :
    (∀ b, b ∈ [(⟨3, -2⟩ : SAFEARRAYBOUND), ⟨2, 5⟩] → isLong b.lLbound ∧ b.cElements < 4294967296) ∧
    GetTypeSize VT_I4 = Except.ok 4 ∧
    (headerBytes [⟨3, -2⟩, ⟨2, 5⟩]
        = [2, 0, 254, 255, 255, 255, 3, 0, 0, 0, 5, 0, 0, 0, 2, 0, 0, 0]) ∧
    (Appends (WriteSafeArrayHeader ⟨0, 4, [⟨3, -2⟩, ⟨2, 5⟩], fun _ => default⟩)
        (headerBytes [⟨3, -2⟩, ⟨2, 5⟩]) ∧
      (headerBytes [⟨3, -2⟩, ⟨2, 5⟩]).length = 2 + 8 * 2) :=
  ⟨by decide, rfl, by decide,
    (header_layout VT_I4 4 ⟨0, 4, [⟨3, -2⟩, ⟨2, 5⟩], fun _ => default⟩ (by decide) (by decide)
      (by decide) rfl).1,
    (header_layout VT_I4 4 ⟨0, 4, [⟨3, -2⟩, ⟨2, 5⟩], fun _ => default⟩ (by decide) (by decide)
      (by decide) rfl).2.1⟩

theorem wrapLong_wrapLong_add (a y : Int) : wrapLong (wrapLong a + y) = wrapLong (a + y) := by
  unfold wrapLong; omega

theorem noOfElements_foldl : ∀ (rg : List SAFEARRAYBOUND) (a : Int),
    rg.foldl (fun acc b => wrapLong (acc + (b.cElements : Int))) (wrapLong a)
      = wrapLong (a + (((rg.map (fun b => b.cElements)).sum : Nat) : Int))
  | [], a => by simp
  | b :: rg, a => by
    simp only [List.foldl_cons, List.map_cons, List.sum_cons]
    rw [noOfElements_foldl rg, add_assoc, wrapLong_wrapLong_add]
    congr 1

/-- The count the element routines test is the sum of the extents in 32 bits. -/
theorem noOfElements_eq (rg : List SAFEARRAYBOUND) :
    NoOfElements rg = wrapLong (((rg.map (fun b => b.cElements)).sum : Nat) : Int) := by
  have h := noOfElements_foldl rg 0
  simpa [NoOfElements, wrapLong] using h

theorem sum_pos_of_cellCount : ∀ (rg : List SAFEARRAYBOUND), 1 ≤ rg.length → cellCount rg ≠ 0 →
    0 < (rg.map (fun b => b.cElements)).sum
  | [], h, _ => by simp at h
  | b :: rg, _, hne => by
    rw [cellCount_cons] at hne
    have : b.cElements ≠ 0 := fun h => hne (by simp [h])
    simp only [List.map_cons, List.sum_cons]
    omega

theorem noOfElements_ne_zero (rg : List SAFEARRAYBOUND) (hd : 1 ≤ rg.length)
    (hne : cellCount rg ≠ 0) (hfit : (rg.map (fun b => b.cElements)).sum < 4294967296) :
    NoOfElements rg ≠ 0 := by
  have hpos := sum_pos_of_cellCount rg hd hne
  rw [noOfElements_eq]
  unfold wrapLong
  omega

theorem writeElem_appends (write : VARIANT → IStream → Except Exn IStream) (vt : Nat)
    (e : VARIANT) (D : List Nat) (h : Appends (write e) D) :
    Appends (writeElem write vt e) ((if VT_VARIANT = vt then toBytesLE 2 e.vt else []) ++ D) := by
  unfold writeElem
  by_cases hv : VT_VARIANT = vt
  · simp only [hv, if_true]
    exact appends_bind (CStream.Write_appends 2 e.vt) h
  · simp only [hv, if_false]
    exact appends_bind appends_nil h

/-- With every element encodable, a shape without overflow and fuel for every
element, the element writer succeeds. -/
theorem writeElements_total (write : VARIANT → IStream → Except Exn IStream) (f vt : Nat)
    (sa : SAFEARRAY) (hs : ShapeOK sa.rgsabound) (hsum : NoOfElements sa.rgsabound ≠ 0)
    (hf : cellCount sa.rgsabound ≤ f)
    (henc : ∀ idx, tupleInBounds sa.rgsabound idx → ∃ E, ElemEncoding write vt sa idx E) :
    ∃ B, Appends (WriteSafeArrayElements write f vt sa) B := by
  have hP := cellCount_pos hs
  have hex : ∀ k, ∃ E, ElemEncoding write vt sa (tupleOf sa.rgsabound k).reverse E :=
    fun k => henc _ (tupleOf_inBounds sa.rgsabound k hs)
  have hstep : ∀ k, k < cellCount sa.rgsabound → ∃ temp,
      SafeArrayGetElementAsVariant sa (tupleOf sa.rgsabound k).reverse vt = Except.ok temp ∧
      Appends (writeElem write vt temp) (Classical.choose (hex k)) := by
    intro k _
    obtain ⟨e, D, hget, hD, hE⟩ := Classical.choose_spec (hex k)
    exact ⟨e, hget, by rw [hE]; exact writeElem_appends write vt e D hD⟩
  have hloop := writeLoop_appends write vt sa sa.rgsabound hs _ hstep
    (cellCount sa.rgsabound - 1) 0 f (by omega) (by omega)
  refine ⟨(List.range' 0 (cellCount sa.rgsabound - 1 + 1)).flatMap
    (fun k => Classical.choose (hex k)), fun data => ?_⟩
  have := hloop data
  simp only [WriteSafeArrayElements, hsum, if_false, writeLoop_new]
  exact this

/-- Claim C16. For an array that has elements (at least one dimension, no
extent zero, the extents adding up to less than 2^32 as in every array the
32-bit address space holds), whenever `WriteSafeArrayElements` succeeds at the
end of a stream it has appended the concatenation, over the tuples of the
walk in their order, of the encodings of the elements at those tuples; the
encoding of an element is its own tag in 2 bytes followed by the bytes
`WriteDataToStream` appends for it when the element type is `VT_VARIANT`, and
those bytes alone for every other element type.  It does succeed when every
element within the bounds has such an encoding, no bound overflows 32 bits
and the fuel covers the elements.  The host's save routine is taken to append
what the object determines. -/
theorem elements_in_walk_order (host : Host) (hh : HostAppends host) (f vt : Nat)
    (sa : SAFEARRAY) (hd : 1 ≤ sa.cDims) (hne : cellCount sa.rgsabound ≠ 0)
    (hfit : (sa.rgsabound.map (fun b => b.cElements)).sum < 4294967296) :
    (∀ (data : List Nat) (s : IStream),
      WriteSafeArrayElements (WriteDataToStream host f) f vt sa ⟨data, data.length⟩
        = Except.ok s →
      ∃ ts Es, walkTuples f sa.rgsabound = some ts ∧
        List.Forall₂ (fun index E => ∃ e D,
          SafeArrayGetElementAsVariant sa index vt = Except.ok e ∧
          Appends (WriteDataToStream host f e) D ∧
          E = (if VT_VARIANT = vt then toBytesLE 2 e.vt else []) ++ D) ts Es ∧
        s = ⟨data ++ Es.flatten, (data ++ Es.flatten).length⟩) ∧
    (ShapeOK sa.rgsabound → cellCount sa.rgsabound ≤ f →
      (∀ index, tupleInBounds sa.rgsabound index → ∃ e D,
        SafeArrayGetElementAsVariant sa index vt = Except.ok e ∧
        Appends (WriteDataToStream host f e) D) →
      ∀ data : List Nat, ∃ s,
        WriteSafeArrayElements (WriteDataToStream host f) f vt sa ⟨data, data.length⟩
          = Except.ok s) := by
  have hsum := noOfElements_ne_zero sa.rgsabound hd hne hfit
  refine ⟨fun data s hok => ?_, fun hs hf henc data => ?_⟩
  · simp only [WriteSafeArrayElements, hsum, if_false] at hok
    exact writeLoop_ok (WriteDataToStream host f) vt sa (uniform_writeData host hh f) f _ data s
      hok
  · obtain ⟨B, hB⟩ := writeElements_total (WriteDataToStream host f) f vt sa hs hsum hf
      (fun idx hidx => by
        obtain ⟨e, D, hget, hD⟩ := henc idx hidx
        exact ⟨_, e, D, hget, hD, rfl⟩)
    exact ⟨_, hB data⟩

/-- Witness of C16: the elements of the array of variants holding a string and
a 16-bit integer. -/
theorem elements_in_walk_order_witness :
    HostAppends noHost ∧
    WriteSafeArrayElements (WriteDataToStream noHost 2) 2 VT_VARIANT
        ⟨FADF_VARIANT, 16, [⟨2, 1⟩], sampleMixedCells⟩ ⟨[], 0⟩
      = Except.ok ⟨[8, 0, 4, 0, 0, 0, 65, 0, 66, 0, 2, 0, 7, 0], 14⟩ ∧
    ∃ ts Es, walkTuples 2 [⟨2, 1⟩] = some ts ∧
      List.Forall₂ (fun index E => ∃ e D,
        SafeArrayGetElementAsVariant ⟨FADF_VARIANT, 16, [⟨2, 1⟩], sampleMixedCells⟩ index
          VT_VARIANT = Except.ok e ∧
        Appends (WriteDataToStream noHost 2 e) D ∧
        E = (if VT_VARIANT = VT_VARIANT then toBytesLE 2 e.vt else []) ++ D) ts Es ∧
      (⟨[8, 0, 4, 0, 0, 0, 65, 0, 66, 0, 2, 0, 7, 0], 14⟩ : IStream)
        = ⟨[] ++ Es.flatten, ([] ++ Es.flatten).length⟩ :=
  ⟨noHost_appends, rfl,
    (elements_in_walk_order noHost noHost_appends 2 VT_VARIANT
      ⟨FADF_VARIANT, 16, [⟨2, 1⟩], sampleMixedCells⟩ (by decide) (by decide) (by decide)).1 []
      ⟨[8, 0, 4, 0, 0, 0, 65, 0, 66, 0, 2, 0, 7, 0], 14⟩ rfl⟩

/-! ### Truncated payloads -/

theorem CStream.Read_short (pre P : List Nat) (size : Nat) (h : P.length < size) :
    CStream.Read ⟨pre ++ P, pre.length⟩ size = Except.error Exn.raised := by
  have hne : ¬ (min size P.length = size) := by omega
  simp [CStream.Read, IStream.Read, CheckResult, FAILED, ThrowError, bind, Except.bind, pure,
    Except.pure, hne]

theorem CStream.Read_eq (s : IStream) (size : Nat) :
    CStream.Read s size
      = if ((s.data.drop s.pos).take size).length = size then
          Except.ok (fromBytesLE ((s.data.drop s.pos).take size),
            { s with pos := s.pos + ((s.data.drop s.pos).take size).length })
        else Except.error Exn.raised := by
  by_cases hl : ((s.data.drop s.pos).take size).length = size
  · rw [if_pos hl]
    simp only [CStream.Read, IStream.Read, CheckResult, FAILED, ThrowError, bind, Except.bind,
      pure, Except.pure, hl]
    simp
  · rw [if_neg hl]
    simp only [CStream.Read, IStream.Read, CheckResult, FAILED, ThrowError, bind, Except.bind,
      pure, Except.pure, hl]
    simp only [List.length_take, List.length_drop] at hl
    simp
    omega

theorem CStream.Read_raises (s : IStream) (size : Nat) (e : Exn)
    (h : CStream.Read s size = Except.error e) : e = Exn.raised := by
  rw [CStream.Read_eq] at h
  split at h
  · cases h
  · cases h; rfl

theorem readData_short (host : Host) (f vt : Nat) (pre P : List Nat) (hvt : IsFixedScalar vt)
    (hP : P.length < fixedSize vt) :
    ReadDataFromStream host (f + 1) vt ⟨pre ++ P, pre.length⟩ = Except.error Exn.raised := by
  have h1 : ∀ size, P.length < size →
      CStream.Read ⟨pre ++ P, pre.length⟩ size = Except.error Exn.raised :=
    fun size h => CStream.Read_short pre P size h
  rcases hvt with h | h | h | h | h | h | h | h | h <;> subst h <;>
    simp +decide only [fixedSize, if_true, if_false, or_self, or_false, false_or, ↓reduceIte]
      at hP <;>
    simp +decide only [ReadDataFromStream, if_true, if_false, or_self, or_false, false_or,
      ↓reduceIte, ne_eq, not_true_eq_false, not_false_eq_true]
  all_goals first
    | (rw [h1 _ hP]; rfl)
    | skip
  by_cases hlt : P.length < 4
  · rw [h1 4 hlt]; rfl
  · have hr1 : CStream.Read ⟨pre ++ P, pre.length⟩ (P.take 4).length
        = Except.ok (fromBytesLE (P.take 4), ⟨pre ++ P, pre.length + (P.take 4).length⟩) :=
      CStream.Read_consumes (P.take 4) pre (P.drop 4) (pre ++ P) (by rw [List.take_append_drop])
    have hr2 := CStream.Read_short (pre ++ P.take 4) (P.drop 4) 4
      (by rw [List.length_drop]; omega)
    have h4 : (P.take 4).length = 4 := by rw [List.length_take]; omega
    rw [List.append_assoc, List.take_append_drop, List.length_append, h4] at hr2
    rw [h4] at hr1
    rw [hr1, ok_bind, hr2]
    rfl

/-- The macro `ThrowError` raises the same exception for every argument:
failures are told apart by the check that raises, not by the exception. -/
theorem ThrowError_any {α : Type} (a b : Int) :
    (ThrowError a : Except Exn α) = ThrowError b := rfl

theorem readVariant_short (host : Host) (fuel vt : Nat) (W P : List Nat) (hfuel : 1 ≤ fuel)
    (hW : W.length = 4) (hvt : IsFixedScalar vt) (hP : P.length < fixedSize vt) :
    ReadVariantFromStream host fuel ⟨W ++ (toBytesLE 2 vt ++ P), 0⟩
      = Except.error Exn.raised := by
  obtain ⟨f, rfl⟩ : ∃ f, fuel = f + 1 := ⟨fuel - 1, by omega⟩
  have hlt : vt < 65536 := by
    rcases hvt with h | h | h | h | h | h | h | h | h <;> subst h <;> decide
  have hver := CStream.Read_consumes W [] (toBytesLE 2 vt ++ P) _ rfl
  have htag := CStream.Read_consumes (toBytesLE 2 vt) W P _ rfl
  rw [toBytesLE_length, fromBytesLE_toBytesLE, Nat.mod_eq_of_lt (by simpa using hlt),
    hW] at htag
  simp only [hW, List.nil_append, List.length_nil, Nat.zero_add] at hver
  have hdata := readData_short host f vt (W ++ toBytesLE 2 vt) P hvt hP
  rw [List.length_append, toBytesLE_length, hW, List.append_assoc] at hdata
  simp only [ReadVariantFromStream, ReadFromStream, hver, ok_bind, List.length_nil, Nat.zero_add,
    htag, hdata]

/-- Claim C17.  Reading a stream that holds 4 bytes of version, the 2-byte tag
of a fixed-width scalar type and fewer bytes than the type takes ends as
`ThrowError( E_FAIL )` of the short-transfer check of `CStream::Read` does (the
macro's exception, no value, no zero-filled value), whereas with all the
bytes of the type in place the same read delivers the value. -/
theorem truncated_scalar_read_raises (host : Host) (fuel vt : Nat) (W P : List Nat)
    (hfuel : 1 ≤ fuel) (hW : W.length = 4) (hvt : IsFixedScalar vt)
    (hP : P.length < fixedSize vt) :
    ReadVariantFromStream host fuel ⟨W ++ (toBytesLE 2 vt ++ P), 0⟩ = ThrowError E_FAIL ∧
      (∀ v st, ReadVariantFromStream host fuel ⟨W ++ (toBytesLE 2 vt ++ P), 0⟩
        ≠ Except.ok (v, st)) ∧
      ∀ Q : List Nat, Q.length = fixedSize vt →
        ∃ st, ReadVariantFromStream host fuel ⟨W ++ (toBytesLE 2 vt ++ Q), 0⟩
          = Except.ok (VARIANT.plain vt (Payload.bits (fromBytesLE Q)), st) := by
  have h := readVariant_short host fuel vt W P hfuel hW hvt hP
  refine ⟨h, fun v st hv => (by rw [h] at hv; cases hv), fun Q hQ => ?_⟩
  obtain ⟨f, rfl⟩ : ∃ f, fuel = f + 1 := ⟨fuel - 1, by omega⟩
  have hlt : vt < 65536 := by
    rcases hvt with h | h | h | h | h | h | h | h | h <;> subst h <;> decide
  have hr := readVariant_consumes host (f + 1) vt _ W Q hlt hW
    (readData_fixed host f vt Q hvt hQ)
  have := hr [] [] (W ++ (toBytesLE 2 vt ++ Q)) (by simp)
  simp only [List.length_nil, List.nil_append, List.append_nil] at this
  exact ⟨_, this⟩

/-- Witness of C17: a currency value with 5 of its 8 bytes. -/
theorem truncated_scalar_read_raises_witness :
    IsFixedScalar VT_CY ∧ [5, 6, 7, 8, 9].length < fixedSize VT_CY ∧
    ReadVariantFromStream noHost 1 ⟨[1, 0, 0, 0] ++ (toBytesLE 2 VT_CY ++ [5, 6, 7, 8, 9]), 0⟩
      = ThrowError E_FAIL :=
  ⟨by decide, by decide,
    (truncated_scalar_read_raises noHost 1 VT_CY [1, 0, 0, 0] [5, 6, 7, 8, 9] (by decide) rfl
      (by decide) (by decide)).1⟩

/-! ### Tags the reader does not know -/

theorem GetTypeSize_unknown (vt : Nat) (h : ¬ IsElemTag vt) :
    GetTypeSize vt = Except.error Exn.raised := by
  simp only [IsElemTag, not_or] at h
  obtain ⟨h1, h2, h3, h4, h5, h6, h7, h8, h9, h10, h11, h12, h13⟩ := h
  simp only [GetTypeSize, h1, h2, h3, h4, h5, h6, h7, h8, h9, h10, h11, h12, h13, if_false,
    ThrowError]

theorem readBounds_raises : ∀ (n : Nat) (s : IStream) (e : Exn),
    readBounds n s = Except.error e → e = Exn.raised
  | 0, _, _, h => by cases h
  | n + 1, s, e, h => by
    simp only [readBounds] at h
    cases h1 : CStream.Read s 4 with
    | error x =>
      rw [h1] at h
      cases h
      exact CStream.Read_raises _ _ _ h1
    | ok r1 =>
      rw [h1, ok_bind] at h
      cases h2 : CStream.Read r1.2 4 with
      | error x =>
        rw [h2] at h
        cases h
        exact CStream.Read_raises _ _ _ h2
      | ok r2 =>
        rw [h2, ok_bind] at h
        cases h3 : readBounds n r2.2 with
        | error x =>
          rw [h3] at h
          cases h
          exact readBounds_raises n _ _ h3
        | ok r3 =>
          rw [h3] at h
          cases h

theorem ReadSafeArrayHeader_unknown (vt : Nat) (h : ¬ IsElemTag vt) (s : IStream) :
    ReadSafeArrayHeader vt s = Except.error Exn.raised := by
  have hg := GetTypeSize_unknown vt h
  simp only [ReadSafeArrayHeader]
  cases h1 : CStream.Read s 2 with
  | error x =>
    rw [CStream.Read_raises _ _ _ h1]
    rfl
  | ok r1 =>
    rw [ok_bind]
    by_cases hz : r1.1 = 0
    · simp [SafeArrayAllocDescriptor, hz, CheckResult, FAILED, ThrowError]
    · simp only [SafeArrayAllocDescriptor, hz, if_false, CheckResult, FAILED]
      cases h3 : readBounds r1.1 r1.2 with
      | error x =>
        rw [readBounds_raises _ _ _ h3]
        simp +decide [h3, readBounds_raises _ _ _ h3 ▸ h3]
      | ok r3 =>
        simp +decide [hg]

theorem readData_unknown_scalar (host : Host) (f vt : Nat) (s : IStream)
    (hA : vt &&& VT_ARRAY = 0) (h : ¬ IsScalarTag vt) :
    ReadDataFromStream host (f + 1) vt s = Except.error Exn.raised := by
  simp only [IsScalarTag, not_or] at h
  obtain ⟨h1, h2, h3, h4, h5, h6, h7, h8, h9, h10, h11, h12, h13, h14⟩ := h
  simp only [ReadDataFromStream, hA, ne_eq, not_true_eq_false, if_false, h1, h2, h3, h4, h5, h6,
    h7, h8, h9, h10, h11, h12, h13, h14, or_self, ThrowError]
  rfl

theorem readData_unknown_elem (host : Host) (f vt : Nat) (s : IStream)
    (hA : vt &&& VT_ARRAY ≠ 0) (h : ¬ IsElemTag (VT_TYPEMASK &&& vt)) :
    ReadDataFromStream host (f + 1) vt s = Except.error Exn.raised := by
  simp only [ReadDataFromStream, hA, ne_eq, not_false_eq_true, if_true,
    ReadSafeArrayHeader_unknown _ h s]
  rfl

theorem readVariant_unknown (host : Host) (fuel vt : Nat) (W rest : List Nat)
    (hfuel : 1 ≤ fuel) (hW : W.length = 4) (hlt : vt < 65536) (h : IsUnreadableTag vt) :
    ReadVariantFromStream host fuel ⟨W ++ (toBytesLE 2 vt ++ rest), 0⟩
      = Except.error Exn.raised := by
  obtain ⟨f, rfl⟩ : ∃ f, fuel = f + 1 := ⟨fuel - 1, by omega⟩
  have hver := CStream.Read_consumes W [] (toBytesLE 2 vt ++ rest) _ rfl
  have htag := CStream.Read_consumes (toBytesLE 2 vt) W rest _ rfl
  rw [toBytesLE_length, fromBytesLE_toBytesLE, Nat.mod_eq_of_lt (by simpa using hlt),
    hW] at htag
  simp only [hW, List.nil_append, List.length_nil, Nat.zero_add] at hver
  have hdata : ∀ s, ReadDataFromStream host (f + 1) vt s = Except.error Exn.raised := by
    intro s
    rcases h with ⟨hA, hs⟩ | ⟨hA, he⟩
    · exact readData_unknown_scalar host f vt s hA hs
    · exact readData_unknown_elem host f vt s hA he
  simp only [ReadVariantFromStream, ReadFromStream, hver, ok_bind, htag, hdata]

/-- Claim C18 as stated fails.  The tag 24579, the array flag together with
the by-reference flag and the tag of a 32-bit integer, is neither a scalar tag
nor the array flag combined with an element tag; a stream with that tag
followed by the bytes of a one-element array is read, as the array of 32-bit
integers: the reader masks the other flag bits away. -/
theorem flagged_array_tag_is_read :
    24579 = VT_ARRAY ||| VT_BYREF ||| VT_I4 ∧ ¬ IsScalarTag 24579 ∧
    (∀ e, IsElemTag e → 24579 ≠ e ||| VT_ARRAY) ∧
    ∃ ff pv st, ReadVariantFromStream noHost 3
        ⟨[1, 0, 0, 0, 3, 96, 1, 0, 0, 0, 0, 0, 1, 0, 0, 0, 7, 0, 0, 0], 0⟩
      = Except.ok (VARIANT.array (VT_I4 ||| VT_ARRAY) ff 4 [⟨1, 0⟩] pv, st) ∧
      pv [0] = VARIANT.plain 0 (Payload.bits 7) := by
  refine ⟨by decide, by decide, ?_, _, _, _, rfl, rfl⟩
  intro e he
  rcases he with h | h | h | h | h | h | h | h | h | h | h | h | h <;> subst h <;> decide

/-- Claim C18, amended.  For a tag without the array flag that is none of the
scalar tags, and for a tag with the array flag whose element type (the 12
bits of the type mask) `GetTypeSize` does not know, whatever bytes follow the
tag, `ReadVariantFromStream` ends with the exception of `ThrowError` and
delivers no value.  Without the array flag the data reader raises for the tag
alone, on every stream, as `ThrowError( DISP_E_TYPEMISMATCH )` of its `switch`
does; with the array flag `ReadSafeArrayHeader` raises on every stream, in
`GetTypeSize` unless a read of the shape fails before. -/
theorem unknown_tag_read_raises (host : Host) (fuel vt : Nat) (W rest : List Nat)
    (hfuel : 1 ≤ fuel) (hW : W.length = 4) (hlt : vt < 65536) (h : IsUnreadableTag vt) :
    ReadVariantFromStream host fuel ⟨W ++ (toBytesLE 2 vt ++ rest), 0⟩ = Except.error Exn.raised ∧
      (∀ v st, ReadVariantFromStream host fuel ⟨W ++ (toBytesLE 2 vt ++ rest), 0⟩
        ≠ Except.ok (v, st)) ∧
      (vt &&& VT_ARRAY = 0 →
        ∀ s, ReadDataFromStream host fuel vt s = ThrowError DISP_E_TYPEMISMATCH) ∧
      (vt &&& VT_ARRAY ≠ 0 →
        ∀ s, ReadSafeArrayHeader (VT_TYPEMASK &&& vt) s = Except.error Exn.raised) := by
  have hr := readVariant_unknown host fuel vt W rest hfuel hW hlt h
  refine ⟨hr, fun v st hv => (by rw [hr] at hv; cases hv), fun hA s => ?_, fun hA s => ?_⟩
  · obtain ⟨f, rfl⟩ : ∃ f, fuel = f + 1 := ⟨fuel - 1, by omega⟩
    rcases h with ⟨_, hs⟩ | ⟨hA', _⟩
    · exact readData_unknown_scalar host f vt s hA hs
    · exact absurd hA hA'
  · rcases h with ⟨hA', _⟩ | ⟨_, he⟩
    · exact absurd hA' hA
    · exact ReadSafeArrayHeader_unknown _ he s

/-- Witness of C18 (amended): the tag of a variant used for a scalar. -/
theorem unknown_tag_read_raises_witness :
    IsUnreadableTag VT_VARIANT ∧ IsUnreadableTag (16 ||| VT_ARRAY) ∧
    ReadVariantFromStream noHost 1 ⟨[1, 0, 0, 0] ++ (toBytesLE 2 VT_VARIANT ++ [7, 0, 0, 0]), 0⟩
      = Except.error Exn.raised :=
  ⟨by decide, by decide,
    (unknown_tag_read_raises noHost 1 VT_VARIANT [1, 0, 0, 0] [7, 0, 0, 0] (by decide) rfl
      (by decide) (by decide)).1⟩

/-! ### Unknown element types and tags the writer does not know -/

theorem mask_or_array (e : Nat) (h : e < 4096) : VT_TYPEMASK &&& (e ||| VT_ARRAY) = e := by
  have h1 := Nat.and_pow_two_sub_one_eq_mod e 12
  have h2 : (4095 : Nat) &&& 8192 = 0 := by decide
  rw [Nat.and_or_distrib_left, h2, Nat.or_zero, Nat.and_comm]
  norm_num at h1
  rw [h1, Nat.mod_eq_of_lt h]

theorem or_array_flag (e : Nat) : (e ||| VT_ARRAY) &&& VT_ARRAY ≠ 0 := by
  intro h
  have h13 : (8192 : Nat).testBit 13 = true := by decide
  have : ((e ||| VT_ARRAY) &&& VT_ARRAY).testBit 13 = true := by
    simp [Nat.testBit_and, Nat.testBit_or, h13]
  rw [h] at this
  simp at this

theorem or_array_lt (e : Nat) (h : e < 4096) : e ||| VT_ARRAY < 65536 := by
  have := @Nat.or_lt_two_pow e VT_ARRAY 16 (by omega) (by decide)
  simpa using this

/-- Claim C19.  The tag is the array flag combined with an element type
`GetTypeSize` does not know, and the shape that follows is complete, with at
least one dimension.  Then the dimension count and the bounds are read,
`GetTypeSize` raises as its `ThrowError( DISP_E_TYPEMISMATCH )` does (the
macro's exception), and with it `ReadSafeArrayHeader` and
`ReadVariantFromStream` end, whatever follows the shape: no element is
read. -/
theorem unknown_element_type_read_raises (host : Host) (fuel elem : Nat) (W post : List Nat)
    (rg : List SAFEARRAYBOUND) (hfuel : 1 ≤ fuel) (hW : W.length = 4) (helem : elem < 4096)
    (hun : ¬ IsElemTag elem) (hd1 : 1 ≤ rg.length) (hd2 : rg.length < 65536)
    (hb : ∀ b, b ∈ rg → isLong b.lLbound ∧ b.cElements < 4294967296) :
    CStream.Read ⟨W ++ (toBytesLE 2 (elem ||| VT_ARRAY) ++ (headerBytes rg ++ post)), 6⟩ 2
      = Except.ok (rg.length,
          ⟨W ++ (toBytesLE 2 (elem ||| VT_ARRAY) ++ (headerBytes rg ++ post)), 8⟩) ∧
    readBounds rg.length
        ⟨W ++ (toBytesLE 2 (elem ||| VT_ARRAY) ++ (headerBytes rg ++ post)), 8⟩
      = Except.ok (rg, ⟨W ++ (toBytesLE 2 (elem ||| VT_ARRAY) ++ (headerBytes rg ++ post)),
          8 + 8 * rg.length⟩) ∧
    GetTypeSize elem = ThrowError DISP_E_TYPEMISMATCH ∧
    ReadSafeArrayHeader elem
        ⟨W ++ (toBytesLE 2 (elem ||| VT_ARRAY) ++ (headerBytes rg ++ post)), 6⟩
      = ThrowError DISP_E_TYPEMISMATCH ∧
    ReadVariantFromStream host fuel
        ⟨W ++ (toBytesLE 2 (elem ||| VT_ARRAY) ++ (headerBytes rg ++ post)), 0⟩
      = ThrowError DISP_E_TYPEMISMATCH := by
  have hmask := mask_or_array elem helem
  have hun2 : IsUnreadableTag (elem ||| VT_ARRAY) :=
    Or.inr ⟨or_array_flag elem, by rw [hmask]; exact hun⟩
  refine ⟨?_, ?_, GetTypeSize_unknown elem hun, ReadSafeArrayHeader_unknown elem hun _,
    readVariant_unknown host fuel _ W _ hfuel hW (or_array_lt elem helem) hun2⟩
  · have h := CStream.Read_consumes (toBytesLE 2 rg.length)
      (W ++ toBytesLE 2 (elem ||| VT_ARRAY)) (boundsBytes rg ++ post) _ rfl
    simp only [toBytesLE_length, List.length_append, hW, fromBytesLE_toBytesLE] at h
    rw [Nat.mod_eq_of_lt (by norm_num; omega)] at h
    simpa [headerBytes, List.append_assoc] using h
  · have h := readBounds_consumes rg hb
      (W ++ toBytesLE 2 (elem ||| VT_ARRAY) ++ toBytesLE 2 rg.length) post _ rfl
    simp only [toBytesLE_length, List.length_append, hW, boundsBytes_length] at h
    simpa [headerBytes, List.append_assoc] using h

/-- Witness of C19: an array of the element type null, two dimensions. -/
theorem unknown_element_type_read_raises_witness :
    ¬ IsElemTag VT_NULL ∧
    ReadVariantFromStream noHost 1
        ⟨[9, 9, 9, 9] ++ (toBytesLE 2 (VT_NULL ||| VT_ARRAY)
          ++ (headerBytes [⟨2, 0⟩, ⟨3, -1⟩] ++ [])), 0⟩
      = ThrowError DISP_E_TYPEMISMATCH :=
  ⟨by decide,
    (unknown_element_type_read_raises noHost 1 VT_NULL [9, 9, 9, 9] [] [⟨2, 0⟩, ⟨3, -1⟩]
      (by decide) rfl (by decide) (by decide) (by decide) (by decide) (by decide)).2.2.2.2⟩

theorem CStream.Write_ok (s : IStream) (size v : Nat) :
    CStream.Write s size v = Except.ok (s.Write (toBytesLE size v)).2.2 := by
  simp [CStream.Write, IStream.Write, CheckResult, FAILED, toBytesLE_length, bind, Except.bind,
    pure, Except.pure]

theorem writeData_unknown_scalar (host : Host) (f : Nat) (v : VARIANT) (s : IStream)
    (hA : v.V_ISARRAY = false) (h : ¬ IsScalarTag v.vt) :
    WriteDataToStream host (f + 1) v s = Except.error Exn.raised := by
  simp only [IsScalarTag, not_or] at h
  obtain ⟨h1, h2, h3, h4, h5, h6, h7, h8, h9, h10, h11, h12, h13, h14⟩ := h
  simp only [WriteDataToStream, hA, Bool.false_eq_true, if_false, h1, h2, h3, h4, h5, h6,
    h7, h8, h9, h10, h11, h12, h13, h14, or_self, ThrowError]

theorem writeVariant_unknown_scalar (host : Host) (fuel : Nat) (v : VARIANT) (s : IStream)
    (hfuel : 1 ≤ fuel) (hA : v.V_ISARRAY = false) (hB : v.V_ISBYREF = false)
    (h : ¬ IsScalarTag v.vt) :
    WriteVariantToStream host fuel v s = Except.error Exn.raised := by
  obtain ⟨f, rfl⟩ : ∃ f, fuel = f + 1 := ⟨fuel - 1, by omega⟩
  simp only [WriteVariantToStream, WriteToStream, hB, Bool.false_eq_true, if_false, pure,
    Except.pure, CStream.Write_ok, ok_bind, writeData_unknown_scalar host f v _ hA h]

/-- Claim C20.  For a value that is neither an array nor an alias and whose
tag is none of empty, null, boolean, 8-bit unsigned, 16-bit signed, 32-bit
signed, currency, 32-bit float, 64-bit float, date, string, error code, object
reference and dispatch reference, `WriteVariantToStream` ends on every stream
as `ThrowError( DISP_E_TYPEMISMATCH )` of the `switch` of `WriteDataToStream`
does (the macro's exception), whatever the value holds. -/
theorem unknown_tag_write_raises (host : Host) (fuel : Nat) (v : VARIANT) (s : IStream)
    (hfuel : 1 ≤ fuel) (harray : v.V_ISARRAY = false) (halias : v.V_ISBYREF = false)
    (htag : ¬ IsScalarTag v.vt) :
    WriteVariantToStream host fuel v s = ThrowError DISP_E_TYPEMISMATCH ∧
      ∀ s', WriteVariantToStream host fuel v s ≠ Except.ok s' := by
  have h := writeVariant_unknown_scalar host fuel v s hfuel harray halias htag
  exact ⟨h, fun s' hs => by rw [h] at hs; cases hs⟩

/-- Witness of C20: the tag of a variant used for a scalar. -/
theorem unknown_tag_write_raises_witness :
    (VARIANT.plain VT_VARIANT (Payload.bits 5)).V_ISARRAY = false ∧
    (VARIANT.plain VT_VARIANT (Payload.bits 5)).V_ISBYREF = false ∧
    ¬ IsScalarTag (VARIANT.plain VT_VARIANT (Payload.bits 5)).vt ∧
    WriteVariantToStream noHost 1 (VARIANT.plain VT_VARIANT (Payload.bits 5)) IStream.empty
      = ThrowError DISP_E_TYPEMISMATCH :=
  ⟨by decide, by decide, by decide,
    (unknown_tag_write_raises noHost 1 (VARIANT.plain VT_VARIANT (Payload.bits 5)) IStream.empty
      (by decide) (by decide) (by decide) (by decide)).1⟩

/-! ### Empty, null and aliases -/

/-- Claim C28. For the empty tag and for the null tag `WriteVariantToStream`
appends exactly 6 bytes, the 4 of the version and the 2 of the tag, whatever
the union holds; and reading a stream that holds those 6 bytes (whatever
follows them) delivers a value with that tag and stops after them. -/
theorem empty_and_null_take_six_bytes (host : Host) (fuel vt n : Nat) (hfuel : 1 ≤ fuel)
    (hvt : vt = VT_EMPTY ∨ vt = VT_NULL) :
    Appends (WriteVariantToStream host fuel (VARIANT.plain vt (Payload.bits n)))
        (toBytesLE 4 1 ++ toBytesLE 2 vt) ∧
      (toBytesLE 4 1 ++ toBytesLE 2 vt).length = 6 ∧
      ∀ rest : List Nat,
        ReadVariantFromStream host fuel ⟨toBytesLE 4 1 ++ toBytesLE 2 vt ++ rest, 0⟩
          = Except.ok (VARIANT.plain vt (Payload.bits 0),
              ⟨toBytesLE 4 1 ++ toBytesLE 2 vt ++ rest, 6⟩) := by
  obtain ⟨f, rfl⟩ : ∃ f, fuel = f + 1 := ⟨fuel - 1, by omega⟩
  have hlt : vt < 65536 ∧ vt &&& VT_BYREF = 0 := by
    rcases hvt with h | h <;> subst h <;> decide
  have hw := writeVariant_appends host (f + 1) (VARIANT.plain vt (Payload.bits n)) _
    (by simp [VARIANT.V_ISBYREF, VARIANT.vt, hlt.2]) (writeData_empty host f vt n hvt)
  have hr := readVariant_consumes host (f + 1) vt _ (toBytesLE 4 1) _ hlt.1
    (toBytesLE_length _ _) (readData_empty host f vt hvt)
  refine ⟨by simpa [VARIANT.vt] using hw, by simp [toBytesLE_length], fun rest => ?_⟩
  have := hr [] rest (toBytesLE 4 1 ++ toBytesLE 2 vt ++ rest) (by simp)
  simpa [toBytesLE_length] using this

/-- Witness of C28: the null tag. -/
theorem empty_and_null_take_six_bytes_witness :
    Appends (WriteVariantToStream noHost 1 (VARIANT.plain VT_NULL (Payload.bits 0)))
        (toBytesLE 4 1 ++ toBytesLE 2 VT_NULL) ∧
      (toBytesLE 4 1 ++ toBytesLE 2 VT_NULL).length = 6 ∧
      ReadVariantFromStream noHost 1 ⟨toBytesLE 4 1 ++ toBytesLE 2 VT_NULL ++ [], 0⟩
        = Except.ok (VARIANT.plain VT_NULL (Payload.bits 0),
            ⟨toBytesLE 4 1 ++ toBytesLE 2 VT_NULL ++ [], 6⟩) :=
  ⟨(empty_and_null_take_six_bytes noHost 1 VT_NULL 0 (by decide) (Or.inr rfl)).1,
    (empty_and_null_take_six_bytes noHost 1 VT_NULL 0 (by decide) (Or.inr rfl)).2.1,
    (empty_and_null_take_six_bytes noHost 1 VT_NULL 0 (by decide) (Or.inr rfl)).2.2 []⟩

theorem writeVariant_byref (host : Host) (fuel t : Nat) (v : VARIANT) (s : IStream)
    (ht : t &&& VT_BYREF ≠ 0) (hv : v.V_ISBYREF = false) :
    WriteVariantToStream host fuel (VARIANT.byref t v) s = WriteVariantToStream host fuel v s := by
  have hb : (VARIANT.byref t v).V_ISBYREF = true := by
    simp [VARIANT.V_ISBYREF, VARIANT.vt, ht]
  simp [WriteVariantToStream, WriteToStream, hb, hv, VariantCopyInd, CheckResult, FAILED]

/-- Claim C22. Writing a by-reference alias of a value that is not itself an
alias does on every stream what writing the value does: the same bytes, or the
same failure.  For a supported value both succeed, and the tag written is the
tag of the value, without the by-reference flag. -/
theorem alias_written_as_its_value (host : Host) (n fuel t : Nat) (v : VARIANT)
    (ht : t &&& VT_BYREF ≠ 0) (hsup : Supported n v) (hfuel : n ≤ fuel) :
    (∀ s, WriteVariantToStream host fuel (VARIANT.byref t v) s
      = WriteVariantToStream host fuel v s) ∧
    v.vt &&& VT_BYREF = 0 ∧ v.vt < 65536 ∧
    ∃ P, Appends (WriteVariantToStream host fuel v) (toBytesLE 4 1 ++ (toBytesLE 2 v.vt ++ P)) ∧
      Appends (WriteVariantToStream host fuel (VARIANT.byref t v))
        (toBytesLE 4 1 ++ (toBytesLE 2 v.vt ++ P)) := by
  obtain ⟨hlt, hby, B, v', hw, _, _⟩ :=
    supported_transfers host fuel _ (supported_of_le _ hsup hfuel)
  have heq := fun s => writeVariant_byref host fuel t v s ht hby
  have hw' := writeVariant_appends host fuel _ _ hby hw
  refine ⟨heq, ?_, hlt, B, hw', fun data => ?_⟩
  · simpa [VARIANT.V_ISBYREF] using hby
  · rw [heq]; exact hw' data

theorem sampleNested_supported : Supported 8 sampleNested := by
  refine ⟨by decide, by decide, by decide, by decide, by decide, Or.inr (Or.inr
    ⟨rfl, rfl, by decide, fun idx _ => ?_⟩)⟩
  by_cases h : idx = [1]
  · simp only [h, if_true]
    exact ⟨rfl, by decide⟩
  · simp only [h, if_false]
    exact ⟨by decide, by decide, by decide, by decide, by decide, Or.inl
      ⟨VT_I4, by decide, rfl, rfl, by decide, fun _ _ => ⟨7, rfl, by decide⟩⟩⟩

/-- Witness of C22: an alias of the array holding a string and an array of
integers. -/
theorem alias_written_as_its_value_witness :
    (VT_VARIANT ||| VT_BYREF) &&& VT_BYREF ≠ 0 ∧ Supported 8 sampleNested ∧
    ∀ s, WriteVariantToStream noHost 8 (VARIANT.byref (VT_VARIANT ||| VT_BYREF) sampleNested) s
      = WriteVariantToStream noHost 8 sampleNested s :=
  ⟨by decide, sampleNested_supported,
    (alias_written_as_its_value noHost 8 8 (VT_VARIANT ||| VT_BYREF) sampleNested (by decide)
      sampleNested_supported (by decide)).1⟩

/-! ### Size of an array of numbers -/

theorem flatMap_length_const {α β : Type} (f : α → List β) (n : Nat) :
    ∀ (l : List α), (∀ a ∈ l, (f a).length = n) → (l.flatMap f).length = l.length * n
  | [], _ => by simp
  | a :: l, h => by
    rw [List.flatMap_cons, List.length_append, h a (List.mem_cons_self _ _),
      flatMap_length_const f n l (fun b hb => h b (List.mem_cons_of_mem _ hb)),
      List.length_cons]
    ring

/-- Claim C29 as stated fails. The one-dimensional array of 32-bit integers with
lower bound 2147483646 and two elements has `d = 1`, `N = 2` and `s = 4`, so
the count the claim gives is 24; writing it to an empty stream succeeds and
leaves 20 bytes, since the walk ends after the first element when the upper
end of the bound wraps in 32 bits. -/
theorem fixed_array_size_short_at_long_max :
    ∃ st, WriteVariantToStream noHost 3 (VARIANT.array (VT_I4 ||| VT_ARRAY) 0 4 [⟨2, 2147483646⟩]
        (fun i => VARIANT.plain 0 (Payload.bits (if i = [2147483646] then 5 else 7))))
        IStream.empty = Except.ok st ∧
      cellCount [⟨2, 2147483646⟩] = 2 ∧ fixedSize VT_I4 = 4 ∧
      st.data.length = 20 ∧
      st.data.length ≠ 4 + 2 + 2 + 8 * 1 + 2 * 4 :=
  ⟨_, rfl, rfl, rfl, rfl, by decide⟩

/-- Claim C29, amended. For every array with `d ≥ 1` dimensions, all extents at
least 1, every `lower bound + extent` representable as a signed 32-bit integer,
a sum of the extents that is not zero in 32 bits, product of extents `N`, and
element type among 8-bit unsigned (`s = 1`), 16-bit signed (`s = 2`), 32-bit
signed, error code and 32-bit float (`s = 4`), 64-bit float and date
(`s = 8`), `WriteVariantToStream` succeeds at the end of any stream (given
fuel for the elements) and appends exactly `4 + 2 + 2 + 8d + N*s` bytes. -/
theorem fixed_array_size (host : Host) (fuel elem ff : Nat) (rg : List SAFEARRAYBOUND)
    (pv : List Int → VARIANT) (he : IsNumericElem elem) (_hd1 : 1 ≤ rg.length)
    (hs : ShapeOK rg) (hsum : NoOfElements rg ≠ 0)
    (hfuel : cellCount rg < fuel) (hff : PlainFeatures ff)
    (hcells : ∀ idx, tupleInBounds rg idx →
      ∃ b, pv idx = VARIANT.plain 0 (Payload.bits b) ∧ b < 256 ^ fixedSize elem) :
    (elem = VT_UI1 → fixedSize elem = 1) ∧ (elem = VT_I2 → fixedSize elem = 2) ∧
    (elem = VT_I4 ∨ elem = VT_ERROR ∨ elem = VT_R4 → fixedSize elem = 4) ∧
    (elem = VT_R8 ∨ elem = VT_DATE → fixedSize elem = 8) ∧
    ∃ B, Appends (WriteVariantToStream host fuel
        (VARIANT.array (elem ||| VT_ARRAY) ff (fixedSize elem) rg pv)) B ∧
      B.length = 4 + 2 + 2 + 8 * rg.length + cellCount rg * fixedSize elem := by
  refine ⟨by rintro rfl; rfl, by rintro rfl; rfl, by rintro (rfl | rfl | rfl) <;> rfl,
    by rintro (rfl | rfl) <;> rfl, ?_⟩
  obtain ⟨hA, hB, hmask, hlt, _⟩ := stored_tag_facts (Or.inl he)
  have hP := cellCount_pos hs
  obtain ⟨f, rfl⟩ : ∃ f, fuel = f + 1 + 1 := ⟨fuel - 2, by omega⟩
  have hcell : ∀ k, pv (tupleOf rg k).reverse
      = VARIANT.plain 0 (Payload.bits (cellBits (pv (tupleOf rg k).reverse))) ∧
      StoredBits elem (cellBits (pv (tupleOf rg k).reverse)) := by
    intro k
    obtain ⟨b, h1, h2⟩ := hcells _ (tupleOf_inBounds rg k hs)
    rw [h1]; exact ⟨rfl, StoredBits.of_numeric he h2⟩
  have hw := writeArray_appends host (f + 1) (elem ||| VT_ARRAY) ff (fixedSize elem) rg pv hA hB
    hs hsum (by omega)
    (fun k => toBytesLE (fixedSize elem) (byValue elem (cellBits (pv (tupleOf rg k).reverse))))
    (fun k _ => by
      rw [hmask]
      exact numeric_elem_write host f elem ff _ rg pv hs (Or.inl he) hff k _ (hcell k).1
        (hcell k).2)
  have hw' := writeVariant_appends host (f + 1 + 1) _ _
    (by simp [VARIANT.V_ISBYREF, VARIANT.vt, hB]) hw
  refine ⟨_, hw', ?_⟩
  simp only [List.length_append, toBytesLE_length, headerBytes_length]
  rw [flatMap_length_const _ (fixedSize elem) _ (fun k _ => toBytesLE_length _ _),
    List.length_range]
  omega

/-- Witness of C29 (amended): a 2 by 3 array of 32-bit integers with lower
bounds 5 and 0 takes 4 + 2 + 2 + 16 + 24 bytes. -/
theorem fixed_array_size_witness :
    ShapeOK [⟨3, 0⟩, ⟨2, 5⟩] ∧
    ∃ B, Appends (WriteVariantToStream noHost 7
        (VARIANT.array (VT_I4 ||| VT_ARRAY) 0 (fixedSize VT_I4) [⟨3, 0⟩, ⟨2, 5⟩]
          (fun _ => VARIANT.plain 0 (Payload.bits 7)))) B ∧
      B.length = 4 + 2 + 2 + 8 * 2 + 6 * 4 :=
  ⟨by decide,
    (fixed_array_size noHost 7 VT_I4 0 [⟨3, 0⟩, ⟨2, 5⟩]
      (fun _ => VARIANT.plain 0 (Payload.bits 7)) (by decide) (by decide) (by decide)
      (by decide) (by decide) (by decide) (fun _ _ => ⟨7, rfl, by decide⟩)).2.2.2.2⟩

/-! ### Decoding stops where the encoding ends -/

theorem elemTag_facts {elem : Nat} (h : IsElemTag elem) :
    elem < 4096 ∧ (elem ||| VT_ARRAY) &&& VT_BYREF = 0 ∧ ∃ cb, GetTypeSize elem = Except.ok cb := by
  rcases h with h | h | h | h | h | h | h | h | h | h | h | h | h <;> subst h <;>
    exact ⟨by decide, by decide, _, rfl⟩

theorem sum_extents_zero : ∀ (rg : List SAFEARRAYBOUND), (∀ b, b ∈ rg → b.cElements = 0) →
    (rg.map (fun b => b.cElements)).sum = 0
  | [], _ => rfl
  | b :: rg, h => by
    simp only [List.map_cons, List.sum_cons, h b (List.mem_cons_self _ _),
      sum_extents_zero rg (fun c hc => h c (List.mem_cons_of_mem _ hc))]

theorem no_tuple_in_empty (rg : List SAFEARRAYBOUND) (hd1 : 1 ≤ rg.length)
    (h : ∀ b, b ∈ rg → b.cElements = 0) (idx : List Int) : ¬ tupleInBounds rg idx := by
  rintro ⟨_, hb⟩
  have h0 := hb 0 (by omega)
  have hlen : 0 < (declared rg).length := by simp [declared]; omega
  have hmem : (declared rg).getD 0 default ∈ rg := by
    rw [List.getD_eq_getElem _ _ hlen]
    simp [declared]
  rw [h _ hmem] at h0
  omega

theorem empty_array_transfers (host : Host) (f : Nat) (v : VARIANT) (h : IsEmptyArray v) :
    v.vt < 65536 ∧ v.V_ISBYREF = false ∧
    ∃ B v', Appends (WriteDataToStream host (f + 1) v) B ∧
      Consumes (ReadDataFromStream host (f + 1) v.vt) B v' ∧ Same v v' := by
  cases v with
  | plain vt p => exact absurd h (by simp [IsEmptyArray])
  | byref vt p => exact absurd h (by simp [IsEmptyArray])
  | array vt ff cb rg pv =>
    obtain ⟨⟨elem, he, rfl⟩, hd1, hd2, hb⟩ := h
    obtain ⟨hlt, hB, cb', hsz⟩ := elemTag_facts he
    have hA := or_array_flag elem
    have hmask := mask_or_array elem hlt
    have hsum : NoOfElements rg = 0 := by
      rw [noOfElements_eq, sum_extents_zero rg (fun b hm => (hb b hm).1)]
      rfl
    have hb' : ∀ b, b ∈ rg → isLong b.lLbound ∧ b.cElements < 4294967296 := by
      intro b hm
      obtain ⟨h1, h2⟩ := hb b hm
      exact ⟨h2, by omega⟩
    refine ⟨or_array_lt elem hlt, by simp [VARIANT.V_ISBYREF, VARIANT.vt, hB], headerBytes rg,
      VARIANT.ofArray (elem ||| VT_ARRAY) (allocated elem cb' rg), ?_, ?_, ?_⟩
    · intro data
      have e1 := WriteSafeArrayHeader_appends ⟨ff, cb, rg, pv⟩ data
      simp only [WriteDataToStream, VARIANT.V_ISARRAY, VARIANT.V_ISBYREF, VARIANT.vt, bne_iff_ne,
        ne_eq, hA, not_false_eq_true, if_true, hB, bne_self_eq_false, Bool.false_eq_true,
        if_false, VARIANT.parray, pure, Except.pure, ok_bind, e1, WriteSafeArrayElements, hsum]
    · intro pre post data hd
      have e1 := ReadSafeArrayHeader_eq elem cb' rg hd1 hd2 hb' hsz pre post data hd
      have hsum' : NoOfElements (allocated elem cb' rg).rgsabound = 0 := hsum
      simp only [VARIANT.vt, ReadDataFromStream, ne_eq, hA, not_false_eq_true, if_true, hmask,
        e1, ok_bind, ReadSafeArrayElements, hsum', pure, Except.pure]
    · exact Same.array _ _ _ _ _ rg _ _
        (fun idx hidx => absurd hidx (no_tuple_in_empty rg hd1 (fun b hm => (hb b hm).1) idx))

/-- More fuel decodes the same values. -/
theorem decodable_mono : ∀ (n : Nat) (v : VARIANT), Decodable n v → Decodable (n + 1) v
  | 0, _, h => by simp [Decodable] at h
  | n + 1, VARIANT.plain vt p, h => by
    simp only [Decodable] at h ⊢
    exact supported_mono _ _ h
  | n + 1, VARIANT.byref vt t, h => by
    simp only [Decodable] at h ⊢
    exact supported_mono _ _ h
  | n + 1, VARIANT.array vt ff cb rg pv, h => by
    simp only [Decodable] at h ⊢
    rcases h with h | h | ⟨e1, e2, hff, hd1, hd2, hs, hsum, hcount, hcells⟩
    · exact Or.inl h
    · exact Or.inr (Or.inl (supported_mono _ _ h))
    · exact Or.inr (Or.inr ⟨e1, e2, hff, hd1, hd2, hs, hsum, by omega, fun idx hidx =>
        decodable_mono n (pv idx) (hcells idx hidx)⟩)

theorem decodable_of_le {n m : Nat} (v : VARIANT) (h : Decodable n v) (hle : n ≤ m) :
    Decodable m v := by
  induction hle with
  | refl => exact h
  | step _ ih => exact decodable_mono _ v ih

/-- Every value of `Decodable` is written and read back, as transfers of the
same bytes; the value read is equal to the one written when no floating-point
number in it is a signalling NaN. -/
theorem decodable_transfers (host : Host) : ∀ (n : Nat) (v : VARIANT), Decodable n v →
    v.vt < 65536 ∧ v.V_ISBYREF = false ∧
    ∃ B v', Appends (WriteDataToStream host n v) B ∧
      Consumes (ReadDataFromStream host n v.vt) B v' ∧ (Quiet v → Same v v')
  | 0, _, h => by simp [Decodable] at h
  | n + 1, VARIANT.plain vt p, h => by
    simp only [Decodable] at h
    exact supported_transfers host (n + 1) _ h
  | n + 1, VARIANT.byref vt t, h => by
    simp only [Decodable] at h
    exact supported_transfers host (n + 1) _ h
  | n + 1, VARIANT.array vt ff cb rg pv, h => by
    simp only [Decodable] at h
    rcases h with hemp | hsup | ⟨rfl, rfl, hff, hd1, hd2, hs, hsum, hcount, hcells⟩
    · obtain ⟨h1, h2, B, v', hw, hr, hsame⟩ := empty_array_transfers host n _ hemp
      exact ⟨h1, h2, B, v', hw, hr, fun _ => hsame⟩
    · exact supported_transfers host (n + 1) _ hsup
    · obtain ⟨B, ff', pv', hw, hr, hsame⟩ := variant_array_transfers host n ff rg pv
        hd1 hd2 hs hsum hcount hff (fun a b => Quiet a → Same a b) (fun idx hidx => by
          obtain ⟨h1, _, h3⟩ := decodable_transfers host n (pv idx) (hcells idx hidx)
          exact ⟨h1, h3⟩)
      exact ⟨by simp +decide [VARIANT.vt], by simp +decide [VARIANT.V_ISBYREF, VARIANT.vt],
        B, _, hw, hr, fun hq => Same.array _ _ _ _ _ _ _ _
          (fun idx hidx => hsame idx hidx (hq idx hidx).2)⟩

theorem sampleWithEmpty_decodable : Decodable 4 sampleWithEmpty := by
  refine Or.inr (Or.inr ⟨rfl, rfl, by decide, by decide, by decide, by decide, by decide,
    by decide, fun idx _ => ?_⟩)
  by_cases h : idx = [1]
  · simp only [h, if_true]
    exact Or.inl ⟨by decide, by decide⟩
  · simp only [h, if_false]
    refine Or.inl ⟨⟨VT_I4, by decide, rfl⟩, by decide, by decide, fun b hb => ?_⟩
    rw [List.mem_singleton] at hb
    subst hb
    exact ⟨rfl, by decide⟩

theorem sampleWithEmpty_quiet : Quiet sampleWithEmpty := by
  intro idx _
  refine ⟨⟨fun h => absurd h (by decide), fun h => absurd h (by decide)⟩, ?_⟩
  by_cases h : idx = [1]
  · simp only [h, if_true]
    exact ⟨fun _ => by decide, fun h8 => absurd h8 (by decide)⟩
  · simp only [h, if_false]
    intro i hi
    exact absurd hi (no_tuple_in_empty [⟨0, 0⟩] (by decide) (fun b hb => by
      rw [List.mem_singleton] at hb
      subst hb
      rfl) i)

/-- Claim C30 as stated fails, in four ways; none of the values holds an
object reference and each is encoded without error.  The array of signed
8-bit integers with one dimension of extent 0 is encoded as its header alone,
and decoding these bytes raises `DISP_E_TYPEMISMATCH` at `GetTypeSize`.  The
array of 32-bit integers with lower bound 2147483646 and the elements 5 and 7
is decoded to an array holding 0, not 7, at index 2147483647.  The array
holding the boolean stored as 1 is decoded to an array holding the boolean
stored as 65535.  The 32-bit float with the bits `0x7FA00000`, a signalling
NaN, is decoded to the float with the bits `0x7FE00000`: it reaches
`Write( Q value )` by value. -/
theorem decode_differs_from_encoded_value :
    (∃ st, WriteVariantToStream noHost 3 (VARIANT.array (VT_I1 ||| VT_ARRAY) 0 1 [⟨0, 0⟩]
        (fun _ => VARIANT.plain 0 (Payload.bits 0))) IStream.empty = Except.ok st ∧
      st.data = [1, 0, 0, 0, 16, 32, 1, 0, 0, 0, 0, 0, 0, 0, 0, 0] ∧
      ReadVariantFromStream noHost 3 ⟨st.data ++ [], 0⟩ = ThrowError DISP_E_TYPEMISMATCH) ∧
    (∃ st ff pv st',
      WriteVariantToStream noHost 3 (VARIANT.array (VT_I4 ||| VT_ARRAY) 0 4 [⟨2, 2147483646⟩]
        (fun i => VARIANT.plain 0 (Payload.bits (if i = [2147483646] then 5 else 7))))
        IStream.empty = Except.ok st ∧
      ReadVariantFromStream noHost 3 ⟨st.data ++ [], 0⟩
        = Except.ok (VARIANT.array (VT_I4 ||| VT_ARRAY) ff 4 [⟨2, 2147483646⟩] pv, st') ∧
      tupleInBounds [⟨2, 2147483646⟩] [2147483647] ∧
      pv [2147483647] = VARIANT.plain 0 (Payload.bits 0)) ∧
    (∃ st ff pv st',
      WriteVariantToStream noHost 3 (VARIANT.array (VT_BOOL ||| VT_ARRAY) 0 2 [⟨1, 0⟩]
        (fun _ => VARIANT.plain 0 (Payload.bits 1))) IStream.empty = Except.ok st ∧
      ReadVariantFromStream noHost 3 ⟨st.data ++ [], 0⟩
        = Except.ok (VARIANT.array (VT_BOOL ||| VT_ARRAY) ff 2 [⟨1, 0⟩] pv, st') ∧
      tupleInBounds [⟨1, 0⟩] [0] ∧
      pv [0] = VARIANT.plain 0 (Payload.bits 65535)) ∧
    (∃ st st',
      WriteVariantToStream noHost 3 (VARIANT.plain VT_R4 (Payload.bits 2141192192))
        IStream.empty = Except.ok st ∧
      ReadVariantFromStream noHost 3 ⟨st.data ++ [], 0⟩
        = Except.ok (VARIANT.plain VT_R4 (Payload.bits 2145386496), st') ∧
      IsSignallingNaN32 2141192192 ∧ (2145386496 : Nat) ≠ 2141192192) := by
  refine ⟨⟨_, rfl, rfl, rfl⟩, ⟨_, _, _, _, rfl, rfl, ?_, rfl⟩, ⟨_, _, _, _, rfl, rfl, ?_, rfl⟩,
    ⟨_, _, rfl, rfl, by decide, by decide⟩⟩
  · rw [← indexInRange_iff]; decide
  · rw [← indexInRange_iff]; decide

/-- Claim C30, amended. For every value `v` in which no floating-point number
is a signalling NaN and which is a fixed-width scalar, empty, null, a string,
an array without elements of an element type the reader knows (at least one
dimension, every extent 0), or an array with at least one dimension, all
extents at least 1, no `lower bound + extent` beyond 32 bits, a sum of
extents that is not zero in 32 bits, and elements that are fixed-width
numbers other than currency, booleans stored as 0 or 65535, strings or, in an
array of variants, again such values, and for every byte sequence `r`:
encoding `v` succeeds with some bytes `B`, and decoding a stream that holds
`B` followed by `r` yields a value equal to `v` and leaves the seek pointer at
`B.length`, the first byte of `r`. -/
theorem decode_stops_at_end_of_encoding (host : Host) (n fuel : Nat) (v : VARIANT)
    (hsup : Decodable n v) (hquiet : Quiet v) (hfuel : n ≤ fuel) (r : List Nat) :
    ∃ B v', Appends (WriteVariantToStream host fuel v) B ∧
      WriteVariantToStream host fuel v IStream.empty = Except.ok ⟨B, B.length⟩ ∧
      ReadVariantFromStream host fuel ⟨B ++ r, 0⟩ = Except.ok (v', ⟨B ++ r, B.length⟩) ∧
      Same v v' := by
  obtain ⟨hlt, hb, D, v', hw, hr, hsame⟩ :=
    decodable_transfers host fuel v (decodable_of_le v hsup hfuel)
  have hw' := writeVariant_appends host fuel v D hb hw
  have hr' := readVariant_consumes host fuel v.vt v' (toBytesLE 4 1) D hlt
    (toBytesLE_length _ _) hr
  refine ⟨_, v', hw', ?_, ?_, hsame hquiet⟩
  · simpa using hw' []
  · simpa using hr' [] r _ rfl

/-- Witness of C30 (amended): the array of variants holding a 32-bit float and
an array without elements, followed by three more bytes. -/
theorem decode_stops_at_end_of_encoding_witness :
    Decodable 4 sampleWithEmpty ∧ Quiet sampleWithEmpty ∧
    ∃ B v', Appends (WriteVariantToStream noHost 4 sampleWithEmpty) B ∧
      WriteVariantToStream noHost 4 sampleWithEmpty IStream.empty = Except.ok ⟨B, B.length⟩ ∧
      ReadVariantFromStream noHost 4 ⟨B ++ [9, 9, 9], 0⟩
        = Except.ok (v', ⟨B ++ [9, 9, 9], B.length⟩) ∧
      Same sampleWithEmpty v' :=
  ⟨sampleWithEmpty_decodable, sampleWithEmpty_quiet,
    decode_stops_at_end_of_encoding noHost 4 4 sampleWithEmpty sampleWithEmpty_decodable
      sampleWithEmpty_quiet (Nat.le_refl 4) [9, 9, 9]⟩

/-! ### Blobs -/

theorem StreamToTaskMemory_eq (s : IStream) (h : s.data.length < 4294967296) :
    StreamToTaskMemory s = Except.ok ⟨s.data.length, some s.data⟩ := by
  simp [StreamToTaskMemory, CStream.GetSize, wrapULong, Nat.mod_eq_of_lt h, pure, Except.pure]

theorem BlobToStream_eq (globalAlloc : Nat → List Nat) (B : List Nat) :
    ∃ slack, BlobToStream globalAlloc ⟨B.length, some B⟩ = Except.ok ⟨B ++ slack, 0⟩ := by
  by_cases h : B.length = 0
  · refine ⟨[], ?_⟩
    have hB : B = [] := List.length_eq_zero.mp h
    subst hB
    simp [BlobToStream, IStream.empty, pure, Except.pure]
  · exact ⟨(globalAlloc B.length).drop B.length, by
      simp [BlobToStream, h, pure, Except.pure]⟩

/-- Claim C27. For every supported value `v` whose encoding is shorter than
2^32 bytes (the size `GetSize` can report), `WriteVariantToStream` to a new
empty stream succeeds with some bytes `B`; `WriteVariantToBlob` succeeds and
gives the blob of size `B.length` holding exactly `B`; and
`ReadVariantFromBlob` of that blob succeeds with the very value
`ReadVariantFromStream` yields on the rewound stream; that value is equal to
`v` when no floating-point number in `v` is a signalling NaN.
The block `BlobToStream` allocates may be larger than the blob and hold any
bytes beyond it. -/
theorem blob_agrees_with_stream (host : Host) (globalAlloc : Nat → List Nat) (n fuel : Nat)
    (v : VARIANT) (hsup : Supported n v) (hfuel : n ≤ fuel)
    (hsize : ∀ st, WriteVariantToStream host fuel v IStream.empty = Except.ok st →
      st.data.length < 4294967296) :
    ∃ st v' st', WriteVariantToStream host fuel v IStream.empty = Except.ok st ∧
      WriteVariantToBlob host fuel v = Except.ok ⟨st.data.length, some st.data⟩ ∧
      ReadVariantFromStream host fuel (RewindStream st) = Except.ok (v', st') ∧
      ReadVariantFromBlob host fuel globalAlloc ⟨st.data.length, some st.data⟩
        = Except.ok v' ∧
      (Quiet v → Same v v') := by
  obtain ⟨hlt, hb, D, v', hw, hr, hsame⟩ :=
    supported_transfers host fuel v (supported_of_le v hsup hfuel)
  have hw' := writeVariant_appends host fuel v D hb hw
  have hr' := readVariant_consumes host fuel v.vt v' (toBytesLE 4 1) D hlt
    (toBytesLE_length _ _) hr
  obtain ⟨st, h1, h2, h3⟩ := round_trip_of hw' hr'
  have hlen := hsize st h1
  obtain ⟨slack, hslack⟩ := BlobToStream_eq globalAlloc st.data
  refine ⟨st, v', _, h1, ?_, h3, ?_, hsame⟩
  · simp only [WriteVariantToBlob, h1, ok_bind, StreamToTaskMemory_eq st hlen]
  · have h4 := hr' [] slack _ rfl
    simp only [List.length_nil, List.nil_append, Nat.zero_add] at h4
    rw [← h2] at h4
    simp only [ReadVariantFromBlob, hslack, ok_bind, h4, pure, Except.pure]

theorem sampleMixed_supported : Supported 3 sampleMixed := by
  refine ⟨by decide, by decide, by decide, by decide, by decide, Or.inr (Or.inr
    ⟨rfl, rfl, by decide, fun idx _ => ?_⟩)⟩
  by_cases h : idx = [1]
  · simp only [h, if_true]
    exact ⟨rfl, by decide⟩
  · simp only [h, if_false]
    exact Or.inl ⟨by decide, by decide⟩

theorem sampleMixed_written :
    WriteVariantToStream noHost 3 sampleMixed IStream.empty = Except.ok ⟨sampleMixedBytes, 30⟩ :=
  rfl

/-- Witness of C27: the array holding a string and a 16-bit integer, with an
allocator that rounds the block up and fills it with the byte 205. -/
theorem blob_agrees_with_stream_witness :
    Supported 3 sampleMixed ∧
    ∃ st v' st', WriteVariantToStream noHost 3 sampleMixed IStream.empty = Except.ok st ∧
      WriteVariantToBlob noHost 3 sampleMixed = Except.ok ⟨st.data.length, some st.data⟩ ∧
      ReadVariantFromStream noHost 3 (RewindStream st) = Except.ok (v', st') ∧
      ReadVariantFromBlob noHost 3 sampleAlloc ⟨st.data.length, some st.data⟩
        = Except.ok v' ∧
      (Quiet sampleMixed → Same sampleMixed v') :=
  ⟨sampleMixed_supported,
    blob_agrees_with_stream noHost sampleAlloc 3 3 sampleMixed sampleMixed_supported
      (Nat.le_refl 3) (fun st h => by
        rw [sampleMixed_written] at h
        injection h with h
        subst h
        decide)⟩

/-! ### The walker over no dimensions -/

/-- Claim C26 as stated fails. Over a shape with zero dimensions the
constructor checks nothing, `Initialize` asks for a block of zero bytes, which
the task allocator grants, and runs its loop zero times; `GetIndex` returns
normally with the empty index, and `Next` returns normally with
`more = false`. -/
theorem walker_over_no_dimensions_completes :
    (CWalkSafeArrayElements.new []).GetIndexAlloc (fun _ => true)
      = Except.ok (⟨[], [], true⟩, []) ∧
    (CWalkSafeArrayElements.new []).NextAlloc (fun _ => true)
      = Except.ok (⟨[], [], true⟩, false) ∧
    (CWalkSafeArrayElements.new []).GetIndex = (⟨[], [], true⟩, []) ∧
    (CWalkSafeArrayElements.new []).Next = (⟨[], [], true⟩, false) :=
  ⟨rfl, rfl, rfl, rfl⟩

/-- Claim C26, amended. A walker is not rejected for its number of dimensions,
zero included: for every shape, `GetIndex` and `Next` complete normally with
the results of the model without allocation whenever the allocation of the
index yields a block, and raise (`E_OUTOFMEMORY` at `VerifyAllocation`) only
when it does not.  Over zero dimensions the usage loop sees the empty tuple
once and ends.  `WriteSafeArrayElements` and `ReadSafeArrayElements` return
before constructing a walker over zero dimensions, leaving stream and array as
they were. -/
theorem walker_raises_only_without_memory (rgsabound : List SAFEARRAYBOUND)
    (coTaskMemAlloc : Nat → Bool) :
    (CWalkSafeArrayElements.new rgsabound).GetIndexAlloc coTaskMemAlloc
      = (if coTaskMemAlloc (rgsabound.length * 4)
          then Except.ok (CWalkSafeArrayElements.new rgsabound).GetIndex
          else ThrowError E_OUTOFMEMORY) ∧
    (CWalkSafeArrayElements.new rgsabound).NextAlloc coTaskMemAlloc
      = (if coTaskMemAlloc (rgsabound.length * 4)
          then Except.ok (CWalkSafeArrayElements.new rgsabound).Next
          else ThrowError E_OUTOFMEMORY) ∧
    (∀ fuel, walkTuples (fuel + 1) [] = some [[]]) ∧
    (∀ write fuel vt ff cb pv s,
      WriteSafeArrayElements write fuel vt ⟨ff, cb, [], pv⟩ s = Except.ok s) ∧
    (∀ read fuel vt ff cb pv s,
      ReadSafeArrayElements read fuel vt ⟨ff, cb, [], pv⟩ s = Except.ok (⟨ff, cb, [], pv⟩, s)) := by
  refine ⟨?_, ?_, fun _ => rfl, fun _ _ _ _ _ _ _ => rfl, fun _ _ _ _ _ _ _ => rfl⟩
  · cases h : coTaskMemAlloc (rgsabound.length * 4) <;>
      simp [CWalkSafeArrayElements.GetIndexAlloc, CWalkSafeArrayElements.InitializeAlloc,
        CWalkSafeArrayElements.new, CWalkSafeArrayElements.GetIndex, h, ThrowError, pure,
        Except.pure, bind, Except.bind]
  · cases h : coTaskMemAlloc (rgsabound.length * 4) <;>
      simp [CWalkSafeArrayElements.NextAlloc, CWalkSafeArrayElements.InitializeAlloc,
        CWalkSafeArrayElements.new, CWalkSafeArrayElements.Next, CWalkSafeArrayElements.Initialize,
        h, ThrowError, pure, Except.pure, bind, Except.bind]

/-! ### Persistence interfaces of an object -/

theorem GetPersistStreamInterface_eq (u : IUnknown) :
    GetPersistStreamInterface u =
      if FAILED u.hrPersistStreamInit = false then Except.ok (some u)
      else if u.hrPersistStreamInit ≠ E_NOINTERFACE then ThrowError u.hrPersistStreamInit
      else if FAILED u.hrPersistStream = false then Except.ok (some u)
      else if u.hrPersistStream ≠ E_NOINTERFACE then ThrowError u.hrPersistStream
      else Except.ok none := by
  unfold GetPersistStreamInterface
  by_cases h1 : FAILED u.hrPersistStreamInit = false
  · simp [h1, pure, Except.pure, bind, Except.bind]
  · have h1' : FAILED u.hrPersistStreamInit = true := by simpa using h1
    by_cases e1 : u.hrPersistStreamInit = E_NOINTERFACE
    · have hE : FAILED E_NOINTERFACE = true := by decide
      by_cases h2 : FAILED u.hrPersistStream = false
      · simp [h1', e1, hE, h2, pure, Except.pure, bind, Except.bind]
      · have h2' : FAILED u.hrPersistStream = true := by simpa using h2
        by_cases e2 : u.hrPersistStream = E_NOINTERFACE
        · simp [h1', e1, hE, h2', e2, pure, Except.pure, bind, Except.bind]
        · have e2' : (E_NOINTERFACE != u.hrPersistStream) = true := by
            simpa [bne_iff_ne] using fun h => e2 h.symm
          simp [h1', e1, hE, h2', e2, e2', ThrowError, pure, Except.pure, bind, Except.bind]
    · have e1' : (E_NOINTERFACE != u.hrPersistStreamInit) = true := by
        simpa [bne_iff_ne] using fun h => e1 h.symm
      simp [h1', e1, e1', ThrowError, pure, Except.pure, bind, Except.bind]

theorem SaveObjectToStream_some (host : Host) (u : IUnknown) (s : IStream)
    (h : GetPersistStreamInterface u = Except.ok (some u)) :
    SaveObjectToStream host (some u) s = saveCall host (some u) s := by
  simp [SaveObjectToStream, saveCall, h, pure, Except.pure, bind, Except.bind]

theorem SaveObjectToStream_raised (host : Host) (u : IUnknown) (s : IStream)
    (h : GetPersistStreamInterface u ≠ Except.ok (some u)) :
    SaveObjectToStream host (some u) s = Except.error Exn.raised := by
  rw [GetPersistStreamInterface_eq] at h
  have hg := GetPersistStreamInterface_eq u
  split_ifs at h hg <;>
    first
    | exact absurd rfl h
    | simp [SaveObjectToStream, hg, ThrowError, pure, Except.pure, bind, Except.bind]

theorem persistQueries_answered (u : IUnknown) :
    (∃ hr ∈ persistQueries u, FAILED hr = false) ↔
      GetPersistStreamInterface u = Except.ok (some u) := by
  rw [GetPersistStreamInterface_eq]
  unfold persistQueries
  by_cases h1 : FAILED u.hrPersistStreamInit = false
  · simp [h1]
  · have h1' : FAILED u.hrPersistStreamInit = true := by simpa using h1
    by_cases e1 : u.hrPersistStreamInit = E_NOINTERFACE
    · have hE : FAILED E_NOINTERFACE = true := by decide
      by_cases h2 : FAILED u.hrPersistStream = false
      · simp [e1, hE, h2]
      · have h2' : FAILED u.hrPersistStream = true := by simpa using h2
        by_cases e2 : u.hrPersistStream = E_NOINTERFACE
        · simp [e1, hE, e2]
        · simp [e1, hE, h2', e2, ThrowError]
    · have e1' : (E_NOINTERFACE != u.hrPersistStreamInit) = true := by
        simpa [bne_iff_ne] using fun h => e1 h.symm
      simp [h1', e1, e1', ThrowError]

/-- Claim C25. For every non-null object, `SaveObjectToStream` obtains a
persistence interface and goes on to its last statement, the call of
`OleSaveToStream` with that interface, if and only if the object answers at
least one of the queries it is asked: the one for `IPersistStreamInit` and,
when that is answered with `E_NOINTERFACE`, the one for `IPersistStream`.
For an object that answers the first query with success or `E_NOINTERFACE`
this is: if and only if at least one of its two answers is a success.  When
the object answers `E_NOINTERFACE` to both, `GetPersistStreamInterface`
returns null and `SaveObjectToStream` raises at `ThrowError( E_NOINTERFACE )`
whatever the host, so the save routine has no part in the outcome; the macro
`ThrowError` raises one exception for every code.  When no query asked is
answered, the call raises whatever the host (a failure other than
`E_NOINTERFACE` raises at the query itself). -/
theorem save_proceeds_iff_interface (u : IUnknown) :
    ((∃ hr ∈ persistQueries u, FAILED hr = false) ↔
      ∀ host s, SaveObjectToStream host (some u) s = saveCall host (some u) s) ∧
    ((FAILED u.hrPersistStreamInit = true → u.hrPersistStreamInit = E_NOINTERFACE) →
      ((FAILED u.hrPersistStreamInit = false ∨ FAILED u.hrPersistStream = false) ↔
        ∀ host s, SaveObjectToStream host (some u) s = saveCall host (some u) s)) ∧
    (u.hrPersistStreamInit = E_NOINTERFACE → u.hrPersistStream = E_NOINTERFACE →
      persistQueries u = [E_NOINTERFACE, E_NOINTERFACE] ∧
      GetPersistStreamInterface u = Except.ok none ∧
      ∀ host s, SaveObjectToStream host (some u) s = ThrowError E_NOINTERFACE) ∧
    ((∀ hr ∈ persistQueries u, FAILED hr = true) →
      ∀ host s, SaveObjectToStream host (some u) s = Except.error Exn.raised) := by
  have key : GetPersistStreamInterface u = Except.ok (some u) ↔
      ∀ host s, SaveObjectToStream host (some u) s = saveCall host (some u) s := by
    constructor
    · exact fun h host s => SaveObjectToStream_some host u s h
    · intro h
      by_contra hne
      have h1 := SaveObjectToStream_raised noHost u IStream.empty hne
      rw [h noHost IStream.empty] at h1
      exact absurd h1 (by simp [saveCall, noHost, CheckResult, FAILED, pure, Except.pure, bind,
        Except.bind])
  refine ⟨(persistQueries_answered u).trans key, fun hq => ?_, fun e1 e2 => ?_, fun hall => ?_⟩
  · rw [← key, GetPersistStreamInterface_eq]
    by_cases h1 : FAILED u.hrPersistStreamInit = false
    · simp [h1]
    · have h1' : FAILED u.hrPersistStreamInit = true := by simpa using h1
      have e1 := hq h1'
      by_cases h2 : FAILED u.hrPersistStream = false
      · simp [h1', e1, h2]
      · have h2' : FAILED u.hrPersistStream = true := by simpa using h2
        by_cases e2 : u.hrPersistStream = E_NOINTERFACE
        · simp [h1', e1, h2', e2]
        · simp [h1', e1, h2', e2, ThrowError]
  · have hE : FAILED E_NOINTERFACE = true := by decide
    have hg : GetPersistStreamInterface u = Except.ok none := by
      rw [GetPersistStreamInterface_eq]; simp [e1, e2, hE]
    refine ⟨by simp [persistQueries, e1, e2, hE], hg, fun host s => ?_⟩
    exact SaveObjectToStream_raised host u s (by rw [hg]; simp)
  · intro host s
    apply SaveObjectToStream_raised
    intro hg
    obtain ⟨hr, hmem, hf⟩ := (persistQueries_answered u).mpr hg
    rw [hall hr hmem] at hf
    exact absurd hf (by simp)

/-- Witness of C25: an object without `IPersistStreamInit` and with
`IPersistStream` is saved, an object without both is not. -/
theorem save_proceeds_iff_interface_witness :
    (∀ host s, SaveObjectToStream host (some sampleObject) s
        = saveCall host (some sampleObject) s) ∧
    (∀ host s, SaveObjectToStream host (some sampleBareObject) s
        = ThrowError E_NOINTERFACE) :=
  ⟨((save_proceeds_iff_interface sampleObject).2.1 (fun _ => rfl)).mp (Or.inr rfl),
    ((save_proceeds_iff_interface sampleBareObject).2.2.1 rfl rfl).2.2⟩

/-! ### Null object references -/

theorem readData_dispatch_not_null (host : Host) (fuel : Nat) (s st : IStream) (v : VARIANT)
    (h : ReadDataFromStream host fuel VT_DISPATCH s = Except.ok (v, st)) :
    v ≠ VARIANT.plain VT_DISPATCH (Payload.punk none) := by
  cases fuel with
  | zero => simp [ReadDataFromStream] at h
  | succ f =>
    have hA : VT_DISPATCH &&& VT_ARRAY = 0 := by decide
    rcases hl : host.OleLoadFromStream s with ⟨hr, unknown, s1⟩
    simp only [ReadDataFromStream, hl] at h
    cases unknown with
    | none =>
      by_cases hf : FAILED hr = true <;>
        simp [hA, CheckResult, hf, ThrowError, pure, Except.pure, bind, Except.bind] at h
    | some u =>
      by_cases hf : FAILED hr = true <;> by_cases hd : FAILED u.hrDispatch = true <;>
        simp [hA, CheckResult, hf, hd, ThrowError, pure, Except.pure, bind, Except.bind] at h
      rw [← h.1]
      simp

/-- Claim C24, the defect. With a host that writes a null object as
`CLSID_NULL` and loads `CLSID_NULL` as a null object, a value with the tag
`VT_DISPATCH` and a null reference is encoded without error (22 bytes:
version, tag, `CLSID_NULL`), and decoding these bytes does not yield a value:
`OleLoadFromStream` succeeds with a null `unknown`, and
`unknown->QueryInterface( &dispatch )` goes through the null pointer.  The
same value with the tag `VT_UNKNOWN` is encoded and decoded to a null
reference.  Whatever the host and the stream, reading data of tag
`VT_DISPATCH` never yields a null reference; and whenever the host's loader
succeeds with a null object the read faults for `VT_DISPATCH` while it yields
the null reference for `VT_UNKNOWN`. -/
theorem null_dispatch_is_not_read_back :
    (∃ st, WriteVariantToStream nullHost 1 (VARIANT.plain VT_DISPATCH (Payload.punk none))
        IStream.empty = Except.ok st ∧
      st.data = [1, 0, 0, 0, 9, 0, 0, 0, 0, 0, 0, 0, 0, 0, 0, 0, 0, 0, 0, 0, 0, 0] ∧
      ReadVariantFromStream nullHost 1 (RewindStream st) = Except.error Exn.fault) ∧
    (∃ st, WriteVariantToStream nullHost 1 (VARIANT.plain VT_UNKNOWN (Payload.punk none))
        IStream.empty = Except.ok st ∧
      ReadVariantFromStream nullHost 1 (RewindStream st)
        = Except.ok (VARIANT.plain VT_UNKNOWN (Payload.punk none), ⟨st.data, 22⟩)) ∧
    (∀ (host : Host) (fuel : Nat) (s st : IStream) (v : VARIANT),
      ReadDataFromStream host fuel VT_DISPATCH s = Except.ok (v, st) →
        v ≠ VARIANT.plain VT_DISPATCH (Payload.punk none)) ∧
    (∀ (host : Host) (fuel : Nat) (s : IStream),
      FAILED (host.OleLoadFromStream s).1 = false → (host.OleLoadFromStream s).2.1 = none →
        ReadDataFromStream host (fuel + 1) VT_DISPATCH s = Except.error Exn.fault ∧
        ReadDataFromStream host (fuel + 1) VT_UNKNOWN s
          = Except.ok (VARIANT.plain VT_UNKNOWN (Payload.punk none),
              (host.OleLoadFromStream s).2.2)) := by
  refine ⟨⟨_, rfl, rfl, rfl⟩, ⟨_, rfl, rfl⟩, readData_dispatch_not_null, ?_⟩
  intro host fuel s hf hnull
  rcases hl : host.OleLoadFromStream s with ⟨hr, unknown, s1⟩
  rw [hl] at hf hnull
  simp only at hf hnull
  subst hnull
  have hA : VT_DISPATCH &&& VT_ARRAY = 0 := by decide
  have hB : VT_UNKNOWN &&& VT_ARRAY = 0 := by decide
  constructor
  · simp [ReadDataFromStream, hl, hA, CheckResult, hf, pure, Except.pure, bind, Except.bind]
  · simp [ReadDataFromStream, hl, hB, CheckResult, hf, pure, Except.pure, bind, Except.bind]

/-! ### The version field is not looked at -/

theorem SameTail.refl (s : IStream) : SameTail s s := ⟨rfl, rfl⟩

theorem relOn_bind {β γ : Type} {R : β → β → Prop} {R' : γ → γ → Prop}
    {x y : Except Exn β} {f g : β → Except Exn γ} (h : RelOn R x y)
    (hfg : ∀ a b, R a b → RelOn R' (f a) (g b)) : RelOn R' (x >>= f) (y >>= g) := by
  cases x with
  | error e1 =>
    cases y with
    | error e2 => exact h
    | ok b => exact absurd h (by simp [RelOn])
  | ok a =>
    cases y with
    | error e2 => exact absurd h (by simp [RelOn])
    | ok b => exact hfg a b h

theorem relOn_same {β γ : Type} {R' : γ → γ → Prop} (x : Except Exn β)
    {f g : β → Except Exn γ} (hfg : ∀ a, RelOn R' (f a) (g a)) :
    RelOn R' (x >>= f) (x >>= g) := by
  cases x with
  | error e => exact rfl
  | ok a => exact hfg a

theorem relOn_error {β : Type} (R : β → β → Prop) (e : Exn) :
    RelOn R (Except.error e) (Except.error e) := rfl

theorem relOn_ok {β : Type} {R : β → β → Prop} {a b : β} (h : R a b) :
    RelOn R (Except.ok a) (Except.ok b) := h

theorem drop_add_eq (l : List Nat) (a b : Nat) : l.drop (a + b) = (l.drop a).drop b := by
  simp [List.drop_drop, Nat.add_comm]

theorem IStream.Read_tail (s1 s2 : IStream) (cb : Nat) (h : SameTail s1 s2) :
    (s1.Read cb).1 = (s2.Read cb).1 ∧ (s1.Read cb).2.1 = (s2.Read cb).2.1 ∧
      SameTail (s1.Read cb).2.2 (s2.Read cb).2.2 := by
  obtain ⟨hp, hd⟩ := h
  refine ⟨rfl, ?_, ?_, ?_⟩
  · show (s1.data.drop s1.pos).take cb = (s2.data.drop s2.pos).take cb
    rw [hd]
  · show s1.pos + ((s1.data.drop s1.pos).take cb).length
      = s2.pos + ((s2.data.drop s2.pos).take cb).length
    rw [hd, hp]
  · show s1.data.drop (s1.pos + ((s1.data.drop s1.pos).take cb).length)
      = s2.data.drop (s2.pos + ((s2.data.drop s2.pos).take cb).length)
    rw [drop_add_eq, drop_add_eq, hd]

theorem CStream.Read_sameTail (s1 s2 : IStream) (size : Nat) (h : SameTail s1 s2) :
    RelOn TailEq (CStream.Read s1 size) (CStream.Read s2 size) := by
  obtain ⟨_, h2, h3⟩ := IStream.Read_tail s1 s2 size h
  have h2' : (s1.data.drop s1.pos).take size = (s2.data.drop s2.pos).take size := h2
  have h3' : SameTail ⟨s1.data, s1.pos + ((s1.data.drop s1.pos).take size).length⟩
      ⟨s2.data, s2.pos + ((s2.data.drop s2.pos).take size).length⟩ := h3
  rw [CStream.Read_eq, CStream.Read_eq, ← h2']
  split
  · exact ⟨rfl, by rw [← h2'] at h3'; exact h3'⟩
  · rfl

theorem CStream.ReadBSTR_sameTail (s1 s2 : IStream) (h : SameTail s1 s2) :
    RelOn TailEq (CStream.ReadBSTR s1) (CStream.ReadBSTR s2) := by
  unfold CStream.ReadBSTR
  refine relOn_bind (CStream.Read_sameTail s1 s2 4 h) ?_
  rintro ⟨n, t1⟩ ⟨n', t2⟩ ⟨hn, ht⟩
  simp only at hn ht
  subst hn
  obtain ⟨_, h2, h3⟩ := IStream.Read_tail t1 t2 n ht
  simp only
  refine relOn_same _ (fun _ => ?_)
  rw [h2]
  split
  · rfl
  · exact relOn_ok ⟨rfl, h3⟩

theorem readBounds_sameTail : ∀ (n : Nat) (s1 s2 : IStream), SameTail s1 s2 →
    RelOn TailEq (readBounds n s1) (readBounds n s2)
  | 0, s1, s2, h => relOn_ok ⟨rfl, h⟩
  | n + 1, s1, s2, h => by
    unfold readBounds
    refine relOn_bind (CStream.Read_sameTail s1 s2 4 h) ?_
    rintro ⟨l, t1⟩ ⟨l', t2⟩ ⟨hl, ht⟩
    simp only at hl ht
    subst hl
    refine relOn_bind (CStream.Read_sameTail t1 t2 4 ht) ?_
    rintro ⟨c, u1⟩ ⟨c', u2⟩ ⟨hc, hu⟩
    simp only at hc hu
    subst hc
    refine relOn_bind (readBounds_sameTail n u1 u2 hu) ?_
    rintro ⟨rest, w1⟩ ⟨rest', w2⟩ ⟨hrest, hw⟩
    simp only at hrest hw
    subst hrest
    exact relOn_ok ⟨rfl, hw⟩

theorem ReadSafeArrayHeader_sameTail (vt : Nat) (s1 s2 : IStream) (h : SameTail s1 s2) :
    RelOn TailEq3 (ReadSafeArrayHeader vt s1) (ReadSafeArrayHeader vt s2) := by
  unfold ReadSafeArrayHeader
  refine relOn_bind (CStream.Read_sameTail s1 s2 2 h) ?_
  rintro ⟨d, t1⟩ ⟨d', t2⟩ ⟨hd, ht⟩
  simp only at hd ht
  subst hd
  simp only
  refine relOn_same _ (fun _ => ?_)
  refine relOn_bind (readBounds_sameTail d t1 t2 ht) ?_
  rintro ⟨bounds, u1⟩ ⟨bounds', u2⟩ ⟨hb, hu⟩
  simp only at hb hu
  subst hb
  simp only
  refine relOn_same _ (fun _ => ?_)
  refine relOn_same _ (fun _ => ?_)
  exact relOn_ok ⟨rfl, rfl, hu⟩

theorem readLoop_sameTail (read : Nat → IStream → Except Exn (VARIANT × IStream))
    (hread : ∀ et s1 s2, SameTail s1 s2 → RelOn TailEq (read et s1) (read et s2)) (vt : Nat) :
    ∀ (fuel : Nat) (walk : CWalkSafeArrayElements) (sa : SAFEARRAY) (s1 s2 : IStream),
      SameTail s1 s2 →
      RelOn TailEq (readLoop read vt fuel walk sa s1) (readLoop read vt fuel walk sa s2)
  | 0, _, _, _, _, _ => rfl
  | fuel + 1, walk, sa, s1, s2, h => by
    unfold readLoop
    dsimp only
    have hk : ∀ (p q : Nat × IStream), TailEq p q →
        RelOn TailEq
          (read p.1 p.2 >>= fun r =>
            SafeArrayPutElementFromVariant sa walk.GetIndex.2 r.1 >>= fun safeArray =>
              if walk.GetIndex.1.Next.2 = true then
                readLoop read vt fuel walk.GetIndex.1.Next.1 safeArray r.2
              else pure (safeArray, r.2))
          (read q.1 q.2 >>= fun r =>
            SafeArrayPutElementFromVariant sa walk.GetIndex.2 r.1 >>= fun safeArray =>
              if walk.GetIndex.1.Next.2 = true then
                readLoop read vt fuel walk.GetIndex.1.Next.1 safeArray r.2
              else pure (safeArray, r.2)) := by
      rintro ⟨et, t1⟩ ⟨et', t2⟩ ⟨he, ht⟩
      simp only at he ht
      subst he
      refine relOn_bind (hread et t1 t2 ht) ?_
      rintro ⟨v, u1⟩ ⟨v', u2⟩ ⟨hv, hu⟩
      simp only at hv hu
      subst hv
      refine relOn_same _ (fun sa' => ?_)
      split
      · exact readLoop_sameTail read hread vt fuel _ _ u1 u2 hu
      · exact relOn_ok ⟨rfl, hu⟩
    split
    · exact relOn_bind (CStream.Read_sameTail s1 s2 2 h) hk
    · exact hk (vt, s1) (vt, s2) ⟨rfl, h⟩

theorem ReadSafeArrayElements_sameTail (read : Nat → IStream → Except Exn (VARIANT × IStream))
    (hread : ∀ et s1 s2, SameTail s1 s2 → RelOn TailEq (read et s1) (read et s2))
    (fuel vt : Nat) (sa : SAFEARRAY) (s1 s2 : IStream) (h : SameTail s1 s2) :
    RelOn TailEq (ReadSafeArrayElements read fuel vt sa s1)
      (ReadSafeArrayElements read fuel vt sa s2) := by
  unfold ReadSafeArrayElements
  split
  · exact relOn_ok ⟨rfl, h⟩
  · exact readLoop_sameTail read hread vt fuel _ sa s1 s2 h

theorem readScalar_sameTail (vt n : Nat) (s1 s2 : IStream) (h : SameTail s1 s2) :
    RelOn TailEq
      (CStream.Read s1 n >>= fun p =>
        (pure (VARIANT.plain vt (Payload.bits p.1), p.2) : Except Exn _))
      (CStream.Read s2 n >>= fun p =>
        (pure (VARIANT.plain vt (Payload.bits p.1), p.2) : Except Exn _)) := by
  refine relOn_bind (CStream.Read_sameTail s1 s2 n h) ?_
  rintro ⟨x, t1⟩ ⟨x', t2⟩ ⟨hx, ht⟩
  simp only at hx ht
  subst hx
  exact relOn_ok ⟨rfl, ht⟩

theorem ReadDataFromStream_sameTail (host : Host) (hh : HostLoadsFromTail host) :
    ∀ (fuel vt : Nat) (s1 s2 : IStream), SameTail s1 s2 →
      RelOn TailEq (ReadDataFromStream host fuel vt s1) (ReadDataFromStream host fuel vt s2)
  | 0, _, _, _, _ => rfl
  | fuel + 1, vt, s1, s2, h => by
    unfold ReadDataFromStream
    by_cases hA : vt &&& VT_ARRAY ≠ 0
    · rw [if_pos hA, if_pos hA]
      refine relOn_bind (ReadSafeArrayHeader_sameTail _ s1 s2 h) ?_
      rintro ⟨tag, pa, t1⟩ ⟨tag', pa', t2⟩ ⟨h1, h2, h3⟩
      simp only at h1 h2 h3
      subst h1
      subst h2
      refine relOn_bind (ReadSafeArrayElements_sameTail _
        (ReadDataFromStream_sameTail host hh fuel) fuel _ pa t1 t2 h3) ?_
      rintro ⟨pa2, u1⟩ ⟨pa2', u2⟩ ⟨h4, h5⟩
      simp only at h4 h5
      subst h4
      exact relOn_ok ⟨rfl, h5⟩
    · rw [if_neg hA, if_neg hA]
      dsimp only
      · by_cases h0 : vt = VT_EMPTY ∨ vt = VT_NULL
        · rw [if_pos h0, if_pos h0]
          exact relOn_ok ⟨rfl, h⟩
        rw [if_neg h0, if_neg h0]
        by_cases hVT_BOOL : vt = VT_BOOL
        · rw [if_pos hVT_BOOL, if_pos hVT_BOOL]
          exact readScalar_sameTail vt 2 s1 s2 h
        rw [if_neg hVT_BOOL, if_neg hVT_BOOL]
        by_cases hVT_UI1 : vt = VT_UI1
        · rw [if_pos hVT_UI1, if_pos hVT_UI1]
          exact readScalar_sameTail vt 1 s1 s2 h
        rw [if_neg hVT_UI1, if_neg hVT_UI1]
        by_cases hVT_I2 : vt = VT_I2
        · rw [if_pos hVT_I2, if_pos hVT_I2]
          exact readScalar_sameTail vt 2 s1 s2 h
        rw [if_neg hVT_I2, if_neg hVT_I2]
        by_cases hVT_I4 : vt = VT_I4
        · rw [if_pos hVT_I4, if_pos hVT_I4]
          exact readScalar_sameTail vt 4 s1 s2 h
        rw [if_neg hVT_I4, if_neg hVT_I4]
        by_cases hVT_CY : vt = VT_CY
        · rw [if_pos hVT_CY, if_pos hVT_CY]
          refine relOn_bind (CStream.Read_sameTail s1 s2 4 h) ?_
          rintro ⟨lo, t1⟩ ⟨lo', t2⟩ ⟨hlo, ht⟩
          simp only at hlo ht
          subst hlo
          refine relOn_bind (CStream.Read_sameTail t1 t2 4 ht) ?_
          rintro ⟨hi, u1⟩ ⟨hi', u2⟩ ⟨hhi, hu⟩
          simp only at hhi hu
          subst hhi
          exact relOn_ok ⟨rfl, hu⟩
        rw [if_neg hVT_CY, if_neg hVT_CY]
        by_cases hVT_R4 : vt = VT_R4
        · rw [if_pos hVT_R4, if_pos hVT_R4]
          exact readScalar_sameTail vt 4 s1 s2 h
        rw [if_neg hVT_R4, if_neg hVT_R4]
        by_cases hVT_R8 : vt = VT_R8
        · rw [if_pos hVT_R8, if_pos hVT_R8]
          exact readScalar_sameTail vt 8 s1 s2 h
        rw [if_neg hVT_R8, if_neg hVT_R8]
        by_cases hVT_DATE : vt = VT_DATE
        · rw [if_pos hVT_DATE, if_pos hVT_DATE]
          exact readScalar_sameTail vt 8 s1 s2 h
        rw [if_neg hVT_DATE, if_neg hVT_DATE]
        by_cases hVT_BSTR : vt = VT_BSTR
        · rw [if_pos hVT_BSTR, if_pos hVT_BSTR]
          refine relOn_bind (CStream.ReadBSTR_sameTail s1 s2 h) ?_
          rintro ⟨x, t1⟩ ⟨x', t2⟩ ⟨hx, ht⟩
          simp only at hx ht
          subst hx
          exact relOn_ok ⟨rfl, ht⟩
        rw [if_neg hVT_BSTR, if_neg hVT_BSTR]
        by_cases hVT_ERROR : vt = VT_ERROR
        · rw [if_pos hVT_ERROR, if_pos hVT_ERROR]
          exact readScalar_sameTail vt 4 s1 s2 h
        rw [if_neg hVT_ERROR, if_neg hVT_ERROR]
        obtain ⟨l1, l2, l3⟩ := hh s1 s2 h
        by_cases hVT_DISPATCH : vt = VT_DISPATCH
        · rw [if_pos hVT_DISPATCH, if_pos hVT_DISPATCH]
          rw [l1, l2]
          refine relOn_same _ (fun _ => ?_)
          cases (host.OleLoadFromStream s2).2.1 with
          | none => rfl
          | some u => exact relOn_same _ (fun _ => relOn_ok ⟨rfl, l3⟩)
        rw [if_neg hVT_DISPATCH, if_neg hVT_DISPATCH]
        by_cases hVT_UNKNOWN : vt = VT_UNKNOWN
        · rw [if_pos hVT_UNKNOWN, if_pos hVT_UNKNOWN]
          rw [l1, l2]
          exact relOn_same _ (fun _ => relOn_ok ⟨rfl, l3⟩)
        rw [if_neg hVT_UNKNOWN, if_neg hVT_UNKNOWN]
        rfl

theorem ReadFromStream_sameTail (host : Host) (hh : HostLoadsFromTail host) (fuel : Nat)
    (s1 s2 : IStream) (h : SameTail s1 s2) :
    RelOn TailEq (ReadFromStream host fuel s1) (ReadFromStream host fuel s2) := by
  unfold ReadFromStream
  refine relOn_bind (CStream.Read_sameTail s1 s2 2 h) ?_
  rintro ⟨vt, t1⟩ ⟨vt', t2⟩ ⟨hvt, ht⟩
  simp only at hvt ht
  subst hvt
  exact ReadDataFromStream_sameTail host hh fuel vt t1 t2 ht

theorem outcome_eq_of_rel {x y : Except Exn (VARIANT × IStream)} (h : RelOn TailEq x y) :
    outcome x = outcome y := by
  cases x with
  | error e1 =>
    cases y with
    | error e2 =>
      have he : e1 = e2 := h
      rw [he]
    | ok b => exact absurd h (by simp [RelOn])
  | ok a =>
    cases y with
    | error e2 => exact absurd h (by simp [RelOn])
    | ok b =>
      obtain ⟨h1, h2, _⟩ : a.1 = b.1 ∧ a.2.pos = b.2.pos ∧ _ := h
      obtain ⟨v, s⟩ := a
      obtain ⟨v', s'⟩ := b
      simp only at h1 h2
      simp [outcome, h1, h2]

theorem noHost_loadsFromTail : HostLoadsFromTail noHost :=
  fun _ _ h => ⟨rfl, rfl, h⟩

theorem readVariant_after_version (host : Host) (fuel : Nat) (w b : List Nat)
    (hw : w.length = 4) :
    ReadVariantFromStream host fuel ⟨w ++ b, 0⟩ = ReadFromStream host fuel ⟨w ++ b, 4⟩ := by
  have h := CStream.Read_consumes w [] b (w ++ b) rfl
  simp only [List.length_nil, hw, Nat.zero_add] at h
  simp only [ReadVariantFromStream, h, ok_bind]

/-- Claim C21. For every 4-byte sequence `w` and every byte sequence `b`,
`ReadVariantFromStream` on a stream holding `w` followed by `b` has the same
outcome as on a stream holding the encoding of version 1 followed by `b`: the
same value and the same offset of the seek pointer, or the same failure.  With
fewer than 4 bytes in the stream the read of the version raises (`E_FAIL`
through `ThrowError`, which raises one exception for every code).  The host's
loader is taken to look at the stream from the seek pointer on only. -/
theorem version_value_ignored (host : Host) (hh : HostLoadsFromTail host) (fuel : Nat)
    (w b : List Nat) (hw : w.length = 4) :
    outcome (ReadVariantFromStream host fuel ⟨w ++ b, 0⟩)
      = outcome (ReadVariantFromStream host fuel ⟨toBytesLE 4 1 ++ b, 0⟩) ∧
    ∀ p : List Nat, p.length < 4 → ReadVariantFromStream host fuel ⟨p, 0⟩ = ThrowError E_FAIL := by
  constructor
  · rw [readVariant_after_version host fuel w b hw,
      readVariant_after_version host fuel (toBytesLE 4 1) b (toBytesLE_length _ _)]
    apply outcome_eq_of_rel
    apply ReadFromStream_sameTail host hh
    refine ⟨rfl, ?_⟩
    show (w ++ b).drop 4 = (toBytesLE 4 1 ++ b).drop 4
    have h1 : (w ++ b).drop 4 = b := by rw [← hw, List.drop_left]
    rw [h1]
    rfl
  · intro p hp
    have h := CStream.Read_short [] p 4 hp
    simp only [List.nil_append, List.length_nil] at h
    simp only [ReadVariantFromStream, h, error_bind]
    rfl

/-- Witness of C21: the version bytes 9, 9, 9, 9 before the encoding of the
32-bit integer 7. -/
theorem version_value_ignored_witness :
    HostLoadsFromTail noHost ∧
    outcome (ReadVariantFromStream noHost 1 ⟨[9, 9, 9, 9] ++ [3, 0, 7, 0, 0, 0], 0⟩)
      = outcome (ReadVariantFromStream noHost 1 ⟨toBytesLE 4 1 ++ [3, 0, 7, 0, 0, 0], 0⟩) :=
  ⟨noHost_loadsFromTail,
    (version_value_ignored noHost noHost_loadsFromTail 1 [9, 9, 9, 9] [3, 0, 7, 0, 0, 0]
      (by decide)).1⟩

/-! ### Writers over any stream: short writes -/

theorem onStream_write_memory (host : Host) : OnStream.Write (memoryImpl host) = CStream.Write :=
  rfl

theorem onStream_writeBSTR_memory (host : Host) :
    OnStream.WriteBSTR (memoryImpl host) = CStream.WriteBSTR := rfl

theorem onStream_save_memory (host : Host) :
    OnStream.SaveObjectToStream (memoryImpl host) = SaveObjectToStream host := rfl

theorem onStream_writeBounds_memory (host : Host) : ∀ (rg : List SAFEARRAYBOUND) (s : IStream),
    OnStream.writeBounds (memoryImpl host) rg s = writeBounds rg s
  | [], _ => rfl
  | b :: rest, s => by
    simp only [OnStream.writeBounds, writeBounds, onStream_write_memory,
      onStream_writeBounds_memory host rest]

theorem onStream_header_memory (host : Host) (sa : SAFEARRAY) (s : IStream) :
    OnStream.WriteSafeArrayHeader (memoryImpl host) sa s = WriteSafeArrayHeader sa s := by
  simp only [OnStream.WriteSafeArrayHeader, WriteSafeArrayHeader, onStream_write_memory,
    onStream_writeBounds_memory]

theorem onStream_writeLoop_memory (host : Host) (write : VARIANT → IStream → Except Exn IStream)
    (vt : Nat) (sa : SAFEARRAY) : ∀ (fuel : Nat) (walk : CWalkSafeArrayElements) (s : IStream),
    OnStream.writeLoop (memoryImpl host) write vt sa fuel walk s = writeLoop write vt sa fuel walk s
  | 0, _, _ => rfl
  | fuel + 1, walk, s => by
    simp only [OnStream.writeLoop, writeLoop, onStream_write_memory,
      onStream_writeLoop_memory host write vt sa fuel]

theorem onStream_elements_memory (host : Host) (write : VARIANT → IStream → Except Exn IStream)
    (fuel vt : Nat) (sa : SAFEARRAY) (s : IStream) :
    OnStream.WriteSafeArrayElements (memoryImpl host) write fuel vt sa s
      = WriteSafeArrayElements write fuel vt sa s := by
  simp only [OnStream.WriteSafeArrayElements, WriteSafeArrayElements, onStream_writeLoop_memory]

theorem onStream_writeData_memory (host : Host) : ∀ (fuel : Nat) (v : VARIANT) (s : IStream),
    OnStream.WriteDataToStream (memoryImpl host) fuel v s = WriteDataToStream host fuel v s
  | 0, _, _ => rfl
  | fuel + 1, v, s => by
    have ih : OnStream.WriteDataToStream (memoryImpl host) fuel = WriteDataToStream host fuel :=
      funext fun v => funext fun s => onStream_writeData_memory host fuel v s
    simp only [OnStream.WriteDataToStream, WriteDataToStream, ih, onStream_write_memory,
      onStream_writeBSTR_memory, onStream_save_memory, onStream_header_memory,
      onStream_elements_memory]

theorem onStream_writeVariant_memory (host : Host) (fuel : Nat) (v : VARIANT) (s : IStream) :
    OnStream.WriteVariantToStream (memoryImpl host) fuel v s = WriteVariantToStream host fuel v s := by
  simp only [OnStream.WriteVariantToStream, WriteVariantToStream, OnStream.WriteToStream,
    WriteToStream, onStream_write_memory, onStream_writeData_memory]

theorem erases_pure {σ : Type} : Erases (fun s : σ × Bool => pure s) (fun s : σ => pure s) :=
  fun _ _ => ⟨rfl, rfl⟩

theorem erases_error {σ : Type} (e : Exn) :
    Erases (fun _ : σ × Bool => Except.error e) (fun _ : σ => Except.error e) :=
  fun _ _ => rfl

theorem erases_bind {σ : Type} {f f' : σ × Bool → Except Exn (σ × Bool)}
    {g g' : σ → Except Exn σ} (h : Erases f g) (h' : Erases f' g') :
    Erases (fun s => f s >>= f') (fun s => g s >>= g') := by
  intro s m
  have h1 := h s m
  dsimp only
  cases hf : f (s, m) with
  | error e =>
    rw [hf] at h1
    simp only at h1
    simp only [error_bind, h1]
  | ok r =>
    rw [hf] at h1
    obtain ⟨hm, hg⟩ := h1
    obtain ⟨s1, m1⟩ := r
    simp only at hm hg
    subst hm
    have h2 := h' s1 m1
    simp only [ok_bind, hg]
    exact h2

theorem erases_of_except {σ α : Type} (r : Except Exn α)
    (F : α → σ × Bool → Except Exn (σ × Bool)) (G : α → σ → Except Exn σ)
    (h : ∀ a, Erases (F a) (G a)) :
    Erases (fun s => r >>= fun a => F a s) (fun s => r >>= fun a => G a s) := by
  cases r with
  | error e => exact fun _ _ => rfl
  | ok a => exact h a

theorem erases_rawWrite {σ : Type} (impl : StreamImpl σ) (pv : List Nat) (n : Nat)
    (hlen : pv.length = n) :
    Erases
      (fun s => do
        let (hr, written, stream) := (recording impl).Write s pv
        CheckResult hr
        if written ≠ n then ThrowError E_FAIL
        pure stream)
      (fun s => do
        let (hr, written, stream) := impl.Write s pv
        CheckResult hr
        if written ≠ n then ThrowError E_FAIL
        pure stream) := by
  intro s m
  rcases hw : impl.Write s pv with ⟨hr, written, s1⟩
  have hrec : (recording impl).Write (s, m) pv
      = (hr, written, (s1, m || decide (written < pv.length))) := by
    simp only [recording, hw]
  simp only [hrec, hw]
  by_cases hf : FAILED hr = true
  · simp [CheckResult, hf, ThrowError, bind, Except.bind]
  · by_cases hn : written = n
    · subst hn
      simp [CheckResult, hf, hlen, pure, Except.pure, bind, Except.bind]
    · simp [CheckResult, hf, hn, ThrowError, pure, Except.pure, bind, Except.bind]

theorem erases_write {σ : Type} (impl : StreamImpl σ) (size value : Nat) :
    Erases (fun s => OnStream.Write (recording impl) s size value)
      (fun s => OnStream.Write impl s size value) :=
  erases_rawWrite impl (toBytesLE size value) size (toBytesLE_length _ _)

theorem erases_writeBSTR {σ : Type} (impl : StreamImpl σ) (value : List Nat) :
    Erases (fun s => OnStream.WriteBSTR (recording impl) s value)
      (fun s => OnStream.WriteBSTR impl s value) := by
  have hle : wrapULong (value.length * 2) ≤ (bytesOfUnits value).length := by
    rw [bytesOfUnits_length]; exact Nat.mod_le _ _
  exact erases_bind (erases_write impl 4 (wrapULong (value.length * 2)))
    (erases_rawWrite impl ((bytesOfUnits value).take (wrapULong (value.length * 2)))
      (wrapULong (value.length * 2)) (by rw [List.length_take]; exact Nat.min_eq_left hle))

theorem erases_saveCall {σ : Type} (impl : StreamImpl σ) (ps : Option IUnknown) :
    Erases
      (fun s => do
        let (hr, pStream) := (recording impl).OleSaveToStream ps s
        CheckResult hr
        pure pStream)
      (fun s => do
        let (hr, pStream) := impl.OleSaveToStream ps s
        CheckResult hr
        pure pStream) := by
  intro s m
  rcases hs : impl.OleSaveToStream ps s with ⟨hr, s1⟩
  have hrec : (recording impl).OleSaveToStream ps (s, m) = (hr, (s1, m)) := by
    simp only [recording, hs]
  simp only [hrec, hs]
  by_cases hf : FAILED hr = true
  · simp [CheckResult, hf, ThrowError, bind, Except.bind]
  · simp [CheckResult, hf, pure, Except.pure, bind, Except.bind]

theorem erases_save {σ : Type} (impl : StreamImpl σ) (p : Option IUnknown) :
    Erases (fun s => OnStream.SaveObjectToStream (recording impl) p s)
      (fun s => OnStream.SaveObjectToStream impl p s) := by
  intro s m
  cases p with
  | none => exact erases_saveCall impl none s m
  | some u =>
    dsimp only
    unfold OnStream.SaveObjectToStream
    dsimp only
    cases hg : GetPersistStreamInterface u with
    | error e => rfl
    | ok ps =>
      cases ps with
      | none => rfl
      | some q => exact erases_saveCall impl (some q) s m

theorem erases_writeBounds {σ : Type} (impl : StreamImpl σ) : ∀ (rg : List SAFEARRAYBOUND),
    Erases (fun s => OnStream.writeBounds (recording impl) rg s)
      (fun s => OnStream.writeBounds impl rg s)
  | [] => erases_pure
  | b :: rest =>
    erases_bind (erases_write impl 4 (longBits b.lLbound))
      (erases_bind (erases_write impl 4 b.cElements) (erases_writeBounds impl rest))

theorem erases_header {σ : Type} (impl : StreamImpl σ) (sa : SAFEARRAY) :
    Erases (fun s => OnStream.WriteSafeArrayHeader (recording impl) sa s)
      (fun s => OnStream.WriteSafeArrayHeader impl sa s) :=
  erases_bind (erases_write impl 2 sa.cDims) (erases_writeBounds impl sa.rgsabound)

theorem erases_writeLoop {σ : Type} (impl : StreamImpl σ)
    (wr : VARIANT → σ × Bool → Except Exn (σ × Bool)) (wp : VARIANT → σ → Except Exn σ)
    (hw : ∀ v, Erases (wr v) (wp v)) (vt : Nat) (sa : SAFEARRAY) :
    ∀ (fuel : Nat) (walk : CWalkSafeArrayElements),
      Erases (fun s => OnStream.writeLoop (recording impl) wr vt sa fuel walk s)
        (fun s => OnStream.writeLoop impl wp vt sa fuel walk s)
  | 0, _ => erases_error Exn.fuel
  | fuel + 1, walk => by
    have h2 : Erases
        (fun s => if walk.GetIndex.1.Next.2 = true
          then OnStream.writeLoop (recording impl) wr vt sa fuel walk.GetIndex.1.Next.1 s
          else pure s)
        (fun s => if walk.GetIndex.1.Next.2 = true
          then OnStream.writeLoop impl wp vt sa fuel walk.GetIndex.1.Next.1 s
          else pure s) := by
      by_cases h : walk.GetIndex.1.Next.2 = true
      · simp only [h, if_true]; exact erases_writeLoop impl wr wp hw vt sa fuel _
      · simp only [h, if_false]; exact erases_pure
    exact erases_of_except (SafeArrayGetElementAsVariant sa walk.GetIndex.2 vt) _ _
      (fun temp => by
        intro s m
        dsimp only
        by_cases h : VT_VARIANT = vt
        · rw [if_pos h, if_pos h]
          exact erases_bind (erases_write impl 2 temp.vt) (erases_bind (hw temp) h2) s m
        · rw [if_neg h, if_neg h]
          exact erases_bind erases_pure (erases_bind (hw temp) h2) s m)

theorem erases_elements {σ : Type} (impl : StreamImpl σ)
    (wr : VARIANT → σ × Bool → Except Exn (σ × Bool)) (wp : VARIANT → σ → Except Exn σ)
    (hw : ∀ v, Erases (wr v) (wp v)) (fuel vt : Nat) (sa : SAFEARRAY) :
    Erases (fun s => OnStream.WriteSafeArrayElements (recording impl) wr fuel vt sa s)
      (fun s => OnStream.WriteSafeArrayElements impl wp fuel vt sa s) := by
  unfold OnStream.WriteSafeArrayElements
  by_cases h : NoOfElements sa.rgsabound = 0
  · simp only [h, if_true]; exact erases_pure
  · simp only [h, if_false]; exact erases_writeLoop impl wr wp hw vt sa fuel _

theorem erases_writeData {σ : Type} (impl : StreamImpl σ) : ∀ (fuel : Nat) (v : VARIANT),
    Erases (fun s => OnStream.WriteDataToStream (recording impl) fuel v s)
      (fun s => OnStream.WriteDataToStream impl fuel v s)
  | 0, _ => erases_error Exn.fuel
  | fuel + 1, v => by
    intro s m
    dsimp only
    unfold OnStream.WriteDataToStream
    by_cases hA : v.V_ISARRAY = true
    · rw [if_pos hA, if_pos hA]
      dsimp only
      by_cases hB : v.V_ISBYREF = true
      · rw [if_pos hB, if_pos hB]
        exact erases_of_except v.pparray _ _
          (fun sa => erases_bind (erases_header impl sa)
            (erases_elements impl _ _ (erases_writeData impl fuel) fuel (VT_TYPEMASK &&& v.vt)
              sa)) s m
      · rw [if_neg hB, if_neg hB]
        exact erases_of_except v.parray _ _
          (fun sa => erases_bind (erases_header impl sa)
            (erases_elements impl _ _ (erases_writeData impl fuel) fuel (VT_TYPEMASK &&& v.vt)
              sa)) s m
    · rw [if_neg hA, if_neg hA]
      dsimp only
      by_cases h0 : v.vt = VT_EMPTY ∨ v.vt = VT_NULL
      · rw [if_pos h0, if_pos h0]
        exact erases_pure s m
      rw [if_neg h0, if_neg h0]
      by_cases hVT_BOOL : v.vt = VT_BOOL
      · rw [if_pos hVT_BOOL, if_pos hVT_BOOL]
        exact erases_of_except v.scalarBits _ _ (fun b => erases_write impl 2 b) s m
      rw [if_neg hVT_BOOL, if_neg hVT_BOOL]
      by_cases hVT_UI1 : v.vt = VT_UI1
      · rw [if_pos hVT_UI1, if_pos hVT_UI1]
        exact erases_of_except v.scalarBits _ _ (fun b => erases_write impl 1 b) s m
      rw [if_neg hVT_UI1, if_neg hVT_UI1]
      by_cases hVT_I2 : v.vt = VT_I2
      · rw [if_pos hVT_I2, if_pos hVT_I2]
        exact erases_of_except v.scalarBits _ _ (fun b => erases_write impl 2 b) s m
      rw [if_neg hVT_I2, if_neg hVT_I2]
      by_cases hVT_I4 : v.vt = VT_I4
      · rw [if_pos hVT_I4, if_pos hVT_I4]
        exact erases_of_except v.scalarBits _ _ (fun b => erases_write impl 4 b) s m
      rw [if_neg hVT_I4, if_neg hVT_I4]
      by_cases hVT_CY : v.vt = VT_CY
      · rw [if_pos hVT_CY, if_pos hVT_CY]
        exact erases_of_except v.scalarBits _ _ (fun b =>
          erases_bind (erases_write impl 4 (b % 4294967296))
            (erases_write impl 4 (b / 4294967296))) s m
      rw [if_neg hVT_CY, if_neg hVT_CY]
      by_cases hVT_R4 : v.vt = VT_R4
      · rw [if_pos hVT_R4, if_pos hVT_R4]
        exact erases_of_except v.scalarBits _ _
          (fun b => erases_write impl 4 (floatByValue b)) s m
      rw [if_neg hVT_R4, if_neg hVT_R4]
      by_cases hVT_R8 : v.vt = VT_R8
      · rw [if_pos hVT_R8, if_pos hVT_R8]
        exact erases_of_except v.scalarBits _ _
          (fun b => erases_write impl 8 (doubleByValue b)) s m
      rw [if_neg hVT_R8, if_neg hVT_R8]
      by_cases hVT_DATE : v.vt = VT_DATE
      · rw [if_pos hVT_DATE, if_pos hVT_DATE]
        exact erases_of_except v.scalarBits _ _
          (fun b => erases_write impl 8 (doubleByValue b)) s m
      rw [if_neg hVT_DATE, if_neg hVT_DATE]
      by_cases hVT_BSTR : v.vt = VT_BSTR
      · rw [if_pos hVT_BSTR, if_pos hVT_BSTR]
        exact erases_of_except v.bstrVal _ _ (fun b => erases_writeBSTR impl b) s m
      rw [if_neg hVT_BSTR, if_neg hVT_BSTR]
      by_cases hVT_ERROR : v.vt = VT_ERROR
      · rw [if_pos hVT_ERROR, if_pos hVT_ERROR]
        exact erases_of_except v.scalarBits _ _ (fun b => erases_write impl 4 b) s m
      rw [if_neg hVT_ERROR, if_neg hVT_ERROR]
      by_cases hVT_DISPATCH : v.vt = VT_DISPATCH
      · rw [if_pos hVT_DISPATCH, if_pos hVT_DISPATCH]
        exact erases_of_except v.punkVal _ _ (fun p => erases_save impl p) s m
      rw [if_neg hVT_DISPATCH, if_neg hVT_DISPATCH]
      by_cases hVT_UNKNOWN : v.vt = VT_UNKNOWN
      · rw [if_pos hVT_UNKNOWN, if_pos hVT_UNKNOWN]
        exact erases_of_except v.punkVal _ _ (fun p => erases_save impl p) s m
      rw [if_neg hVT_UNKNOWN, if_neg hVT_UNKNOWN]
      rfl

theorem erases_writeTo {σ : Type} (impl : StreamImpl σ) (fuel : Nat) (v : VARIANT) :
    Erases (fun s => OnStream.WriteToStream (recording impl) fuel v s)
      (fun s => OnStream.WriteToStream impl fuel v s) := by
  have hrest : ∀ variant : VARIANT, Erases
      (fun s => OnStream.Write (recording impl) s 2 variant.vt >>=
        OnStream.WriteDataToStream (recording impl) fuel variant)
      (fun s => OnStream.Write impl s 2 variant.vt >>=
        OnStream.WriteDataToStream impl fuel variant) :=
    fun variant => erases_bind (erases_write impl 2 variant.vt)
      (erases_writeData impl fuel variant)
  intro s m
  dsimp only
  unfold OnStream.WriteToStream
  dsimp only
  by_cases hB : v.V_ISBYREF = true
  · rw [if_pos hB, if_pos hB]
    rcases hc : VariantCopyInd v with ⟨hr, copy⟩
    dsimp only
    exact erases_of_except (CheckResult hr) _ _ (fun _ => hrest copy) s m
  · rw [if_neg hB, if_neg hB]
    exact hrest v s m

theorem erases_writeVariant {σ : Type} (impl : StreamImpl σ) (fuel : Nat) (v : VARIANT) :
    Erases (fun s => OnStream.WriteVariantToStream (recording impl) fuel v s)
      (fun s => OnStream.WriteVariantToStream impl fuel v s) :=
  erases_bind (erases_write impl 4 (longBits variantVersion)) (erases_writeTo impl fuel v)

theorem erases_ok {σ : Type} {f : σ × Bool → Except Exn (σ × Bool)} {g : σ → Except Exn σ}
    (h : Erases f g) {s : σ} {m : Bool} {r : σ × Bool} (hr : f (s, m) = Except.ok r) :
    r.2 = m ∧ g s = Except.ok r.1 := by
  have h1 := h s m
  rw [hr] at h1
  exact h1

theorem erases_err {σ : Type} {f : σ × Bool → Except Exn (σ × Bool)} {g : σ → Except Exn σ}
    (h : Erases f g) {s : σ} {m : Bool} {e : Exn} (hr : f (s, m) = Except.error e) :
    g s = Except.error e := by
  have h1 := h s m
  rw [hr] at h1
  exact h1

theorem onStream_write_short {σ : Type} (impl : StreamImpl σ) (s : σ) (pv : List Nat) (n : Nat)
    (h : (impl.Write s pv).2.1 ≠ n) :
    (do
      let (hr, written, stream) := impl.Write s pv
      CheckResult hr
      if written ≠ n then ThrowError E_FAIL
      pure stream : Except Exn σ) = Except.error Exn.raised := by
  rcases hw : impl.Write s pv with ⟨hr, written, s1⟩
  rw [hw] at h
  simp only at h
  by_cases hf : FAILED hr = true
  · simp [CheckResult, hf, ThrowError, bind, Except.bind]
  · simp [CheckResult, hf, h, ThrowError, pure, Except.pure, bind, Except.bind]

/-- Claim C23. Over any implementation of the stream: a write of a
fixed-width field for which the stream reports a count other than the size of
the field, whatever its result code, makes `CStream::Write` raise (`E_FAIL`
through `ThrowError`, which raises one exception for every code); a write of
the code units of a string for which the stream reports a count other than
their byte length makes `Write( BSTR )` raise; nothing on the way out handles
the exception, so the encode ends with it.  For the whole encode: the run on
the stream with a record of short writes beside it is the run on the stream
itself, and whenever `WriteVariantToStream` completes, the record is as it was
at the start, so no write of the run was short; when it ends with an error the
recorded run ends with the same error.  The writer over the memory stream is
the instance `memoryImpl` of this writer. -/
theorem short_write_fails_encode {σ : Type} (impl : StreamImpl σ) :
    (∀ (s : σ) (size value : Nat), (impl.Write s (toBytesLE size value)).2.1 ≠ size →
      OnStream.Write impl s size value = ThrowError E_FAIL) ∧
    (∀ (s s1 : σ) (value : List Nat),
      OnStream.Write impl s 4 (wrapULong (value.length * 2)) = Except.ok s1 →
      (impl.Write s1 ((bytesOfUnits value).take (wrapULong (value.length * 2)))).2.1
        ≠ wrapULong (value.length * 2) →
      OnStream.WriteBSTR impl s value = ThrowError E_FAIL) ∧
    (∀ (fuel : Nat) (v : VARIANT) (s s1 : σ),
      OnStream.WriteVariantToStream impl fuel v s = Except.ok s1 →
      OnStream.WriteVariantToStream (recording impl) fuel v (s, false)
        = Except.ok (s1, false)) ∧
    (∀ (fuel : Nat) (v : VARIANT) (s : σ) (r : σ × Bool),
      OnStream.WriteVariantToStream (recording impl) fuel v (s, false) = Except.ok r →
      r.2 = false ∧ OnStream.WriteVariantToStream impl fuel v s = Except.ok r.1) ∧
    (∀ (fuel : Nat) (v : VARIANT) (s : σ) (e : Exn),
      OnStream.WriteVariantToStream impl fuel v s = Except.error e →
      OnStream.WriteVariantToStream (recording impl) fuel v (s, false) = Except.error e) ∧
    (∀ (host : Host) (fuel : Nat) (v : VARIANT) (s : IStream),
      OnStream.WriteVariantToStream (memoryImpl host) fuel v s
        = WriteVariantToStream host fuel v s) := by
  refine ⟨fun s size value h => onStream_write_short impl s _ size h, ?_, ?_, ?_, ?_,
    onStream_writeVariant_memory⟩
  · intro s s1 value h1 h2
    have h3 := onStream_write_short impl s1 _ _ h2
    unfold OnStream.WriteBSTR
    dsimp only
    rw [h1]
    exact h3
  · intro fuel v s s1 h
    cases hr : OnStream.WriteVariantToStream (recording impl) fuel v (s, false) with
    | error e =>
      have h1 := erases_err (erases_writeVariant impl fuel v) hr
      rw [h] at h1
      cases h1
    | ok r =>
      obtain ⟨hm, hg⟩ := erases_ok (erases_writeVariant impl fuel v) hr
      rw [h] at hg
      obtain ⟨r1, r2⟩ := r
      simp only at hm hg
      cases hg
      rw [hm]
  · intro fuel v s r h
    exact erases_ok (erases_writeVariant impl fuel v) h
  · intro fuel v s e h
    cases hr : OnStream.WriteVariantToStream (recording impl) fuel v (s, false) with
    | error e1 =>
      have h1 := erases_err (erases_writeVariant impl fuel v) hr
      rw [h] at h1
      cases h1
      rfl
    | ok r =>
      obtain ⟨_, hg⟩ := erases_ok (erases_writeVariant impl fuel v) hr
      rw [h] at hg
      cases hg

/-- Witness of C23: a stream with room for one byte takes one byte of a
two-byte field and reports success, and the write raises; an encode of a
32-bit integer (10 bytes) on a stream with room for five raises, and on a
stream with room for ten completes. -/
theorem short_write_fails_encode_witness :
    (cappedImpl.Write ([1, 0, 0, 0], 1) (toBytesLE 2 3)).1 = S_OK ∧
    (cappedImpl.Write ([1, 0, 0, 0], 1) (toBytesLE 2 3)).2.1 = 1 ∧
    OnStream.Write cappedImpl ([1, 0, 0, 0], 1) 2 3 = ThrowError E_FAIL ∧
    OnStream.WriteVariantToStream cappedImpl 1 (VARIANT.plain VT_I4 (Payload.bits 7)) ([], 5)
      = ThrowError E_FAIL ∧
    OnStream.WriteVariantToStream cappedImpl 1 (VARIANT.plain VT_I4 (Payload.bits 7)) ([], 10)
      = Except.ok ([1, 0, 0, 0, 3, 0, 7, 0, 0, 0], 0) :=
  ⟨rfl, rfl, (short_write_fails_encode cappedImpl).1 ([1, 0, 0, 0], 1) 2 3 (by decide), rfl, rfl⟩

/-! ### Strings of odd byte length -/

theorem unitsOfBytes_length : ∀ (n : Nat) (P : List Nat), P.length = n →
    (unitsOfBytes P).length = n / 2
  | 0, P, h => by
    have : P = [] := List.length_eq_zero.mp h
    subst this; rfl
  | 1, P, h => by
    match P, h with
    | [b], _ => rfl
  | n + 2, P, h => by
    match P, h with
    | b0 :: b1 :: rest, h =>
      have hr : rest.length = n := by simpa using h
      simp only [unitsOfBytes, List.length_cons, unitsOfBytes_length n rest hr]
      omega

theorem unitsOfBytes_take_even : ∀ (n : Nat) (P : List Nat), P.length = n →
    unitsOfBytes (P.take (2 * (n / 2))) = unitsOfBytes P
  | 0, P, h => by
    have : P = [] := List.length_eq_zero.mp h
    subst this; rfl
  | 1, P, h => by
    match P, h with
    | [b], _ => rfl
  | n + 2, P, h => by
    match P, h with
    | b0 :: b1 :: rest, h =>
      have hr : rest.length = n := by simpa using h
      have e : 2 * ((n + 2) / 2) = 2 * (n / 2) + 1 + 1 := by omega
      rw [e]
      simp only [List.take_succ_cons, unitsOfBytes, unitsOfBytes_take_even n rest hr]

/-- Claim C36. For every stream that holds, at the seek pointer, a 32-bit
length prefix `n` that is odd and at least `n` bytes after it (`P` the first
`n` of them), `CStream::Read( BSTR* )` succeeds, leaves the seek pointer
`4 + n` bytes on, past all of `P`, and produces the string of `n / 2` code
units made of the first `2 * (n / 2) = n - 1` bytes of `P`, two bytes a unit,
low byte first; the last byte of `P` is in no unit.  The buffer
`_alloca( bufferSize + sizeof( WCHAR ) )` and the string allocation are taken
to be granted. -/
theorem odd_length_string_read (n : Nat) (pre P post : List Nat) (hodd : n % 2 = 1)
    (hn : n < 4294967296) (hP : P.length = n) :
    CStream.ReadBSTR ⟨pre ++ (toBytesLE 4 n ++ (P ++ post)), pre.length⟩
      = Except.ok (unitsOfBytes (P.take (2 * (n / 2))),
          ⟨pre ++ (toBytesLE 4 n ++ (P ++ post)), pre.length + 4 + n⟩) ∧
    (unitsOfBytes (P.take (2 * (n / 2)))).length = n / 2 ∧
    2 * (n / 2) + 1 = n ∧
    ∀ i, i < n / 2 →
      (unitsOfBytes (P.take (2 * (n / 2)))).getD i 0
        = P.getD (2 * i) 0 % 256 + 256 * (P.getD (2 * i + 1) 0 % 256) := by
  subst hP
  have h := CStream.ReadBSTR_consumes P hn pre post
    (pre ++ (toBytesLE 4 P.length ++ (P ++ post))) (by simp)
  have hlen := unitsOfBytes_length P.length P rfl
  have htake := unitsOfBytes_take_even P.length P rfl
  refine ⟨?_, by rw [htake, hlen], by omega, ?_⟩
  · rw [htake]
    rw [← hlen, List.take_length] at h
    simpa [Nat.add_assoc] using h
  · rw [htake]
    intro i hi
    have key : ∀ (m : Nat) (Q : List Nat) (j : Nat), Q.length = m → j < m / 2 →
        (unitsOfBytes Q).getD j 0 = Q.getD (2 * j) 0 % 256 + 256 * (Q.getD (2 * j + 1) 0 % 256) := by
      intro m
      induction m using Nat.strong_induction_on with
      | _ m ih =>
        intro Q j hQ hj
        match Q, hQ with
        | [], hQ => simp at hQ; omega
        | [b], hQ => simp at hQ; omega
        | b0 :: b1 :: rest, hQ =>
          cases j with
          | zero => simp [unitsOfBytes, fromBytesLE]
          | succ j =>
            have hr : rest.length = m - 2 := by simp at hQ; omega
            have := ih (m - 2) (by omega) rest j hr (by omega)
            simp only [unitsOfBytes, List.getD_cons_succ, this]
            rw [show 2 * (j + 1) = 2 * j + 1 + 1 by ring]
            simp only [List.getD_cons_succ]
    exact key P.length P i rfl hi

/-- Witness of C36: length prefix 3 before the bytes 65, 0, 66 and one more
byte; the string read is the one unit 65 and the seek pointer is at 7. -/
theorem odd_length_string_read_witness :
    CStream.ReadBSTR ⟨[] ++ (toBytesLE 4 3 ++ ([65, 0, 66] ++ [9])), ([] : List Nat).length⟩
      = Except.ok (unitsOfBytes (([65, 0, 66] : List Nat).take (2 * (3 / 2))),
          ⟨[] ++ (toBytesLE 4 3 ++ ([65, 0, 66] ++ [9])), ([] : List Nat).length + 4 + 3⟩) ∧
    unitsOfBytes (([65, 0, 66] : List Nat).take (2 * (3 / 2))) = [65] :=
  ⟨(odd_length_string_read 3 [] [65, 0, 66] [9] (by decide) (by decide) rfl).1, rfl⟩

/-! ### The walker at the end of a walk -/

theorem odo_false : ∀ (bs : List SAFEARRAYBOUND) (T : List Int), T.length = bs.length →
    (odo bs T).2 = false → (odo bs T).1 = bs.map (fun b => b.lLbound)
  | [], [], _, _ => rfl
  | [], _ :: _, h, _ => by simp at h
  | _ :: _, [], h, _ => by simp at h
  | b :: bs, x :: xs, h, hf => by
    simp only [odo] at hf ⊢
    split at hf
    · rename_i hc
      simp only [hc, if_true, List.map_cons]
      rw [odo_false bs xs (by simpa using h) hf]
    · simp at hf

theorem walkerState_cases (bs : List SAFEARRAYBOUND) (w : CWalkSafeArrayElements)
    (h : WalkerState bs w) :
    w = CWalkSafeArrayElements.new bs ∨ ∃ T, T.length = bs.length ∧ w = walkAt bs T := by
  induction h with
  | constructed => exact Or.inl rfl
  | afterGetIndex w _ ih =>
    rcases ih with rfl | ⟨T, hT, rfl⟩
    · exact Or.inr ⟨bs.map (fun b => b.lLbound), by simp, by rw [GetIndex_new]⟩
    · exact Or.inr ⟨T, hT, by rw [GetIndex_walkAt]⟩
  | afterNext w _ ih =>
    rcases ih with rfl | ⟨T, hT, rfl⟩
    · refine Or.inr ⟨(odo bs (bs.map (fun b => b.lLbound))).1, ?_,
        by rw [Next_new, Next_walkAt _ _ (by simp)]⟩
      rw [odo_length]; simp
    · refine Or.inr ⟨(odo bs T).1, ?_, by rw [Next_walkAt _ _ hT]⟩
      rw [odo_length]; exact hT

theorem Next_false_walkAt (bs : List SAFEARRAYBOUND) (T : List Int) (hT : T.length = bs.length)
    (h : (walkAt bs T).Next.2 = false) :
    (walkAt bs T).Next.1 = walkAt bs (bs.map (fun b => b.lLbound)) := by
  have h' : (odo bs T).2 = false := by
    rw [Next_walkAt bs T hT] at h
    exact h
  rw [Next_walkAt bs T hT]
  show walkAt bs (odo bs T).1 = _
  rw [odo_false bs T hT h']

/-- Claim C37. For a walker in any state it can reach from its construction by
calls of `GetIndex` and `Next`, whenever `Next` reports `more = false` the
walker it leaves is the freshly initialised one: every component of the index
is the lower bound `Initialize` put there (index `k` holds the lower bound of
`rgsabound[cDims - 1 - k]`), and what follows repeats what a new walker does:
`GetIndex` and `Next` give what they give on a new walker, and the usage loop
yields the same tuples. -/
theorem walker_reset_at_end (bs : List SAFEARRAYBOUND) (w : CWalkSafeArrayElements)
    (hw : WalkerState bs w) (hmore : w.Next.2 = false) :
    w.Next.1 = (CWalkSafeArrayElements.new bs).Initialize ∧
    w.Next.1.m_index = (bs.map (fun b => b.lLbound)).reverse ∧
    (∀ k, k < bs.length →
      w.Next.1.m_index.getD k 0 = (bs.getD (bs.length - 1 - k) default).lLbound) ∧
    w.Next.1.GetIndex = (CWalkSafeArrayElements.new bs).GetIndex ∧
    w.Next.1.Next = (CWalkSafeArrayElements.new bs).Next ∧
    ∀ fuel, walkFrom fuel w.Next.1 = walkTuples fuel bs := by
  have hreset : w.Next.1 = walkAt bs (bs.map (fun b => b.lLbound)) := by
    rcases walkerState_cases bs w hw with rfl | ⟨T, hT, rfl⟩
    · rw [Next_new] at hmore ⊢
      exact Next_false_walkAt bs _ (by simp) hmore
    · exact Next_false_walkAt bs T hT hmore
  have hG : (walkAt bs (bs.map (fun b => b.lLbound))).GetIndex
      = (CWalkSafeArrayElements.new bs).GetIndex := by
    rw [GetIndex_new, GetIndex_walkAt]
  have hN : (walkAt bs (bs.map (fun b => b.lLbound))).Next
      = (CWalkSafeArrayElements.new bs).Next := by
    rw [Next_new]
  refine ⟨by rw [hreset, Initialize_new], by rw [hreset]; rfl, ?_, by rw [hreset, hG],
    by rw [hreset, hN], ?_⟩
  · intro k hk
    rw [hreset]
    show ((bs.map (fun b => b.lLbound)).reverse).getD k 0 = _
    rw [List.getD_eq_getElem _ _ (by simpa using hk), List.getD_eq_getElem _ _ (by omega),
      List.getElem_reverse, List.getElem_map]
    simp
  · intro fuel
    rw [hreset]
    cases fuel with
    | zero => rfl
    | succ f =>
      simp only [walkTuples, walkFrom, hG, hN]

/-- Witness of C37: over a dimension of 2 elements from 5, the second `Next`
reports `more = false` and leaves the new walker's state. -/
theorem walker_reset_at_end_witness :
    WalkerState [⟨2, 5⟩] (CWalkSafeArrayElements.new [⟨2, 5⟩]).Next.1 ∧
    (CWalkSafeArrayElements.new [⟨2, 5⟩]).Next.1.Next.2 = false ∧
    (CWalkSafeArrayElements.new [⟨2, 5⟩]).Next.1.Next.1
      = (CWalkSafeArrayElements.new [⟨2, 5⟩]).Initialize :=
  ⟨WalkerState.afterNext _ WalkerState.constructed, by decide,
    (walker_reset_at_end [⟨2, 5⟩] (CWalkSafeArrayElements.new [⟨2, 5⟩]).Next.1
      (WalkerState.afterNext _ WalkerState.constructed) (by decide)).1⟩

/-! ### Boolean elements -/

theorem bool_elem_write (host : Host) (f ff cb : Nat) (rg : List SAFEARRAYBOUND)
    (pv : List Int → VARIANT) (hs : ShapeOK rg) (hff : PlainFeatures ff) (k x : Nat)
    (hcell : pv (tupleOf rg k).reverse = VARIANT.plain 0 (Payload.bits x)) :
    SafeArrayGetElementAsVariant ⟨ff, cb, rg, pv⟩ (tupleOf rg k).reverse VT_BOOL
        = Except.ok (VARIANT.plain VT_BOOL (Payload.bits (normalisedBool x))) ∧
      Appends (writeElem (WriteDataToStream host (f + 1)) VT_BOOL
          (VARIANT.plain VT_BOOL (Payload.bits (normalisedBool x))))
        (toBytesLE 2 (normalisedBool x)) := by
  obtain ⟨f1, f2, f3, f4⟩ := hff
  have hget := getElement_inRange ⟨ff, cb, rg, pv⟩ k hs
  simp only at hget
  constructor
  · simp only [SafeArrayGetElementAsVariant, hget, CheckResult, FAILED, f1, f2, f3, f4, hcell,
      VARIANT.scalarBits, normalisedBool]
    simp +decide [pure, Except.pure]
  · have hw := writeData_fixed host f VT_BOOL (normalisedBool x) (by decide)
    intro data
    simpa +decide [writeElem, pure, Except.pure, fixedSize] using hw data

theorem bind_eq_ok {α β : Type} {r : Except Exn α} {f : α → Except Exn β} {b : β}
    (h : r >>= f = Except.ok b) : ∃ a, r = Except.ok a ∧ f a = Except.ok b := by
  cases r with
  | error e => cases h
  | ok a => exact ⟨a, rfl, h⟩

theorem ite_ok_imp {α : Type} {c : Prop} [Decidable c] {A B : Except Exn α} {e : α}
    {P : Prop} (hA : A = Except.ok e → P) (hB : B = Except.ok e → P) :
    (if c then A else B) = Except.ok e → P := by
  intro h
  by_cases hc : c
  · rw [if_pos hc] at h
    exact hA h
  · rw [if_neg hc] at h
    exact hB h

theorem bool_element_any (host : Host) (f : Nat) (sa : SAFEARRAY) (idx : List Int)
    (e : VARIANT) (h : SafeArrayGetElementAsVariant sa idx VT_BOOL = Except.ok e) :
    ∃ x, (sa.pvData idx).scalarBits = Except.ok x ∧
      e = VARIANT.plain VT_BOOL (Payload.bits (normalisedBool x)) ∧
      Appends (writeElem (WriteDataToStream host (f + 1)) VT_BOOL e)
        (toBytesLE 2 (normalisedBool x)) := by
  by_cases hin : indexInRange sa.rgsabound idx = true
  swap
  · have hget : SafeArrayGetElement sa idx = (DISP_E_BADINDEX, default) := by
      simp [SafeArrayGetElement, hin]
    unfold SafeArrayGetElementAsVariant at h
    rw [hget] at h
    cases h
  have hget : SafeArrayGetElement sa idx = (S_OK, sa.pvData idx) := by
    simp [SafeArrayGetElement, hin]
  unfold SafeArrayGetElementAsVariant at h
  rw [hget] at h
  dsimp only at h
  obtain ⟨_, _, h1⟩ := bind_eq_ok h
  clear h
  by_cases f1 : sa.fFeatures &&& FADF_BSTR = FADF_BSTR
  · rw [if_pos f1, if_pos (by decide : VT_BSTR ≠ VT_BOOL)] at h1
    cases h1
  rw [if_neg f1] at h1
  by_cases f2 : sa.fFeatures &&& FADF_UNKNOWN = FADF_UNKNOWN
  · rw [if_pos f2, if_pos (by decide : VT_UNKNOWN ≠ VT_BOOL)] at h1
    cases h1
  rw [if_neg f2] at h1
  by_cases f3 : sa.fFeatures &&& FADF_DISPATCH = FADF_DISPATCH
  · rw [if_pos f3, if_pos (by decide : VT_DISPATCH ≠ VT_BOOL)] at h1
    cases h1
  rw [if_neg f3] at h1
  by_cases f4 : sa.fFeatures &&& FADF_VARIANT = FADF_VARIANT
  · rw [if_pos f4, if_pos (by decide : VT_VARIANT ≠ VT_BOOL)] at h1
    cases h1
  rw [if_neg f4] at h1
  obtain ⟨entry, hentry, h2⟩ := bind_eq_ok h1
  rw [if_neg (by decide : ¬ VT_BOOL = VT_ERROR), if_neg (by decide : ¬ VT_BOOL = VT_I4),
    if_neg (by decide : ¬ VT_BOOL = VT_UI1), if_neg (by decide : ¬ VT_BOOL = VT_I2),
    if_pos (rfl : VT_BOOL = VT_BOOL)] at h2
  have he : e = VARIANT.plain VT_BOOL (Payload.bits (normalisedBool entry)) :=
    (Except.ok.inj h2).symm
  refine ⟨entry, hentry, he, ?_⟩
  rw [he]
  have hw := writeData_fixed host f VT_BOOL (normalisedBool entry) (by decide)
  intro data
  simpa +decide [writeElem, pure, Except.pure, fixedSize] using hw data

/-- Claim C35. Whatever element the loop over an array of booleans obtains
(`SafeArrayGetElementAsVariant` with the element type `VT_BOOL`, any array, any
index), it is handed to the writer as `VARIANT_TRUE` (65535, the 16 bits of -1)
when the 16 bits of the raw value `x` are not zero and as `VARIANT_FALSE` (0)
when they are, and the two bytes written for it are 255, 255 or 0, 0.  For an
array with a shape without 32-bit overflow and fuel for the elements the
bytes written are the header followed, in walk order, by these two bytes of
each element.  A scalar boolean with the bits `x` is written as the two bytes
of `x` itself, low byte first. -/
theorem boolean_elements_written_normalised (host : Host) (f ff cb : Nat)
    (rg : List SAFEARRAYBOUND) (pv : List Int → VARIANT) (hs : ShapeOK rg)
    (hsum : NoOfElements rg ≠ 0) (hfuel : cellCount rg ≤ f + 1) (hff : PlainFeatures ff)
    (hcells : ∀ idx, tupleInBounds rg idx → ∃ x, pv idx = VARIANT.plain 0 (Payload.bits x)) :
    (∀ k, SafeArrayGetElementAsVariant ⟨ff, cb, rg, pv⟩ (tupleOf rg k).reverse VT_BOOL
      = Except.ok (VARIANT.plain VT_BOOL
          (Payload.bits (normalisedBool (cellBits (pv (tupleOf rg k).reverse)))))) ∧
    Appends (WriteDataToStream host (f + 1 + 1) (VARIANT.array (VT_BOOL ||| VT_ARRAY) ff cb rg pv))
      (headerBytes rg ++ (List.range (cellCount rg)).flatMap
        (fun k => toBytesLE 2 (normalisedBool (cellBits (pv (tupleOf rg k).reverse))))) ∧
    (∀ x, toBytesLE 2 (normalisedBool x) = if x % 65536 ≠ 0 then [255, 255] else [0, 0]) ∧
    (∀ x, Appends (WriteDataToStream host (f + 1) (VARIANT.plain VT_BOOL (Payload.bits x)))
      (toBytesLE 2 x) ∧ toBytesLE 2 x = [x % 256, x / 256 % 256]) ∧
    (∀ (sa : SAFEARRAY) (idx : List Int) (e : VARIANT),
      SafeArrayGetElementAsVariant sa idx VT_BOOL = Except.ok e →
      ∃ x, (sa.pvData idx).scalarBits = Except.ok x ∧
        e = VARIANT.plain VT_BOOL (Payload.bits (normalisedBool x)) ∧
        Appends (writeElem (WriteDataToStream host (f + 1)) VT_BOOL e)
          (toBytesLE 2 (normalisedBool x))) := by
  have hcell : ∀ k, pv (tupleOf rg k).reverse
      = VARIANT.plain 0 (Payload.bits (cellBits (pv (tupleOf rg k).reverse))) := by
    intro k
    obtain ⟨x, h1⟩ := hcells _ (tupleOf_inBounds rg k hs)
    rw [h1]; rfl
  refine ⟨fun k => (bool_elem_write host f ff cb rg pv hs hff k _ (hcell k)).1, ?_, ?_, ?_,
    fun sa idx e h => bool_element_any host f sa idx e h⟩
  · have hmask : VT_TYPEMASK &&& (VT_BOOL ||| VT_ARRAY) = VT_BOOL := by decide
    exact writeArray_appends host (f + 1) (VT_BOOL ||| VT_ARRAY) ff cb rg pv (by decide)
      (by decide) hs hsum hfuel
      (fun k => toBytesLE 2 (normalisedBool (cellBits (pv (tupleOf rg k).reverse))))
      (fun k _ => by
        rw [hmask]
        exact ⟨_, (bool_elem_write host f ff cb rg pv hs hff k _ (hcell k)).1,
          (bool_elem_write host f ff cb rg pv hs hff k _ (hcell k)).2⟩)
  · intro x
    unfold normalisedBool
    split <;> rfl
  · intro x
    exact ⟨by
      have hw := writeData_fixed host f VT_BOOL x (by decide)
      simpa +decide [fixedSize] using hw, rfl⟩

/-- Witness of C35: the boolean array holding the raw values 1 and 0 is
written with the element bytes 255, 255, 0, 0. -/
theorem boolean_elements_written_normalised_witness :
    ShapeOK [⟨2, 0⟩] ∧
    Appends (WriteDataToStream noHost (1 + 1 + 1) (VARIANT.array (VT_BOOL ||| VT_ARRAY) 0 2
        [⟨2, 0⟩] (fun i => VARIANT.plain 0 (Payload.bits (if i = [0] then 1 else 0)))))
      (headerBytes [⟨2, 0⟩] ++ (List.range (cellCount [⟨2, 0⟩])).flatMap
        (fun k => toBytesLE 2 (normalisedBool (cellBits
          ((fun i => VARIANT.plain 0 (Payload.bits (if i = [0] then 1 else 0)))
            (tupleOf [⟨2, 0⟩] k).reverse))))) ∧
    (List.range (cellCount [⟨2, 0⟩])).flatMap
        (fun k => toBytesLE 2 (normalisedBool (cellBits
          ((fun i => VARIANT.plain 0 (Payload.bits (if i = [0] then 1 else 0)) : List Int → VARIANT)
            (tupleOf [⟨2, 0⟩] k).reverse)))) = [255, 255, 0, 0] :=
  ⟨by decide,
    (boolean_elements_written_normalised noHost 1 0 2 [⟨2, 0⟩]
      (fun i => VARIANT.plain 0 (Payload.bits (if i = [0] then 1 else 0))) (by decide)
      (by decide) (by decide) (by decide) (fun _ _ => ⟨_, rfl⟩)).2.1,
    by decide⟩

/-! ### Flag bits of array tags -/

theorem mask_flagged_array (t f : Nat) (ht : t < 4096)
    (hf : f &&& (VT_VECTOR ||| VT_BYREF ||| VT_RESERVED) = f) :
    VT_TYPEMASK &&& (VT_ARRAY ||| f ||| t) = t := by
  have h1 : (4095 : Nat) &&& 8192 = 0 := by decide
  have h2 : (4095 : Nat) &&& f = 0 := by
    have e : (4095 : Nat) &&& (f &&& 53248) = (4095 &&& 53248) &&& f := by
      rw [Nat.and_comm f, Nat.and_assoc]
    have hf' : f &&& 53248 = f := hf
    rw [hf'] at e
    rw [e]
    have h0 : (4095 : Nat) &&& 53248 = 0 := by decide
    rw [h0, Nat.zero_and]
  have h3 := Nat.and_pow_two_sub_one_eq_mod t 12
  norm_num at h3
  show 4095 &&& (8192 ||| f ||| t) = t
  rw [Nat.and_or_distrib_left, Nat.and_or_distrib_left, h1, h2, Nat.and_comm, h3,
    Nat.mod_eq_of_lt ht]
  simp

theorem flagged_array_flag (t f : Nat) : (VT_ARRAY ||| f ||| t) &&& VT_ARRAY ≠ 0 := by
  intro h
  have h13 : (8192 : Nat).testBit 13 = true := by decide
  have : ((VT_ARRAY ||| f ||| t) &&& VT_ARRAY).testBit 13 = true := by
    simp [Nat.testBit_and, Nat.testBit_or, h13]
  rw [h] at this
  simp at this

theorem flagged_array_lt (t f : Nat) (ht : t < 4096)
    (hf : f &&& (VT_VECTOR ||| VT_BYREF ||| VT_RESERVED) = f) : VT_ARRAY ||| f ||| t < 65536 := by
  have hf' : f < 65536 := by
    have : f &&& 53248 ≤ 53248 := Nat.and_le_right
    have hf'' : f &&& 53248 = f := hf
    omega
  have h1 := @Nat.or_lt_two_pow VT_ARRAY f 16 (by decide) (by simpa using hf')
  have h2 := @Nat.or_lt_two_pow (VT_ARRAY ||| f) t 16 h1 (by omega)
  simpa using h2

theorem readData_array_tag (host : Host) (fuel vt : Nat) (s : IStream) (hA : vt &&& VT_ARRAY ≠ 0) :
    ReadDataFromStream host (fuel + 1) vt s =
      (ReadSafeArrayHeader (VT_TYPEMASK &&& vt) s >>= fun h =>
        ReadSafeArrayElements (ReadDataFromStream host fuel) fuel (VT_TYPEMASK &&& vt) h.2.1 h.2.2
          >>= fun r => pure (VARIANT.ofArray h.1 r.1, r.2)) := by
  unfold ReadDataFromStream
  rw [if_pos hA]

theorem readData_flagged (host : Host) (fuel t f : Nat) (ht : t < 4096)
    (hf : f &&& (VT_VECTOR ||| VT_BYREF ||| VT_RESERVED) = f) (s : IStream) :
    ReadDataFromStream host fuel (VT_ARRAY ||| f ||| t) s
      = ReadDataFromStream host fuel (VT_ARRAY ||| t) s := by
  cases fuel with
  | zero => rfl
  | succ n =>
    have h0 : (0 : Nat) &&& (VT_VECTOR ||| VT_BYREF ||| VT_RESERVED) = 0 := by decide
    have e1 := mask_flagged_array t f ht hf
    have e2 := mask_flagged_array t 0 ht h0
    have a2 := flagged_array_flag t 0
    simp only [Nat.or_zero] at e2 a2
    rw [readData_array_tag host n _ s (flagged_array_flag t f),
      readData_array_tag host n _ s a2, e1, e2]

theorem readData_array_vt (host : Host) (fuel t : Nat) (ht : t < 4096) (s st : IStream)
    (v : VARIANT) (h : ReadDataFromStream host fuel (VT_ARRAY ||| t) s = Except.ok (v, st)) :
    v.vt = t ||| VT_ARRAY := by
  cases fuel with
  | zero => simp [ReadDataFromStream] at h
  | succ n =>
    have h0 : (0 : Nat) &&& (VT_VECTOR ||| VT_BYREF ||| VT_RESERVED) = 0 := by decide
    have e2 := mask_flagged_array t 0 ht h0
    have a2 := flagged_array_flag t 0
    simp only [Nat.or_zero] at e2 a2
    rw [readData_array_tag host n _ s a2, e2] at h
    cases hh : ReadSafeArrayHeader t s with
    | error e => rw [hh] at h; cases h
    | ok hd =>
      rw [hh] at h
      simp only [ok_bind] at h
      have htag : hd.1 = t ||| VT_ARRAY := by
        unfold ReadSafeArrayHeader at hh
        cases h1 : CStream.Read s 2 with
        | error e => rw [h1] at hh; cases hh
        | ok r1 =>
          rw [h1] at hh
          simp only [ok_bind] at hh
          cases h2 : CheckResult (SafeArrayAllocDescriptor r1.1).1 with
          | error e => rw [h2] at hh; cases hh
          | ok u2 =>
            rw [h2] at hh
            simp only [ok_bind] at hh
            cases h3 : readBounds r1.1 r1.2 with
            | error e => rw [h3] at hh; cases hh
            | ok r3 =>
              rw [h3] at hh
              simp only [ok_bind] at hh
              cases h4 : GetTypeSize t with
              | error e => rw [h4] at hh; cases hh
              | ok r4 =>
                rw [h4] at hh
                simp only [ok_bind] at hh
                cases h5 : CheckResult (SafeArrayAllocData
                    (if t = VT_BSTR then
                      { ({ ({ (SafeArrayAllocDescriptor r1.1).2 with rgsabound := r3.1 } :
                          SAFEARRAY) with cbElements := r4 } : SAFEARRAY) with
                        fFeatures := (SafeArrayAllocDescriptor r1.1).2.fFeatures ||| FADF_BSTR }
                    else if t = VT_UNKNOWN then
                      { ({ ({ (SafeArrayAllocDescriptor r1.1).2 with rgsabound := r3.1 } :
                          SAFEARRAY) with cbElements := r4 } : SAFEARRAY) with
                        fFeatures := (SafeArrayAllocDescriptor r1.1).2.fFeatures ||| FADF_UNKNOWN }
                    else if t = VT_DISPATCH then
                      { ({ ({ (SafeArrayAllocDescriptor r1.1).2 with rgsabound := r3.1 } :
                          SAFEARRAY) with cbElements := r4 } : SAFEARRAY) with
                        fFeatures := (SafeArrayAllocDescriptor r1.1).2.fFeatures ||| FADF_DISPATCH }
                    else if t = VT_VARIANT then
                      { ({ ({ (SafeArrayAllocDescriptor r1.1).2 with rgsabound := r3.1 } :
                          SAFEARRAY) with cbElements := r4 } : SAFEARRAY) with
                        fFeatures := (SafeArrayAllocDescriptor r1.1).2.fFeatures ||| FADF_VARIANT }
                    else
                      ({ ({ (SafeArrayAllocDescriptor r1.1).2 with rgsabound := r3.1 } :
                          SAFEARRAY) with cbElements := r4 } : SAFEARRAY))).1 with
                | error e => rw [h5] at hh; cases hh
                | ok u5 =>
                  rw [h5] at hh
                  simp only [ok_bind, pure, Except.pure] at hh
                  cases hh
                  rfl
      cases hr : ReadSafeArrayElements (ReadDataFromStream host n) n t hd.2.1 hd.2.2 with
      | error e => rw [hr] at h; cases h
      | ok r =>
        rw [hr] at h
        simp only [ok_bind, pure, Except.pure] at h
        cases h
        simp [VARIANT.ofArray, VARIANT.vt, htag]

theorem readVariant_tagged (host : Host) (fuel vt : Nat) (W rest : List Nat) (hW : W.length = 4)
    (hvt : vt < 65536) :
    ReadVariantFromStream host fuel ⟨W ++ (toBytesLE 2 vt ++ rest), 0⟩
      = ReadDataFromStream host fuel vt ⟨W ++ (toBytesLE 2 vt ++ rest), 6⟩ := by
  have h1 := CStream.Read_consumes W [] (toBytesLE 2 vt ++ rest) (W ++ (toBytesLE 2 vt ++ rest)) rfl
  have h2 := CStream.Read_consumes (toBytesLE 2 vt) W rest (W ++ (toBytesLE 2 vt ++ rest)) rfl
  rw [toBytesLE_length, fromBytesLE_toBytesLE, Nat.mod_eq_of_lt (by simpa using hvt)] at h2
  simp only [List.length_nil, hW, Nat.zero_add] at h1 h2
  simp only [ReadVariantFromStream, ReadFromStream, h1, ok_bind, h2]

/-- Claim C34. For every element type `t` (any value of the 12 bits of the
type mask, so every element type arrays support) and every combination `f` of
the vector, by-reference and reserved flag bits, `ReadDataFromStream` called
with the tag `VT_ARRAY | f | t` does on every stream what it does with the tag
`VT_ARRAY | t`: the same failure, or the same array, whose tag is
`t | VT_ARRAY`, and the same stream.  So does `ReadVariantFromStream` on two
streams that differ in the tag alone (the host's loader is taken to look at
the stream from the seek pointer on only). -/
theorem array_tag_flags_ignored (host : Host) (fuel t f : Nat) (ht : t < 4096)
    (hf : f &&& (VT_VECTOR ||| VT_BYREF ||| VT_RESERVED) = f) :
    (∀ s, ReadDataFromStream host fuel (VT_ARRAY ||| f ||| t) s
      = ReadDataFromStream host fuel (VT_ARRAY ||| t) s) ∧
    (∀ s v st, ReadDataFromStream host fuel (VT_ARRAY ||| f ||| t) s = Except.ok (v, st) →
      v.vt = t ||| VT_ARRAY ∧ t ||| VT_ARRAY = VT_ARRAY ||| t) ∧
    (HostLoadsFromTail host → ∀ W rest : List Nat, W.length = 4 →
      outcome (ReadVariantFromStream host fuel ⟨W ++ (toBytesLE 2 (VT_ARRAY ||| f ||| t) ++ rest), 0⟩)
        = outcome (ReadVariantFromStream host fuel ⟨W ++ (toBytesLE 2 (VT_ARRAY ||| t) ++ rest), 0⟩)) := by
  have h0 : (0 : Nat) &&& (VT_VECTOR ||| VT_BYREF ||| VT_RESERVED) = 0 := by decide
  have hlt := flagged_array_lt t f ht hf
  have hlt0 := flagged_array_lt t 0 ht h0
  simp only [Nat.or_zero] at hlt0
  refine ⟨readData_flagged host fuel t f ht hf, fun s v st h => ?_, fun hh W rest hW => ?_⟩
  · rw [readData_flagged host fuel t f ht hf] at h
    exact ⟨readData_array_vt host fuel t ht s st v h, Nat.lor_comm _ _⟩
  · rw [readVariant_tagged host fuel _ W rest hW hlt, readVariant_tagged host fuel _ W rest hW hlt0,
      readData_flagged host fuel t f ht hf]
    apply outcome_eq_of_rel
    apply ReadDataFromStream_sameTail host hh
    refine ⟨rfl, ?_⟩
    show (W ++ (toBytesLE 2 (VT_ARRAY ||| f ||| t) ++ rest)).drop 6
      = (W ++ (toBytesLE 2 (VT_ARRAY ||| t) ++ rest)).drop 6
    have e : ∀ x, (W ++ (toBytesLE 2 x ++ rest)).drop 6 = rest := by
      intro x
      have : (W ++ (toBytesLE 2 x ++ rest)) = (W ++ toBytesLE 2 x) ++ rest := by simp
      rw [this, show 6 = (W ++ toBytesLE 2 x).length by simp [hW, toBytesLE_length],
        List.drop_left]
    rw [e, e]

/-- Witness of C34: the tag array, by-reference, 32-bit integer (24579) before
a one-element array reads as the tag array, 32-bit integer (8195) does. -/
theorem array_tag_flags_ignored_witness :
    VT_BYREF &&& (VT_VECTOR ||| VT_BYREF ||| VT_RESERVED) = VT_BYREF ∧
    VT_ARRAY ||| VT_BYREF ||| VT_I4 = 24579 ∧
    ReadDataFromStream noHost 3 (VT_ARRAY ||| VT_BYREF ||| VT_I4)
        ⟨[1, 0, 0, 0, 0, 0, 1, 0, 0, 0, 7, 0, 0, 0], 0⟩
      = ReadDataFromStream noHost 3 (VT_ARRAY ||| VT_I4)
        ⟨[1, 0, 0, 0, 0, 0, 1, 0, 0, 0, 7, 0, 0, 0], 0⟩ ∧
    ∃ v st, ReadDataFromStream noHost 3 (VT_ARRAY ||| VT_I4)
        ⟨[1, 0, 0, 0, 0, 0, 1, 0, 0, 0, 7, 0, 0, 0], 0⟩ = Except.ok (v, st) ∧
      v.vt = VT_I4 ||| VT_ARRAY :=
  ⟨by decide, by decide,
    (array_tag_flags_ignored noHost 3 VT_I4 VT_BYREF (by decide) (by decide)).1 _,
    _, _, rfl, rfl⟩

/-! ### The emptiness test of the element routines -/

theorem sum_extents_eq_zero_iff : ∀ (rg : List SAFEARRAYBOUND),
    (rg.map (fun b => b.cElements)).sum = 0 ↔ ∀ b, b ∈ rg → b.cElements = 0
  | [] => by simp
  | b :: rg => by
    simp only [List.map_cons, List.sum_cons, List.mem_cons, forall_eq_or_imp,
      ← sum_extents_eq_zero_iff rg]
    omega

theorem noOfElements_zero_iff (rg : List SAFEARRAYBOUND)
    (hfit : (rg.map (fun b => b.cElements)).sum < 4294967296) :
    NoOfElements rg = 0 ↔ ∀ b, b ∈ rg → b.cElements = 0 := by
  rw [← sum_extents_eq_zero_iff, noOfElements_eq]
  unfold wrapLong
  omega

theorem no_index_with_zero_extent (rg : List SAFEARRAYBOUND)
    (h : ∃ b, b ∈ rg ∧ b.cElements = 0) (idx : List Int) : indexInRange rg idx = false := by
  rw [Bool.eq_false_iff]
  intro hin
  obtain ⟨_, hb⟩ := (indexInRange_iff rg idx).mp hin
  obtain ⟨b, hmem, hz⟩ := h
  have hmem' : b ∈ declared rg := by simpa [declared] using hmem
  obtain ⟨i, hi, hget⟩ := List.getElem_of_mem hmem'
  have hi' : i < rg.length := by simpa [declared] using hi
  have h0 := hb i hi'
  rw [List.getD_eq_getElem _ _ hi, hget, hz] at h0
  omega

theorem getElementAsVariant_badIndex (sa : SAFEARRAY) (idx : List Int) (vt : Nat)
    (h : indexInRange sa.rgsabound idx = false) :
    SafeArrayGetElementAsVariant sa idx vt = Except.error Exn.raised := by
  simp [SafeArrayGetElementAsVariant, SafeArrayGetElement, h, CheckResult, FAILED, ThrowError]

theorem putElementFromVariant_badIndex (sa : SAFEARRAY) (idx : List Int) (v : VARIANT)
    (h : indexInRange sa.rgsabound idx = false) (r : SAFEARRAY) :
    SafeArrayPutElementFromVariant sa idx v ≠ Except.ok r := by
  have hjp : ∀ el : VARIANT, SafeArrayPutElement sa idx el = (DISP_E_BADINDEX, sa) := by
    intro el
    simp [SafeArrayPutElement, h]
  have hF : decide ((DISP_E_BADINDEX : Int) < 0) = true := by decide
  intro hk
  unfold SafeArrayPutElementFromVariant at hk
  simp only [hjp, CheckResult, FAILED, hF, if_true, ThrowError, pure, Except.pure, bind,
    Except.bind] at hk
  split_ifs at hk <;> split at hk <;> cases hk

theorem writeLoop_badIndex (write : VARIANT → IStream → Except Exn IStream) (vt : Nat)
    (sa : SAFEARRAY) (h : ∃ b, b ∈ sa.rgsabound ∧ b.cElements = 0) (fuel : Nat)
    (walk : CWalkSafeArrayElements) (s : IStream) :
    writeLoop write vt sa (fuel + 1) walk s = Except.error Exn.raised := by
  simp only [writeLoop, getElementAsVariant_badIndex sa _ vt
    (no_index_with_zero_extent sa.rgsabound h _), error_bind]

theorem readLoop_badIndex (read : Nat → IStream → Except Exn (VARIANT × IStream)) (vt : Nat)
    (sa : SAFEARRAY) (h : ∃ b, b ∈ sa.rgsabound ∧ b.cElements = 0) (fuel : Nat)
    (walk : CWalkSafeArrayElements) (s : IStream) (r : SAFEARRAY × IStream) :
    readLoop read vt (fuel + 1) walk sa s ≠ Except.ok r := by
  intro hk
  unfold readLoop at hk
  dsimp only at hk
  have hput : ∀ v, ∀ q, SafeArrayPutElementFromVariant sa walk.GetIndex.2 v ≠ Except.ok q :=
    fun v q => putElementFromVariant_badIndex sa _ v
      (no_index_with_zero_extent sa.rgsabound h _) q
  have hcont : ∀ (p : Nat × IStream),
      (read p.1 p.2 >>= fun x =>
        SafeArrayPutElementFromVariant sa walk.GetIndex.2 x.1 >>= fun safeArray =>
          if walk.GetIndex.1.Next.2 = true
            then readLoop read vt fuel walk.GetIndex.1.Next.1 safeArray x.2
            else pure (safeArray, x.2)) ≠ Except.ok r := by
    intro p hc
    cases h1 : read p.1 p.2 with
    | error e => rw [h1] at hc; cases hc
    | ok x =>
      rw [h1] at hc
      simp only [ok_bind] at hc
      cases h2 : SafeArrayPutElementFromVariant sa walk.GetIndex.2 x.1 with
      | error e => rw [h2] at hc; cases hc
      | ok q => exact hput _ _ h2
  split at hk
  · cases h0 : CStream.Read s 2 with
    | error e => rw [h0] at hk; cases hk
    | ok p =>
      rw [h0] at hk
      exact hcont p hk
  · exact hcont (vt, s) hk

/-- Claim C33. `WriteSafeArrayElements` and `ReadSafeArrayElements` return at
once, leaving stream and array as they are, when the count `NoOfElements`
(the extents added up in a `long`, so the sum reduced to 32 bits, signed) is
zero, and enter the loop over a new walker when it is not.  When the extents
add up to less than 2^32 the count is zero exactly when every dimension has
extent zero.  So for a shape in which some extent is zero and another is not
the loop is entered: the writer asks for the element at the walker's first
index, which no element has, and raises (`DISP_E_BADINDEX` through
`CheckResult`); the reader reads an element and fails at the latest when it
stores it at that index. -/
theorem elements_skipped_iff_extent_sum_zero
    (write : VARIANT → IStream → Except Exn IStream)
    (read : Nat → IStream → Except Exn (VARIANT × IStream)) (fuel vt : Nat) (sa : SAFEARRAY)
    (s : IStream) :
    (NoOfElements sa.rgsabound = 0 →
      WriteSafeArrayElements write fuel vt sa s = Except.ok s ∧
      ReadSafeArrayElements read fuel vt sa s = Except.ok (sa, s)) ∧
    (NoOfElements sa.rgsabound ≠ 0 →
      WriteSafeArrayElements write fuel vt sa s
        = writeLoop write vt sa fuel (CWalkSafeArrayElements.new sa.rgsabound) s ∧
      ReadSafeArrayElements read fuel vt sa s
        = readLoop read vt fuel (CWalkSafeArrayElements.new sa.rgsabound) sa s) ∧
    NoOfElements sa.rgsabound
      = wrapLong (((sa.rgsabound.map (fun b => b.cElements)).sum : Nat) : Int) ∧
    ((sa.rgsabound.map (fun b => b.cElements)).sum < 4294967296 →
      (NoOfElements sa.rgsabound = 0 ↔ ∀ b, b ∈ sa.rgsabound → b.cElements = 0)) ∧
    ((sa.rgsabound.map (fun b => b.cElements)).sum < 4294967296 →
      (∃ b, b ∈ sa.rgsabound ∧ b.cElements = 0) → (∃ b, b ∈ sa.rgsabound ∧ b.cElements ≠ 0) →
      NoOfElements sa.rgsabound ≠ 0 ∧
      WriteSafeArrayElements write (fuel + 1) vt sa s = ThrowError DISP_E_BADINDEX ∧
      ∀ r, ReadSafeArrayElements read (fuel + 1) vt sa s ≠ Except.ok r) := by
  refine ⟨fun h => ?_, fun h => ?_, noOfElements_eq _, noOfElements_zero_iff _, ?_⟩
  · simp [WriteSafeArrayElements, ReadSafeArrayElements, h, pure, Except.pure]
  · simp [WriteSafeArrayElements, ReadSafeArrayElements, h]
  · intro hfit hz hnz
    have hne : NoOfElements sa.rgsabound ≠ 0 := by
      intro h0
      obtain ⟨b, hb, hbn⟩ := hnz
      exact hbn ((noOfElements_zero_iff _ hfit).mp h0 b hb)
    refine ⟨hne, ?_, fun r => ?_⟩
    · simp only [WriteSafeArrayElements, hne, if_false]
      exact writeLoop_badIndex write vt sa hz fuel _ s
    · simp only [ReadSafeArrayElements, hne, if_false]
      exact readLoop_badIndex read vt sa hz fuel _ s r

/-- Witness of C33: the shape with the extents 0 and 2. -/
theorem elements_skipped_iff_extent_sum_zero_witness :
    NoOfElements [⟨0, 0⟩, ⟨2, 0⟩] ≠ 0 ∧
    WriteSafeArrayElements (WriteDataToStream noHost 1) (0 + 1) VT_I4
        ⟨0, 4, [⟨0, 0⟩, ⟨2, 0⟩], fun _ => VARIANT.plain 0 (Payload.bits 0)⟩ IStream.empty
      = ThrowError DISP_E_BADINDEX :=
  ⟨((elements_skipped_iff_extent_sum_zero (WriteDataToStream noHost 1)
      (ReadDataFromStream noHost 1) 0 VT_I4
      ⟨0, 4, [⟨0, 0⟩, ⟨2, 0⟩], fun _ => VARIANT.plain 0 (Payload.bits 0)⟩ IStream.empty).2.2.2.2
      (by decide) ⟨⟨0, 0⟩, by simp, rfl⟩ ⟨⟨2, 0⟩, by simp, by decide⟩).1,
    ((elements_skipped_iff_extent_sum_zero (WriteDataToStream noHost 1)
      (ReadDataFromStream noHost 1) 0 VT_I4
      ⟨0, 4, [⟨0, 0⟩, ⟨2, 0⟩], fun _ => VARIANT.plain 0 (Payload.bits 0)⟩ IStream.empty).2.2.2.2
      (by decide) ⟨⟨0, 0⟩, by simp, rfl⟩ ⟨⟨2, 0⟩, by simp, by decide⟩).2.1⟩

/-! ### Termination of the reader -/

theorem prog_mono {α : Type} {k k' : Nat} {s : IStream} {res : Except Exn (α × IStream)}
    (h : Prog k s res) (hk : k' ≤ k) : Prog k' s res :=
  fun p hp => by have := h p hp; omega

theorem prog_bind {α β : Type} (k1 k2 : Nat) {s : IStream} {r1 : Except Exn (α × IStream)}
    {f : α × IStream → Except Exn (β × IStream)} (h1 : Prog k1 s r1)
    (h2 : ∀ p, r1 = Except.ok p → Prog k2 p.2 (f p)) : Prog (k1 + k2) s (r1 >>= f) := by
  intro q hq
  cases r1 with
  | error e => cases hq
  | ok p =>
    have a := h1 p rfl
    have b := h2 p rfl q hq
    omega

theorem prog_of_except {α γ : Type} {k : Nat} {s : IStream} (r : Except Exn γ)
    {f : γ → Except Exn (α × IStream)} (h : ∀ c, r = Except.ok c → Prog k s (f c)) :
    Prog k s (r >>= f) := by
  intro q hq
  cases r with
  | error e => cases hq
  | ok c => exact h c rfl q hq

theorem prog_error {α : Type} (k : Nat) (s : IStream) (e : Exn) :
    Prog k s (Except.error e : Except Exn (α × IStream)) :=
  fun _ h => by cases h

theorem prog_ok {α : Type} (s : IStream) (a : α) (s' : IStream) (k : Nat)
    (h : remaining s' + k ≤ remaining s) : Prog k s (Except.ok (a, s')) :=
  fun p hp => by cases hp; exact h

theorem noFuel_bind {γ β : Type} {r : Except Exn γ} {f : γ → Except Exn β} (h1 : NoFuel r)
    (h2 : ∀ c, r = Except.ok c → NoFuel (f c)) : NoFuel (r >>= f) := by
  cases r with
  | error e =>
    rw [error_bind]
    intro h
    apply h1
    cases h
    rfl
  | ok c => exact h2 c rfl

theorem noFuel_ok {β : Type} (b : β) : NoFuel (Except.ok b : Except Exn β) :=
  fun h => by cases h

theorem noFuel_raised {β : Type} : NoFuel (Except.error Exn.raised : Except Exn β) :=
  fun h => by cases h

theorem noFuel_fault {β : Type} : NoFuel (Except.error Exn.fault : Except Exn β) :=
  fun h => by cases h

theorem noFuel_checkResult (hr : Int) : NoFuel (CheckResult hr) := by
  unfold CheckResult
  split
  · exact noFuel_raised
  · exact noFuel_ok _

theorem CStream.Read_noFuel (s : IStream) (n : Nat) : NoFuel (CStream.Read s n) := by
  rw [CStream.Read_eq]
  split
  · exact noFuel_ok _
  · exact noFuel_raised

theorem CStream.Read_prog (s : IStream) (n : Nat) : Prog n s (CStream.Read s n) := by
  rw [CStream.Read_eq]
  split
  · rename_i h
    apply prog_ok
    have h1 : ((s.data.drop s.pos).take n).length = min n (s.data.drop s.pos).length :=
      List.length_take _ _
    rw [List.length_drop] at h1
    simp only [remaining]
    omega
  · exact prog_error _ _ _

theorem CStream.ReadBSTR_noFuel (s : IStream) : NoFuel (CStream.ReadBSTR s) := by
  unfold CStream.ReadBSTR
  refine noFuel_bind (CStream.Read_noFuel s 4) (fun p _ => ?_)
  dsimp only
  refine noFuel_bind (noFuel_checkResult _) (fun _ _ => ?_)
  split
  · exact noFuel_raised
  · exact noFuel_ok _

theorem CStream.ReadBSTR_prog (s : IStream) : Prog 4 s (CStream.ReadBSTR s) := by
  unfold CStream.ReadBSTR
  refine prog_bind 4 0 (CStream.Read_prog s 4) (fun p _ => ?_)
  dsimp only
  refine prog_of_except _ (fun _ _ => ?_)
  split
  · exact prog_error _ _ _
  · apply prog_ok
    have h1 : ((p.2.data.drop p.2.pos).take p.1).length = min p.1 (p.2.data.drop p.2.pos).length :=
      List.length_take _ _
    rw [List.length_drop] at h1
    simp only [remaining, IStream.Read]
    omega

theorem readBounds_noFuel : ∀ (n : Nat) (s : IStream), NoFuel (readBounds n s)
  | 0, _ => noFuel_ok _
  | n + 1, s => by
    unfold readBounds
    refine noFuel_bind (CStream.Read_noFuel s 4) (fun p _ => ?_)
    refine noFuel_bind (CStream.Read_noFuel _ 4) (fun q _ => ?_)
    refine noFuel_bind (readBounds_noFuel n _) (fun r _ => ?_)
    exact noFuel_ok _

theorem readBounds_prog : ∀ (n : Nat) (s : IStream), Prog 0 s (readBounds n s)
  | 0, s => prog_ok s _ s 0 (Nat.le_refl _)
  | n + 1, s => by
    unfold readBounds
    refine prog_mono (prog_bind 4 0 (CStream.Read_prog s 4) (fun p _ => ?_)) (Nat.zero_le _)
    refine prog_mono (prog_bind 4 0 (CStream.Read_prog _ 4) (fun q _ => ?_)) (Nat.zero_le _)
    refine prog_bind 0 0 (readBounds_prog n _) (fun r _ => ?_)
    exact prog_ok _ _ _ 0 (Nat.le_refl _)

theorem GetTypeSize_noFuel (vt : Nat) : NoFuel (GetTypeSize vt) := by
  by_cases h : IsElemTag vt
  · rcases h with h | h | h | h | h | h | h | h | h | h | h | h | h <;>
      (subst h; intro hk; cases hk)
  · rw [GetTypeSize_unknown vt h]
    exact noFuel_raised

theorem ReadSafeArrayHeader_noFuel (vt : Nat) (s : IStream) :
    NoFuel (ReadSafeArrayHeader vt s) := by
  unfold ReadSafeArrayHeader
  refine noFuel_bind (CStream.Read_noFuel s 2) (fun p _ => ?_)
  dsimp only
  refine noFuel_bind (noFuel_checkResult _) (fun _ _ => ?_)
  refine noFuel_bind (readBounds_noFuel _ _) (fun q _ => ?_)
  dsimp only
  refine noFuel_bind (GetTypeSize_noFuel vt) (fun c _ => ?_)
  exact noFuel_bind (noFuel_checkResult _) (fun _ _ => noFuel_ok _)

theorem ReadSafeArrayHeader_prog (vt : Nat) (s : IStream) (h : Nat × SAFEARRAY × IStream)
    (hk : ReadSafeArrayHeader vt s = Except.ok h) :
    remaining h.2.2 + 2 ≤ remaining s ∧ IsElemTag vt := by
  constructor
  · unfold ReadSafeArrayHeader at hk
    obtain ⟨p, h1, hk⟩ := bind_eq_ok hk
    have a1 := CStream.Read_prog s 2 p h1
    dsimp only at hk
    obtain ⟨_, _, hk⟩ := bind_eq_ok hk
    obtain ⟨q, h3, hk⟩ := bind_eq_ok hk
    have a3 := readBounds_prog p.1 p.2 q h3
    obtain ⟨c, _, hk⟩ := bind_eq_ok hk
    obtain ⟨_, _, hk⟩ := bind_eq_ok hk
    have e : h.2.2 = q.2 := (congrArg (fun x => x.2.2) (Except.ok.inj hk)).symm
    rw [e]
    omega
  · by_contra hne
    rw [ReadSafeArrayHeader_unknown vt hne s] at hk
    cases hk

theorem putElementFromVariant_noFuel (sa : SAFEARRAY) (idx : List Int) (v : VARIANT) :
    NoFuel (SafeArrayPutElementFromVariant sa idx v) := by
  intro hk
  unfold SafeArrayPutElementFromVariant at hk
  cases v with
  | plain vt p =>
    cases p <;>
      (simp only [SafeArrayPutElement, CheckResult, FAILED, ThrowError, pure, Except.pure, bind,
        Except.bind, VARIANT.scalarBits, VARIANT.vt] at hk
       split_ifs at hk <;> cases hk)
  | array vt ff cb rg pv =>
    simp only [SafeArrayPutElement, CheckResult, FAILED, ThrowError, pure, Except.pure, bind,
      Except.bind, VARIANT.scalarBits, VARIANT.vt] at hk
    split_ifs at hk <;> cases hk
  | byref vt target =>
    simp only [SafeArrayPutElement, CheckResult, FAILED, ThrowError, pure, Except.pure, bind,
      Except.bind, VARIANT.scalarBits, VARIANT.vt] at hk
    split_ifs at hk <;> cases hk

theorem readData_scalar_noFuel (host : Host) (f vt : Nat) (s : IStream)
    (hA : ¬ vt &&& VT_ARRAY ≠ 0) : NoFuel (ReadDataFromStream host (f + 1) vt s) := by
  unfold ReadDataFromStream
  rw [if_neg hA]
  dsimp only
  by_cases h0 : vt = VT_EMPTY ∨ vt = VT_NULL
  · rw [if_pos h0]
    exact noFuel_bind (noFuel_ok _) (fun _ _ => noFuel_ok _)
  rw [if_neg h0]
  have rd : ∀ n, NoFuel (CStream.Read s n >>= fun d =>
      (pure (Payload.bits d.1, d.2) : Except Exn (Payload × IStream)) >>= fun y =>
        (pure (VARIANT.plain vt y.1, y.2) : Except Exn (VARIANT × IStream))) := fun n =>
    noFuel_bind (CStream.Read_noFuel s n)
      (fun _ _ => noFuel_bind (noFuel_ok _) (fun _ _ => noFuel_ok _))
  by_cases hVT_BOOL : vt = VT_BOOL
  · rw [if_pos hVT_BOOL]
    exact rd 2
  rw [if_neg hVT_BOOL]
  by_cases hVT_UI1 : vt = VT_UI1
  · rw [if_pos hVT_UI1]
    exact rd 1
  rw [if_neg hVT_UI1]
  by_cases hVT_I2 : vt = VT_I2
  · rw [if_pos hVT_I2]
    exact rd 2
  rw [if_neg hVT_I2]
  by_cases hVT_I4 : vt = VT_I4
  · rw [if_pos hVT_I4]
    exact rd 4
  rw [if_neg hVT_I4]
  by_cases hVT_CY : vt = VT_CY
  · rw [if_pos hVT_CY]
    refine noFuel_bind (CStream.Read_noFuel s 4) (fun p _ => ?_)
    exact noFuel_bind (CStream.Read_noFuel _ 4)
      (fun q _ => noFuel_bind (noFuel_ok _) (fun _ _ => noFuel_ok _))
  rw [if_neg hVT_CY]
  by_cases hVT_R4 : vt = VT_R4
  · rw [if_pos hVT_R4]
    exact rd 4
  rw [if_neg hVT_R4]
  by_cases hVT_R8 : vt = VT_R8
  · rw [if_pos hVT_R8]
    exact rd 8
  rw [if_neg hVT_R8]
  by_cases hVT_DATE : vt = VT_DATE
  · rw [if_pos hVT_DATE]
    exact rd 8
  rw [if_neg hVT_DATE]
  by_cases hVT_BSTR : vt = VT_BSTR
  · rw [if_pos hVT_BSTR]
    exact noFuel_bind (CStream.ReadBSTR_noFuel s)
      (fun p _ => noFuel_bind (noFuel_ok _) (fun _ _ => noFuel_ok _))
  rw [if_neg hVT_BSTR]
  by_cases hVT_ERROR : vt = VT_ERROR
  · rw [if_pos hVT_ERROR]
    exact rd 4
  rw [if_neg hVT_ERROR]
  by_cases hVT_DISPATCH : vt = VT_DISPATCH
  · rw [if_pos hVT_DISPATCH]
    refine noFuel_bind (noFuel_checkResult _) (fun _ _ => ?_)
    cases (host.OleLoadFromStream s).2.1 with
    | none => exact noFuel_fault
    | some u =>
      exact noFuel_bind (noFuel_checkResult _)
        (fun _ _ => noFuel_bind (noFuel_ok _) (fun _ _ => noFuel_ok _))
  rw [if_neg hVT_DISPATCH]
  by_cases hVT_UNKNOWN : vt = VT_UNKNOWN
  · rw [if_pos hVT_UNKNOWN]
    exact noFuel_bind (noFuel_checkResult _)
      (fun _ _ => noFuel_bind (noFuel_ok _) (fun _ _ => noFuel_ok _))
  rw [if_neg hVT_UNKNOWN]
  exact noFuel_raised

theorem checkResult_ok (hr : Int) (c : Unit) (h : CheckResult hr = Except.ok c) :
    FAILED hr = false := by
  unfold CheckResult at h
  cases hf : FAILED hr with
  | false => rfl
  | true =>
    rw [hf] at h
    cases h

theorem prog_map {α β : Type} {k : Nat} {s : IStream} {r : Except Exn (α × IStream)}
    (g : α × IStream → β) (h : Prog k s r) :
    Prog k s (r >>= fun y => (pure (g y, y.2) : Except Exn (β × IStream))) :=
  prog_mono (prog_bind k 0 h (fun y _ => prog_ok y.2 _ y.2 0 (Nat.le_refl _))) (Nat.le_refl _)

theorem isElemTag_not_void (vt : Nat) (h : IsElemTag vt) : ¬ (vt = VT_EMPTY ∨ vt = VT_NULL) := by
  rcases h with h | h | h | h | h | h | h | h | h | h | h | h | h <;>
    (subst h; decide)

theorem readData_scalar_prog (host : Host) (hh : HostConsumes host) (f vt : Nat) (s : IStream)
    (hA : ¬ vt &&& VT_ARRAY ≠ 0) :
    Prog (if vt = VT_EMPTY ∨ vt = VT_NULL then 0 else 1) s
      (ReadDataFromStream host (f + 1) vt s) := by
  unfold ReadDataFromStream
  rw [if_neg hA]
  dsimp only
  by_cases h0 : vt = VT_EMPTY ∨ vt = VT_NULL
  · rw [if_pos h0, if_pos h0]
    exact prog_map (fun y => VARIANT.plain vt y.1) (prog_ok s _ s 0 (Nat.le_refl _))
  rw [if_neg h0, if_neg h0]
  have rd : ∀ n, 1 ≤ n → Prog 1 s (CStream.Read s n >>= fun d =>
      (pure (Payload.bits d.1, d.2) : Except Exn (Payload × IStream)) >>= fun y =>
        (pure (VARIANT.plain vt y.1, y.2) : Except Exn (VARIANT × IStream))) := fun n hn =>
    prog_mono (prog_bind n 0 (CStream.Read_prog s n)
      (fun d _ => prog_map (fun y => VARIANT.plain vt y.1)
        (prog_ok d.2 _ d.2 0 (Nat.le_refl _)))) (by omega)
  by_cases hVT_BOOL : vt = VT_BOOL
  · rw [if_pos hVT_BOOL]
    exact rd 2 (by omega)
  rw [if_neg hVT_BOOL]
  by_cases hVT_UI1 : vt = VT_UI1
  · rw [if_pos hVT_UI1]
    exact rd 1 (by omega)
  rw [if_neg hVT_UI1]
  by_cases hVT_I2 : vt = VT_I2
  · rw [if_pos hVT_I2]
    exact rd 2 (by omega)
  rw [if_neg hVT_I2]
  by_cases hVT_I4 : vt = VT_I4
  · rw [if_pos hVT_I4]
    exact rd 4 (by omega)
  rw [if_neg hVT_I4]
  by_cases hVT_CY : vt = VT_CY
  · rw [if_pos hVT_CY]
    refine prog_mono (prog_bind 4 0 (CStream.Read_prog s 4) (fun p _ => ?_)) (by omega)
    refine prog_mono (prog_bind 0 0 (prog_mono (CStream.Read_prog _ 4) (Nat.zero_le _))
      (fun q _ => ?_)) (Nat.le_refl _)
    exact prog_map (fun y => VARIANT.plain vt y.1) (prog_ok q.2 _ q.2 0 (Nat.le_refl _))
  rw [if_neg hVT_CY]
  by_cases hVT_R4 : vt = VT_R4
  · rw [if_pos hVT_R4]
    exact rd 4 (by omega)
  rw [if_neg hVT_R4]
  by_cases hVT_R8 : vt = VT_R8
  · rw [if_pos hVT_R8]
    exact rd 8 (by omega)
  rw [if_neg hVT_R8]
  by_cases hVT_DATE : vt = VT_DATE
  · rw [if_pos hVT_DATE]
    exact rd 8 (by omega)
  rw [if_neg hVT_DATE]
  by_cases hVT_BSTR : vt = VT_BSTR
  · rw [if_pos hVT_BSTR]
    refine prog_mono (prog_bind 4 0 (CStream.ReadBSTR_prog s) (fun p _ => ?_)) (by omega)
    exact prog_map (fun y => VARIANT.plain vt y.1) (prog_ok p.2 _ p.2 0 (Nat.le_refl _))
  rw [if_neg hVT_BSTR]
  by_cases hVT_ERROR : vt = VT_ERROR
  · rw [if_pos hVT_ERROR]
    exact rd 4 (by omega)
  rw [if_neg hVT_ERROR]
  by_cases hVT_DISPATCH : vt = VT_DISPATCH
  · rw [if_pos hVT_DISPATCH]
    refine prog_of_except _ (fun c hc => ?_)
    have hlt := hh s (checkResult_ok _ c hc)
    cases (host.OleLoadFromStream s).2.1 with
    | none => exact prog_error _ _ _
    | some u =>
      refine prog_of_except _ (fun _ _ => ?_)
      exact prog_map (fun y => VARIANT.plain vt y.1) (prog_ok s _ _ 1 hlt)
  rw [if_neg hVT_DISPATCH]
  by_cases hVT_UNKNOWN : vt = VT_UNKNOWN
  · rw [if_pos hVT_UNKNOWN]
    refine prog_of_except _ (fun c hc => ?_)
    have hlt := hh s (checkResult_ok _ c hc)
    exact prog_map (fun y => VARIANT.plain vt y.1) (prog_ok s _ _ 1 hlt)
  rw [if_neg hVT_UNKNOWN]
  exact prog_error _ _ _

theorem readLoop_step (read : Nat → IStream → Except Exn (VARIANT × IStream)) (vt : Nat)
    (fuel : Nat) (walk : CWalkSafeArrayElements) (sa : SAFEARRAY) (s : IStream) :
    readLoop read vt (fuel + 1) walk sa s
      = readElem read vt s >>= fun r =>
          SafeArrayPutElementFromVariant sa walk.GetIndex.2 r.1 >>= fun sa' =>
            if walk.GetIndex.1.Next.2 then
              readLoop read vt fuel walk.GetIndex.1.Next.1 sa' r.2
            else pure (sa', r.2) := by
  simp only [readLoop, readElem, bind_assoc]
  by_cases hv : VT_VARIANT = vt <;> simp [hv]

theorem readElem_prog (read : Nat → IStream → Except Exn (VARIANT × IStream)) (vt : Nat)
    (hread : ∀ vt1 s1, Prog (if vt1 = VT_EMPTY ∨ vt1 = VT_NULL then 0 else 1) s1 (read vt1 s1))
    (s : IStream) :
    Prog (if vt = VT_EMPTY ∨ vt = VT_NULL then 0 else 1) s (readElem read vt s) := by
  unfold readElem
  by_cases hv : VT_VARIANT = vt
  · rw [if_pos hv]
    refine prog_mono (prog_bind 2 0 (CStream.Read_prog s 2)
      (fun r _ => prog_mono (hread r.1 r.2) (Nat.zero_le _))) ?_
    split_ifs <;> omega
  · rw [if_neg hv]
    exact hread vt s

theorem readElem_noFuel (read : Nat → IStream → Except Exn (VARIANT × IStream)) (vt F : Nat)
    (hnf : ∀ vt1 s1, remaining s1 < F → NoFuel (read vt1 s1)) (s : IStream)
    (hs : remaining s < F) : NoFuel (readElem read vt s) := by
  unfold readElem
  by_cases hv : VT_VARIANT = vt
  · rw [if_pos hv]
    refine noFuel_bind (CStream.Read_noFuel s 2) (fun r hr => hnf r.1 r.2 ?_)
    have := CStream.Read_prog s 2 r hr
    omega
  · rw [if_neg hv]
    exact hnf vt s hs

theorem readLoop_prog (read : Nat → IStream → Except Exn (VARIANT × IStream)) (vt : Nat)
    (hread : ∀ vt1 s1, Prog (if vt1 = VT_EMPTY ∨ vt1 = VT_NULL then 0 else 1) s1 (read vt1 s1)) :
    ∀ (k : Nat) (walk : CWalkSafeArrayElements) (sa : SAFEARRAY) (s : IStream),
      Prog 0 s (readLoop read vt k walk sa s)
  | 0, _, _, s => prog_error 0 s Exn.fuel
  | k + 1, walk, sa, s => by
    rw [readLoop_step]
    refine prog_mono (prog_bind 0 0 (prog_mono (readElem_prog read vt hread s) (Nat.zero_le _))
      (fun r _ => ?_)) (Nat.le_refl _)
    refine prog_of_except _ (fun sa1 _ => ?_)
    split
    · exact readLoop_prog read vt hread k _ _ _
    · exact prog_ok _ _ _ 0 (Nat.le_refl _)

theorem readElements_prog (read : Nat → IStream → Except Exn (VARIANT × IStream)) (vt k : Nat)
    (hread : ∀ vt1 s1, Prog (if vt1 = VT_EMPTY ∨ vt1 = VT_NULL then 0 else 1) s1 (read vt1 s1))
    (sa : SAFEARRAY) (s : IStream) : Prog 0 s (ReadSafeArrayElements read k vt sa s) := by
  unfold ReadSafeArrayElements
  split
  · exact prog_ok _ _ _ 0 (Nat.le_refl _)
  · exact readLoop_prog read vt hread k _ _ _

/-- Every successful read of a value other than an empty or null one has moved
the seek pointer. -/
theorem readData_prog (host : Host) (hh : HostConsumes host) :
    ∀ (fuel vt : Nat) (s : IStream),
      Prog (if vt = VT_EMPTY ∨ vt = VT_NULL then 0 else 1) s (ReadDataFromStream host fuel vt s)
  | 0, _, s => prog_error _ s Exn.fuel
  | fuel + 1, vt, s => by
    by_cases hA : vt &&& VT_ARRAY ≠ 0
    · rw [readData_array_tag host fuel vt s hA]
      intro p hp
      obtain ⟨h, h1, hp⟩ := bind_eq_ok hp
      obtain ⟨r, h2, hp⟩ := bind_eq_ok hp
      have a1 := (ReadSafeArrayHeader_prog _ s h h1).1
      have a2 := readElements_prog (ReadDataFromStream host fuel) _ fuel
        (readData_prog host hh fuel) h.2.1 h.2.2 r h2
      have e : p.2 = r.2 := (congrArg (fun x => x.2) (Except.ok.inj hp)).symm
      rw [e]
      split_ifs <;> omega
    · exact readData_scalar_prog host hh fuel vt s hA

theorem readLoop_noFuel (read : Nat → IStream → Except Exn (VARIANT × IStream)) (vt F : Nat)
    (hprog : ∀ s1, Prog 1 s1 (readElem read vt s1))
    (hnf : ∀ vt1 s1, remaining s1 < F → NoFuel (read vt1 s1)) :
    ∀ (k : Nat) (walk : CWalkSafeArrayElements) (sa : SAFEARRAY) (s : IStream),
      remaining s < k → remaining s < F → NoFuel (readLoop read vt k walk sa s)
  | 0, _, _, _, hk, _ => absurd hk (Nat.not_lt_zero _)
  | k + 1, walk, sa, s, hk, hF => by
    rw [readLoop_step]
    refine noFuel_bind (readElem_noFuel read vt F hnf s hF) (fun r hr => ?_)
    refine noFuel_bind (putElementFromVariant_noFuel _ _ _) (fun sa1 _ => ?_)
    have a := hprog s r hr
    split
    · exact readLoop_noFuel read vt F hprog hnf k _ _ _ (by omega) (by omega)
    · exact noFuel_ok _

/-- With more fuel than bytes to read, reading a value does not run out of
fuel. -/
theorem readData_noFuel (host : Host) (hh : HostConsumes host) :
    ∀ (fuel vt : Nat) (s : IStream), remaining s < fuel →
      NoFuel (ReadDataFromStream host fuel vt s)
  | 0, _, _, h => absurd h (Nat.not_lt_zero _)
  | fuel + 1, vt, s, h => by
    by_cases hA : vt &&& VT_ARRAY ≠ 0
    · rw [readData_array_tag host fuel vt s hA]
      refine noFuel_bind (ReadSafeArrayHeader_noFuel _ s) (fun hd h1 => ?_)
      refine noFuel_bind ?_ (fun _ _ => noFuel_ok _)
      obtain ⟨a1, a2⟩ := ReadSafeArrayHeader_prog _ s hd h1
      unfold ReadSafeArrayElements
      split
      · exact noFuel_ok _
      · refine readLoop_noFuel (ReadDataFromStream host fuel) _ fuel (fun s1 => ?_)
          (fun vt1 s1 h1 => readData_noFuel host hh fuel vt1 s1 h1) fuel _ _ _ (by omega) (by omega)
        have a3 := readElem_prog (ReadDataFromStream host fuel) (VT_TYPEMASK &&& vt)
          (readData_prog host hh fuel) s1
        rw [if_neg (isElemTag_not_void _ a2)] at a3
        exact a3
    · exact readData_scalar_noFuel host fuel vt s hA

theorem failHost_consumes : HostConsumes failHost := by
  intro s h
  simp [failHost, FAILED] at h

theorem noFuel_of_bind {γ β : Type} {r : Except Exn γ} {f : γ → Except Exn β}
    (h : NoFuel (r >>= f)) : NoFuel r ∧ ∀ c, r = Except.ok c → NoFuel (f c) := by
  cases r with
  | error e =>
    refine ⟨fun he => h ?_, fun c hc => by cases hc⟩
    cases he
    rfl
  | ok c =>
    refine ⟨noFuel_ok c, fun d hd => ?_⟩
    cases hd
    exact h

theorem bind_congr_ok {γ β : Type} (r : Except Exn γ) {f g : γ → Except Exn β}
    (h : ∀ c, r = Except.ok c → f c = g c) : r >>= f = r >>= g := by
  cases r with
  | error e => rfl
  | ok c => exact h c rfl

theorem readElem_more_fuel (read1 read : Nat → IStream → Except Exn (VARIANT × IStream))
    (hm : ∀ vt s, NoFuel (read vt s) → read1 vt s = read vt s) (vt : Nat) (s : IStream)
    (h : NoFuel (readElem read vt s)) : readElem read1 vt s = readElem read vt s := by
  unfold readElem at h ⊢
  exact bind_congr_ok _ (fun c hc => hm c.1 c.2 ((noFuel_of_bind h).2 c hc))

theorem readLoop_more_fuel (read1 read : Nat → IStream → Except Exn (VARIANT × IStream))
    (hm : ∀ vt s, NoFuel (read vt s) → read1 vt s = read vt s) (vt : Nat) :
    ∀ (k : Nat) (walk : CWalkSafeArrayElements) (sa : SAFEARRAY) (s : IStream),
      NoFuel (readLoop read vt k walk sa s) →
        readLoop read1 vt (k + 1) walk sa s = readLoop read vt k walk sa s
  | 0, _, _, _, h => absurd rfl h
  | k + 1, walk, sa, s, h => by
    rw [readLoop_step] at h
    rw [readLoop_step read1, readLoop_step read,
      readElem_more_fuel read1 read hm vt s (noFuel_of_bind h).1]
    refine bind_congr_ok _ (fun r hr => ?_)
    have h2 := (noFuel_of_bind h).2 r hr
    refine bind_congr_ok _ (fun sa1 hsa => ?_)
    have h3 := (noFuel_of_bind h2).2 sa1 hsa
    by_cases hmore : walk.GetIndex.1.Next.2 = true
    · rw [if_pos hmore] at h3
      rw [if_pos hmore, if_pos hmore]
      exact readLoop_more_fuel read1 read hm vt k _ _ _ h3
    · rw [if_neg hmore, if_neg hmore]

theorem readData_scalar_eq (host : Host) (f g vt : Nat) (s : IStream)
    (hA : ¬ vt &&& VT_ARRAY ≠ 0) :
    ReadDataFromStream host (f + 1) vt s = ReadDataFromStream host (g + 1) vt s := by
  unfold ReadDataFromStream
  rw [if_neg hA, if_neg hA]

/-- A result that is not the exhaustion of the fuel stays the same with more
fuel. -/
theorem readData_more_fuel (host : Host) :
    ∀ (fuel vt : Nat) (s : IStream), NoFuel (ReadDataFromStream host fuel vt s) →
      ReadDataFromStream host (fuel + 1) vt s = ReadDataFromStream host fuel vt s
  | 0, _, _, h => absurd rfl h
  | fuel + 1, vt, s, h => by
    by_cases hA : vt &&& VT_ARRAY ≠ 0
    · rw [readData_array_tag host fuel vt s hA] at h
      rw [readData_array_tag host (fuel + 1) vt s hA, readData_array_tag host fuel vt s hA]
      refine bind_congr_ok _ (fun hd h1 => ?_)
      have h2 := (noFuel_of_bind h).2 hd h1
      have h3 := (noFuel_of_bind h2).1
      have e : ReadSafeArrayElements (ReadDataFromStream host (fuel + 1)) (fuel + 1)
            (VT_TYPEMASK &&& vt) hd.2.1 hd.2.2
          = ReadSafeArrayElements (ReadDataFromStream host fuel) fuel
            (VT_TYPEMASK &&& vt) hd.2.1 hd.2.2 := by
        unfold ReadSafeArrayElements at h3 ⊢
        by_cases h0 : NoOfElements hd.2.1.rgsabound = 0
        · rw [if_pos h0, if_pos h0]
        · rw [if_neg h0] at h3
          rw [if_neg h0, if_neg h0]
          exact readLoop_more_fuel _ _ (readData_more_fuel host fuel) _ fuel _ _ _ h3
      rw [e]
    · exact readData_scalar_eq host (fuel + 1) fuel vt s hA

theorem readData_fuel_le (host : Host) (vt : Nat) (s : IStream) (fuel : Nat)
    (h : NoFuel (ReadDataFromStream host fuel vt s)) :
    ∀ d, ReadDataFromStream host (fuel + d) vt s = ReadDataFromStream host fuel vt s
  | 0 => rfl
  | d + 1 => by
    have ih := readData_fuel_le host vt s fuel h d
    have h1 : NoFuel (ReadDataFromStream host (fuel + d) vt s) := by rw [ih]; exact h
    rw [← Nat.add_assoc, readData_more_fuel host (fuel + d) vt s h1, ih]

/-- With more fuel than the stream has bytes to read, reading a variant gives
a value or an error of the reader, and the same one whatever the fuel. -/
theorem readVariant_settles (host : Host) (hh : HostConsumes host) (s : IStream) (fuel : Nat)
    (hfuel : remaining s < fuel) :
    NoFuel (ReadVariantFromStream host fuel s) ∧
      ReadVariantFromStream host fuel s = ReadVariantFromStream host (remaining s + 1) s := by
  unfold ReadVariantFromStream ReadFromStream
  constructor
  · refine noFuel_bind (CStream.Read_noFuel s 4) (fun p hp => ?_)
    refine noFuel_bind (CStream.Read_noFuel _ 2) (fun q hq => ?_)
    have a1 := CStream.Read_prog s 4 p hp
    have a2 := CStream.Read_prog _ 2 q hq
    exact readData_noFuel host hh fuel _ _ (by omega)
  · refine bind_congr_ok _ (fun p hp => ?_)
    refine bind_congr_ok _ (fun q hq => ?_)
    have a1 := CStream.Read_prog s 4 p hp
    have a2 := CStream.Read_prog _ 2 q hq
    have h1 := readData_noFuel host hh (remaining s + 1) q.1 q.2 (by omega)
    have h2 := readData_fuel_le host q.1 q.2 (remaining s + 1) h1 (fuel - (remaining s + 1))
    have e : remaining s + 1 + (fuel - (remaining s + 1)) = fuel := by omega
    rw [e] at h2
    exact h2

/-- C32: decoding terminates on every finite byte stream.  The model counts
the nesting of arrays and the turns of the element loop in a fuel; with more
fuel than the stream has bytes from the seek pointer on, `ReadVariantFromStream`
ends with a value or with an error of the reader, never for want of fuel, and
with the same outcome whatever the fuel.  The reason is the one the claim
gives: every element read that returns has consumed at least one byte, and an
array header at least two.  The loader of objects belongs to the platform; of
`host` it is assumed only that a load that succeeds has consumed a byte, which
asks nothing of a stream without object payloads, where the loader is not
called: the same holds for any loader at all on a stream whose decoding does
not depend on the loader (it agrees with the decoding in which every load
fails). -/
theorem decode_terminates (host : Host) (hh : HostConsumes host) (s : IStream) :
    (∃ r, r ≠ Except.error Exn.fuel ∧
        ∀ fuel, remaining s < fuel → ReadVariantFromStream host fuel s = r) ∧
    (∀ (f evt : Nat) (s1 : IStream) (p : VARIANT × IStream), IsElemTag evt →
        readElem (ReadDataFromStream host f) evt s1 = Except.ok p →
          remaining p.2 < remaining s1) ∧
    (∀ (vt : Nat) (s1 : IStream) (h : Nat × SAFEARRAY × IStream),
        ReadSafeArrayHeader vt s1 = Except.ok h → remaining h.2.2 + 2 ≤ remaining s1) ∧
    (∀ other : Host,
        (∀ fuel, ReadVariantFromStream other fuel s = ReadVariantFromStream failHost fuel s) →
        ∃ r, r ≠ Except.error Exn.fuel ∧
          ∀ fuel, remaining s < fuel → ReadVariantFromStream other fuel s = r) := by
  refine ⟨⟨ReadVariantFromStream host (remaining s + 1) s,
      (readVariant_settles host hh s _ (Nat.lt_succ_self _)).1,
      fun fuel hf => (readVariant_settles host hh s fuel hf).2⟩, ?_, ?_, ?_⟩
  · intro f evt s1 p hevt hp
    have a := readElem_prog (ReadDataFromStream host f) evt (readData_prog host hh f) s1
    rw [if_neg (isElemTag_not_void evt hevt)] at a
    exact a p hp
  · intro vt s1 h hk
    exact (ReadSafeArrayHeader_prog vt s1 h hk).1
  · intro other hsame
    refine ⟨ReadVariantFromStream failHost (remaining s + 1) s,
      (readVariant_settles failHost failHost_consumes s _ (Nat.lt_succ_self _)).1,
      fun fuel hf => ?_⟩
    rw [hsame fuel]
    exact (readVariant_settles failHost failHost_consumes s fuel hf).2

/-- C32, witness: a stream that announces an array of two 32-bit numbers and
breaks off inside the second. -/
theorem decode_terminates_witness :
    HostConsumes failHost ∧
    ((∃ r, r ≠ Except.error Exn.fuel ∧
        ∀ fuel, remaining ⟨[1, 0, 0, 0, 3, 32, 1, 0, 0, 0, 0, 0, 2, 0, 0, 0, 7, 0, 0, 0, 9], 0⟩ < fuel →
          ReadVariantFromStream failHost fuel
            ⟨[1, 0, 0, 0, 3, 32, 1, 0, 0, 0, 0, 0, 2, 0, 0, 0, 7, 0, 0, 0, 9], 0⟩ = r) ∧
    (∀ (f evt : Nat) (s1 : IStream) (p : VARIANT × IStream), IsElemTag evt →
        readElem (ReadDataFromStream failHost f) evt s1 = Except.ok p →
          remaining p.2 < remaining s1) ∧
    (∀ (vt : Nat) (s1 : IStream) (h : Nat × SAFEARRAY × IStream),
        ReadSafeArrayHeader vt s1 = Except.ok h → remaining h.2.2 + 2 ≤ remaining s1) ∧
    (∀ other : Host,
        (∀ fuel, ReadVariantFromStream other fuel
            ⟨[1, 0, 0, 0, 3, 32, 1, 0, 0, 0, 0, 0, 2, 0, 0, 0, 7, 0, 0, 0, 9], 0⟩
          = ReadVariantFromStream failHost fuel
            ⟨[1, 0, 0, 0, 3, 32, 1, 0, 0, 0, 0, 0, 2, 0, 0, 0, 7, 0, 0, 0, 9], 0⟩) →
        ∃ r, r ≠ Except.error Exn.fuel ∧
          ∀ fuel, remaining ⟨[1, 0, 0, 0, 3, 32, 1, 0, 0, 0, 0, 0, 2, 0, 0, 0, 7, 0, 0, 0, 9], 0⟩ < fuel →
            ReadVariantFromStream other fuel
              ⟨[1, 0, 0, 0, 3, 32, 1, 0, 0, 0, 0, 0, 2, 0, 0, 0, 7, 0, 0, 0, 9], 0⟩ = r)) :=
  ⟨failHost_consumes,
    decode_terminates failHost failHost_consumes
      ⟨[1, 0, 0, 0, 3, 32, 1, 0, 0, 0, 0, 0, 2, 0, 0, 0, 7, 0, 0, 0, 9], 0⟩⟩

/-! ### Reader and writer in step: prefixes of an encoding -/

theorem comparable_left {T B1 B2 : List Nat} (h : Comparable T (B1 ++ B2)) :
    Comparable T B1 := by
  rcases h with h | h
  · exact List.prefix_or_prefix_of_prefix h (List.prefix_append B1 B2)
  · exact Or.inr ((List.prefix_append B1 B2).trans h)

theorem comparable_cancel {B1 T B2 : List Nat} (h : Comparable (B1 ++ T) (B1 ++ B2)) :
    Comparable T B2 := by
  rcases h with h | h
  · exact Or.inl ((List.prefix_append_right_inj B1).1 h)
  · exact Or.inr ((List.prefix_append_right_inj B1).1 h)

theorem prefix_of_comparable {T B : List Nat} (h : Comparable T B) (hl : B.length ≤ T.length) :
    B <+: T := by
  rcases h with h | h
  · obtain ⟨t, rfl⟩ := h
    have ht : t = [] := by
      rw [List.length_append] at hl
      exact List.eq_nil_of_length_eq_zero (by omega)
    rw [ht, List.append_nil]
  · exact h

theorem comparable_nil (T : List Nat) : Comparable T [] :=
  Or.inr List.nil_prefix

theorem locked_bind {α β : Type} {r1 r1' : IStream → Except Exn (α × IStream)}
    {f f' : α × IStream → Except Exn (β × IStream)} {B1 B2 : List Nat} {Q1 : α → Prop}
    {Q2 : β → Prop} (h1 : Locked r1 r1' B1 Q1)
    (h2 : ∀ x, Q1 x → Locked (fun s => f (x, s)) (fun s => f' (x, s)) B2 Q2) :
    Locked (fun s => r1 s >>= f) (fun s => r1' s >>= f') (B1 ++ B2) Q2 := by
  intro pre T hc
  obtain ⟨e1, k1⟩ := h1 pre T (comparable_left hc)
  dsimp only
  rw [← e1]
  cases hr : r1 ⟨pre ++ T, pre.length⟩ with
  | error e => exact ⟨rfl, fun p hp => by cases hp⟩
  | ok a =>
    obtain ⟨hB1, hst, hQ⟩ := k1 a hr
    obtain ⟨t, rfl⟩ := hB1
    have ha : a = (a.1, (⟨(pre ++ B1) ++ t, (pre ++ B1).length⟩ : IStream)) := by
      rw [List.append_assoc, List.length_append, ← hst]
    obtain ⟨e2, k2⟩ := h2 a.1 hQ (pre ++ B1) t (comparable_cancel hc)
    dsimp only at e2 k2
    rw [← ha] at e2 k2
    refine ⟨e2, fun p hp => ?_⟩
    obtain ⟨hB2, hst2, hQ2⟩ := k2 p hp
    refine ⟨(List.prefix_append_right_inj B1).2 hB2, ?_, hQ2⟩
    rw [hst2]
    simp only [List.append_assoc, List.length_append, Nat.add_assoc]

theorem locked_of_except {α γ : Type} (e : Except Exn γ)
    {r r0 : γ → IStream → Except Exn (α × IStream)} {B : List Nat} {Q : α → Prop}
    (h : ∀ c, e = Except.ok c → Locked (r c) (r0 c) B Q) :
    Locked (fun s => e >>= fun c => r c s) (fun s => e >>= fun c => r0 c s) B Q := by
  intro pre T hc
  cases e with
  | error x => exact ⟨rfl, fun p hp => by cases hp⟩
  | ok c => exact h c rfl pre T hc

theorem locked_error {α : Type} (e : Exn) (B : List Nat) (Q : α → Prop) :
    Locked (fun _ => (Except.error e : Except Exn (α × IStream))) (fun _ => Except.error e) B Q :=
  fun _ _ _ => ⟨rfl, fun p hp => by cases hp⟩

theorem locked_pure {α : Type} (g : IStream → α) (Q : α → Prop) (hx : ∀ s, Q (g s)) :
    Locked (fun s => (Except.ok (g s, s) : Except Exn (α × IStream)))
      (fun s => Except.ok (g s, s)) [] Q := by
  intro pre T _
  refine ⟨rfl, fun p hp => ?_⟩
  cases hp
  exact ⟨ List.nil_prefix, rfl, hx _⟩

theorem locked_congr {α : Type} {r r0 r2 r02 : IStream → Except Exn (α × IStream)}
    {B : List Nat} {Q : α → Prop} (h : Locked r2 r02 B Q) (e : ∀ s, r s = r2 s)
    (e0 : ∀ s, r0 s = r02 s) : Locked r r0 B Q := by
  intro pre T hc
  rw [e, e0]
  exact h pre T hc

theorem locked_mono {α : Type} {r r0 : IStream → Except Exn (α × IStream)}
    {B : List Nat} {Q Q2 : α → Prop} (h : Locked r r0 B Q) (hq : ∀ x, Q x → Q2 x) :
    Locked r r0 B Q2 := by
  intro pre T hc
  obtain ⟨e, k⟩ := h pre T hc
  exact ⟨e, fun p hp => ⟨(k p hp).1, (k p hp).2.1, hq _ (k p hp).2.2⟩⟩

theorem locked_map {α β : Type} {r r0 : IStream → Except Exn (α × IStream)}
    {B : List Nat} {Q : α → Prop} (g : α × IStream → β) (h : Locked r r0 B Q) :
    Locked (fun s => r s >>= fun y => (pure (g y, y.2) : Except Exn (β × IStream)))
      (fun s => r0 s >>= fun y => (pure (g y, y.2) : Except Exn (β × IStream))) B
      (fun _ => True) := by
  intro pre T hc
  obtain ⟨e, k⟩ := h pre T hc
  dsimp only
  rw [← e]
  cases hr : r ⟨pre ++ T, pre.length⟩ with
  | error x => exact ⟨rfl, fun p hp => by cases hp⟩
  | ok a =>
    refine ⟨rfl, fun p hp => ?_⟩
    cases hp
    exact ⟨(k a hr).1, (k a hr).2.1, trivial⟩

theorem CStream.Read_locked (n v : Nat) :
    Locked (fun s => CStream.Read s n) (fun s => CStream.Read s n) (toBytesLE n v)
      (fun x => x = v % 256 ^ n) := by
  intro pre T hc
  refine ⟨rfl, fun p hp => ?_⟩
  dsimp only at hp
  rw [CStream.Read_eq] at hp
  simp only [List.drop_left] at hp
  split at hp
  · rename_i hlen
    have hl : (T.take n).length = min n T.length := List.length_take _ _
    have hpre := prefix_of_comparable hc (by rw [toBytesLE_length]; omega)
    obtain ⟨t, rfl⟩ := hpre
    have ht : (toBytesLE n v ++ t).take n = toBytesLE n v := by
      rw [List.take_append_of_le_length (by rw [toBytesLE_length])]
      exact List.take_of_length_le (by rw [toBytesLE_length])
    rw [ht] at hp
    cases hp
    refine ⟨List.prefix_append _ _, ?_, fromBytesLE_toBytesLE n v⟩
    rw [toBytesLE_length]
  · cases hp

theorem locked_of_consumes {α : Type} {r r0 : IStream → Except Exn (α × IStream)}
    {B : List Nat} {v : α} (h : Consumes r B v) (h0 : Consumes r0 B v)
    (hs : ∀ pre T : List Nat, T <+: B → T.length < B.length →
      ∃ e, r ⟨pre ++ T, pre.length⟩ = Except.error e ∧
        r0 ⟨pre ++ T, pre.length⟩ = Except.error e) :
    Locked r r0 B (fun x => x = v) := by
  intro pre T hc
  by_cases hl : B.length ≤ T.length
  · obtain ⟨t, rfl⟩ := prefix_of_comparable hc hl
    have a := h pre t _ rfl
    have a0 := h0 pre t _ rfl
    rw [a, a0]
    refine ⟨rfl, fun p hp => ?_⟩
    cases hp
    exact ⟨List.prefix_append _ _, rfl, rfl⟩
  · rcases hc with hc | hc
    · obtain ⟨e, a, a0⟩ := hs pre T hc (by omega)
      rw [a, a0]
      exact ⟨rfl, fun p hp => by cases hp⟩
    · exact absurd hc.length_le hl

theorem readData_fixed_locked (host host0 : Host) (rf vt : Nat) (B : List Nat)
    (h : IsFixedScalar vt) (hB : B.length = fixedSize vt) :
    Locked (ReadDataFromStream host (rf + 1) vt) (ReadDataFromStream host0 (rf + 1) vt) B
      (fun _ => True) :=
  locked_mono
    (locked_of_consumes (readData_fixed host rf vt B h hB) (readData_fixed host0 rf vt B h hB)
      (fun pre T _ hl => ⟨Exn.raised, readData_short host rf vt pre T h (by omega),
        readData_short host0 rf vt pre T h (by omega)⟩))
    (fun _ _ => trivial)

theorem readData_empty_locked (host host0 : Host) (rf vt : Nat)
    (h : vt = VT_EMPTY ∨ vt = VT_NULL) :
    Locked (ReadDataFromStream host (rf + 1) vt) (ReadDataFromStream host0 (rf + 1) vt) []
      (fun _ => True) :=
  locked_mono
    (locked_of_consumes (readData_empty host rf vt h) (readData_empty host0 rf vt h)
      (fun _ _ _ hl => absurd hl (Nat.not_lt_zero _)))
    (fun _ _ => trivial)

theorem CStream.ReadBSTR_short (pre T : List Nat) (n : Nat) (hn : n < 4294967296)
    (hT : T.length < n) :
    CStream.ReadBSTR ⟨pre ++ (toBytesLE 4 n ++ T), pre.length⟩ = Except.error Exn.raised := by
  have hlen : CStream.Read ⟨pre ++ (toBytesLE 4 n ++ T), pre.length⟩ (toBytesLE 4 n).length = _ :=
    CStream.Read_consumes (toBytesLE 4 n) pre T _ rfl
  rw [toBytesLE_length, fromBytesLE_toBytesLE, Nat.mod_eq_of_lt (by simpa using hn)] at hlen
  have hdrop : (pre ++ (toBytesLE 4 n ++ T)).drop (pre.length + 4) = T := by
    have e : pre.length + 4 = (pre ++ toBytesLE 4 n).length := by
      rw [List.length_append, toBytesLE_length]
    rw [e, ← List.append_assoc, List.drop_left]
  have htake : (T.take n).length ≠ n := by
    rw [List.length_take]
    omega
  simp only [CStream.ReadBSTR, hlen, ok_bind, IStream.Read, hdrop, CheckResult, FAILED]
  simp [htake, hT, ThrowError, pure, Except.pure]

theorem readData_bstr_short (host : Host) (rf : Nat) (pre T P : List Nat)
    (hP : P.length < 4294967296) (hT : T <+: toBytesLE 4 P.length ++ P)
    (hl : T.length < (toBytesLE 4 P.length ++ P).length) :
    ReadDataFromStream host (rf + 1) VT_BSTR ⟨pre ++ T, pre.length⟩
      = Except.error Exn.raised := by
  rw [List.length_append, toBytesLE_length] at hl
  by_cases h4 : T.length < 4
  · have := CStream.Read_short pre T 4 h4
    simp +decide [ReadDataFromStream, CStream.ReadBSTR, this]
  · have hpre : toBytesLE 4 P.length <+: T :=
      List.prefix_of_prefix_length_le (List.prefix_append _ _) hT
        (by rw [toBytesLE_length]; omega)
    obtain ⟨t, rfl⟩ := hpre
    rw [List.length_append, toBytesLE_length] at hl
    have := CStream.ReadBSTR_short pre t P.length hP (by omega)
    simp +decide [ReadDataFromStream, this]

theorem bstrBytes_eq (s : List Nat) :
    ∃ P : List Nat, P.length < 4294967296 ∧ bstrBytes s = toBytesLE 4 P.length ++ P := by
  have hle : wrapULong (s.length * 2) ≤ (bytesOfUnits s).length := by
    rw [bytesOfUnits_length]; exact Nat.mod_le _ _
  have hlen : ((bytesOfUnits s).take (wrapULong (s.length * 2))).length
      = wrapULong (s.length * 2) := by
    rw [List.length_take, Nat.min_eq_left hle]
  refine ⟨(bytesOfUnits s).take (wrapULong (s.length * 2)), ?_, ?_⟩
  · rw [hlen]
    exact Nat.mod_lt _ (by norm_num)
  · rw [hlen, bstrBytes]

theorem readData_bstr_locked (host host0 : Host) (rf : Nat) (s : List Nat) :
    Locked (ReadDataFromStream host (rf + 1) VT_BSTR)
      (ReadDataFromStream host0 (rf + 1) VT_BSTR) (bstrBytes s) (fun _ => True) := by
  obtain ⟨P, hP, hB⟩ := bstrBytes_eq s
  rw [hB]
  exact locked_mono
    (locked_of_consumes (readData_bstr host rf P hP) (readData_bstr host0 rf P hP)
      (fun pre T hT hl => ⟨Exn.raised, readData_bstr_short host rf pre T P hP hT hl,
        readData_bstr_short host0 rf pre T P hP hT hl⟩))
    (fun _ _ => trivial)

theorem CStream.Read_locked_mod (n v : Nat) (hv : v < 256 ^ n) :
    Locked (fun s => CStream.Read s n) (fun s => CStream.Read s n) (toBytesLE n v)
      (fun x => x = v) := by
  have := CStream.Read_locked n v
  rw [Nat.mod_eq_of_lt hv] at this
  exact this

theorem readBounds_locked : ∀ (rg : List SAFEARRAYBOUND),
    (∀ b, b ∈ rg → isLong b.lLbound ∧ b.cElements < 4294967296) →
    Locked (readBounds rg.length) (readBounds rg.length) (boundsBytes rg) (fun x => x = rg)
  | [], _ => by
    intro pre T _
    refine ⟨rfl, fun p hp => ?_⟩
    cases hp
    exact ⟨ List.nil_prefix, rfl, rfl⟩
  | b :: rg, h => by
    obtain ⟨hl, he⟩ := h b (List.mem_cons_self _ _)
    have ih := readBounds_locked rg (fun c hc => h c (List.mem_cons_of_mem _ hc))
    have key : Locked
        (fun s => CStream.Read s 4 >>= fun p => CStream.Read p.2 4 >>= fun q =>
          readBounds rg.length q.2 >>= fun r =>
            (pure ((⟨q.1, wrapLong p.1⟩ : SAFEARRAYBOUND) :: r.1, r.2) :
              Except Exn (List SAFEARRAYBOUND × IStream)))
        (fun s => CStream.Read s 4 >>= fun p => CStream.Read p.2 4 >>= fun q =>
          readBounds rg.length q.2 >>= fun r =>
            (pure ((⟨q.1, wrapLong p.1⟩ : SAFEARRAYBOUND) :: r.1, r.2) :
              Except Exn (List SAFEARRAYBOUND × IStream)))
        (toBytesLE 4 (longBits b.lLbound) ++ (toBytesLE 4 b.cElements ++ (boundsBytes rg ++ [])))
        (fun x => x = b :: rg) :=
      locked_bind (CStream.Read_locked_mod 4 (longBits b.lLbound) (longBits_lt _))
        (fun x hx => by
          dsimp only
          exact locked_bind (CStream.Read_locked_mod 4 b.cElements he)
            (fun y hy => by
              dsimp only
              exact locked_bind ih (fun z hz => by
                dsimp only
                exact locked_pure (fun _ => (⟨y, wrapLong x⟩ : SAFEARRAYBOUND) :: z)
                  (fun w => w = b :: rg)
                  (fun _ => by rw [hx, hy, hz, wrapLong_longBits hl]))))
    rw [List.append_nil] at key
    rw [boundsBytes_cons]
    intro pre T hc
    exact key pre T hc

theorem ReadSafeArrayHeader_locked (evt : Nat) (rg : List SAFEARRAYBOUND)
    (hd : rg.length < 65536)
    (hb : ∀ b, b ∈ rg → isLong b.lLbound ∧ b.cElements < 4294967296)
    (pre T : List Nat) (hc : Comparable T (headerBytes rg)) (h : Nat × SAFEARRAY × IStream)
    (hk : ReadSafeArrayHeader evt ⟨pre ++ T, pre.length⟩ = Except.ok h) :
    headerBytes rg <+: T ∧ h.2.2 = ⟨pre ++ T, pre.length + (headerBytes rg).length⟩ ∧
      h.2.1.rgsabound = rg := by
  unfold headerBytes at hc ⊢
  unfold ReadSafeArrayHeader at hk
  obtain ⟨p, h1, k1⟩ := bind_eq_ok hk
  clear hk
  obtain ⟨hB1, hp2, hp1⟩ :=
    ((CStream.Read_locked_mod 2 rg.length (by simpa using hd)) pre T (comparable_left hc)).2 p h1
  obtain ⟨t, rfl⟩ := hB1
  dsimp only at k1
  obtain ⟨_, _, k2⟩ := bind_eq_ok k1
  obtain ⟨q, h3, k3⟩ := bind_eq_ok k2
  have hp2' : p.2 = ⟨(pre ++ toBytesLE 2 rg.length) ++ t, (pre ++ toBytesLE 2 rg.length).length⟩ := by
    rw [hp2, List.append_assoc, List.length_append]
  rw [hp1, hp2'] at h3
  obtain ⟨hB2, hq2, hq1⟩ :=
    ((readBounds_locked rg hb) (pre ++ toBytesLE 2 rg.length) t (comparable_cancel hc)).2 q h3
  obtain ⟨c, _, k4⟩ := bind_eq_ok k3
  obtain ⟨_, _, k5⟩ := bind_eq_ok k4
  have e1 : h.2.2 = q.2 := (congrArg (fun x => x.2.2) (Except.ok.inj k5)).symm
  have e2 : h.2.1.rgsabound = q.1 := by
    rw [← Except.ok.inj k5]
    dsimp only [SafeArrayAllocData]
    split_ifs <;> rfl
  refine ⟨(List.prefix_append_right_inj _).2 hB2, ?_, by rw [e2, hq1]⟩
  rw [e1, hq2]
  simp only [List.append_assoc, List.length_append, Nat.add_assoc]

theorem array_of_variant (v : VARIANT) (sa : SAFEARRAY)
    (h : (if v.V_ISBYREF then v.pparray else v.parray) = Except.ok sa)
    (ho : ObjectFree v) (hf : FieldsFit v) :
    sa.rgsabound.length < 65536 ∧
    (∀ b, b ∈ sa.rgsabound → isLong b.lLbound ∧ b.cElements < 4294967296) ∧
    ∀ idx, indexInRange sa.rgsabound idx = true →
      ObjectFree (sa.pvData idx) ∧ FieldsFit (sa.pvData idx) := by
  cases v with
  | plain vt p => split_ifs at h <;> cases h
  | array vt ff cb rg pv =>
    split_ifs at h
    · cases h
    · cases h
      exact ⟨hf.2.1, hf.2.2.1, fun idx hi => ⟨ho.2 idx hi, hf.2.2.2 idx hi⟩⟩
  | byref vt t =>
    split_ifs at h
    · cases t with
      | plain _ _ => cases h
      | byref _ _ => cases h
      | array vt2 ff cb rg pv =>
        cases h
        exact ⟨hf.2.2.1, hf.2.2.2.1, fun idx hi => ⟨ho.2.2 idx hi, hf.2.2.2.2 idx hi⟩⟩
    · cases h

theorem getElement_good (sa : SAFEARRAY) (idx : List Int) (evt : Nat) (e : VARIANT)
    (h : SafeArrayGetElementAsVariant sa idx evt = Except.ok e)
    (hcells : ∀ idx, indexInRange sa.rgsabound idx = true →
      ObjectFree (sa.pvData idx) ∧ FieldsFit (sa.pvData idx))
    (hno : NoObjectTag evt) (hlt : evt < 4096) :
    ObjectFree e ∧ FieldsFit e ∧ (VT_VARIANT ≠ evt → e.vt = evt) := by
  by_cases hin : indexInRange sa.rgsabound idx = true
  swap
  · rw [getElementAsVariant_badIndex sa idx evt (by simpa using hin)] at h
    cases h
  have hget : SafeArrayGetElement sa idx = (S_OK, sa.pvData idx) := by
    simp [SafeArrayGetElement, hin]
  have hD : evt ≠ VT_DISPATCH := by
    intro he; subst he; exact hno.1 (by decide)
  have hU : evt ≠ VT_UNKNOWN := by
    intro he; subst he; exact hno.2 (by decide)
  unfold SafeArrayGetElementAsVariant at h
  rw [hget] at h
  dsimp only at h
  obtain ⟨_, _, h⟩ := bind_eq_ok h
  by_cases f1 : sa.fFeatures &&& FADF_BSTR = FADF_BSTR
  · rw [if_pos f1] at h
    by_cases g1 : VT_BSTR ≠ evt
    · rw [if_pos g1] at h
      cases h
    · rw [if_neg g1] at h
      have g1' : VT_BSTR = evt := by simpa using g1
      obtain ⟨_, _, h⟩ := bind_eq_ok h
      by_cases g2 : 4 ≠ sa.cbElements
      · rw [if_pos g2] at h
        cases h
      · rw [if_neg g2] at h
        obtain ⟨_, _, h⟩ := bind_eq_ok h
        obtain ⟨entry, _, h⟩ := bind_eq_ok h
        cases h
        subst g1'
        refine ⟨?_, ?_, fun _ => rfl⟩
        · show NoObjectTag VT_BSTR
          exact ⟨by decide, by decide⟩
        · show VT_BSTR < 65536
          decide
  rw [if_neg f1] at h
  by_cases f2 : sa.fFeatures &&& FADF_UNKNOWN = FADF_UNKNOWN
  · rw [if_pos f2] at h
    by_cases g1 : VT_UNKNOWN ≠ evt
    · rw [if_pos g1] at h
      cases h
    · exact absurd (by simpa using g1 : VT_UNKNOWN = evt).symm hU
  rw [if_neg f2] at h
  by_cases f3 : sa.fFeatures &&& FADF_DISPATCH = FADF_DISPATCH
  · rw [if_pos f3] at h
    by_cases g1 : VT_DISPATCH ≠ evt
    · rw [if_pos g1] at h
      cases h
    · exact absurd (by simpa using g1 : VT_DISPATCH = evt).symm hD
  rw [if_neg f3] at h
  by_cases f4 : sa.fFeatures &&& FADF_VARIANT = FADF_VARIANT
  · rw [if_pos f4] at h
    by_cases g1 : VT_VARIANT ≠ evt
    · rw [if_pos g1] at h
      cases h
    · rw [if_neg g1] at h
      obtain ⟨_, _, h⟩ := bind_eq_ok h
      by_cases g2 : 16 ≠ sa.cbElements
      · rw [if_pos g2] at h
        cases h
      · rw [if_neg g2] at h
        obtain ⟨_, _, h⟩ := bind_eq_ok h
        cases h
        exact ⟨(hcells idx hin).1, (hcells idx hin).2, fun hne => absurd hne g1⟩
  rw [if_neg f4] at h
  obtain ⟨entry, _, h⟩ := bind_eq_ok h
  have base : ∀ y : Nat,
      ((pure y : Except Exn Nat) >>= fun y => pure (VARIANT.plain evt (Payload.bits y)))
        = Except.ok e → ∃ value, e = VARIANT.plain evt (Payload.bits value) :=
    fun y hy => ⟨y, (Except.ok.inj hy).symm⟩
  have none : ∀ x : Int,
      ((ThrowError x : Except Exn Nat) >>= fun y => pure (VARIANT.plain evt (Payload.bits y)))
        = Except.ok e → ∃ value, e = VARIANT.plain evt (Payload.bits value) :=
    fun x hx => by cases hx
  have hv : ∃ value, e = VARIANT.plain evt (Payload.bits value) :=
    ite_ok_imp (base _) (ite_ok_imp (base _) (ite_ok_imp (base _) (ite_ok_imp (base _)
      (ite_ok_imp (base _) (ite_ok_imp (base _) (ite_ok_imp (base _) (ite_ok_imp (base _)
        (ite_ok_imp (none _) (none _))))))))) h
  obtain ⟨value, rfl⟩ := hv
  refine ⟨hno, ?_, fun _ => rfl⟩
  show evt < 65536
  omega

theorem objectFree_tag (v : VARIANT) (h : ObjectFree v) : NoObjectTag v.vt := by
  cases v with
  | plain vt p => exact h
  | array vt ff cb rg pv => exact h.1
  | byref vt t => exact h.1

theorem fieldsFit_tag (v : VARIANT) (h : FieldsFit v) : v.vt < 65536 := by
  cases v with
  | plain vt p => exact h
  | array vt ff cb rg pv => exact h.1
  | byref vt t => exact h.1

theorem noObjectTag_mask (vt : Nat) (h : NoObjectTag vt) : NoObjectTag (VT_TYPEMASK &&& vt) := by
  unfold NoObjectTag at h ⊢
  rw [← Nat.and_assoc, Nat.and_self]
  exact h

theorem locked_all_fuel (host host0 : Host) (vt : Nat) (B : List Nat)
    (h : ∀ rf, Locked (ReadDataFromStream host (rf + 1) vt)
      (ReadDataFromStream host0 (rf + 1) vt) B (fun _ => True)) :
    ∀ rf, Locked (ReadDataFromStream host rf vt) (ReadDataFromStream host0 rf vt) B
      (fun _ => True)
  | 0 => locked_congr (locked_error Exn.fuel B _) (fun _ => rfl) (fun _ => rfl)
  | rf + 1 => h rf

/-- One element: what the writer appends for it keeps the element reader in
step. -/
theorem writeElem_locked (write : VARIANT → IStream → Except Exn IStream)
    (R R0 : Nat → Nat → IStream → Except Exn (VARIANT × IStream)) (evt : Nat) (e : VARIANT)
    (hw : ∀ data st, write e ⟨data, data.length⟩ = Except.ok st →
      ∃ D, st = ⟨data ++ D, (data ++ D).length⟩ ∧
        ∀ rf, Locked (R rf e.vt) (R0 rf e.vt) D (fun _ => True))
    (hfit : e.vt < 65536) (htag : VT_VARIANT ≠ evt → e.vt = evt)
    (data : List Nat) (st : IStream)
    (h : writeElem write evt e ⟨data, data.length⟩ = Except.ok st) :
    ∃ E, st = ⟨data ++ E, (data ++ E).length⟩ ∧
      ∀ rf, Locked (readElem (R rf) evt) (readElem (R0 rf) evt) E (fun _ => True) := by
  unfold writeElem at h
  by_cases hv : VT_VARIANT = evt
  · rw [if_pos hv] at h
    obtain ⟨s1, h1, h2⟩ := bind_eq_ok h
    have ha : CStream.Write ⟨data, data.length⟩ 2 e.vt = _ := CStream.Write_appends 2 e.vt data
    rw [ha] at h1
    have hs1 := (Except.ok.inj h1).symm
    subst hs1
    obtain ⟨D, hst, hD⟩ := hw _ st h2
    refine ⟨toBytesLE 2 e.vt ++ D, by rw [hst, List.append_assoc], fun rf => ?_⟩
    have key : Locked (fun s => CStream.Read s 2 >>= fun r => R rf r.1 r.2)
        (fun s => CStream.Read s 2 >>= fun r => R0 rf r.1 r.2) (toBytesLE 2 e.vt ++ D)
        (fun _ => True) :=
      locked_bind (CStream.Read_locked_mod 2 e.vt (by simpa using hfit))
        (fun x hx => by
          dsimp only
          rw [hx]
          exact hD rf)
    exact locked_congr key (fun s => by unfold readElem; rw [if_pos hv])
      (fun s => by unfold readElem; rw [if_pos hv])
  · rw [if_neg hv] at h
    obtain ⟨D, hst, hD⟩ := hw data st h
    refine ⟨D, hst, fun rf => ?_⟩
    have key := hD rf
    rw [htag hv] at key
    exact locked_congr key (fun s => by unfold readElem; rw [if_neg hv]; rfl)
      (fun s => by unfold readElem; rw [if_neg hv]; rfl)

/-- The element loops: what the writer's loop appends keeps the reader's loop
over the same walk in step. -/
theorem writeLoop_locked (write : VARIANT → IStream → Except Exn IStream)
    (R R0 : Nat → Nat → IStream → Except Exn (VARIANT × IStream)) (evt : Nat) (sa : SAFEARRAY)
    (helem : ∀ idx e data st, SafeArrayGetElementAsVariant sa idx evt = Except.ok e →
      writeElem write evt e ⟨data, data.length⟩ = Except.ok st →
      ∃ E, st = ⟨data ++ E, (data ++ E).length⟩ ∧
        ∀ rf, Locked (readElem (R rf) evt) (readElem (R0 rf) evt) E (fun _ => True)) :
    ∀ (k : Nat) (walk : CWalkSafeArrayElements) (data : List Nat) (st : IStream),
      writeLoop write evt sa k walk ⟨data, data.length⟩ = Except.ok st →
      ∃ B, st = ⟨data ++ B, (data ++ B).length⟩ ∧
        ∀ rf rk sa1, Locked (readLoop (R rf) evt rk walk sa1) (readLoop (R0 rf) evt rk walk sa1)
          B (fun _ => True)
  | 0, _, _, _, h => by cases h
  | k + 1, walk, data, st, h => by
    rw [writeLoop_step] at h
    obtain ⟨e, he, h2⟩ := bind_eq_ok h
    obtain ⟨s1, h3, h4⟩ := bind_eq_ok h2
    obtain ⟨E, hs1, hE⟩ := helem _ e data s1 he h3
    subst hs1
    by_cases hmore : walk.GetIndex.1.Next.2 = true
    · rw [if_pos hmore] at h4
      obtain ⟨B1, hst, hB1⟩ := writeLoop_locked write R R0 evt sa helem k _ _ st h4
      refine ⟨E ++ B1, by rw [hst, List.append_assoc], fun rf rk sa1 => ?_⟩
      cases rk with
      | zero => exact locked_congr (locked_error Exn.fuel _ _) (fun _ => rfl) (fun _ => rfl)
      | succ rk =>
        refine locked_congr ?_ (fun s => readLoop_step (R rf) evt rk walk sa1 s)
          (fun s => readLoop_step (R0 rf) evt rk walk sa1 s)
        exact locked_bind (hE rf) (fun x _ => by
          dsimp only
          exact locked_of_except _ (fun c _ => by
            simp only [hmore, if_true]
            exact hB1 rf rk c))
    · rw [if_neg hmore] at h4
      have hst := (Except.ok.inj h4).symm
      refine ⟨E, hst, fun rf rk sa1 => ?_⟩
      cases rk with
      | zero => exact locked_congr (locked_error Exn.fuel _ _) (fun _ => rfl) (fun _ => rfl)
      | succ rk =>
        refine locked_congr ?_ (fun s => readLoop_step (R rf) evt rk walk sa1 s)
          (fun s => readLoop_step (R0 rf) evt rk walk sa1 s)
        rw [← List.append_nil E]
        exact locked_bind (hE rf) (fun x _ => by
          dsimp only
          exact locked_of_except _ (fun c _ => by
            simp only [hmore, Bool.false_eq_true, if_false]
            exact locked_pure (fun _ => c) (fun _ => True) (fun _ => trivial)))

theorem writeElements_locked (write : VARIANT → IStream → Except Exn IStream)
    (R R0 : Nat → Nat → IStream → Except Exn (VARIANT × IStream)) (evt : Nat) (sa : SAFEARRAY)
    (helem : ∀ idx e data st, SafeArrayGetElementAsVariant sa idx evt = Except.ok e →
      writeElem write evt e ⟨data, data.length⟩ = Except.ok st →
      ∃ E, st = ⟨data ++ E, (data ++ E).length⟩ ∧
        ∀ rf, Locked (readElem (R rf) evt) (readElem (R0 rf) evt) E (fun _ => True))
    (k : Nat) (data : List Nat) (st : IStream)
    (h : WriteSafeArrayElements write k evt sa ⟨data, data.length⟩ = Except.ok st) :
    ∃ B, st = ⟨data ++ B, (data ++ B).length⟩ ∧
      ∀ rf rk sa1, sa1.rgsabound = sa.rgsabound →
        Locked (ReadSafeArrayElements (R rf) rk evt sa1) (ReadSafeArrayElements (R0 rf) rk evt sa1)
          B (fun _ => True) := by
  unfold WriteSafeArrayElements at h
  by_cases h0 : NoOfElements sa.rgsabound = 0
  · rw [if_pos h0] at h
    refine ⟨[], by rw [← Except.ok.inj h, List.append_nil], fun rf rk sa1 hrg => ?_⟩
    rw [← hrg] at h0
    exact locked_congr (locked_pure (fun _ => sa1) (fun _ => True) (fun _ => trivial))
      (fun s => by unfold ReadSafeArrayElements; rw [if_pos h0]; rfl)
      (fun s => by unfold ReadSafeArrayElements; rw [if_pos h0]; rfl)
  · rw [if_neg h0] at h
    obtain ⟨B, hst, hB⟩ := writeLoop_locked write R R0 evt sa helem k _ data st h
    refine ⟨B, hst, fun rf rk sa1 hrg => ?_⟩
    rw [← hrg] at h0 hB
    exact locked_congr (hB rf rk sa1)
      (fun s => by unfold ReadSafeArrayElements; rw [if_neg h0])
      (fun s => by unfold ReadSafeArrayElements; rw [if_neg h0])

theorem writeFixed_locked (host host0 : Host) (vt n x : Nat) (hfix : IsFixedScalar vt)
    (hn : n = fixedSize vt) (data : List Nat) (st : IStream)
    (h : CStream.Write ⟨data, data.length⟩ n x = Except.ok st) :
    ∃ B, st = ⟨data ++ B, (data ++ B).length⟩ ∧
      ∀ rf, Locked (ReadDataFromStream host rf vt) (ReadDataFromStream host0 rf vt) B
        (fun _ => True) := by
  have ha : CStream.Write ⟨data, data.length⟩ n x = _ := CStream.Write_appends n x data
  rw [ha] at h
  exact ⟨toBytesLE n x, (Except.ok.inj h).symm, locked_all_fuel host host0 vt _
    (fun rf => readData_fixed_locked host host0 rf vt _ hfix (by rw [toBytesLE_length, hn]))⟩

/-- The writer and the reader in step.  When `WriteDataToStream` has written
a value without object references at the end of a stream, the bytes `B` it
appended keep `ReadDataFromStream` for the value's tag in step, with whatever
loader and for whatever fuel: the reader returns a value only when all of `B`
is there, it stands just past `B` then, and until then it does not depend on
the loader. -/
theorem writeData_locked (host host0 : Host) :
    ∀ (f : Nat) (v : VARIANT) (data : List Nat) (st : IStream), ObjectFree v → FieldsFit v →
      WriteDataToStream host f v ⟨data, data.length⟩ = Except.ok st →
      ∃ B, st = ⟨data ++ B, (data ++ B).length⟩ ∧
        ∀ rf, Locked (ReadDataFromStream host rf v.vt) (ReadDataFromStream host0 rf v.vt) B
          (fun _ => True)
  | 0, _, _, _, _, _, h => by cases h
  | f + 1, v, data, st, ho, hf, h => by
    by_cases hA : v.V_ISARRAY = true
    · unfold WriteDataToStream at h
      rw [if_pos hA] at h
      dsimp only at h
      have hdec : ∃ sa, (if v.V_ISBYREF then v.pparray else v.parray) = Except.ok sa ∧
          (WriteSafeArrayHeader sa ⟨data, data.length⟩ >>= fun stream =>
            WriteSafeArrayElements (WriteDataToStream host f) f (VT_TYPEMASK &&& v.vt) sa stream)
            = Except.ok st := by
        by_cases hB : v.V_ISBYREF = true
        · rw [if_pos hB] at h
          obtain ⟨sa, hsa, h2⟩ := bind_eq_ok h
          exact ⟨sa, by rw [if_pos hB]; exact hsa, h2⟩
        · rw [if_neg hB] at h
          obtain ⟨sa, hsa, h2⟩ := bind_eq_ok h
          exact ⟨sa, by rw [if_neg hB]; exact hsa, h2⟩
      obtain ⟨sa, hsa, h2⟩ := hdec
      obtain ⟨s1, h3, h4⟩ := bind_eq_ok h2
      have ha : WriteSafeArrayHeader sa ⟨data, data.length⟩ = _ :=
        WriteSafeArrayHeader_appends sa data
      rw [ha] at h3
      have hs1 := (Except.ok.inj h3).symm
      subst hs1
      obtain ⟨hdims, hbounds, hcells⟩ := array_of_variant v sa hsa ho hf
      have hno := noObjectTag_mask v.vt (objectFree_tag v ho)
      have hlt : VT_TYPEMASK &&& v.vt < 4096 := Nat.lt_succ_of_le Nat.and_le_left
      obtain ⟨Bel, hst, hBel⟩ := writeElements_locked (WriteDataToStream host f)
        (ReadDataFromStream host) (ReadDataFromStream host0) (VT_TYPEMASK &&& v.vt) sa
        (fun idx e data1 st1 he hw1 => by
          obtain ⟨g1, g2, g3⟩ := getElement_good sa idx _ e he hcells hno hlt
          exact writeElem_locked (WriteDataToStream host f) (ReadDataFromStream host)
            (ReadDataFromStream host0) _ e
            (fun d s hd => writeData_locked host host0 f e d s g1 g2 hd) (fieldsFit_tag e g2) g3
            data1 st1 hw1)
        f _ st h4
      refine ⟨headerBytes sa.rgsabound ++ Bel, by rw [hst, List.append_assoc], ?_⟩
      have hAr : v.vt &&& VT_ARRAY ≠ 0 := by simpa [VARIANT.V_ISARRAY] using hA
      intro rf
      cases rf with
      | zero => exact locked_congr (locked_error Exn.fuel _ _) (fun _ => rfl) (fun _ => rfl)
      | succ rf =>
        intro pre T hc
        rw [readData_array_tag host rf v.vt _ hAr, readData_array_tag host0 rf v.vt _ hAr]
        constructor
        · refine bind_congr_ok _ (fun hd hhd => ?_)
          obtain ⟨hB1, hs2, hrg⟩ := ReadSafeArrayHeader_locked _ sa.rgsabound hdims hbounds pre T
            (comparable_left hc) hd hhd
          obtain ⟨t, rfl⟩ := hB1
          have e1 := (hBel rf rf hd.2.1 hrg (pre ++ headerBytes sa.rgsabound) t
            (comparable_cancel hc)).1
          have e2 : hd.2.2 = ⟨(pre ++ headerBytes sa.rgsabound) ++ t,
              (pre ++ headerBytes sa.rgsabound).length⟩ := by
            rw [hs2, List.append_assoc, List.length_append]
          rw [e2, e1]
        · intro p hp
          obtain ⟨hd, hhd, hp2⟩ := bind_eq_ok hp
          obtain ⟨r, hr, hp3⟩ := bind_eq_ok hp2
          obtain ⟨hB1, hs2, hrg⟩ := ReadSafeArrayHeader_locked _ sa.rgsabound hdims hbounds pre T
            (comparable_left hc) hd hhd
          obtain ⟨t, rfl⟩ := hB1
          have e2 : hd.2.2 = ⟨(pre ++ headerBytes sa.rgsabound) ++ t,
              (pre ++ headerBytes sa.rgsabound).length⟩ := by
            rw [hs2, List.append_assoc, List.length_append]
          rw [e2] at hr
          obtain ⟨hB2, hr2, _⟩ := (hBel rf rf hd.2.1 hrg (pre ++ headerBytes sa.rgsabound) t
            (comparable_cancel hc)).2 r hr
          have e3 : p.2 = r.2 := (congrArg Prod.snd (Except.ok.inj hp3)).symm
          refine ⟨(List.prefix_append_right_inj _).2 hB2, ?_, trivial⟩
          rw [e3, hr2]
          simp only [List.append_assoc, List.length_append, Nat.add_assoc]
    · have hno := objectFree_tag v ho
      unfold WriteDataToStream at h
      rw [if_neg hA] at h
      dsimp only at h
      by_cases h0 : v.vt = VT_EMPTY ∨ v.vt = VT_NULL
      · rw [if_pos h0] at h
        exact ⟨[], by rw [← Except.ok.inj h, List.append_nil],
          locked_all_fuel host host0 v.vt []
            (fun rf => readData_empty_locked host host0 rf v.vt h0)⟩
      rw [if_neg h0] at h
      by_cases hVT_BOOL : v.vt = VT_BOOL
      · rw [if_pos hVT_BOOL] at h
        obtain ⟨x, _, hw⟩ := bind_eq_ok h
        exact writeFixed_locked host host0 v.vt 2 x (by rw [hVT_BOOL]; decide)
          (by rw [hVT_BOOL]; rfl) data st hw
      rw [if_neg hVT_BOOL] at h
      by_cases hVT_UI1 : v.vt = VT_UI1
      · rw [if_pos hVT_UI1] at h
        obtain ⟨x, _, hw⟩ := bind_eq_ok h
        exact writeFixed_locked host host0 v.vt 1 x (by rw [hVT_UI1]; decide)
          (by rw [hVT_UI1]; rfl) data st hw
      rw [if_neg hVT_UI1] at h
      by_cases hVT_I2 : v.vt = VT_I2
      · rw [if_pos hVT_I2] at h
        obtain ⟨x, _, hw⟩ := bind_eq_ok h
        exact writeFixed_locked host host0 v.vt 2 x (by rw [hVT_I2]; decide)
          (by rw [hVT_I2]; rfl) data st hw
      rw [if_neg hVT_I2] at h
      by_cases hVT_I4 : v.vt = VT_I4
      · rw [if_pos hVT_I4] at h
        obtain ⟨x, _, hw⟩ := bind_eq_ok h
        exact writeFixed_locked host host0 v.vt 4 x (by rw [hVT_I4]; decide)
          (by rw [hVT_I4]; rfl) data st hw
      rw [if_neg hVT_I4] at h
      by_cases hVT_CY : v.vt = VT_CY
      · rw [if_pos hVT_CY] at h
        obtain ⟨x, _, hw⟩ := bind_eq_ok h
        have e := (write_cy_appends x data).symm.trans hw
        exact ⟨toBytesLE 8 x, (Except.ok.inj e).symm, locked_all_fuel host host0 v.vt _
          (fun rf => readData_fixed_locked host host0 rf v.vt _ (by rw [hVT_CY]; decide)
            (by rw [toBytesLE_length, hVT_CY]; rfl))⟩
      rw [if_neg hVT_CY] at h
      by_cases hVT_R4 : v.vt = VT_R4
      · rw [if_pos hVT_R4] at h
        obtain ⟨x, _, hw⟩ := bind_eq_ok h
        exact writeFixed_locked host host0 v.vt 4 _ (by rw [hVT_R4]; decide)
          (by rw [hVT_R4]; rfl) data st hw
      rw [if_neg hVT_R4] at h
      by_cases hVT_R8 : v.vt = VT_R8
      · rw [if_pos hVT_R8] at h
        obtain ⟨x, _, hw⟩ := bind_eq_ok h
        exact writeFixed_locked host host0 v.vt 8 _ (by rw [hVT_R8]; decide)
          (by rw [hVT_R8]; rfl) data st hw
      rw [if_neg hVT_R8] at h
      by_cases hVT_DATE : v.vt = VT_DATE
      · rw [if_pos hVT_DATE] at h
        obtain ⟨x, _, hw⟩ := bind_eq_ok h
        exact writeFixed_locked host host0 v.vt 8 _ (by rw [hVT_DATE]; decide)
          (by rw [hVT_DATE]; rfl) data st hw
      rw [if_neg hVT_DATE] at h
      by_cases hVT_BSTR : v.vt = VT_BSTR
      · rw [if_pos hVT_BSTR] at h
        obtain ⟨str, _, hw⟩ := bind_eq_ok h
        have e := (CStream.WriteBSTR_appends str data).symm.trans hw
        rw [hVT_BSTR]
        exact ⟨bstrBytes str, (Except.ok.inj e).symm, locked_all_fuel host host0 VT_BSTR _
          (fun rf => readData_bstr_locked host host0 rf str)⟩
      rw [if_neg hVT_BSTR] at h
      by_cases hVT_ERROR : v.vt = VT_ERROR
      · rw [if_pos hVT_ERROR] at h
        obtain ⟨x, _, hw⟩ := bind_eq_ok h
        exact writeFixed_locked host host0 v.vt 4 x (by rw [hVT_ERROR]; decide)
          (by rw [hVT_ERROR]; rfl) data st hw
      rw [if_neg hVT_ERROR] at h
      by_cases hVT_DISPATCH : v.vt = VT_DISPATCH
      · exact absurd (by rw [hVT_DISPATCH]; decide) hno.1
      rw [if_neg hVT_DISPATCH] at h
      by_cases hVT_UNKNOWN : v.vt = VT_UNKNOWN
      · exact absurd (by rw [hVT_UNKNOWN]; decide) hno.2
      rw [if_neg hVT_UNKNOWN] at h
      cases h

theorem written_good (v : VARIANT) (ho : ObjectFree v) (hf : FieldsFit v) :
    ObjectFree (written v) ∧ FieldsFit (written v) := by
  unfold written
  by_cases hB : v.V_ISBYREF = true
  · rw [if_pos hB]
    cases v with
    | plain vt p => exact ⟨ho, hf⟩
    | array vt ff cb rg pv => exact ⟨ho, hf⟩
    | byref vt t => exact ⟨ho.2, hf.2⟩
  · rw [if_neg hB]
    exact ⟨ho, hf⟩

theorem readVariant_eq (host : Host) (rf : Nat) (s : IStream) :
    ReadVariantFromStream host rf s
      = CStream.Read s 4 >>= fun p => CStream.Read p.2 2 >>= fun q =>
          ReadDataFromStream host rf q.1 q.2 :=
  rfl

theorem sampleMixed_objectFree : ObjectFree sampleMixed := by
  refine ⟨⟨by decide, by decide⟩, fun idx _ => ?_⟩
  by_cases h : idx = [1]
  · simp only [h, if_true]
    exact ⟨by decide, by decide⟩
  · simp only [h, if_false]
    exact ⟨by decide, by decide⟩

theorem sampleMixed_fieldsFit : FieldsFit sampleMixed := by
  refine ⟨by decide, by decide, by decide, fun idx _ => ?_⟩
  by_cases h : idx = [1]
  · simp only [h, if_true]
    show VT_BSTR < 65536
    decide
  · simp only [h, if_false]
    show VT_I2 < 65536
    decide

/-- C31: decoding a proper prefix of an encoding fails.  Let `v` be a value
without object references (no tag in it has the base type `VT_DISPATCH` or
`VT_UNKNOWN`) whose fields hold what their C types can hold, and let
`WriteVariantToStream` succeed on it over a new memory stream, leaving the bytes
`st.data`.  Then for every `n` below their number `ReadVariantFromStream` over
the first `n` bytes never returns a value, whatever the fuel and whatever the
loader of the host; and as soon as the fuel exceeds `n` it ends with an error
raised by the reader, not for want of fuel. -/
theorem prefix_of_encoding_fails (host : Host) (wf : Nat) (v : VARIANT) (ho : ObjectFree v)
    (hf : FieldsFit v) (st : IStream)
    (henc : WriteVariantToStream host wf v IStream.empty = Except.ok st) (n : Nat)
    (hn : n < st.data.length) :
    (∀ rf r, ReadVariantFromStream host rf ⟨st.data.take n, 0⟩ ≠ Except.ok r) ∧
    (∀ rf, n < rf → ∃ e, e ≠ Exn.fuel ∧
      ReadVariantFromStream host rf ⟨st.data.take n, 0⟩ = Except.error e) := by
  obtain ⟨g1, g2⟩ := written_good v ho hf
  have h2 := (writeVariant_eq host wf v []).symm.trans henc
  obtain ⟨B, hst, hB⟩ := writeData_locked host failHost wf (written v) _ st g1 g2 h2
  have hdata : st.data = toBytesLE 4 1 ++ (toBytesLE 2 (written v).vt ++ B) := by
    rw [hst]
    simp only [List.nil_append, List.append_assoc]
  have key : ∀ rf, Locked (fun s => ReadVariantFromStream host rf s)
      (fun s => ReadVariantFromStream failHost rf s)
      (toBytesLE 4 1 ++ (toBytesLE 2 (written v).vt ++ B)) (fun _ => True) := by
    intro rf
    refine locked_congr ?_ (fun s => readVariant_eq host rf s)
      (fun s => readVariant_eq failHost rf s)
    exact locked_bind (CStream.Read_locked 4 1) (fun x _ => by
      dsimp only
      exact locked_bind
        (CStream.Read_locked_mod 2 (written v).vt (by simpa using fieldsFit_tag _ g2))
        (fun y hy => by
          dsimp only
          rw [hy]
          exact hB rf))
  rw [hdata] at hn ⊢
  have hat : ∀ rf,
      ReadVariantFromStream host rf
          ⟨(toBytesLE 4 1 ++ (toBytesLE 2 (written v).vt ++ B)).take n, 0⟩
        = ReadVariantFromStream failHost rf
          ⟨(toBytesLE 4 1 ++ (toBytesLE 2 (written v).vt ++ B)).take n, 0⟩ ∧
      ∀ r, ReadVariantFromStream host rf
          ⟨(toBytesLE 4 1 ++ (toBytesLE 2 (written v).vt ++ B)).take n, 0⟩ ≠ Except.ok r := by
    intro rf
    obtain ⟨e, k⟩ := key rf [] _ (Or.inl ( List.take_prefix n _))
    refine ⟨e, fun r hr => ?_⟩
    have hle := (k r hr).1.length_le
    have := List.length_take_le n (toBytesLE 4 1 ++ (toBytesLE 2 (written v).vt ++ B))
    omega
  refine ⟨fun rf r => (hat rf).2 r, fun rf hlt => ?_⟩
  have hrem : remaining
      ⟨(toBytesLE 4 1 ++ (toBytesLE 2 (written v).vt ++ B)).take n, 0⟩ < rf := by
    have := List.length_take_le n (toBytesLE 4 1 ++ (toBytesLE 2 (written v).vt ++ B))
    simp only [remaining]
    omega
  have hnf := (readVariant_settles failHost failHost_consumes _ rf hrem).1
  rw [← (hat rf).1] at hnf
  cases hres : ReadVariantFromStream host rf
      ⟨(toBytesLE 4 1 ++ (toBytesLE 2 (written v).vt ++ B)).take n, 0⟩ with
  | error e => exact ⟨e, fun he => hnf (by rw [hres, he]), rfl⟩
  | ok r => exact absurd hres ((hat rf).2 r)

/-- C31, witness: the array holding a string and a 16-bit integer, cut after
17 of its 30 bytes. -/
theorem prefix_of_encoding_fails_witness :
    ObjectFree sampleMixed ∧ FieldsFit sampleMixed ∧
    WriteVariantToStream noHost 3 sampleMixed IStream.empty
      = Except.ok ⟨sampleMixedBytes, 30⟩ ∧
    17 < sampleMixedBytes.length ∧
    (∀ rf r, ReadVariantFromStream noHost rf ⟨sampleMixedBytes.take 17, 0⟩ ≠ Except.ok r) ∧
    (∀ rf, 17 < rf → ∃ e, e ≠ Exn.fuel ∧
      ReadVariantFromStream noHost rf ⟨sampleMixedBytes.take 17, 0⟩ = Except.error e) :=
  ⟨sampleMixed_objectFree, sampleMixed_fieldsFit, sampleMixed_written, by decide,
    prefix_of_encoding_fails noHost 3 sampleMixed sampleMixed_objectFree sampleMixed_fieldsFit
      ⟨sampleMixedBytes, 30⟩ sampleMixed_written 17 (by decide)⟩

end VariantStream
